import Mathlib

/-!
# SarcasmLang compiler: a shallow embedding of `compiler.cpp`

The development follows the pipeline of the source file:

* `SarcasmLexer` (characters to tokens),
* `SarcasmParser` (recursive descent over the lazily produced tokens),
* the `codegen` methods, which append instructions to the basic blocks of `main`,
* `compileAndRun`, which parses, generates code, verifies and executes `main`.

Modelling conventions.

* A finite `double` is modelled by the rational number it stands for.  `std::stod` rounds
  a literal to the nearest double (`nearestDouble`).  The generated code has two semantics:
  `step` and `exec` compute every arithmetic result without rounding, `stepDouble` and
  `execDouble` round it to the nearest double; the two agree as long as every result is a
  double.  Overflow, infinities, NaN and the sign of a zero are outside the model; a
  division by zero makes the execution leave the model.
* `std::unique_ptr<ASTNode>` is modelled by `ASTNode`, whose constructor `nullptr` is the
  empty pointer.  Calling `codegen` through an empty pointer is undefined behaviour and is
  modelled as a crash of the compiler.
* The loops of the parser and the execution of the generated code are driven by a `fuel`
  argument; `none` (or `Outcome.noFuel`) means that the fuel was exhausted.
* `std::cerr` and the compile comments written to `std::cout` are modelled as lists of
  lines carried in the state.  The dump of the generated module and the closing message
  with its random word are not modelled, and the creation of the execution engine is taken
  to succeed.
* The input text is a list of characters, one per `char` of the source string; every
  character above the ASCII range is in none of the character classes, as in the "C"
  locale.
-/

namespace SarcasmLang

/-! ## Tokens -/

/-- The token kinds of the source enumeration `TokenType`. -/
inductive TokenType where
  | TOKEN_EOF
  | TOKEN_NUMBER
  | TOKEN_IDENTIFIER
  | TOKEN_ASSIGN
  | TOKEN_COLON
  | TOKEN_LPAREN
  | TOKEN_RPAREN
  | TOKEN_LBRACE
  | TOKEN_RBRACE
  | TOKEN_PLUS
  | TOKEN_MINUS
  | TOKEN_MULTIPLY
  | TOKEN_DIVIDE
  | TOKEN_OBVIOUSLY
  | TOKEN_WHATEVER
  | TOKEN_THEN
  | TOKEN_DO
  | TOKEN_SHOW
  | TOKEN_LESS
  | TOKEN_GREATER
  | TOKEN_INSULT
  | TOKEN_WORD_PLUS
  | TOKEN_WORD_MINUS
  | TOKEN_WORD_MULTIPLY
  | TOKEN_WORD_DIVIDE
deriving DecidableEq, Repr

open TokenType

/-- The line-tag vocabulary: the global set `insults` of the source. -/
def insults : List String :=
  ["idiot", "moron", "dummy", "fool", "genius", "einstein", "smartass", "brainiac",
   "doofus", "numbskull", "dimwit", "nincompoop", "bonehead", "knucklehead",
   "airhead", "birdbrain", "blockhead", "chucklehead", "fathead", "meathead",
   "pinhead", "hotshot", "wiseguy", "smarty", "clever_clogs", "know_it_all",
   "rocket_scientist", "mastermind", "prodigy", "savant", "intellectual",
   "scholar", "philosopher", "thinker", "genius_level", "big_brain",
   "smooth_brain", "pea_brain", "walnut_brain", "goldfish_brain",
   "caveman", "neanderthal", "primitive", "amateur", "rookie", "newbie",
   "peasant", "pleb", "scrub", "noob", "casual", "try_hard", "wannabe"]

/-- The source structure `Token`: kind, text and numeric value. -/
structure Token where
  type : TokenType
  value : String
  numValue : ℚ
deriving DecidableEq

/-! ## Character classes of the C library (in the "C" locale) -/

/-- The C function `isspace`: space, tab, line feed, vertical tab, form feed, carriage return. -/
def isspace (c : Char) : Bool :=
  c.toNat = 32 || (9 ≤ c.toNat && c.toNat ≤ 13)

/-- The C function `isdigit`. -/
def isdigit (c : Char) : Bool :=
  48 ≤ c.toNat && c.toNat ≤ 57

/-- The C function `isalpha`. -/
def isalpha (c : Char) : Bool :=
  (65 ≤ c.toNat && c.toNat ≤ 90) || (97 ≤ c.toNat && c.toNat ≤ 122)

/-- The C function `isalnum`. -/
def isalnum (c : Char) : Bool :=
  isalpha c || isdigit c

/-- The C function `tolower`. -/
def tolower (c : Char) : Char :=
  if 65 ≤ c.toNat && c.toNat ≤ 90 then Char.ofNat (c.toNat + 32) else c

/-- The value of a run of decimal digits read from the left, continuing from `acc`. -/
def digitsValue (acc : Nat) : List Char → Nat
  | [] => acc
  | c :: cs => digitsValue (acc * 10 + (c.toNat - 48)) cs

/-- The exact value of the longest leading decimal of a number text that starts with a
digit and holds only digits and dots (the only texts the lexer passes to `std::stod`): the
leading digits, and, when a dot follows them, the dot and the digits after it; whatever
follows that decimal is ignored. -/
def decimalValue (number : List Char) : ℚ :=
  let intPart := number.takeWhile isdigit
  match number.dropWhile isdigit with
  | '.' :: rest =>
    let fracPart := rest.takeWhile isdigit
    (digitsValue 0 (intPart ++ fracPart) : ℚ) / (10 ^ fracPart.length : ℕ)
  | _ => (digitsValue 0 intPart : ℚ)

/-! ## Double precision

The type `double` of the source is IEEE 754 binary64: 53 significant bits, exponents of
normal numbers from -1022 to 1023.  A finite double is the rational number it stands for;
the sign of a zero is not represented. -/

/-- Rounding to the nearest integer, a tie going to the even one. -/
def roundHalfEven (q : ℚ) : ℤ :=
  let low := ⌊q⌋
  let rest := q - low
  if rest < 1 / 2 then low
  else if rest > 1 / 2 then low + 1
  else if low % 2 = 0 then low else low + 1

/-- The number of binary digits of `n`, found by at most `fuel` halvings (`fuel = n` is
always enough). -/
def bitLength : ℕ → ℕ → ℕ
  | 0, _ => 0
  | fuel + 1, n => if n = 0 then 0 else bitLength fuel (n / 2) + 1

/-- The binary exponent of a nonzero number: the `e` with `2 ^ e ≤ |q| < 2 ^ (e + 1)`. -/
def binade (q : ℚ) : ℤ :=
  let guess : ℤ := (bitLength q.num.natAbs q.num.natAbs : ℤ) - (bitLength q.den q.den : ℤ)
  if (2 : ℚ) ^ guess ≤ |q| then guess else guess - 1

/-- The double nearest to `q` (round to nearest, ties to even), computed without a largest
exponent: a result of magnitude `2 ^ 1024` or more stands for an overflow.  The spacing of
the doubles around `q` is `2 ^ (e - 52)`, where `e` is the binary exponent of `q`, and
`2 ^ (-1074)` below the normal range. -/
def nearestDouble (q : ℚ) : ℚ :=
  if q = 0 then 0
  else
    let ulp : ℚ := (2 : ℚ) ^ (max (binade q) (-1022) - 52)
    (roundHalfEven (q / ulp) : ℚ) * ulp

/-- The library function `std::stod` on a number text of the lexer, where it returns: the
double nearest to the longest leading decimal of the text.  `std::stod` throws
`std::out_of_range` instead when that value is beyond the largest double (`stodOverflows`),
and may do so when the value is not zero and below the smallest normal double;
`stodReturns` is a range in which it returns.  Where it throws, the program does not use
the value given here. -/
def stod (number : List Char) : ℚ :=
  nearestDouble (decimalValue number)

/-- The call of `std::stod` throws `std::out_of_range`: the value of the text rounds to a
magnitude beyond the largest double.  The exception is not caught anywhere in the source;
what the program does after it is not part of the model. -/
def stodOverflows (number : List Char) : Prop :=
  (2 : ℚ) ^ 1024 ≤ nearestDouble (decimalValue number)

instance (number : List Char) : Decidable (stodOverflows number) :=
  inferInstanceAs (Decidable ((2 : ℚ) ^ 1024 ≤ nearestDouble (decimalValue number)))

/-- A range in which the call of `std::stod` is sure to return: the value of the text is
zero, or it is at least the smallest normal double and does not round beyond the largest
double. -/
def stodReturns (number : List Char) : Prop :=
  decimalValue number = 0 ∨
    ((2 : ℚ) ^ (-1022 : ℤ) ≤ decimalValue number ∧
      nearestDouble (decimalValue number) < (2 : ℚ) ^ 1024)

instance (number : List Char) : Decidable (stodReturns number) :=
  inferInstanceAs (Decidable (decimalValue number = 0 ∨
    ((2 : ℚ) ^ (-1022 : ℤ) ≤ decimalValue number ∧
      nearestDouble (decimalValue number) < (2 : ℚ) ^ 1024)))

/-! ## The lexer -/

/-- The class `SarcasmLexer`: the input text and the read position. -/
structure SarcasmLexer where
  input : List Char
  pos : Nat
deriving DecidableEq

namespace SarcasmLexer

/-- The constructor `SarcasmLexer(text)`. -/
def new (text : String) : SarcasmLexer :=
  { input := text.data, pos := 0 }

/-- The loop `while (pos < input.length() && pred(input[pos])) acc += input[pos++]`: the
characters read and the lexer after the loop. -/
def scan (pred : Char → Bool) (lx : SarcasmLexer) : List Char × SarcasmLexer :=
  let run := (lx.input.drop lx.pos).takeWhile pred
  (run, { lx with pos := lx.pos + run.length })

/-- The method `readWord`: the maximal run of alphanumeric or underscore characters,
lowercased. -/
def readWord (lx : SarcasmLexer) : String × SarcasmLexer :=
  let r := scan (fun c => isalnum c || c = '_') lx
  (String.mk (r.1.map tolower), r.2)

/-- The classification of a lowercased word by `nextToken`. -/
def classifyWord (word : String) : Token :=
  if word = "obviously" then ⟨TOKEN_OBVIOUSLY, word, 0⟩
  else if word = "whatever" then ⟨TOKEN_WHATEVER, word, 0⟩
  else if word = "then" then ⟨TOKEN_THEN, word, 0⟩
  else if word = "do" then ⟨TOKEN_DO, word, 0⟩
  else if word = "show" ∨ word = "display" ∨ word = "reveal" ∨ word = "output" then
    ⟨TOKEN_SHOW, word, 0⟩
  else if word = "plus" then ⟨TOKEN_WORD_PLUS, word, 0⟩
  else if word = "minus" then ⟨TOKEN_WORD_MINUS, word, 0⟩
  else if word = "times" then ⟨TOKEN_WORD_MULTIPLY, word, 0⟩
  else if word = "divided_by" then ⟨TOKEN_WORD_DIVIDE, word, 0⟩
  else if word ∈ insults then ⟨TOKEN_INSULT, word, 0⟩
  else ⟨TOKEN_IDENTIFIER, word, 0⟩

/-- The final `switch (current)` of `nextToken` on a single character. -/
def punctuation (current : Char) : Token :=
  if current = '=' then ⟨TOKEN_ASSIGN, "=", 0⟩
  else if current = ':' then ⟨TOKEN_COLON, ":", 0⟩
  else if current = '(' then ⟨TOKEN_LPAREN, "(", 0⟩
  else if current = ')' then ⟨TOKEN_RPAREN, ")", 0⟩
  else if current = '\x7b' then ⟨TOKEN_LBRACE, "\x7b", 0⟩
  else if current = '\x7d' then ⟨TOKEN_RBRACE, "\x7d", 0⟩
  else if current = '+' then ⟨TOKEN_PLUS, "+", 0⟩
  else if current = '-' then ⟨TOKEN_MINUS, "-", 0⟩
  else if current = '*' then ⟨TOKEN_MULTIPLY, "*", 0⟩
  else if current = '/' then ⟨TOKEN_DIVIDE, "/", 0⟩
  else if current = '<' then ⟨TOKEN_LESS, "<", 0⟩
  else if current = '>' then ⟨TOKEN_GREATER, ">", 0⟩
  else ⟨TOKEN_EOF, "", 0⟩

/-- The method `nextToken`: the token read and the lexer after the call.  In the branch of
a number the call of `std::stod` is taken to return (see `stodReturns`). -/
def nextToken (lx : SarcasmLexer) : Token × SarcasmLexer :=
  let lx1 := (scan isspace lx).2
  match lx1.input.drop lx1.pos with
  | [] => (⟨TOKEN_EOF, "", 0⟩, lx1)
  | current :: _ =>
    if isdigit current then
      let r := scan (fun c => isdigit c || c = '.') lx1
      (⟨TOKEN_NUMBER, String.mk r.1, stod r.1⟩, r.2)
    else if isalpha current || current = '_' then
      let r := readWord lx1
      (classifyWord r.1, r.2)
    else
      (punctuation current, { lx1 with pos := lx1.pos + 1 })

end SarcasmLexer

/-! ## The abstract syntax tree -/

/-- An owning pointer to an AST node (`std::unique_ptr<ASTNode>`): either `nullptr` or one
of the eight node classes of the source. -/
inductive ASTNode where
  | nullptr : ASTNode
  | NumberExprAST (val : ℚ) : ASTNode
  | VariableExprAST (name : String) : ASTNode
  | BinaryExprAST (op : Char) (lhs rhs : ASTNode) : ASTNode
  | AssignmentAST (varName : String) (expr : ASTNode) : ASTNode
  | PrintAST (expr : ASTNode) (printWord : String) : ASTNode
  | IfAST (condition : ASTNode) (thenStmts : List ASTNode) : ASTNode
  | WhileAST (condition : ASTNode) (body : List ASTNode) : ASTNode
  | SarcasmLineAST (insult : String) (statement : ASTNode) : ASTNode

namespace ASTNode

mutual
/-- Structural comparison of two trees. -/
def sameNode : ASTNode → ASTNode → Bool
  | .nullptr, .nullptr => true
  | .NumberExprAST a, .NumberExprAST b => decide (a = b)
  | .VariableExprAST a, .VariableExprAST b => decide (a = b)
  | .BinaryExprAST o l r, .BinaryExprAST o2 l2 r2 =>
    decide (o = o2) && sameNode l l2 && sameNode r r2
  | .AssignmentAST v e, .AssignmentAST v2 e2 => decide (v = v2) && sameNode e e2
  | .PrintAST e w, .PrintAST e2 w2 => sameNode e e2 && decide (w = w2)
  | .IfAST c t, .IfAST c2 t2 => sameNode c c2 && sameNodes t t2
  | .WhileAST c t, .WhileAST c2 t2 => sameNode c c2 && sameNodes t t2
  | .SarcasmLineAST i s, .SarcasmLineAST i2 s2 => decide (i = i2) && sameNode s s2
  | _, _ => false
/-- Structural comparison of two lists of trees. -/
def sameNodes : List ASTNode → List ASTNode → Bool
  | [], [] => true
  | a :: as, b :: bs => sameNode a b && sameNodes as bs
  | _, _ => false
end

mutual
theorem sameNode_eq : ∀ (a b : ASTNode), sameNode a b = true → a = b
  | .nullptr, b, h => by cases b <;> simp_all [sameNode]
  | .NumberExprAST a, b, h => by cases b <;> simp_all [sameNode]
  | .VariableExprAST a, b, h => by cases b <;> simp_all [sameNode]
  | .BinaryExprAST o l r, b, h => by
    cases b <;> simp [sameNode] at h
    rename_i o2 l2 r2
    rw [h.1.1, sameNode_eq l l2 h.1.2, sameNode_eq r r2 h.2]
  | .AssignmentAST v e, b, h => by
    cases b <;> simp [sameNode] at h
    rename_i v2 e2
    rw [h.1, sameNode_eq e e2 h.2]
  | .PrintAST e w, b, h => by
    cases b <;> simp [sameNode] at h
    rename_i e2 w2
    rw [h.2, sameNode_eq e e2 h.1]
  | .IfAST c t, b, h => by
    cases b <;> simp [sameNode] at h
    rename_i c2 t2
    rw [sameNode_eq c c2 h.1, sameNodes_eq t t2 h.2]
  | .WhileAST c t, b, h => by
    cases b <;> simp [sameNode] at h
    rename_i c2 t2
    rw [sameNode_eq c c2 h.1, sameNodes_eq t t2 h.2]
  | .SarcasmLineAST i s, b, h => by
    cases b <;> simp [sameNode] at h
    rename_i i2 s2
    rw [h.1, sameNode_eq s s2 h.2]
theorem sameNodes_eq : ∀ (a b : List ASTNode), sameNodes a b = true → a = b
  | [], b, h => by cases b <;> simp_all [sameNodes]
  | a :: as, b, h => by
    cases b <;> simp [sameNodes] at h
    rename_i b bs
    rw [sameNode_eq a b h.1, sameNodes_eq as bs h.2]
end

mutual
theorem sameNode_refl : ∀ (a : ASTNode), sameNode a a = true
  | .nullptr => by simp [sameNode]
  | .NumberExprAST a => by simp [sameNode]
  | .VariableExprAST a => by simp [sameNode]
  | .BinaryExprAST o l r => by simp [sameNode, sameNode_refl l, sameNode_refl r]
  | .AssignmentAST v e => by simp [sameNode, sameNode_refl e]
  | .PrintAST e w => by simp [sameNode, sameNode_refl e]
  | .IfAST c t => by simp [sameNode, sameNode_refl c, sameNodes_refl t]
  | .WhileAST c t => by simp [sameNode, sameNode_refl c, sameNodes_refl t]
  | .SarcasmLineAST i s => by simp [sameNode, sameNode_refl s]
theorem sameNodes_refl : ∀ (a : List ASTNode), sameNodes a a = true
  | [] => by simp [sameNodes]
  | a :: as => by simp [sameNodes, sameNode_refl a, sameNodes_refl as]
end

instance : DecidableEq ASTNode := fun a b =>
  decidable_of_iff (sameNode a b = true) ⟨sameNode_eq a b, fun h => h ▸ sameNode_refl a⟩

end ASTNode

open ASTNode

/-! ## The parser -/

/-- The class `SarcasmParser`: the lexer, the one token of lookahead, and the lines the
parser has written to `std::cerr`. -/
structure SarcasmParser where
  lexer : SarcasmLexer
  currentToken : Token
  cerr : List String
deriving DecidableEq

namespace SarcasmParser

/-- The private method `nextToken`: `currentToken = lexer.nextToken()`. -/
def nextToken (p : SarcasmParser) : SarcasmParser :=
  let r := p.lexer.nextToken
  { p with lexer := r.2, currentToken := r.1 }

/-- The constructor `SarcasmParser(input)`: builds the lexer and reads the first token. -/
def new (input : String) : SarcasmParser :=
  nextToken { lexer := SarcasmLexer.new input, currentToken := ⟨TOKEN_EOF, "", 0⟩, cerr := [] }

/-- One line written to `std::cerr`. -/
def complain (p : SarcasmParser) (msg : String) : SarcasmParser :=
  { p with cerr := p.cerr ++ [msg] }

/-- The loop condition of `parseTerm`. -/
def isTermOp (t : TokenType) : Bool :=
  t = TOKEN_MULTIPLY || t = TOKEN_DIVIDE || t = TOKEN_WORD_MULTIPLY || t = TOKEN_WORD_DIVIDE

/-- The operator character chosen inside the loop of `parseTerm`. -/
def termOp (t : TokenType) : Char :=
  if t = TOKEN_MULTIPLY || t = TOKEN_WORD_MULTIPLY then '*' else '/'

/-- The loop condition of `parseExpression`. -/
def isExprOp (t : TokenType) : Bool :=
  t = TOKEN_PLUS || t = TOKEN_MINUS || t = TOKEN_WORD_PLUS || t = TOKEN_WORD_MINUS ||
    t = TOKEN_LESS || t = TOKEN_GREATER

/-- The operator character chosen inside the loop of `parseExpression`. -/
def exprOp (t : TokenType) : Char :=
  if t = TOKEN_PLUS || t = TOKEN_WORD_PLUS then '+'
  else if t = TOKEN_MINUS || t = TOKEN_WORD_MINUS then '-'
  else if t = TOKEN_LESS then '<'
  else '>'

mutual
/-- The method `parseFactor`. -/
def parseFactor : Nat → SarcasmParser → Option (ASTNode × SarcasmParser)
  | 0, _ => none
  | fuel + 1, p =>
    if p.currentToken.type = TOKEN_NUMBER then
      some (NumberExprAST p.currentToken.numValue, p.nextToken)
    else if p.currentToken.type = TOKEN_IDENTIFIER then
      some (VariableExprAST p.currentToken.value, p.nextToken)
    else if p.currentToken.type = TOKEN_LPAREN then
      match parseExpression fuel p.nextToken with
      | none => none
      | some (expr, p1) =>
        if p1.currentToken.type ≠ TOKEN_RPAREN then
          some (nullptr, p1.complain "genius: Expected \x27)\x27 but you forgot it, obviously")
        else
          some (expr, p1.nextToken)
    else
      some (nullptr, p)
/-- The `while` loop of `parseTerm`, entered with the tree built so far. -/
def parseTermLoop : Nat → ASTNode → SarcasmParser → Option (ASTNode × SarcasmParser)
  | 0, _, _ => none
  | fuel + 1, left, p =>
    if isTermOp p.currentToken.type then
      match parseFactor fuel p.nextToken with
      | none => none
      | some (right, p1) =>
        parseTermLoop fuel (BinaryExprAST (termOp p.currentToken.type) left right) p1
    else
      some (left, p)
/-- The method `parseTerm`. -/
def parseTerm : Nat → SarcasmParser → Option (ASTNode × SarcasmParser)
  | 0, _ => none
  | fuel + 1, p =>
    match parseFactor fuel p with
    | none => none
    | some (left, p1) => parseTermLoop fuel left p1
/-- The `while` loop of `parseExpression`, entered with the tree built so far. -/
def parseExpressionLoop : Nat → ASTNode → SarcasmParser → Option (ASTNode × SarcasmParser)
  | 0, _, _ => none
  | fuel + 1, left, p =>
    if isExprOp p.currentToken.type then
      match parseTerm fuel p.nextToken with
      | none => none
      | some (right, p1) =>
        parseExpressionLoop fuel (BinaryExprAST (exprOp p.currentToken.type) left right) p1
    else
      some (left, p)
/-- The method `parseExpression`. -/
def parseExpression : Nat → SarcasmParser → Option (ASTNode × SarcasmParser)
  | 0, _ => none
  | fuel + 1, p =>
    match parseTerm fuel p with
    | none => none
    | some (left, p1) => parseExpressionLoop fuel left p1
end

mutual
/-- The method `parseStatement`. -/
def parseStatement : Nat → SarcasmParser → Option (ASTNode × SarcasmParser)
  | 0, _ => none
  | fuel + 1, p =>
    if p.currentToken.type = TOKEN_IDENTIFIER then
      if p.nextToken.currentToken.type = TOKEN_ASSIGN then
        match parseExpression fuel p.nextToken.nextToken with
        | none => none
        | some (expr, p1) => some (AssignmentAST p.currentToken.value expr, p1)
      else
        parseStatementRest fuel p.nextToken
    else
      parseStatementRest fuel p
/-- The part of `parseStatement` that follows the first `if`: reached when the statement
does not start with an identifier, and also, with the identifier already consumed, when the
identifier is not followed by `=`. -/
def parseStatementRest : Nat → SarcasmParser → Option (ASTNode × SarcasmParser)
  | 0, _ => none
  | fuel + 1, p =>
    if p.currentToken.type = TOKEN_SHOW then
      match parseExpression fuel p.nextToken with
      | none => none
      | some (expr, p1) => some (PrintAST expr p.currentToken.value, p1)
    else if p.currentToken.type = TOKEN_OBVIOUSLY then
      match parseExpression fuel p.nextToken with
      | none => none
      | some (condition, p1) =>
        if p1.currentToken.type ≠ TOKEN_THEN then
          some (nullptr, p1.complain "smartass: Expected \x27then\x27 after condition, duh!")
        else if p1.nextToken.currentToken.type ≠ TOKEN_LBRACE then
          some (nullptr,
            p1.nextToken.complain "blockhead: Expected \x27\x7b\x27 to start obviously block")
        else
          match parseBlock fuel [] p1.nextToken.nextToken with
          | none => none
          | some (thenStmts, p2) =>
            if p2.currentToken.type ≠ TOKEN_RBRACE then
              some (nullptr,
                p2.complain "bonehead: Expected \x27\x7d\x27 to end obviously block")
            else
              some (IfAST condition thenStmts, p2.nextToken)
    else if p.currentToken.type = TOKEN_WHATEVER then
      match parseExpression fuel p.nextToken with
      | none => none
      | some (condition, p1) =>
        if p1.currentToken.type ≠ TOKEN_DO then
          some (nullptr, p1.complain "dimwit: Expected \x27do\x27 after whatever condition")
        else if p1.nextToken.currentToken.type ≠ TOKEN_LBRACE then
          some (nullptr,
            p1.nextToken.complain "numbskull: Expected \x27\x7b\x27 to start whatever block")
        else
          match parseBlock fuel [] p1.nextToken.nextToken with
          | none => none
          | some (body, p2) =>
            if p2.currentToken.type ≠ TOKEN_RBRACE then
              some (nullptr,
                p2.complain "meathead: Expected \x27\x7d\x27 to end whatever block")
            else
              some (WhileAST condition body, p2.nextToken)
    else
      some (nullptr, p)
/-- The block loop of `parseStatement`, shared by `obviously` and `whatever`:
`while (type != TOKEN_RBRACE && type != TOKEN_EOF) { line = parseLine(); if (line) push }`. -/
def parseBlock : Nat → List ASTNode → SarcasmParser → Option (List ASTNode × SarcasmParser)
  | 0, _, _ => none
  | fuel + 1, stmts, p =>
    if p.currentToken.type ≠ TOKEN_RBRACE ∧ p.currentToken.type ≠ TOKEN_EOF then
      match parseLine fuel p with
      | none => none
      | some (line, p1) =>
        if line ≠ nullptr then parseBlock fuel (stmts ++ [line]) p1
        else parseBlock fuel stmts p1
    else
      some (stmts, p)
/-- The method `parseLine`. -/
def parseLine : Nat → SarcasmParser → Option (ASTNode × SarcasmParser)
  | 0, _ => none
  | fuel + 1, p =>
    if p.currentToken.type ≠ TOKEN_INSULT then
      some (nullptr, p.complain "amateur: Every line must start with an insult, you casual!")
    else if p.nextToken.currentToken.type ≠ TOKEN_COLON then
      some (nullptr, p.nextToken.complain
        ("rookie: Expected \x27:\x27 after insult \x27" ++ p.currentToken.value ++ "\x27"))
    else
      match parseStatement fuel p.nextToken.nextToken with
      | none => none
      | some (statement, p1) =>
        if statement = nullptr then
          some (nullptr, p1.complain
            ("noob: Failed to parse statement after \x27" ++ p.currentToken.value ++ ":\x27"))
        else
          some (SarcasmLineAST p.currentToken.value statement, p1)
end

/-- The loop of `parseProgram`, entered with the lines collected so far. -/
def parseProgramLoop : Nat → List ASTNode → SarcasmParser → Option (List ASTNode × SarcasmParser)
  | 0, _, _ => none
  | fuel + 1, lines, p =>
    if p.currentToken.type ≠ TOKEN_EOF then
      match parseLine fuel p with
      | none => none
      | some (line, p1) =>
        if line ≠ nullptr then parseProgramLoop fuel (lines ++ [line]) p1
        else some (lines, p1.complain "scrub: Parse error encountered")
    else
      some (lines, p)

/-- The method `parseProgram`. -/
def parseProgram (fuel : Nat) (p : SarcasmParser) : Option (List ASTNode × SarcasmParser) :=
  parseProgramLoop fuel [] p

end SarcasmParser

/-! ## The generated code

`main` is a list of basic blocks, each a list of instructions; block 0 is the entry
block.  A value handle (`llvm::Value*`) is a floating-point constant or the result of an
instruction, named by the number of that instruction.  The `alloca` instructions, which
`createEntryBlockAlloca` always places at the very beginning of the entry block, are kept
apart in the list `allocas`: they all run once, before every other instruction of `main`,
and each leaves its slot uninitialised.  An alloca is named by its index in that list.
The constant folding of `IRBuilder` is not modelled: an operation on constants is emitted
as an instruction that computes the same value. -/

/-- A non-null `llvm::Value*` returned by a `codegen` method. -/
inductive Value where
  | constFP (q : ℚ) : Value
  | inst (id : Nat) : Value
deriving DecidableEq

/-- The instructions the `codegen` methods emit. -/
inductive Instr where
  | store (val : Value) (slot : Nat) : Instr
  | load (id : Nat) (slot : Nat) : Instr
  | fadd (id : Nat) (l r : Value) : Instr
  | fsub (id : Nat) (l r : Value) : Instr
  | fmul (id : Nat) (l r : Value) : Instr
  | fdiv (id : Nat) (l r : Value) : Instr
  | fcmpULT (id : Nat) (l r : Value) : Instr
  | fcmpUGT (id : Nat) (l r : Value) : Instr
  | fcmpONE (id : Nat) (l r : Value) : Instr
  | uiToFP (id : Nat) (v : Value) : Instr
  | callPrintf (id : Nat) (format : String) (v : Value) : Instr
  | br (dest : Nat) : Instr
  | condBr (cond : Value) (ifTrue ifFalse : Nat) : Instr
  | ret : Instr
deriving DecidableEq

/-- The process-wide objects the `codegen` methods work on: the function `main` under
construction, the insertion point of `builder` (always the end of a block), the static map
`namedValues`, the static counter `lineNum` of `SarcasmLineAST::codegen`, and the compile
comments written to `std::cout`. -/
structure CodegenState where
  blocks : List (List Instr)
  insertBlock : Nat
  allocas : List String
  namedValues : List (String × Nat)
  nextId : Nat
  lineNum : Nat
  cout : List String
deriving DecidableEq

/-- Appends an instruction to the block with the given index. -/
def appendAt (i : Instr) : Nat → List (List Instr) → List (List Instr)
  | _, [] => []
  | 0, b :: bs => (b ++ [i]) :: bs
  | n + 1, b :: bs => b :: appendAt i n bs

namespace CodegenState

/-- An instruction created by `builder` at the insertion point. -/
def emit (i : Instr) (s : CodegenState) : CodegenState :=
  { s with blocks := appendAt i s.insertBlock s.blocks }

/-- An instruction with a result created by `builder`: the instruction gets the next free
number, which is also the handle of its result. -/
def emitValue (mk : Nat → Instr) (s : CodegenState) : Value × CodegenState :=
  (Value.inst s.nextId, emit (mk s.nextId) { s with nextId := s.nextId + 1 })

/-- The call `BasicBlock::Create(theContext, name, function)`: a new empty block at the end
of the function; the result is its index. -/
def createBlock (s : CodegenState) : Nat × CodegenState :=
  (s.blocks.length, { s with blocks := s.blocks ++ [[]] })

/-- The call `builder.SetInsertPoint(block)`. -/
def setInsertPoint (b : Nat) (s : CodegenState) : CodegenState :=
  { s with insertBlock := b }

/-- The helper `createEntryBlockAlloca` followed by `namedValues[name] = alloca`. -/
def createEntryBlockAlloca (name : String) (s : CodegenState) : Nat × CodegenState :=
  (s.allocas.length,
    { s with allocas := s.allocas ++ [name],
             namedValues := (name, s.allocas.length) :: s.namedValues })

end CodegenState

/-- The format string chosen by `PrintAST::codegen`. -/
def printFormat (printWord : String) : String :=
  if printWord = "show" then "Fine, here\x27s your precious number: %.2f\n"
  else if printWord = "display" then "Displaying for the visually impaired: %.2f\n"
  else if printWord = "reveal" then "The shocking revelation is: %.2f\n"
  else "Output (because you demanded it): %.2f\n"

open CodegenState in
mutual
/-- The virtual method `codegen`.  The outer `none` is a call through an empty pointer
(a crash); otherwise the result holds the returned `Value*`, `none` being the null
pointer, and the state after the call. -/
def codegen : ASTNode → CodegenState → Option (Option Value × CodegenState)
  | .nullptr, _ => none
  | .NumberExprAST val, s => some (some (Value.constFP val), s)
  | .VariableExprAST name, s =>
    match s.namedValues.lookup name with
    | some alloca =>
      let r := emitValue (fun id => Instr.load id alloca) s
      some (some r.1, r.2)
    | none =>
      let a := createEntryBlockAlloca name s
      let s1 := emit (Instr.store (Value.constFP 0) a.1) a.2
      let r := emitValue (fun id => Instr.load id a.1) s1
      some (some r.1, r.2)
  | .BinaryExprAST op lhs rhs, s =>
    match codegen lhs s with
    | none => none
    | some (l, s1) =>
      match codegen rhs s1 with
      | none => none
      | some (r, s2) =>
        match l, r with
        | some lv, some rv =>
          if op = '+' then
            let v := emitValue (fun id => Instr.fadd id lv rv) s2
            some (some v.1, v.2)
          else if op = '-' then
            let v := emitValue (fun id => Instr.fsub id lv rv) s2
            some (some v.1, v.2)
          else if op = '*' then
            let v := emitValue (fun id => Instr.fmul id lv rv) s2
            some (some v.1, v.2)
          else if op = '/' then
            let v := emitValue (fun id => Instr.fdiv id lv rv) s2
            some (some v.1, v.2)
          else if op = '<' then
            let c := emitValue (fun id => Instr.fcmpULT id lv rv) s2
            let v := emitValue (fun id => Instr.uiToFP id c.1) c.2
            some (some v.1, v.2)
          else if op = '>' then
            let c := emitValue (fun id => Instr.fcmpUGT id lv rv) s2
            let v := emitValue (fun id => Instr.uiToFP id c.1) c.2
            some (some v.1, v.2)
          else
            some (none, s2)
        | _, _ => some (none, s2)
  | .AssignmentAST varName expr, s =>
    match codegen expr s with
    | none => none
    | some (none, s1) => some (none, s1)
    | some (some val, s1) =>
      match s1.namedValues.lookup varName with
      | some alloca => some (some val, emit (Instr.store val alloca) s1)
      | none =>
        let a := createEntryBlockAlloca varName s1
        some (some val, emit (Instr.store val a.1) a.2)
  | .PrintAST expr printWord, s =>
    match codegen expr s with
    | none => none
    | some (none, s1) => some (none, s1)
    | some (some val, s1) =>
      let r := emitValue (fun id => Instr.callPrintf id (printFormat printWord) val) s1
      some (some r.1, r.2)
  | .IfAST condition thenStmts, s =>
    match codegen condition s with
    | none => none
    | some (none, s1) => some (none, s1)
    | some (some condVal, s1) =>
      let c := emitValue (fun id => Instr.fcmpONE id condVal (Value.constFP 0)) s1
      let thenBB := createBlock c.2
      let mergeBB := createBlock thenBB.2
      let s2 := emit (Instr.condBr c.1 thenBB.1 mergeBB.1) mergeBB.2
      match codegenStmts thenStmts (setInsertPoint thenBB.1 s2) with
      | none => none
      | some s3 =>
        some (some (Value.constFP 0), setInsertPoint mergeBB.1 (emit (Instr.br mergeBB.1) s3))
  | .WhileAST condition body, s =>
    let loopBB := createBlock s
    let bodyBB := createBlock loopBB.2
    let afterBB := createBlock bodyBB.2
    let s0 := setInsertPoint loopBB.1 (emit (Instr.br loopBB.1) afterBB.2)
    match codegen condition s0 with
    | none => none
    | some (none, s1) => some (none, s1)
    | some (some condVal, s1) =>
      let c := emitValue (fun id => Instr.fcmpONE id condVal (Value.constFP 0)) s1
      let s2 := emit (Instr.condBr c.1 bodyBB.1 afterBB.1) c.2
      match codegenStmts body (setInsertPoint bodyBB.1 s2) with
      | none => none
      | some s3 =>
        some (some (Value.constFP 0), setInsertPoint afterBB.1 (emit (Instr.br loopBB.1) s3))
  | .SarcasmLineAST insult statement, s =>
    match codegen statement s with
    | none => none
    | some (result, s1) =>
      some (result,
        { s1 with
          cout := s1.cout ++
            ["  ; Line " ++ Nat.repr s1.lineNum ++ ": " ++ insult ++ " says something ridiculous"],
          lineNum := s1.lineNum + 1 })
/-- The loops `for (auto& stmt : stmts) stmt->codegen();`: the results are dropped. -/
def codegenStmts : List ASTNode → CodegenState → Option CodegenState
  | [], s => some s
  | stmt :: rest, s =>
    match codegen stmt s with
    | none => none
    | some (_, s1) => codegenStmts rest s1
end

/-! ## Execution of the generated code -/

/-- A value at run time: a number, the one-bit result of a comparison, or the
indeterminate content of an uninitialised slot (and whatever is computed from it). -/
inductive RVal where
  | fp (q : ℚ) : RVal
  | bit (b : Bool) : RVal
  | undef : RVal
deriving DecidableEq

/-- The state of the running `main`: the current block and the index of the next
instruction in it, the results of the instructions executed so far, the content of the
alloca slots, the calls of `printf` made so far (format and argument), and the blocks
entered by a branch so far. -/
structure Machine where
  block : Nat
  pc : Nat
  regs : Nat → RVal
  mem : Nat → RVal
  out : List (String × RVal)
  trace : List Nat

/-- The instruction at a position of the function. -/
def fetch (blocks : List (List Instr)) (block pc : Nat) : Option Instr :=
  match blocks.get? block with
  | none => none
  | some b => b.get? pc

namespace Machine

/-- The run-time value of a value handle. -/
def eval (m : Machine) : Value → RVal
  | Value.constFP q => RVal.fp q
  | Value.inst id => m.regs id

/-- The machine after an instruction has produced a result. -/
def setReg (m : Machine) (id : Nat) (v : RVal) : Machine :=
  { m with regs := fun r => if r = id then v else m.regs r, pc := m.pc + 1 }

/-- The machine after a branch to the start of a block. -/
def jump (m : Machine) (dest : Nat) : Machine :=
  { m with block := dest, pc := 0, trace := m.trace ++ [dest] }

end Machine

/-- An arithmetic instruction on two run-time values, computed without rounding
(`arithDouble` rounds the result to a double). -/
def arith (f : ℚ → ℚ → ℚ) : RVal → RVal → RVal
  | RVal.fp a, RVal.fp b => RVal.fp (f a b)
  | _, _ => RVal.undef

/-- A comparison instruction on two run-time values. -/
def compare (f : ℚ → ℚ → Bool) : RVal → RVal → RVal
  | RVal.fp a, RVal.fp b => RVal.bit (f a b)
  | _, _ => RVal.undef

/-- One instruction other than `ret`, with arithmetic on exact numbers (`stepDouble` is
the same with arithmetic on doubles).  The result is `none` when the execution leaves the
model: a division by zero, after which the code goes on with an infinity or a NaN, a
branch on an indeterminate condition, or an access to a slot that is not an alloca of this
function (`nAllocas` is their number). -/
def step (nAllocas : Nat) (i : Instr) (m : Machine) : Option Machine :=
  match i with
  | Instr.store val slot =>
    if slot < nAllocas then
      some { m with mem := fun a => if a = slot then m.eval val else m.mem a, pc := m.pc + 1 }
    else none
  | Instr.load id slot =>
    if slot < nAllocas then some (m.setReg id (m.mem slot)) else none
  | Instr.fadd id l r => some (m.setReg id (arith (· + ·) (m.eval l) (m.eval r)))
  | Instr.fsub id l r => some (m.setReg id (arith (· - ·) (m.eval l) (m.eval r)))
  | Instr.fmul id l r => some (m.setReg id (arith (· * ·) (m.eval l) (m.eval r)))
  | Instr.fdiv id l r =>
    if m.eval r = RVal.fp 0 then none
    else some (m.setReg id (arith (· / ·) (m.eval l) (m.eval r)))
  | Instr.fcmpULT id l r => some (m.setReg id (compare (fun a b => decide (a < b)) (m.eval l) (m.eval r)))
  | Instr.fcmpUGT id l r => some (m.setReg id (compare (fun a b => decide (a > b)) (m.eval l) (m.eval r)))
  | Instr.fcmpONE id l r => some (m.setReg id (compare (fun a b => decide (a ≠ b)) (m.eval l) (m.eval r)))
  | Instr.uiToFP id v =>
    match m.eval v with
    | RVal.bit b => some (m.setReg id (RVal.fp (if b then 1 else 0)))
    | _ => some (m.setReg id RVal.undef)
  | Instr.callPrintf id format v =>
    some { m.setReg id RVal.undef with out := m.out ++ [(format, m.eval v)] }
  | Instr.br dest => some (m.jump dest)
  | Instr.condBr cond ifTrue ifFalse =>
    match m.eval cond with
    | RVal.bit true => some (m.jump ifTrue)
    | RVal.bit false => some (m.jump ifFalse)
    | _ => none
  | Instr.ret => none

/-- How a run of `main` ends. -/
inductive ExecResult where
  | returned (out : List (String × RVal)) (trace : List Nat) : ExecResult
  | stuck : ExecResult
  | noFuel : ExecResult
deriving DecidableEq

/-- Runs the function from a machine state until `ret`, for at most `fuel` instructions. -/
def exec (blocks : List (List Instr)) (nAllocas : Nat) : Nat → Machine → ExecResult
  | 0, _ => ExecResult.noFuel
  | fuel + 1, m =>
    match fetch blocks m.block m.pc with
    | none => ExecResult.stuck
    | some Instr.ret => ExecResult.returned m.out m.trace
    | some i =>
      match step nAllocas i m with
      | none => ExecResult.stuck
      | some m1 => exec blocks nAllocas fuel m1

/-- Exactly `n` instructions, none of them `ret`; `none` when the run ends earlier. -/
def steps (blocks : List (List Instr)) (nAllocas : Nat) : Nat → Machine → Option Machine
  | 0, m => some m
  | n + 1, m =>
    match fetch blocks m.block m.pc with
    | none => none
    | some i =>
      match step nAllocas i m with
      | none => none
      | some m1 => steps blocks nAllocas n m1

/-- The machine at the call of `main`: the start of the entry block, no instruction
executed, every slot uninitialised. -/
def Machine.start : Machine :=
  { block := 0, pc := 0, regs := fun _ => RVal.undef, mem := fun _ => RVal.undef,
    out := [], trace := [] }

/-! ## Printing -/

/-- The conversion `%.2f` of `printf` on an exact value: rounding to two decimals (to
nearest, ties to even), a minus sign for a negative value, at least one digit before the
point and exactly two after it. -/
def formatFixed2 (q : ℚ) : String :=
  let scaled : ℚ := |q| * 100
  let low : Nat := ⌊scaled⌋.toNat
  let rest : ℚ := scaled - low
  let cents : Nat := if rest > 1 / 2 ∨ (rest = 1 / 2 ∧ low % 2 = 1) then low + 1 else low
  (if q < 0 then "-" else "") ++ Nat.repr (cents / 100) ++ "." ++
    (if cents % 100 < 10 then "0" else "") ++ Nat.repr (cents % 100)

/-- The text `printf` writes for a format with one `%.2f` conversion. -/
def expandFormat : List Char → String → List Char
  | '%' :: '.' :: '2' :: 'f' :: rest, arg => arg.data ++ rest
  | c :: rest, arg => c :: expandFormat rest arg
  | [], _ => []

/-- The text written by one call of `printf`; `none` when the argument is indeterminate. -/
def printfText : String × RVal → Option String
  | (format, RVal.fp q) => some (String.mk (expandFormat format.data (formatFixed2 q)))
  | _ => none

/-! ## The driver entry point `compileAndRun` -/

/-- A structural model of `llvm::verifyFunction`, which returns `true` when the function is
broken: it accepts a function exactly when every block is non-empty, ends with a terminator
and has no terminator before its end. -/
def Instr.isTerminator : Instr → Bool
  | Instr.br _ => true
  | Instr.condBr _ _ _ => true
  | Instr.ret => true
  | _ => false

/-- Whether a block is a run of ordinary instructions closed by one terminator. -/
def blockWellFormed (b : List Instr) : Bool :=
  match b.reverse with
  | [] => false
  | last :: before => last.isTerminator && before.all (fun i => !i.isTerminator)

/-- The check `verifyFunction(*mainFunc, &errs())`. -/
def verifyFunction (blocks : List (List Instr)) : Bool :=
  !blocks.all blockWellFormed

/-- What a call of `compileAndRun` does after parsing. -/
inductive Outcome where
  | noFuel : Outcome
  | crashed : Outcome
  | rejected : Outcome
  | stuck : Outcome
  | finished (out : List (String × RVal)) : Outcome
deriving DecidableEq

/-- The static objects that outlive a call of `compileAndRun`: the map `namedValues` and
the counter `lineNum`. -/
structure Globals where
  namedValues : List (String × Nat)
  lineNum : Nat
deriving DecidableEq

/-- The static objects at process start. -/
def Globals.initial : Globals :=
  { namedValues := [], lineNum := 1 }

/-- What a call of `compileAndRun` leaves behind: the lines written to `std::cerr`, the
lines parsed, the compile comments, the outcome and the static objects. -/
structure Report where
  cerr : List String
  program : List ASTNode
  cout : List String
  outcome : Outcome
  globals : Globals
deriving DecidableEq

/-- The state of code generation when `compileAndRun` enters its loop over the program:
`main` consists of the empty entry block and `builder` is positioned in it. -/
def CodegenState.entry (g : Globals) : CodegenState :=
  { blocks := [[]], insertBlock := 0, allocas := [], namedValues := g.namedValues,
    nextId := 0, lineNum := g.lineNum, cout := [] }

/-- The code of `main` as `compileAndRun` builds it: the code of every line of the
program, then `ret`.  `none` is a crash of the code generator. -/
def generateMain (g : Globals) (program : List ASTNode) : Option CodegenState :=
  match codegenStmts program (CodegenState.entry g) with
  | none => none
  | some s => some (s.emit Instr.ret)

/-- The part of `compileAndRun` that follows the call of `parseProgram`, given what that
call returned (`none` when the parser used up the fuel).  `Outcome.noFuel` stands for a
parser or a generated program that is still running when the fuel is used up; `crashed`
for a call of `codegen` through an empty pointer; `rejected` for a failed verification,
after which nothing is executed; `stuck` for an execution that leaves the model; `finished`
for a completed run of `main`, with the calls of `printf` it made. -/
def runParsed (g : Globals) (fuel : Nat) :
    Option (List ASTNode × SarcasmParser) → Report
  | none => { cerr := [], program := [], cout := [], outcome := Outcome.noFuel, globals := g }
  | some (program, parser) =>
    match generateMain g program with
    | none =>
      { cerr := parser.cerr, program := program, cout := [], outcome := Outcome.crashed,
        globals := g }
    | some s =>
      let g1 : Globals := { namedValues := s.namedValues, lineNum := s.lineNum }
      if verifyFunction s.blocks then
        { cerr := parser.cerr ++ ["smarty: Function verification failed, congratulations!"],
          program := program, cout := s.cout, outcome := Outcome.rejected, globals := g1 }
      else
        { cerr := parser.cerr, program := program, cout := s.cout,
          outcome :=
            match exec s.blocks s.allocas.length fuel Machine.start with
            | ExecResult.returned out _ => Outcome.finished out
            | ExecResult.stuck => Outcome.stuck
            | ExecResult.noFuel => Outcome.noFuel,
          globals := g1 }

/-- The function `compileAndRun`, called with the static objects in state `g`. -/
def compileAndRun (g : Globals) (fuel : Nat) (source : String) : Report :=
  runParsed g fuel (SarcasmParser.parseProgram fuel (SarcasmParser.new source))

/-- The lines a finished run has written through `printf`. -/
def Outcome.printed : Outcome → List (Option String)
  | Outcome.finished out => out.map printfText
  | _ => []

/-! ## The grammar of the specification -/

/-- The nonterminals of the grammar; `lines` stands for `line*`. -/
inductive Nonterminal where
  | factor
  | term
  | expression
  | statement
  | line
  | lines
deriving DecidableEq

/-- What a nonterminal stands for in the tree: a list of nodes for `line*`, one node
otherwise. -/
@[reducible] def Nonterminal.Result : Nonterminal → Type
  | Nonterminal.lines => List ASTNode
  | _ => ASTNode

/-- The operator tag of a token of the group `'+' | '-' | '<' | '>'`, word forms
included. -/
def additiveTag : TokenType → Option Char
  | TOKEN_PLUS => some '+'
  | TOKEN_WORD_PLUS => some '+'
  | TOKEN_MINUS => some '-'
  | TOKEN_WORD_MINUS => some '-'
  | TOKEN_LESS => some '<'
  | TOKEN_GREATER => some '>'
  | _ => none

/-- The operator tag of a token of the group `'*' | '/'`, word forms included. -/
def multiplicativeTag : TokenType → Option Char
  | TOKEN_MULTIPLY => some '*'
  | TOKEN_WORD_MULTIPLY => some '*'
  | TOKEN_DIVIDE => some '/'
  | TOKEN_WORD_DIVIDE => some '/'
  | _ => none

/-- The grammar of the specification, written from its productions: `Derives n ts r` says
that the token sequence `ts` is derivable from the nonterminal `n` and that `r` is the
tree the derivation describes (operators of one tier group to the left). -/
inductive Derives : (n : Nonterminal) → List Token → n.Result → Prop where
  | number (t : Token) : t.type = TOKEN_NUMBER →
      Derives Nonterminal.factor [t] (NumberExprAST t.numValue)
  | ident (t : Token) : t.type = TOKEN_IDENTIFIER →
      Derives Nonterminal.factor [t] (VariableExprAST t.value)
  | paren (l r : Token) (ts : List Token) (e : ASTNode) :
      l.type = TOKEN_LPAREN → Derives Nonterminal.expression ts e → r.type = TOKEN_RPAREN →
      Derives Nonterminal.factor (l :: (ts ++ [r])) e
  | termFactor (ts : List Token) (e : ASTNode) :
      Derives Nonterminal.factor ts e → Derives Nonterminal.term ts e
  | termOp (ts ts2 : List Token) (o : Token) (c : Char) (l r : ASTNode) :
      Derives Nonterminal.term ts l → multiplicativeTag o.type = some c →
      Derives Nonterminal.factor ts2 r →
      Derives Nonterminal.term (ts ++ o :: ts2) (BinaryExprAST c l r)
  | exprTerm (ts : List Token) (e : ASTNode) :
      Derives Nonterminal.term ts e → Derives Nonterminal.expression ts e
  | exprOp (ts ts2 : List Token) (o : Token) (c : Char) (l r : ASTNode) :
      Derives Nonterminal.expression ts l → additiveTag o.type = some c →
      Derives Nonterminal.term ts2 r →
      Derives Nonterminal.expression (ts ++ o :: ts2) (BinaryExprAST c l r)
  | assignment (x eq : Token) (ts : List Token) (e : ASTNode) :
      x.type = TOKEN_IDENTIFIER → eq.type = TOKEN_ASSIGN → Derives Nonterminal.expression ts e →
      Derives Nonterminal.statement (x :: eq :: ts) (AssignmentAST x.value e)
  | print (v : Token) (ts : List Token) (e : ASTNode) :
      v.type = TOKEN_SHOW → Derives Nonterminal.expression ts e →
      Derives Nonterminal.statement (v :: ts) (PrintAST e v.value)
  | ifStmt (kw th lb rb : Token) (tc tb : List Token) (cond : ASTNode) (body : List ASTNode) :
      kw.type = TOKEN_OBVIOUSLY → Derives Nonterminal.expression tc cond →
      th.type = TOKEN_THEN → lb.type = TOKEN_LBRACE → Derives Nonterminal.lines tb body →
      rb.type = TOKEN_RBRACE →
      Derives Nonterminal.statement (kw :: (tc ++ th :: lb :: (tb ++ [rb]))) (IfAST cond body)
  | whileStmt (kw d lb rb : Token) (tc tb : List Token) (cond : ASTNode) (body : List ASTNode) :
      kw.type = TOKEN_WHATEVER → Derives Nonterminal.expression tc cond →
      d.type = TOKEN_DO → lb.type = TOKEN_LBRACE → Derives Nonterminal.lines tb body →
      rb.type = TOKEN_RBRACE →
      Derives Nonterminal.statement (kw :: (tc ++ d :: lb :: (tb ++ [rb]))) (WhileAST cond body)
  | line (tag colon : Token) (ts : List Token) (s : ASTNode) :
      tag.type = TOKEN_INSULT → colon.type = TOKEN_COLON → Derives Nonterminal.statement ts s →
      Derives Nonterminal.line (tag :: colon :: ts) (SarcasmLineAST tag.value s)
  | linesNil : Derives Nonterminal.lines [] ([] : List ASTNode)
  | linesCons (ts ts2 : List Token) (l : ASTNode) (ls : List ASTNode) :
      Derives Nonterminal.line ts l → Derives Nonterminal.lines ts2 ls →
      Derives Nonterminal.lines (ts ++ ts2) ((l :: ls : List ASTNode))

namespace SarcasmParser

/-- The parser `p` sees the tokens `ts`, one call of `nextToken` apart, and is in state `q`
once it has consumed them all. -/
def Feeds : SarcasmParser → List Token → SarcasmParser → Prop
  | p, [], q => q = p
  | p, t :: ts, q => p.currentToken = t ∧ Feeds p.nextToken ts q

instance decidableFeeds :
    (p : SarcasmParser) → (ts : List Token) → (q : SarcasmParser) → Decidable (Feeds p ts q)
  | p, [], q => inferInstanceAs (Decidable (q = p))
  | p, t :: ts, q =>
    have : Decidable (Feeds p.nextToken ts q) := decidableFeeds p.nextToken ts q
    inferInstanceAs (Decidable (p.currentToken = t ∧ Feeds p.nextToken ts q))

end SarcasmParser

/-- A fuel-driven function returns `r`: it does so for every sufficient amount of fuel. -/
def Returns {α : Type} (f : Nat → Option α) (r : α) : Prop :=
  ∃ n, ∀ fuel, n ≤ fuel → f fuel = some r


open SarcasmParser in
/-- What the parser does on a token sequence derived from a nonterminal. -/
def ParsesAs : (n : Nonterminal) → List Token → n.Result → Prop
  | Nonterminal.factor, ts, e =>
    ∀ p q : SarcasmParser, Feeds p ts q → Returns (fun fuel => parseFactor fuel p) (e, q)
  | Nonterminal.term, ts, e =>
    ∀ p q : SarcasmParser, Feeds p ts q → ∀ r,
      Returns (fun fuel => parseTermLoop fuel e q) r → Returns (fun fuel => parseTerm fuel p) r
  | Nonterminal.expression, ts, e =>
    ∀ p q : SarcasmParser, Feeds p ts q → isTermOp q.currentToken.type = false → ∀ r,
      Returns (fun fuel => parseExpressionLoop fuel e q) r →
      Returns (fun fuel => parseExpression fuel p) r
  | Nonterminal.statement, ts, s =>
    s ≠ nullptr ∧ ∀ p q : SarcasmParser, Feeds p ts q →
      isTermOp q.currentToken.type = false → isExprOp q.currentToken.type = false →
      Returns (fun fuel => parseStatement fuel p) (s, q)
  | Nonterminal.line, ts, l =>
    l ≠ nullptr ∧ ∀ p q : SarcasmParser, Feeds p ts q →
      p.currentToken.type = TOKEN_INSULT ∧
      (isTermOp q.currentToken.type = false → isExprOp q.currentToken.type = false →
        Returns (fun fuel => parseLine fuel p) (l, q))
  | Nonterminal.lines, ts, ls =>
    ∀ p q : SarcasmParser, Feeds p ts q →
      (q.currentToken.type = TOKEN_RBRACE ∨ q.currentToken.type = TOKEN_EOF) →
      (isTermOp p.currentToken.type = false ∧ isExprOp p.currentToken.type = false) ∧
      (∀ acc, Returns (fun fuel => parseBlock fuel acc p) (acc ++ ls, q)) ∧
      (q.currentToken.type = TOKEN_EOF →
        ∀ acc, Returns (fun fuel => parseProgramLoop fuel acc p) (acc ++ ls, q))

/-! ## The counting loop of the specification -/

/-- The program `i = 0`; `whatever i < n do { i = i + 1 }`; `show i` as the parser builds
it, with the tags `t1` to `t4` on its four lines. -/
def loopProgram (t1 t2 t3 t4 : String) (n : ℕ) : List ASTNode :=
  [SarcasmLineAST t1 (AssignmentAST "i" (NumberExprAST 0)),
   SarcasmLineAST t2
     (WhileAST (BinaryExprAST '<' (VariableExprAST "i") (NumberExprAST n))
       [SarcasmLineAST t3
         (AssignmentAST "i" (BinaryExprAST '+' (VariableExprAST "i") (NumberExprAST 1)))]),
   SarcasmLineAST t4 (PrintAST (VariableExprAST "i") "show")]

/-- The tokens of that program; `text` is the spelling of the literal `n`. -/
def loopTokens (t1 t2 t3 t4 text : String) (n : ℕ) : List Token :=
  [⟨TOKEN_INSULT, t1, 0⟩, ⟨TOKEN_COLON, ":", 0⟩, ⟨TOKEN_IDENTIFIER, "i", 0⟩,
   ⟨TOKEN_ASSIGN, "=", 0⟩, ⟨TOKEN_NUMBER, "0", 0⟩,
   ⟨TOKEN_INSULT, t2, 0⟩, ⟨TOKEN_COLON, ":", 0⟩, ⟨TOKEN_WHATEVER, "whatever", 0⟩,
   ⟨TOKEN_IDENTIFIER, "i", 0⟩, ⟨TOKEN_LESS, "<", 0⟩, ⟨TOKEN_NUMBER, text, n⟩,
   ⟨TOKEN_DO, "do", 0⟩, ⟨TOKEN_LBRACE, "\x7b", 0⟩,
   ⟨TOKEN_INSULT, t3, 0⟩, ⟨TOKEN_COLON, ":", 0⟩, ⟨TOKEN_IDENTIFIER, "i", 0⟩,
   ⟨TOKEN_ASSIGN, "=", 0⟩, ⟨TOKEN_IDENTIFIER, "i", 0⟩, ⟨TOKEN_PLUS, "+", 0⟩,
   ⟨TOKEN_NUMBER, "1", 1⟩, ⟨TOKEN_RBRACE, "\x7d", 0⟩,
   ⟨TOKEN_INSULT, t4, 0⟩, ⟨TOKEN_COLON, ":", 0⟩, ⟨TOKEN_SHOW, "show", 0⟩,
   ⟨TOKEN_IDENTIFIER, "i", 0⟩]

/-- The blocks a run of the counting loop enters, in order, when the body runs `n` times:
the condition block 1, then `n` times the body block 2 and the condition block again, then
the exit block 3. -/
def loopTrace : ℕ → List ℕ
  | 0 => [1, 3]
  | n + 1 => 1 :: 2 :: loopTrace n

/-! ## Positions in the generated code -/

/-- The code `B2` keeps every instruction of `B` at its position: later code generation
only adds instructions at the end of blocks and new blocks. -/
def CodeExtends (B B2 : List (List Instr)) : Prop :=
  ∀ b pc i, fetch B b pc = some i → fetch B2 b pc = some i

/-- The index, in the insertion block, at which `builder` places the next instruction. -/
def CodegenState.insertPos (s : CodegenState) : Nat :=
  ((s.blocks.get? s.insertBlock).getD []).length

/-- The state in which `IfAST::codegen` starts to generate the statements of the body,
given the state `s1` and the value `condVal` left by the code of the condition: the
comparison with `0.0` and the conditional branch are emitted, the blocks `obviously_then`
and `obviously_cont` exist, and `builder` is positioned in `obviously_then`. -/
def thenEntry (condVal : Value) (s1 : CodegenState) : CodegenState :=
  let c := s1.emitValue (fun id => Instr.fcmpONE id condVal (Value.constFP 0))
  let thenBB := c.2.createBlock
  let mergeBB := thenBB.2.createBlock
  (mergeBB.2.emit (Instr.condBr c.1 thenBB.1 mergeBB.1)).setInsertPoint thenBB.1

/-- How code generation may change the function between a state `s0` and a later state
`s`: the insertion point of `s` is in an existing block; no block is removed; every
instruction of `s0` is still at its position; a block of `s0` other than its insertion
block is unchanged; and the insertion point is still in the insertion block of `s0` or in
a block created since. -/
structure Keeps (s0 s : CodegenState) : Prop where
  valid : s.insertBlock < s.blocks.length
  more : s0.blocks.length ≤ s.blocks.length
  code : CodeExtends s0.blocks s.blocks
  other : ∀ b, b < s0.blocks.length → b ≠ s0.insertBlock → s.blocks[b]? = s0.blocks[b]?
  point : s.insertBlock = s0.insertBlock ∨ s0.blocks.length ≤ s.insertBlock

/-- The code generated for the counting loop. -/
def loopBlocks (n : ℕ) : List (List Instr) :=
  [[Instr.store (Value.constFP 0) 0, Instr.br 1],
   [Instr.load 0 0, Instr.fcmpULT 1 (Value.inst 0) (Value.constFP n),
    Instr.uiToFP 2 (Value.inst 1), Instr.fcmpONE 3 (Value.inst 2) (Value.constFP 0),
    Instr.condBr (Value.inst 3) 2 3],
   [Instr.load 4 0, Instr.fadd 5 (Value.inst 4) (Value.constFP 1),
    Instr.store (Value.inst 5) 0, Instr.br 1],
   [Instr.load 6 0, Instr.callPrintf 7 (printFormat "show") (Value.inst 6), Instr.ret]]

/-! ## A sample program -/

/-- A well-formed two-line program with a parenthesised expression and a block. -/
def sampleSource : String :=
  "idiot: x = 2 * (3 + 4)\nmoron: obviously x then \x7b fool: show x \x7d"

/-- The tokens of `sampleSource`. -/
def sampleTokens : List Token :=
  [⟨TOKEN_INSULT, "idiot", 0⟩, ⟨TOKEN_COLON, ":", 0⟩, ⟨TOKEN_IDENTIFIER, "x", 0⟩,
   ⟨TOKEN_ASSIGN, "=", 0⟩, ⟨TOKEN_NUMBER, "2", 2⟩, ⟨TOKEN_MULTIPLY, "*", 0⟩,
   ⟨TOKEN_LPAREN, "(", 0⟩, ⟨TOKEN_NUMBER, "3", 3⟩, ⟨TOKEN_PLUS, "+", 0⟩,
   ⟨TOKEN_NUMBER, "4", 4⟩, ⟨TOKEN_RPAREN, ")", 0⟩,
   ⟨TOKEN_INSULT, "moron", 0⟩, ⟨TOKEN_COLON, ":", 0⟩, ⟨TOKEN_OBVIOUSLY, "obviously", 0⟩,
   ⟨TOKEN_IDENTIFIER, "x", 0⟩, ⟨TOKEN_THEN, "then", 0⟩, ⟨TOKEN_LBRACE, "\x7b", 0⟩,
   ⟨TOKEN_INSULT, "fool", 0⟩, ⟨TOKEN_COLON, ":", 0⟩, ⟨TOKEN_SHOW, "show", 0⟩,
   ⟨TOKEN_IDENTIFIER, "x", 0⟩, ⟨TOKEN_RBRACE, "\x7d", 0⟩]

/-- The tree of `sampleSource`. -/
def sampleProgram : List ASTNode :=
  [SarcasmLineAST "idiot"
     (AssignmentAST "x"
       (BinaryExprAST '*' (NumberExprAST 2)
         (BinaryExprAST '+' (NumberExprAST 3) (NumberExprAST 4)))),
   SarcasmLineAST "moron"
     (IfAST (VariableExprAST "x")
       [SarcasmLineAST "fool" (PrintAST (VariableExprAST "x") "show")])]

/-! ## A sample conditional -/

/-- The state left by the code of the condition `0 - 2` generated at the start of `main`;
the value of the condition is the result of instruction 0. -/
def sampleCondState : CodegenState :=
  { blocks := [[Instr.fsub 0 (Value.constFP 0) (Value.constFP 2)]], insertBlock := 0,
    allocas := [], namedValues := [], nextId := 1, lineNum := 1, cout := [] }

/-- The state left by the code of the body `moron: show 999` generated from
`thenEntry (Value.inst 0) sampleCondState`. -/
def sampleBodyState : CodegenState :=
  { blocks :=
      [[Instr.fsub 0 (Value.constFP 0) (Value.constFP 2),
        Instr.fcmpONE 1 (Value.inst 0) (Value.constFP 0),
        Instr.condBr (Value.inst 1) 1 2],
       [Instr.callPrintf 2 (printFormat "show") (Value.constFP 999)],
       []],
    insertBlock := 1, allocas := [], namedValues := [], nextId := 3, lineNum := 2,
    cout := ["  ; Line 1: moron says something ridiculous"] }

/-- A machine that has just executed the code of the condition `0 - 2`. -/
def sampleMachine : Machine :=
  { block := 0, pc := 1, regs := fun r => if r = 0 then RVal.fp (-2) else RVal.undef,
    mem := fun _ => RVal.undef, out := [], trace := [] }

/-- The state in which `WhileAST::codegen` generates the code of the condition: the blocks
`whatever_loop`, `whatever_body` and `whatever_after` exist, the branch to `whatever_loop`
is emitted, and `builder` is positioned in `whatever_loop`. -/
def whileEntry (s : CodegenState) : CodegenState :=
  let loopBB := s.createBlock
  let bodyBB := loopBB.2.createBlock
  let afterBB := bodyBB.2.createBlock
  (afterBB.2.emit (Instr.br loopBB.1)).setInsertPoint loopBB.1

/-! ## The factorial example -/

/-- The text of `factorial.sarcasm` as `createExampleFiles` writes it. -/
def factorialSource : String :=
  "numbskull: n = 5\n" ++
  "bonehead: factorial = 1\n" ++
  "meathead: i = 1\n" ++
  "dimwit: whatever i < n plus 1 do \x7b\n" ++
  "    birdbrain: factorial = factorial times i\n" ++
  "    airhead: i = i plus 1\n" ++
  "\x7d\n" ++
  "smooth_brain: show factorial\n"

/-- The tokens of the factorial example with the literal `n` in the first line; `text` is
the spelling of that literal. -/
def factorialTokens (text : String) (n : ℕ) : List Token :=
  [⟨TOKEN_INSULT, "numbskull", 0⟩, ⟨TOKEN_COLON, ":", 0⟩, ⟨TOKEN_IDENTIFIER, "n", 0⟩,
   ⟨TOKEN_ASSIGN, "=", 0⟩, ⟨TOKEN_NUMBER, text, n⟩,
   ⟨TOKEN_INSULT, "bonehead", 0⟩, ⟨TOKEN_COLON, ":", 0⟩, ⟨TOKEN_IDENTIFIER, "factorial", 0⟩,
   ⟨TOKEN_ASSIGN, "=", 0⟩, ⟨TOKEN_NUMBER, "1", 1⟩,
   ⟨TOKEN_INSULT, "meathead", 0⟩, ⟨TOKEN_COLON, ":", 0⟩, ⟨TOKEN_IDENTIFIER, "i", 0⟩,
   ⟨TOKEN_ASSIGN, "=", 0⟩, ⟨TOKEN_NUMBER, "1", 1⟩,
   ⟨TOKEN_INSULT, "dimwit", 0⟩, ⟨TOKEN_COLON, ":", 0⟩, ⟨TOKEN_WHATEVER, "whatever", 0⟩,
   ⟨TOKEN_IDENTIFIER, "i", 0⟩, ⟨TOKEN_LESS, "<", 0⟩, ⟨TOKEN_IDENTIFIER, "n", 0⟩,
   ⟨TOKEN_WORD_PLUS, "plus", 0⟩, ⟨TOKEN_NUMBER, "1", 1⟩,
   ⟨TOKEN_DO, "do", 0⟩, ⟨TOKEN_LBRACE, "\x7b", 0⟩,
   ⟨TOKEN_INSULT, "birdbrain", 0⟩, ⟨TOKEN_COLON, ":", 0⟩,
   ⟨TOKEN_IDENTIFIER, "factorial", 0⟩, ⟨TOKEN_ASSIGN, "=", 0⟩,
   ⟨TOKEN_IDENTIFIER, "factorial", 0⟩, ⟨TOKEN_WORD_MULTIPLY, "times", 0⟩,
   ⟨TOKEN_IDENTIFIER, "i", 0⟩,
   ⟨TOKEN_INSULT, "airhead", 0⟩, ⟨TOKEN_COLON, ":", 0⟩, ⟨TOKEN_IDENTIFIER, "i", 0⟩,
   ⟨TOKEN_ASSIGN, "=", 0⟩, ⟨TOKEN_IDENTIFIER, "i", 0⟩, ⟨TOKEN_WORD_PLUS, "plus", 0⟩,
   ⟨TOKEN_NUMBER, "1", 1⟩, ⟨TOKEN_RBRACE, "\x7d", 0⟩,
   ⟨TOKEN_INSULT, "smooth_brain", 0⟩, ⟨TOKEN_COLON, ":", 0⟩, ⟨TOKEN_SHOW, "show", 0⟩,
   ⟨TOKEN_IDENTIFIER, "factorial", 0⟩]

/-- The tree the parser builds from the factorial example: the condition of the loop is
`(i < n) + 1`. -/
def factorialProgram (n : ℕ) : List ASTNode :=
  [SarcasmLineAST "numbskull" (AssignmentAST "n" (NumberExprAST n)),
   SarcasmLineAST "bonehead" (AssignmentAST "factorial" (NumberExprAST 1)),
   SarcasmLineAST "meathead" (AssignmentAST "i" (NumberExprAST 1)),
   SarcasmLineAST "dimwit"
     (WhileAST
       (BinaryExprAST '+' (BinaryExprAST '<' (VariableExprAST "i") (VariableExprAST "n"))
         (NumberExprAST 1))
       [SarcasmLineAST "birdbrain"
          (AssignmentAST "factorial"
            (BinaryExprAST '*' (VariableExprAST "factorial") (VariableExprAST "i"))),
        SarcasmLineAST "airhead"
          (AssignmentAST "i" (BinaryExprAST '+' (VariableExprAST "i") (NumberExprAST 1)))]),
   SarcasmLineAST "smooth_brain" (PrintAST (VariableExprAST "factorial") "show")]

/-- The code of `main` generated for `factorialProgram n`: the entry block, the condition
block of the loop, its body block, and the block after the loop. -/
def factorialBlocks (n : ℕ) : List (List Instr) :=
  [[Instr.store (Value.constFP n) 0, Instr.store (Value.constFP 1) 1,
    Instr.store (Value.constFP 1) 2, Instr.br 1],
   [Instr.load 0 2, Instr.load 1 0, Instr.fcmpULT 2 (Value.inst 0) (Value.inst 1),
    Instr.uiToFP 3 (Value.inst 2), Instr.fadd 4 (Value.inst 3) (Value.constFP 1),
    Instr.fcmpONE 5 (Value.inst 4) (Value.constFP 0), Instr.condBr (Value.inst 5) 2 3],
   [Instr.load 6 1, Instr.load 7 2, Instr.fmul 8 (Value.inst 6) (Value.inst 7),
    Instr.store (Value.inst 8) 1, Instr.load 9 2,
    Instr.fadd 10 (Value.inst 9) (Value.constFP 1), Instr.store (Value.inst 10) 2,
    Instr.br 1],
   [Instr.load 11 1, Instr.callPrintf 12 (printFormat "show") (Value.inst 11), Instr.ret]]

/-! ## Words and the unread input -/

/-- The part of the input the lexer has not read yet. -/
def SarcasmLexer.rest (lx : SarcasmLexer) : List Char :=
  lx.input.drop lx.pos

/-- The loop condition of `readWord`: an alphanumeric character or an underscore. -/
def isWordChar (c : Char) : Bool :=
  isalnum c || c = '_'

/-- The kind of a lowercased word as the specification orders the decision: keyword, else
print verb, else word operator, else line tag when the word is in the vocabulary, else
plain identifier. -/
def wordKind (word : String) : TokenType :=
  if word ∈ ["obviously", "whatever", "then", "do"] then
    (if word = "obviously" then TOKEN_OBVIOUSLY
      else if word = "whatever" then TOKEN_WHATEVER
      else if word = "then" then TOKEN_THEN
      else TOKEN_DO)
  else if word ∈ ["show", "display", "reveal", "output"] then TOKEN_SHOW
  else if word ∈ ["plus", "minus", "times", "divided_by"] then
    (if word = "plus" then TOKEN_WORD_PLUS
      else if word = "minus" then TOKEN_WORD_MINUS
      else if word = "times" then TOKEN_WORD_MULTIPLY
      else TOKEN_WORD_DIVIDE)
  else if word ∈ insults then TOKEN_INSULT
  else TOKEN_IDENTIFIER

/-! ## What the parser reads of a token -/

/-- The symbol-form kind of a token kind: the word operators become `+`, `-`, `*`, `/`. -/
def symbolType : TokenType → TokenType
  | TOKEN_WORD_PLUS => TOKEN_PLUS
  | TOKEN_WORD_MINUS => TOKEN_MINUS
  | TOKEN_WORD_MULTIPLY => TOKEN_MULTIPLY
  | TOKEN_WORD_DIVIDE => TOKEN_DIVIDE
  | t => t

/-- The token with a word-form operator replaced by its symbol form, as the lexer would
return it for the symbol. -/
def symbolForm (t : Token) : Token :=
  match t.type with
  | TOKEN_WORD_PLUS => ⟨TOKEN_PLUS, "+", 0⟩
  | TOKEN_WORD_MINUS => ⟨TOKEN_MINUS, "-", 0⟩
  | TOKEN_WORD_MULTIPLY => ⟨TOKEN_MULTIPLY, "*", 0⟩
  | TOKEN_WORD_DIVIDE => ⟨TOKEN_DIVIDE, "/", 0⟩
  | _ => t

/-- The token with the vocabulary word of a line tag blanked. -/
def untagged (t : Token) : Token :=
  if t.type = TOKEN_INSULT then { t with value := "" } else t

/-- What the parser reads of a token: its kind up to the spelling of an operator, the text
of an identifier or a print verb, the text of a line tag (here passed through `f`), and
the value of a number. -/
def parserView (f : String → String) (t : Token) : Token :=
  { type := symbolType t.type,
    value :=
      if t.type = TOKEN_INSULT then f t.value
      else if t.type = TOKEN_IDENTIFIER ∨ t.type = TOKEN_SHOW then t.value
      else "",
    numValue := if t.type = TOKEN_NUMBER then t.numValue else 0 }

/-- Two parsers see, call after call of `nextToken`, tokens that read the same. -/
def SameTokens (f : String → String) (p q : SarcasmParser) : Prop :=
  ∀ n, parserView f (SarcasmParser.nextToken^[n] p).currentToken =
    parserView f (SarcasmParser.nextToken^[n] q).currentToken

/-- Two parsers that see the same tokens and, when tags are read as they are, have written
the same lines to `std::cerr`. -/
def ParserSim (f : String → String) (p q : SarcasmParser) : Prop :=
  SameTokens f p q ∧ ((∀ s, f s = s) → p.cerr = q.cerr)

mutual
/-- The tree with the tag of every line passed through `f`. -/
def retag (f : String → String) : ASTNode → ASTNode
  | .nullptr => .nullptr
  | .NumberExprAST val => .NumberExprAST val
  | .VariableExprAST name => .VariableExprAST name
  | .BinaryExprAST op lhs rhs => .BinaryExprAST op (retag f lhs) (retag f rhs)
  | .AssignmentAST varName expr => .AssignmentAST varName (retag f expr)
  | .PrintAST expr printWord => .PrintAST (retag f expr) printWord
  | .IfAST condition thenStmts => .IfAST (retag f condition) (retagAll f thenStmts)
  | .WhileAST condition body => .WhileAST (retag f condition) (retagAll f body)
  | .SarcasmLineAST insult statement => .SarcasmLineAST (f insult) (retag f statement)
/-- The trees of a list with the tag of every line passed through `f`. -/
def retagAll (f : String → String) : List ASTNode → List ASTNode
  | [] => []
  | a :: as => retag f a :: retagAll f as
end

/-- Two results of a parsing method agree: both ran out of fuel, or both returned, with
trees that agree up to `f` on tags (`r`) and parsers that go on in the same way. -/
def ParseSim (f : String → String) {α : Type} (r : α → α → Prop) :
    Option (α × SarcasmParser) → Option (α × SarcasmParser) → Prop
  | none, none => True
  | some (a, p), some (b, q) => r a b ∧ ParserSim f p q
  | _, _ => False

/-- Two trees agree up to `f` on tags. -/
def SameTree (f : String → String) (a b : ASTNode) : Prop :=
  retag f a = retag f b

/-- Two lists of trees agree up to `f` on tags. -/
def SameTrees (f : String → String) (a b : List ASTNode) : Prop :=
  retagAll f a = retagAll f b

/-! ## Code generation up to the compile comments -/

/-- The state of code generation without the compile comments written so far. -/
def CodegenState.silent (s : CodegenState) : CodegenState :=
  { s with cout := [] }

/-- The result of a call of `codegen` without the compile comments. -/
def silentResult (r : Option Value × CodegenState) : Option Value × CodegenState :=
  (r.1, r.2.silent)

/-! ## Lowercased input -/

/-- The text with every character passed through `tolower`. -/
def lowercase (text : String) : String :=
  String.mk (text.data.map tolower)

/-- The lexer at the same position of the lowercased input. -/
def SarcasmLexer.lower (lx : SarcasmLexer) : SarcasmLexer :=
  { lx with input := lx.input.map tolower }

/-- The parser whose lexer reads the lowercased input. -/
def SarcasmParser.lower (p : SarcasmParser) : SarcasmParser :=
  { p with lexer := p.lexer.lower }

/-! ## A loop whose condition holds the first reference to its variable -/

/-- The text `whatever x < 3 do { x = x + 1 }` on one tagged line. -/
def resetSource : String :=
  "idiot: whatever x < 3 do \x7b moron: x = x + 1 \x7d"

/-- The tokens of `resetSource`. -/
def resetTokens : List Token :=
  [⟨TOKEN_INSULT, "idiot", 0⟩, ⟨TOKEN_COLON, ":", 0⟩, ⟨TOKEN_WHATEVER, "whatever", 0⟩,
   ⟨TOKEN_IDENTIFIER, "x", 0⟩, ⟨TOKEN_LESS, "<", 0⟩, ⟨TOKEN_NUMBER, "3", 3⟩,
   ⟨TOKEN_DO, "do", 0⟩, ⟨TOKEN_LBRACE, "\x7b", 0⟩,
   ⟨TOKEN_INSULT, "moron", 0⟩, ⟨TOKEN_COLON, ":", 0⟩, ⟨TOKEN_IDENTIFIER, "x", 0⟩,
   ⟨TOKEN_ASSIGN, "=", 0⟩, ⟨TOKEN_IDENTIFIER, "x", 0⟩, ⟨TOKEN_PLUS, "+", 0⟩,
   ⟨TOKEN_NUMBER, "1", 1⟩, ⟨TOKEN_RBRACE, "\x7d", 0⟩]

/-- The tree the parser builds from `resetSource`. -/
def resetProgram : List ASTNode :=
  [SarcasmLineAST "idiot"
    (WhileAST (BinaryExprAST '<' (VariableExprAST "x") (NumberExprAST 3))
      [SarcasmLineAST "moron"
        (AssignmentAST "x" (BinaryExprAST '+' (VariableExprAST "x") (NumberExprAST 1)))])]

/-- The code of `main` generated for `resetProgram`: the zero store of the first reference
to `x` stands at the head of the condition block. -/
def resetBlocks : List (List Instr) :=
  [[Instr.br 1],
   [Instr.store (Value.constFP 0) 0, Instr.load 0 0,
    Instr.fcmpULT 1 (Value.inst 0) (Value.constFP 3), Instr.uiToFP 2 (Value.inst 1),
    Instr.fcmpONE 3 (Value.inst 2) (Value.constFP 0), Instr.condBr (Value.inst 3) 2 3],
   [Instr.load 4 0, Instr.fadd 5 (Value.inst 4) (Value.constFP 1),
    Instr.store (Value.inst 5) 0, Instr.br 1],
   [Instr.ret]]

/-- The program `i = 0`; `whatever i < 3 do { s = s + i; i = i + 1 }`; `show s`. -/
def sumSource : String :=
  "idiot: i = 0\n" ++
  "moron: whatever i < 3 do \x7b fool: s = s + i\ndummy: i = i + 1 \x7d\n" ++
  "genius: show s"

/-! ## Binary operations on exact numbers -/

/-- The value the specification gives a binary operation on the exact numbers `l` and `r`:
sum, difference, product or quotient for the arithmetic tags, and 1 or 0 for the
comparison tags, as the comparison holds or not. -/
def binaryValue (op : Char) (l r : ℚ) : ℚ :=
  if op = '+' then l + r
  else if op = '-' then l - r
  else if op = '*' then l * r
  else if op = '/' then l / r
  else if op = '<' then (if l < r then 1 else 0)
  else if op = '>' then (if l > r then 1 else 0)
  else 0

/-! ## Execution in double precision -/

/-- An arithmetic instruction on two doubles: the exact result rounded to the nearest
double.  `none` when the result is beyond the largest double: the code goes on with an
infinity, which the model does not represent. -/
def arithDouble (f : ℚ → ℚ → ℚ) : RVal → RVal → Option RVal
  | RVal.fp a, RVal.fp b =>
    if |nearestDouble (f a b)| < (2 : ℚ) ^ 1024 then some (RVal.fp (nearestDouble (f a b)))
    else none
  | _, _ => some RVal.undef

/-- One instruction other than `ret` on doubles: the four arithmetic instructions round
their result to a double; every other instruction acts as in `step` (a comparison of
doubles is exact).  The result is `none` when the execution leaves the model, which is now
also the case for a result beyond the largest double; after a division by zero the code
goes on with an infinity or a NaN. -/
def stepDouble (nAllocas : Nat) (i : Instr) (m : Machine) : Option Machine :=
  match i with
  | Instr.fadd id l r => (arithDouble (· + ·) (m.eval l) (m.eval r)).map (m.setReg id)
  | Instr.fsub id l r => (arithDouble (· - ·) (m.eval l) (m.eval r)).map (m.setReg id)
  | Instr.fmul id l r => (arithDouble (· * ·) (m.eval l) (m.eval r)).map (m.setReg id)
  | Instr.fdiv id l r =>
    if m.eval r = RVal.fp 0 then none
    else (arithDouble (· / ·) (m.eval l) (m.eval r)).map (m.setReg id)
  | other => step nAllocas other m

/-- Runs the function on doubles from a machine state until `ret`, for at most `fuel`
instructions. -/
def execDouble (blocks : List (List Instr)) (nAllocas : Nat) : Nat → Machine → ExecResult
  | 0, _ => ExecResult.noFuel
  | fuel + 1, m =>
    match fetch blocks m.block m.pc with
    | none => ExecResult.stuck
    | some Instr.ret => ExecResult.returned m.out m.trace
    | some i =>
      match stepDouble nAllocas i m with
      | none => ExecResult.stuck
      | some m1 => execDouble blocks nAllocas fuel m1

/-- The part of `compileAndRun` that follows the call of `parseProgram`, as `runParsed`,
with the generated code executed on doubles. -/
def runParsedDouble (g : Globals) (fuel : Nat) :
    Option (List ASTNode × SarcasmParser) → Report
  | none => { cerr := [], program := [], cout := [], outcome := Outcome.noFuel, globals := g }
  | some (program, parser) =>
    match generateMain g program with
    | none =>
      { cerr := parser.cerr, program := program, cout := [], outcome := Outcome.crashed,
        globals := g }
    | some s =>
      let g1 : Globals := { namedValues := s.namedValues, lineNum := s.lineNum }
      if verifyFunction s.blocks then
        { cerr := parser.cerr ++ ["smarty: Function verification failed, congratulations!"],
          program := program, cout := s.cout, outcome := Outcome.rejected, globals := g1 }
      else
        { cerr := parser.cerr, program := program, cout := s.cout,
          outcome :=
            match execDouble s.blocks s.allocas.length fuel Machine.start with
            | ExecResult.returned out _ => Outcome.finished out
            | ExecResult.stuck => Outcome.stuck
            | ExecResult.noFuel => Outcome.noFuel,
          globals := g1 }

/-- The function `compileAndRun`, called with the static objects in state `g`, with the
generated code executed on doubles. -/
def compileAndRunDouble (g : Globals) (fuel : Nat) (source : String) : Report :=
  runParsedDouble g fuel (SarcasmParser.parseProgram fuel (SarcasmParser.new source))

/-- The source text of the counting loop with the tags `t1` to `t4` and the literal spelt
`digits`. -/
def loopSource (t1 t2 t3 t4 : String) (digits : List Char) : String :=
  t1 ++ ": i = 0\n" ++ t2 ++ ": whatever i < " ++ String.mk digits ++ " do \x7b " ++ t3 ++
    ": i = i + 1 \x7d\n" ++ t4 ++ ": show i"

/-! ## Blocks that are not closed, and unrecognised characters -/

/-- The parser after it has written the lines `msgs` to `std::cerr`. -/
def SarcasmParser.complainAll (p : SarcasmParser) (msgs : List String) : SarcasmParser :=
  { p with cerr := p.cerr ++ msgs }

/-- The complaint of `parseStatement` at a block that is not closed, by the keyword of the
statement. -/
def braceComplaint (kw : TokenType) : String :=
  if kw = TOKEN_OBVIOUSLY then "bonehead: Expected \x27\x7d\x27 to end obviously block"
  else "meathead: Expected \x27\x7d\x27 to end whatever block"

/-- The complaint of `parseLine` when the statement after the tag `tag` failed. -/
def statementComplaint (tag : String) : String :=
  "noob: Failed to parse statement after \x27" ++ tag ++ ":\x27"

/-- The tokens of a line whose block is still open where the tokens end: a tag, a colon,
`obviously` condition `then` or `whatever` condition `do`, an opening brace, well-formed
lines, and then either nothing (`last`) or a line of the same kind (`nested`).  The second
argument lists the complaints the parser writes when the end of the input follows: for
every open block, innermost first, the complaint about the missing brace and the complaint
of the line. -/
inductive OpenLine : List Token → List String → Prop where
  | last (tag colon kw sep lb : Token) (tc tb : List Token) (cond : ASTNode)
      (body : List ASTNode) :
      tag.type = TOKEN_INSULT → colon.type = TOKEN_COLON →
      (kw.type = TOKEN_OBVIOUSLY ∧ sep.type = TOKEN_THEN ∨
        kw.type = TOKEN_WHATEVER ∧ sep.type = TOKEN_DO) →
      Derives Nonterminal.expression tc cond → lb.type = TOKEN_LBRACE →
      Derives Nonterminal.lines tb body →
      OpenLine (tag :: colon :: kw :: (tc ++ sep :: lb :: tb))
        [braceComplaint kw.type, statementComplaint tag.value]
  | nested (tag colon kw sep lb : Token) (tc tb inner : List Token) (cond : ASTNode)
      (body : List ASTNode) (msgs : List String) :
      tag.type = TOKEN_INSULT → colon.type = TOKEN_COLON →
      (kw.type = TOKEN_OBVIOUSLY ∧ sep.type = TOKEN_THEN ∨
        kw.type = TOKEN_WHATEVER ∧ sep.type = TOKEN_DO) →
      Derives Nonterminal.expression tc cond → lb.type = TOKEN_LBRACE →
      Derives Nonterminal.lines tb body → OpenLine inner msgs →
      OpenLine (tag :: colon :: kw :: (tc ++ sep :: lb :: (tb ++ inner)))
        (msgs ++ [braceComplaint kw.type, statementComplaint tag.value])

open SarcasmParser in
/-- What the two line loops of the parser do on a token sequence derived from `line*`
that is followed by more input: they collect its lines and go on at the token after
them. -/
def LinesThen : (n : Nonterminal) → List Token → n.Result → Prop
  | Nonterminal.lines, ts, ls =>
    ∀ p m : SarcasmParser, Feeds p ts m →
      isTermOp m.currentToken.type = false → isExprOp m.currentToken.type = false →
      (isTermOp p.currentToken.type = false ∧ isExprOp p.currentToken.type = false) ∧
      (∀ acc r, Returns (fun fuel => parseBlock fuel (acc ++ ls) m) r →
        Returns (fun fuel => parseBlock fuel acc p) r) ∧
      (∀ acc r, Returns (fun fuel => parseProgramLoop fuel (acc ++ ls) m) r →
        Returns (fun fuel => parseProgramLoop fuel acc p) r)
  | _, _, _ => True

/-- A character the lexer does not recognise: not whitespace, not the start of a number or
of a word, and none of the twelve punctuation characters; `nextToken` returns the
end-of-input token for it (the `default` branch of its `switch`). -/
def unrecognised (c : Char) : Bool :=
  !isspace c && !isdigit c && !isalpha c && !(c = '_') &&
    !(c ∈ ['=', ':', '(', ')', '\x7b', '\x7d', '+', '-', '*', '/', '<', '>'])

/-! ## The driver `main` -/

mutual
/-- Whether every binary operation of a tree carries one of the six operator characters
the parser chooses (`termOp`, `exprOp`); an empty pointer holds no operation. -/
def parserOps : ASTNode → Bool
  | .nullptr => true
  | .NumberExprAST _ => true
  | .VariableExprAST _ => true
  | .BinaryExprAST op lhs rhs =>
    decide (op ∈ ['+', '-', '*', '/', '<', '>']) && parserOps lhs && parserOps rhs
  | .AssignmentAST _ expr => parserOps expr
  | .PrintAST expr _ => parserOps expr
  | .IfAST condition thenStmts => parserOps condition && parserOpsAll thenStmts
  | .WhileAST condition body => parserOps condition && parserOpsAll body
  | .SarcasmLineAST _ statement => parserOps statement
/-- The same for every tree of a list. -/
def parserOpsAll : List ASTNode → Bool
  | [] => true
  | a :: rest => parserOps a && parserOpsAll rest
end

/-! ## Theorems -/

open SarcasmParser CodegenState

/-! ### The parser on token sequences of the grammar -/

theorem feeds_append {a b : List Token} {p q : SarcasmParser} :
    Feeds p (a ++ b) q ↔ ∃ m, Feeds p a m ∧ Feeds m b q := by
  induction a generalizing p with
  | nil => simp [Feeds]
  | cons t ts ih =>
    rw [List.cons_append]
    constructor
    · intro h
      obtain ⟨m, h1, h2⟩ := ih.mp h.2
      exact ⟨m, ⟨h.1, h1⟩, h2⟩
    · rintro ⟨m, h1, h2⟩
      exact ⟨h1.1, ih.mpr ⟨m, h1.2, h2⟩⟩

theorem feeds_cerr {ts : List Token} {p q : SarcasmParser} (h : Feeds p ts q) :
    q.cerr = p.cerr := by
  induction ts generalizing p with
  | nil => simp [Feeds] at h; rw [h]
  | cons t ts ih =>
    have := ih h.2
    simpa [SarcasmParser.nextToken] using this

theorem termOp_of_tag {t : TokenType} {c : Char} (h : multiplicativeTag t = some c) :
    isTermOp t = true ∧ termOp t = c ∧ isExprOp t = false := by
  cases t <;> simp [multiplicativeTag] at h <;> subst h <;> decide

theorem exprOp_of_tag {t : TokenType} {c : Char} (h : additiveTag t = some c) :
    isExprOp t = true ∧ exprOp t = c ∧ isTermOp t = false := by
  cases t <;> simp [additiveTag] at h <;> subst h <;> decide

theorem parseTermLoop_stop {left : ASTNode} {q : SarcasmParser}
    (h : isTermOp q.currentToken.type = false) :
    Returns (fun fuel => parseTermLoop fuel left q) (left, q) := by
  refine ⟨1, fun fuel hf => ?_⟩
  obtain ⟨f, rfl⟩ : ∃ f, fuel = f + 1 := ⟨fuel - 1, by omega⟩
  simp [parseTermLoop, h]

theorem parseExpressionLoop_stop {left : ASTNode} {q : SarcasmParser}
    (h : isExprOp q.currentToken.type = false) :
    Returns (fun fuel => parseExpressionLoop fuel left q) (left, q) := by
  refine ⟨1, fun fuel hf => ?_⟩
  obtain ⟨f, rfl⟩ : ∃ f, fuel = f + 1 := ⟨fuel - 1, by omega⟩
  simp [parseExpressionLoop, h]

theorem parseTerm_returns {p p1 : SarcasmParser} {left : ASTNode} {r : ASTNode × SarcasmParser}
    (h1 : Returns (fun fuel => parseFactor fuel p) (left, p1))
    (h2 : Returns (fun fuel => parseTermLoop fuel left p1) r) :
    Returns (fun fuel => parseTerm fuel p) r := by
  obtain ⟨n1, h1⟩ := h1
  obtain ⟨n2, h2⟩ := h2
  refine ⟨max n1 n2 + 1, fun fuel hf => ?_⟩
  obtain ⟨f, rfl⟩ : ∃ f, fuel = f + 1 := ⟨fuel - 1, by omega⟩
  simp only [parseTerm, h1 f (by omega), h2 f (by omega)]

theorem parseTermLoop_returns {p p1 : SarcasmParser} {left right : ASTNode}
    {r : ASTNode × SarcasmParser}
    (hop : isTermOp p.currentToken.type = true)
    (h1 : Returns (fun fuel => parseFactor fuel p.nextToken) (right, p1))
    (h2 : Returns (fun fuel =>
      parseTermLoop fuel (BinaryExprAST (termOp p.currentToken.type) left right) p1) r) :
    Returns (fun fuel => parseTermLoop fuel left p) r := by
  obtain ⟨n1, h1⟩ := h1
  obtain ⟨n2, h2⟩ := h2
  refine ⟨max n1 n2 + 1, fun fuel hf => ?_⟩
  obtain ⟨f, rfl⟩ : ∃ f, fuel = f + 1 := ⟨fuel - 1, by omega⟩
  simp only [parseTermLoop, hop, if_true, h1 f (by omega), h2 f (by omega)]

theorem parseExpression_returns {p p1 : SarcasmParser} {left : ASTNode}
    {r : ASTNode × SarcasmParser}
    (h1 : Returns (fun fuel => parseTerm fuel p) (left, p1))
    (h2 : Returns (fun fuel => parseExpressionLoop fuel left p1) r) :
    Returns (fun fuel => parseExpression fuel p) r := by
  obtain ⟨n1, h1⟩ := h1
  obtain ⟨n2, h2⟩ := h2
  refine ⟨max n1 n2 + 1, fun fuel hf => ?_⟩
  obtain ⟨f, rfl⟩ : ∃ f, fuel = f + 1 := ⟨fuel - 1, by omega⟩
  simp only [parseExpression, h1 f (by omega), h2 f (by omega)]

theorem parseExpressionLoop_returns {p p1 : SarcasmParser} {left right : ASTNode}
    {r : ASTNode × SarcasmParser}
    (hop : isExprOp p.currentToken.type = true)
    (h1 : Returns (fun fuel => parseTerm fuel p.nextToken) (right, p1))
    (h2 : Returns (fun fuel =>
      parseExpressionLoop fuel (BinaryExprAST (exprOp p.currentToken.type) left right) p1) r) :
    Returns (fun fuel => parseExpressionLoop fuel left p) r := by
  obtain ⟨n1, h1⟩ := h1
  obtain ⟨n2, h2⟩ := h2
  refine ⟨max n1 n2 + 1, fun fuel hf => ?_⟩
  obtain ⟨f, rfl⟩ : ∃ f, fuel = f + 1 := ⟨fuel - 1, by omega⟩
  simp only [parseExpressionLoop, hop, if_true, h1 f (by omega), h2 f (by omega)]

theorem parseFactor_paren {p p1 : SarcasmParser} {e : ASTNode}
    (hl : p.currentToken.type = TOKEN_LPAREN)
    (h1 : Returns (fun fuel => parseExpression fuel p.nextToken) (e, p1))
    (hr : p1.currentToken.type = TOKEN_RPAREN) :
    Returns (fun fuel => parseFactor fuel p) (e, p1.nextToken) := by
  obtain ⟨n1, h1⟩ := h1
  refine ⟨n1 + 1, fun fuel hf => ?_⟩
  obtain ⟨f, rfl⟩ : ∃ f, fuel = f + 1 := ⟨fuel - 1, by omega⟩
  simp [parseFactor, hl, h1 f (by omega), hr]

theorem parseStatement_assignment {p q : SarcasmParser} {e : ASTNode}
    (hx : p.currentToken.type = TOKEN_IDENTIFIER)
    (heq : p.nextToken.currentToken.type = TOKEN_ASSIGN)
    (h1 : Returns (fun fuel => parseExpression fuel p.nextToken.nextToken) (e, q)) :
    Returns (fun fuel => parseStatement fuel p) (AssignmentAST p.currentToken.value e, q) := by
  obtain ⟨n1, h1⟩ := h1
  refine ⟨n1 + 1, fun fuel hf => ?_⟩
  obtain ⟨f, rfl⟩ : ∃ f, fuel = f + 1 := ⟨fuel - 1, by omega⟩
  simp [parseStatement, hx, heq, h1 f (by omega)]

theorem parseStatement_rest {p : SarcasmParser} {r : ASTNode × SarcasmParser}
    (hx : p.currentToken.type ≠ TOKEN_IDENTIFIER)
    (h1 : Returns (fun fuel => parseStatementRest fuel p) r) :
    Returns (fun fuel => parseStatement fuel p) r := by
  obtain ⟨n1, h1⟩ := h1
  refine ⟨n1 + 1, fun fuel hf => ?_⟩
  obtain ⟨f, rfl⟩ : ∃ f, fuel = f + 1 := ⟨fuel - 1, by omega⟩
  simp [parseStatement, hx, h1 f (by omega)]

theorem parseStatementRest_print {p q : SarcasmParser} {e : ASTNode}
    (hv : p.currentToken.type = TOKEN_SHOW)
    (h1 : Returns (fun fuel => parseExpression fuel p.nextToken) (e, q)) :
    Returns (fun fuel => parseStatementRest fuel p) (PrintAST e p.currentToken.value, q) := by
  obtain ⟨n1, h1⟩ := h1
  refine ⟨n1 + 1, fun fuel hf => ?_⟩
  obtain ⟨f, rfl⟩ : ∃ f, fuel = f + 1 := ⟨fuel - 1, by omega⟩
  simp [parseStatementRest, hv, h1 f (by omega)]

theorem parseStatementRest_if {p p1 p2 : SarcasmParser} {cond : ASTNode} {body : List ASTNode}
    (hk : p.currentToken.type = TOKEN_OBVIOUSLY)
    (h1 : Returns (fun fuel => parseExpression fuel p.nextToken) (cond, p1))
    (ht : p1.currentToken.type = TOKEN_THEN)
    (hl : p1.nextToken.currentToken.type = TOKEN_LBRACE)
    (h2 : Returns (fun fuel => parseBlock fuel [] p1.nextToken.nextToken) (body, p2))
    (hr : p2.currentToken.type = TOKEN_RBRACE) :
    Returns (fun fuel => parseStatementRest fuel p) (IfAST cond body, p2.nextToken) := by
  obtain ⟨n1, h1⟩ := h1
  obtain ⟨n2, h2⟩ := h2
  refine ⟨max n1 n2 + 1, fun fuel hf => ?_⟩
  obtain ⟨f, rfl⟩ : ∃ f, fuel = f + 1 := ⟨fuel - 1, by omega⟩
  simp [parseStatementRest, hk, h1 f (by omega), ht, hl, h2 f (by omega), hr]

theorem parseStatementRest_while {p p1 p2 : SarcasmParser} {cond : ASTNode}
    {body : List ASTNode}
    (hk : p.currentToken.type = TOKEN_WHATEVER)
    (h1 : Returns (fun fuel => parseExpression fuel p.nextToken) (cond, p1))
    (ht : p1.currentToken.type = TOKEN_DO)
    (hl : p1.nextToken.currentToken.type = TOKEN_LBRACE)
    (h2 : Returns (fun fuel => parseBlock fuel [] p1.nextToken.nextToken) (body, p2))
    (hr : p2.currentToken.type = TOKEN_RBRACE) :
    Returns (fun fuel => parseStatementRest fuel p) (WhileAST cond body, p2.nextToken) := by
  obtain ⟨n1, h1⟩ := h1
  obtain ⟨n2, h2⟩ := h2
  refine ⟨max n1 n2 + 1, fun fuel hf => ?_⟩
  obtain ⟨f, rfl⟩ : ∃ f, fuel = f + 1 := ⟨fuel - 1, by omega⟩
  simp [parseStatementRest, hk, h1 f (by omega), ht, hl, h2 f (by omega), hr]

theorem parseLine_returns {p q : SarcasmParser} {s : ASTNode}
    (ht : p.currentToken.type = TOKEN_INSULT)
    (hc : p.nextToken.currentToken.type = TOKEN_COLON)
    (h1 : Returns (fun fuel => parseStatement fuel p.nextToken.nextToken) (s, q))
    (hs : s ≠ nullptr) :
    Returns (fun fuel => parseLine fuel p) (SarcasmLineAST p.currentToken.value s, q) := by
  obtain ⟨n1, h1⟩ := h1
  refine ⟨n1 + 1, fun fuel hf => ?_⟩
  obtain ⟨f, rfl⟩ : ∃ f, fuel = f + 1 := ⟨fuel - 1, by omega⟩
  simp [parseLine, ht, hc, h1 f (by omega), hs]

theorem parseBlock_stop {p : SarcasmParser} {acc : List ASTNode}
    (h : p.currentToken.type = TOKEN_RBRACE ∨ p.currentToken.type = TOKEN_EOF) :
    Returns (fun fuel => parseBlock fuel acc p) (acc, p) := by
  refine ⟨1, fun fuel hf => ?_⟩
  obtain ⟨f, rfl⟩ : ∃ f, fuel = f + 1 := ⟨fuel - 1, by omega⟩
  rcases h with h | h <;> simp [parseBlock, h]

theorem parseBlock_returns {p m : SarcasmParser} {acc : List ASTNode} {l : ASTNode}
    {r : List ASTNode × SarcasmParser}
    (ht : p.currentToken.type = TOKEN_INSULT)
    (h1 : Returns (fun fuel => parseLine fuel p) (l, m)) (hl : l ≠ nullptr)
    (h2 : Returns (fun fuel => parseBlock fuel (acc ++ [l]) m) r) :
    Returns (fun fuel => parseBlock fuel acc p) r := by
  obtain ⟨n1, h1⟩ := h1
  obtain ⟨n2, h2⟩ := h2
  refine ⟨max n1 n2 + 1, fun fuel hf => ?_⟩
  obtain ⟨f, rfl⟩ : ∃ f, fuel = f + 1 := ⟨fuel - 1, by omega⟩
  simp [parseBlock, ht, h1 f (by omega), hl, h2 f (by omega)]

theorem parseProgramLoop_stop {p : SarcasmParser} {acc : List ASTNode}
    (h : p.currentToken.type = TOKEN_EOF) :
    Returns (fun fuel => parseProgramLoop fuel acc p) (acc, p) := by
  refine ⟨1, fun fuel hf => ?_⟩
  obtain ⟨f, rfl⟩ : ∃ f, fuel = f + 1 := ⟨fuel - 1, by omega⟩
  simp [parseProgramLoop, h]

theorem parseProgramLoop_returns {p m : SarcasmParser} {acc : List ASTNode} {l : ASTNode}
    {r : List ASTNode × SarcasmParser}
    (ht : p.currentToken.type = TOKEN_INSULT)
    (h1 : Returns (fun fuel => parseLine fuel p) (l, m)) (hl : l ≠ nullptr)
    (h2 : Returns (fun fuel => parseProgramLoop fuel (acc ++ [l]) m) r) :
    Returns (fun fuel => parseProgramLoop fuel acc p) r := by
  obtain ⟨n1, h1⟩ := h1
  obtain ⟨n2, h2⟩ := h2
  refine ⟨max n1 n2 + 1, fun fuel hf => ?_⟩
  obtain ⟨f, rfl⟩ : ∃ f, fuel = f + 1 := ⟨fuel - 1, by omega⟩
  simp [parseProgramLoop, ht, h1 f (by omega), hl, h2 f (by omega)]

theorem expression_returns {ts : List Token} {e : ASTNode}
    (h : ParsesAs Nonterminal.expression ts e) {p q : SarcasmParser} (hf : Feeds p ts q)
    (h1 : isTermOp q.currentToken.type = false) (h2 : isExprOp q.currentToken.type = false) :
    Returns (fun fuel => parseExpression fuel p) (e, q) :=
  h p q hf h1 _ (parseExpressionLoop_stop h2)

theorem derives_parsesAs {n : Nonterminal} {ts : List Token} {r : n.Result}
    (h : Derives n ts r) : ParsesAs n ts r := by
  induction h with
  | number t ht =>
    intro p q hf
    obtain ⟨h1, h2⟩ := hf
    change q = p.nextToken at h2
    subst h1 h2
    refine ⟨1, fun fuel hfu => ?_⟩
    obtain ⟨f, rfl⟩ : ∃ f, fuel = f + 1 := ⟨fuel - 1, by omega⟩
    simp [parseFactor, ht]
  | ident t ht =>
    intro p q hf
    obtain ⟨h1, h2⟩ := hf
    change q = p.nextToken at h2
    subst h1 h2
    refine ⟨1, fun fuel hfu => ?_⟩
    obtain ⟨f, rfl⟩ : ∃ f, fuel = f + 1 := ⟨fuel - 1, by omega⟩
    simp [parseFactor, ht]
  | paren l r ts e hl _ hr ih =>
    intro p q hf
    obtain ⟨h1, h2⟩ := hf
    obtain ⟨m, h3, h4, h5⟩ := feeds_append.mp h2
    change q = m.nextToken at h5
    subst h1 h4 h5
    exact parseFactor_paren hl
      (expression_returns ih h3 (by rw [hr]; decide) (by rw [hr]; decide)) hr
  | termFactor ts e _ ih =>
    intro p q hf r hr
    exact parseTerm_returns (ih p q hf) hr
  | termOp ts ts2 o c l r _ hc _ ih1 ih2 =>
    intro p q hf res hres
    obtain ⟨m, h1, h2, h3⟩ := feeds_append.mp hf
    subst h2
    obtain ⟨hop, hch, -⟩ := termOp_of_tag hc
    exact ih1 p m h1 res (parseTermLoop_returns hop (ih2 _ q h3) (by rw [hch]; exact hres))
  | exprTerm ts e _ ih =>
    intro p q hf hq r hr
    exact parseExpression_returns (ih p q hf _ (parseTermLoop_stop hq)) hr
  | exprOp ts ts2 o c l r _ hc _ ih1 ih2 =>
    intro p q hf hq res hres
    obtain ⟨m, h1, h2, h3⟩ := feeds_append.mp hf
    subst h2
    obtain ⟨hop, hch, hnt⟩ := exprOp_of_tag hc
    exact ih1 p m h1 hnt res
      (parseExpressionLoop_returns hop (ih2 _ q h3 _ (parseTermLoop_stop hq))
        (by rw [hch]; exact hres))
  | assignment x eq ts e hx heq _ ih =>
    refine ⟨by simp, fun p q hf hq1 hq2 => ?_⟩
    obtain ⟨h1, h2, h3⟩ := hf
    subst h1 h2
    exact parseStatement_assignment hx heq (expression_returns ih h3 hq1 hq2)
  | print v ts e hv _ ih =>
    refine ⟨by simp, fun p q hf hq1 hq2 => ?_⟩
    obtain ⟨h1, h2⟩ := hf
    subst h1
    exact parseStatement_rest (by rw [hv]; decide)
      (parseStatementRest_print hv (expression_returns ih h2 hq1 hq2))
  | ifStmt kw th lb rb tc tb cond body hk _ ht hl _ hr ih1 ih2 =>
    refine ⟨by simp, fun p q hf _ _ => ?_⟩
    obtain ⟨h1, h2⟩ := hf
    obtain ⟨m1, h3, h4, h5, h6⟩ := feeds_append.mp h2
    obtain ⟨m2, h7, h8, h9⟩ := feeds_append.mp h6
    change q = m2.nextToken at h9
    subst h1 h4 h5 h8 h9
    obtain ⟨-, hb, -⟩ := ih2 _ m2 h7 (Or.inl hr)
    exact parseStatement_rest (by rw [hk]; decide)
      (parseStatementRest_if hk
        (expression_returns ih1 h3 (by rw [ht]; decide) (by rw [ht]; decide)) ht hl
        (by simpa using hb []) hr)
  | whileStmt kw d lb rb tc tb cond body hk _ ht hl _ hr ih1 ih2 =>
    refine ⟨by simp, fun p q hf _ _ => ?_⟩
    obtain ⟨h1, h2⟩ := hf
    obtain ⟨m1, h3, h4, h5, h6⟩ := feeds_append.mp h2
    obtain ⟨m2, h7, h8, h9⟩ := feeds_append.mp h6
    change q = m2.nextToken at h9
    subst h1 h4 h5 h8 h9
    obtain ⟨-, hb, -⟩ := ih2 _ m2 h7 (Or.inl hr)
    exact parseStatement_rest (by rw [hk]; decide)
      (parseStatementRest_while hk
        (expression_returns ih1 h3 (by rw [ht]; decide) (by rw [ht]; decide)) ht hl
        (by simpa using hb []) hr)
  | line tag colon ts s ht hc _ ih =>
    refine ⟨by simp, fun p q hf => ?_⟩
    obtain ⟨h1, h2, h3⟩ := hf
    subst h1 h2
    exact ⟨ht, fun hq1 hq2 => parseLine_returns ht hc (ih.2 _ q h3 hq1 hq2) ih.1⟩
  | linesNil =>
    intro p q hf hq
    change q = p at hf
    subst hf
    refine ⟨?_, fun acc => ?_, fun hq2 acc => ?_⟩
    · rcases hq with hq | hq <;> rw [hq] <;> decide
    · change Returns (fun fuel => parseBlock fuel acc q) (acc ++ ([] : List ASTNode), q)
      rw [List.append_nil]
      exact parseBlock_stop hq
    · change Returns (fun fuel => parseProgramLoop fuel acc q) (acc ++ ([] : List ASTNode), q)
      rw [List.append_nil]
      exact parseProgramLoop_stop hq2
  | linesCons ts ts2 l ls _ _ ih1 ih2 =>
    intro p q hf hq
    obtain ⟨m, h1, h2⟩ := feeds_append.mp hf
    obtain ⟨⟨hm1, hm2⟩, hb, hp⟩ := ih2 m q h2 hq
    obtain ⟨ht, hline⟩ := ih1.2 p m h1
    refine ⟨by rw [ht]; decide, fun acc => ?_, fun hq2 acc => ?_⟩
    · have e : acc ++ [l] ++ ls = acc ++ (l :: ls : List ASTNode) := by simp
      exact parseBlock_returns ht (hline hm1 hm2) ih1.1 (e ▸ hb (acc ++ [l]))
    · have e : acc ++ [l] ++ ls = acc ++ (l :: ls : List ASTNode) := by simp
      exact parseProgramLoop_returns ht (hline hm1 hm2) ih1.1 (e ▸ hp hq2 (acc ++ [l]))

/-! ### The counting loop -/

theorem generateMain_loop (t1 t2 t3 t4 : String) (n : ℕ) :
    ∃ s, generateMain Globals.initial (loopProgram t1 t2 t3 t4 n) = some s ∧
      s.blocks = loopBlocks n ∧ s.allocas.length = 1 := by
  refine ⟨_, rfl, rfl, rfl⟩

theorem loop_exit (n : ℕ) (m : Machine) (T : List ℕ) (hb : m.block = 1) (hpc : m.pc = 0)
    (hmem : m.mem 0 = RVal.fp n) (ht : m.trace = T ++ [1]) (fuel : ℕ) (hf : 8 ≤ fuel) :
    exec (loopBlocks n) 1 fuel m =
      ExecResult.returned (m.out ++ [(printFormat "show", RVal.fp n)]) (T ++ loopTrace 0) := by
  obtain ⟨f, rfl⟩ : ∃ f, fuel = f + 8 := ⟨fuel - 8, by omega⟩
  simp [exec, fetch, loopBlocks, step, Machine.setReg, Machine.eval, Machine.jump, compare, arith,
    hb, hpc, hmem, ht, loopTrace]

theorem loop_exec (n k : ℕ) : ∀ (i : ℕ) (m : Machine) (T : List ℕ), i + k = n →
    m.block = 1 → m.pc = 0 → m.mem 0 = RVal.fp i → m.trace = T ++ [1] →
    ∀ fuel, 9 * k + 8 ≤ fuel →
    exec (loopBlocks n) 1 fuel m =
      ExecResult.returned (m.out ++ [(printFormat "show", RVal.fp n)]) (T ++ loopTrace k) := by
  induction k with
  | zero =>
    intro i m T hik hb hpc hmem ht fuel hf
    have : i = n := by omega
    subst this
    exact loop_exit i m T hb hpc hmem ht fuel (by omega)
  | succ k ih =>
    intro i m T hik hb hpc hmem ht fuel hf
    obtain ⟨f, rfl⟩ : ∃ f, fuel = f + 9 := ⟨fuel - 9, by omega⟩
    have hlt : (i : ℚ) < (n : ℚ) := by exact_mod_cast (by omega : i < n)
    have key : exec (loopBlocks n) 1 (f + 9) m =
        exec (loopBlocks n) 1 f
          { block := 1, pc := 0,
            regs := fun r => if r = 5 then RVal.fp ((i + 1 : ℕ) : ℚ) else
              if r = 4 then RVal.fp i else if r = 3 then RVal.bit true else
              if r = 2 then RVal.fp 1 else if r = 1 then RVal.bit true else
              if r = 0 then RVal.fp i else m.regs r,
            mem := fun a => if a = 0 then RVal.fp ((i + 1 : ℕ) : ℚ) else m.mem a,
            out := m.out, trace := (T ++ [1, 2]) ++ [1] } := by
      simp [exec, fetch, loopBlocks, step, Machine.setReg, Machine.eval, Machine.jump, compare,
        arith, hb, hpc, hmem, ht, hlt]
    rw [key, ih (i + 1) _ (T ++ [1, 2]) (by omega) rfl rfl (by simp) rfl f (by omega)]
    simp [loopTrace]

theorem loopTokens_derive (t1 t2 t3 t4 text : String) (n : ℕ) :
    Derives Nonterminal.lines (loopTokens t1 t2 t3 t4 text n)
      (loopProgram t1 t2 t3 t4 n : List ASTNode) := by
  have var : Derives Nonterminal.term [⟨TOKEN_IDENTIFIER, "i", 0⟩] (VariableExprAST "i") :=
    Derives.termFactor _ _ (Derives.ident ⟨TOKEN_IDENTIFIER, "i", 0⟩ rfl)
  have num : ∀ (s : String) (k : ℚ),
      Derives Nonterminal.term [⟨TOKEN_NUMBER, s, k⟩] (NumberExprAST k) :=
    fun s k => Derives.termFactor _ _ (Derives.number ⟨TOKEN_NUMBER, s, k⟩ rfl)
  have l1 := Derives.line ⟨TOKEN_INSULT, t1, 0⟩ ⟨TOKEN_COLON, ":", 0⟩ _ _ rfl rfl
    (Derives.assignment ⟨TOKEN_IDENTIFIER, "i", 0⟩ ⟨TOKEN_ASSIGN, "=", 0⟩ _ _ rfl rfl
      (Derives.exprTerm _ _ (num "0" 0)))
  have l3 := Derives.line ⟨TOKEN_INSULT, t3, 0⟩ ⟨TOKEN_COLON, ":", 0⟩ _ _ rfl rfl
    (Derives.assignment ⟨TOKEN_IDENTIFIER, "i", 0⟩ ⟨TOKEN_ASSIGN, "=", 0⟩ _ _ rfl rfl
      (Derives.exprOp _ _ ⟨TOKEN_PLUS, "+", 0⟩ '+' _ _ (Derives.exprTerm _ _ var) rfl
        (num "1" 1)))
  have l2 := Derives.line ⟨TOKEN_INSULT, t2, 0⟩ ⟨TOKEN_COLON, ":", 0⟩ _ _ rfl rfl
    (Derives.whileStmt ⟨TOKEN_WHATEVER, "whatever", 0⟩ ⟨TOKEN_DO, "do", 0⟩
      ⟨TOKEN_LBRACE, "\x7b", 0⟩ ⟨TOKEN_RBRACE, "\x7d", 0⟩ _ _ _ _ rfl
      (Derives.exprOp _ _ ⟨TOKEN_LESS, "<", 0⟩ '<' _ _ (Derives.exprTerm _ _ var) rfl
        (num text n))
      rfl rfl (Derives.linesCons _ _ _ _ l3 Derives.linesNil) rfl)
  have l4 := Derives.line ⟨TOKEN_INSULT, t4, 0⟩ ⟨TOKEN_COLON, ":", 0⟩ _ _ rfl rfl
    (Derives.print ⟨TOKEN_SHOW, "show", 0⟩ _ _ rfl
      (Derives.exprTerm _ _ var))
  exact Derives.linesCons _ _ _ _ l1
    (Derives.linesCons _ _ _ _ l2 (Derives.linesCons _ _ _ _ l4 Derives.linesNil))

theorem loopTrace_count (n : ℕ) : (loopTrace n).count 2 = n ∧ (loopTrace n).count 1 = n + 1 := by
  induction n with
  | zero => decide
  | succ n ih => simp [loopTrace, ih.1, ih.2]

theorem formatFixed2_natCast (n : ℕ) : formatFixed2 (n : ℚ) = Nat.repr n ++ ".00" := by
  have h0 : ¬ ((n : ℚ) < 0) := by simp
  have h1 : |(n : ℚ)| * 100 = ((n * 100 : ℕ) : ℚ) := by
    rw [abs_of_nonneg (by simp)]; push_cast; ring
  have hfl : ⌊((n * 100 : ℕ) : ℚ)⌋.toNat = n * 100 := by
    rw [Int.floor_natCast, Int.toNat_natCast]
  have h2 : ¬ ((0 : ℚ) > 1 / 2 ∨ ((0 : ℚ) = 1 / 2 ∧ n * 100 % 2 = 1)) := by norm_num
  have h3 : Nat.repr 0 = "0" := by decide
  simp only [formatFixed2, h0, h1, hfl, sub_self, h2, if_false, Nat.mul_div_cancel n (by norm_num : 0 < 100),
    Nat.mul_mod_left, h3]
  apply String.ext
  simp [String.data_append]

theorem printfText_show_natCast (n : ℕ) :
    printfText (printFormat "show", RVal.fp n) =
      some ("Fine, here\x27s your precious number: " ++ Nat.repr n ++ ".00\n") := by
  simp only [printfText, formatFixed2_natCast]
  congr 1
  apply String.ext
  simp [printFormat, expandFormat, String.data_append]

theorem parseProgram_of_derives {ts : List Token} {prog : List ASTNode} {p q : SarcasmParser}
    (hd : Derives Nonterminal.lines ts prog) (hf : Feeds p ts q)
    (hq : q.currentToken.type = TOKEN_EOF) :
    Returns (fun fuel => parseProgram fuel p) (prog, q) := by
  have h := (derives_parsesAs hd p q hf (Or.inr hq)).2.2 hq []
  simpa [parseProgram] using h

/-! ### Code generation only adds code -/

theorem codeExtends_refl (B : List (List Instr)) : CodeExtends B B := fun _ _ _ h => h

theorem codeExtends_trans {A B C : List (List Instr)} (h1 : CodeExtends A B)
    (h2 : CodeExtends B C) : CodeExtends A C := fun b pc i h => h2 b pc i (h1 b pc i h)

theorem length_appendAt (i : Instr) (B : List (List Instr)) :
    ∀ j, (appendAt i j B).length = B.length := by
  induction B with
  | nil => intro j; simp [appendAt]
  | cons b bs ih => intro j; cases j <;> simp [appendAt, ih]

theorem codeExtends_appendAt (i : Instr) (B : List (List Instr)) :
    ∀ j, CodeExtends B (appendAt i j B) := by
  induction B with
  | nil => intro j; simp [appendAt]; exact codeExtends_refl _
  | cons b bs ih =>
    intro j k pc x h
    cases j with
    | zero =>
      cases k with
      | zero =>
        simp [fetch, appendAt] at h ⊢
        rw [List.getElem?_append_left]
        · exact h
        · exact (List.getElem?_eq_some_iff.mp h).1
      | succ k => simpa [fetch, appendAt] using h
    | succ j =>
      cases k with
      | zero => simpa [fetch, appendAt] using h
      | succ k =>
        have := ih j k pc x (by simpa [fetch] using h)
        simpa [fetch, appendAt] using this

theorem fetch_eq (B : List (List Instr)) (b pc : Nat) :
    fetch B b pc = B[b]?.bind (fun blk => blk[pc]?) := by
  unfold fetch
  rw [List.get?_eq_getElem?]
  cases B[b]? <;> simp

theorem codeExtends_append (B C : List (List Instr)) : CodeExtends B (B ++ C) := by
  intro b pc i h
  rw [fetch_eq] at h ⊢
  cases hb : B[b]? with
  | none => simp [hb] at h
  | some blk =>
    have hlt : b < B.length := (List.getElem?_eq_some_iff.mp hb).1
    rw [List.getElem?_append_left hlt, hb]
    rw [hb] at h
    exact h

theorem getElem?_appendAt_ne (i : Instr) (B : List (List Instr)) :
    ∀ j b, b ≠ j → (appendAt i j B)[b]? = B[b]? := by
  induction B with
  | nil => intro j b _; simp [appendAt]
  | cons x xs ih =>
    intro j b hne
    cases j with
    | zero =>
      cases b with
      | zero => exact absurd rfl hne
      | succ b => simp [appendAt]
    | succ j =>
      cases b with
      | zero => simp [appendAt]
      | succ b => simpa [appendAt] using ih j b (by omega)

theorem keeps_emit {s0 s : CodegenState} (i : Instr) (h : Keeps s0 s) : Keeps s0 (emit i s) where
  valid := by simpa [emit, length_appendAt] using h.valid
  more := by simpa [emit, length_appendAt] using h.more
  code := codeExtends_trans h.code (codeExtends_appendAt _ _ _)
  other := by
    intro b hb hne
    have hp := h.point
    show (appendAt i s.insertBlock s.blocks)[b]? = _
    rw [getElem?_appendAt_ne _ _ _ _ (by omega)]
    exact h.other b hb hne
  point := h.point

theorem keeps_emitValue {s0 s : CodegenState} (mk : Nat → Instr) (h : Keeps s0 s) :
    Keeps s0 (emitValue mk s).2 :=
  keeps_emit (s := { s with nextId := s.nextId + 1 }) (mk s.nextId)
    ⟨h.valid, h.more, h.code, h.other, h.point⟩

theorem keeps_alloca {s0 s : CodegenState} (name : String) (h : Keeps s0 s) :
    Keeps s0 (createEntryBlockAlloca name s).2 :=
  ⟨h.valid, h.more, h.code, h.other, h.point⟩

theorem keeps_createBlock {s0 s : CodegenState} (h : Keeps s0 s) :
    Keeps s0 (createBlock s).2 where
  valid := by have := h.valid; simp [createBlock]; omega
  more := by have := h.more; simp [createBlock]; omega
  code := codeExtends_trans h.code (codeExtends_append _ _)
  other := by
    intro b hb hne
    have := h.more
    show (s.blocks ++ [[]])[b]? = _
    rw [List.getElem?_append_left (by omega)]
    exact h.other b hb hne
  point := h.point

theorem keeps_setInsertPoint {s0 s : CodegenState} (b : Nat) (hb : b < s.blocks.length)
    (hb0 : s0.blocks.length ≤ b) (h : Keeps s0 s) : Keeps s0 (setInsertPoint b s) :=
  ⟨hb, h.more, h.code, h.other, Or.inr hb0⟩

theorem keeps_trans {s0 s1 s2 : CodegenState} (h1 : Keeps s0 s1) (h2 : Keeps s1 s2) :
    Keeps s0 s2 where
  valid := h2.valid
  more := le_trans h1.more h2.more
  code := codeExtends_trans h1.code h2.code
  other := by
    intro b hb hne
    have hm := h1.more
    rw [h2.other b (by omega) (by rcases h1.point with hp | hp <;> omega)]
    exact h1.other b hb hne
  point := by
    have hm := h1.more
    rcases h2.point with hp | hp
    · rcases h1.point with hq | hq
      · exact Or.inl (hp.trans hq)
      · exact Or.inr (by omega)
    · exact Or.inr (by omega)

theorem keeps_refl {s : CodegenState} (h : s.insertBlock < s.blocks.length) : Keeps s s :=
  ⟨h, le_refl _, codeExtends_refl _, fun _ _ _ => rfl, Or.inl rfl⟩

theorem thenEntry_length (condVal : Value) (s1 : CodegenState) :
    (thenEntry condVal s1).blocks.length = s1.blocks.length + 2 := by
  simp [thenEntry, emit, createBlock, emitValue, setInsertPoint, length_appendAt]

theorem keeps_thenEntry {s0 s1 : CodegenState} (condVal : Value) (h : Keeps s0 s1) :
    Keeps s0 (thenEntry condVal s1) := by
  unfold thenEntry
  have := h.more
  refine keeps_setInsertPoint _ ?_ ?_ (keeps_emit _ (keeps_createBlock (keeps_createBlock
    (keeps_emitValue _ h))))
  · simp [emit, createBlock, emitValue, length_appendAt]
  · simpa [emit, createBlock, emitValue, length_appendAt] using this

mutual
theorem codegen_keeps : ∀ (a : ASTNode) (s : CodegenState) (r : Option Value)
    (s2 : CodegenState), codegen a s = some (r, s2) → s.insertBlock < s.blocks.length →
    Keeps s s2
  | .nullptr, s, r, s2, h, hs => by simp [codegen] at h
  | .NumberExprAST v, s, r, s2, h, hs => by
    simp only [codegen, Option.some.injEq, Prod.mk.injEq] at h
    obtain ⟨-, rfl⟩ := h
    exact keeps_refl hs
  | .VariableExprAST name, s, r, s2, h, hs => by
    simp only [codegen] at h
    split at h
    · simp only [Option.some.injEq, Prod.mk.injEq] at h
      obtain ⟨-, rfl⟩ := h
      exact keeps_emitValue _ (keeps_refl hs)
    · simp only [Option.some.injEq, Prod.mk.injEq] at h
      obtain ⟨-, rfl⟩ := h
      exact keeps_emitValue _ (keeps_emit _ (keeps_alloca _ (keeps_refl hs)))
  | .BinaryExprAST op lhs rhs, s, r, s2, h, hs => by
    simp only [codegen] at h
    cases h1 : codegen lhs s with
    | none => simp [h1] at h
    | some p1 =>
      obtain ⟨l, s1⟩ := p1
      have k1 := codegen_keeps lhs s l s1 h1 hs
      simp only [h1] at h
      cases h2 : codegen rhs s1 with
      | none => simp [h2] at h
      | some p2 =>
        obtain ⟨rv, sr⟩ := p2
        have k2 := keeps_trans k1 (codegen_keeps rhs s1 rv sr h2 k1.valid)
        simp only [h2] at h
        cases l <;> cases rv <;> simp only [Option.some.injEq, Prod.mk.injEq] at h
        · obtain ⟨-, rfl⟩ := h; exact k2
        · obtain ⟨-, rfl⟩ := h; exact k2
        · obtain ⟨-, rfl⟩ := h; exact k2
        · split_ifs at h <;> simp only [Option.some.injEq, Prod.mk.injEq] at h <;>
            obtain ⟨-, rfl⟩ := h
          · exact keeps_emitValue _ k2
          · exact keeps_emitValue _ k2
          · exact keeps_emitValue _ k2
          · exact keeps_emitValue _ k2
          · exact keeps_emitValue _ (keeps_emitValue _ k2)
          · exact keeps_emitValue _ (keeps_emitValue _ k2)
          · exact k2
  | .AssignmentAST varName expr, s, r, s2, h, hs => by
    simp only [codegen] at h
    cases h1 : codegen expr s with
    | none => simp [h1] at h
    | some p1 =>
      obtain ⟨v, s1⟩ := p1
      have k1 := codegen_keeps expr s v s1 h1 hs
      simp only [h1] at h
      cases v with
      | none =>
        simp only [Option.some.injEq, Prod.mk.injEq] at h
        obtain ⟨-, rfl⟩ := h; exact k1
      | some val =>
        simp only at h
        split at h <;> simp only [Option.some.injEq, Prod.mk.injEq] at h <;>
          obtain ⟨-, rfl⟩ := h
        · exact keeps_emit _ k1
        · exact keeps_emit _ (keeps_alloca _ k1)
  | .PrintAST expr printWord, s, r, s2, h, hs => by
    simp only [codegen] at h
    cases h1 : codegen expr s with
    | none => simp [h1] at h
    | some p1 =>
      obtain ⟨v, s1⟩ := p1
      have k1 := codegen_keeps expr s v s1 h1 hs
      simp only [h1] at h
      cases v with
      | none =>
        simp only [Option.some.injEq, Prod.mk.injEq] at h
        obtain ⟨-, rfl⟩ := h; exact k1
      | some val =>
        simp only [Option.some.injEq, Prod.mk.injEq] at h
        obtain ⟨-, rfl⟩ := h
        exact keeps_emitValue _ k1
  | .IfAST condition thenStmts, s, r, s2, h, hs => by
    simp only [codegen] at h
    cases h1 : codegen condition s with
    | none => simp [h1] at h
    | some p1 =>
      obtain ⟨v, s1⟩ := p1
      have k1 := codegen_keeps condition s v s1 h1 hs
      simp only [h1] at h
      cases v with
      | none =>
        simp only [Option.some.injEq, Prod.mk.injEq] at h
        obtain ⟨-, rfl⟩ := h; exact k1
      | some condVal =>
        simp only at h
        have k2 := keeps_thenEntry condVal k1
        cases h3 : codegenStmts thenStmts (thenEntry condVal s1) with
        | none =>
          simp only [thenEntry] at h3
          simp [h3] at h
        | some s3 =>
          have k3 := keeps_trans k2 (codegenStmts_keeps thenStmts _ s3 h3 k2.valid)
          have h3c := h3
          simp only [thenEntry] at h3
          simp only [h3, Option.some.injEq, Prod.mk.injEq] at h
          obtain ⟨-, rfl⟩ := h
          have h4 := (codegenStmts_keeps thenStmts _ s3 h3c k2.valid).more
          rw [thenEntry_length] at h4
          have h5 := k1.more
          refine keeps_setInsertPoint _ ?_ ?_ (keeps_emit _ k3)
          · simp [emit, createBlock, emitValue, length_appendAt]
            omega
          · simp [emit, createBlock, emitValue, length_appendAt]
            omega
  | .WhileAST condition body, s, r, s2, h, hs => by
    simp only [codegen] at h
    have k0 : Keeps s (setInsertPoint (createBlock s).1
        (emit (Instr.br (createBlock s).1)
          (createBlock (createBlock (createBlock s).2).2).2)) :=
      keeps_setInsertPoint _ (by simp [emit, createBlock, length_appendAt])
        (by simp [createBlock]) (keeps_emit _ (keeps_createBlock (keeps_createBlock (keeps_createBlock
          (keeps_refl hs)))))
    have hlen : s.blocks.length + 3 ≤ (setInsertPoint (createBlock s).1
        (emit (Instr.br (createBlock s).1)
          (createBlock (createBlock (createBlock s).2).2).2)).blocks.length := by
      simp [setInsertPoint, emit, createBlock, length_appendAt]
    cases h1 : codegen condition (setInsertPoint (createBlock s).1
        (emit (Instr.br (createBlock s).1)
          (createBlock (createBlock (createBlock s).2).2).2)) with
    | none => simp [h1] at h
    | some p1 =>
      obtain ⟨v, s1⟩ := p1
      have k1' := codegen_keeps condition _ v s1 h1 k0.valid
      have k1 := keeps_trans k0 k1'
      have hlen1 := le_trans hlen k1'.more
      simp only [h1] at h
      cases v with
      | none =>
        simp only [Option.some.injEq, Prod.mk.injEq] at h
        obtain ⟨-, rfl⟩ := h; exact k1
      | some condVal =>
        simp only at h
        have k2 : Keeps s (setInsertPoint (createBlock (createBlock s).2).1
            (emit (Instr.condBr
                (emitValue (fun id => Instr.fcmpONE id condVal (Value.constFP 0)) s1).1
                (createBlock (createBlock s).2).1
                (createBlock (createBlock (createBlock s).2).2).1)
              (emitValue (fun id => Instr.fcmpONE id condVal (Value.constFP 0)) s1).2)) :=
          keeps_setInsertPoint _
            (by simp [emit, createBlock, emitValue, length_appendAt] at hlen1 ⊢; omega)
            (by simp [createBlock]) (keeps_emit _ (keeps_emitValue _ k1))
        cases h3 : codegenStmts body (setInsertPoint (createBlock (createBlock s).2).1
            (emit (Instr.condBr
                (emitValue (fun id => Instr.fcmpONE id condVal (Value.constFP 0)) s1).1
                (createBlock (createBlock s).2).1
                (createBlock (createBlock (createBlock s).2).2).1)
              (emitValue (fun id => Instr.fcmpONE id condVal (Value.constFP 0)) s1).2)) with
        | none => simp [h3] at h
        | some s3 =>
          have k3' := codegenStmts_keeps body _ s3 h3 k2.valid
          have k3 := keeps_trans k2 k3'
          simp only [h3, Option.some.injEq, Prod.mk.injEq] at h
          obtain ⟨-, rfl⟩ := h
          have h4 := k3'.more
          refine keeps_setInsertPoint _ ?_ (by simp [createBlock]) (keeps_emit _ k3)
          simp [setInsertPoint, emit, createBlock, emitValue, length_appendAt] at h4 hlen1 ⊢
          omega
  | .SarcasmLineAST insult statement, s, r, s2, h, hs => by
    simp only [codegen] at h
    cases h1 : codegen statement s with
    | none => simp [h1] at h
    | some p1 =>
      obtain ⟨v, s1⟩ := p1
      have k1 := codegen_keeps statement s v s1 h1 hs
      simp only [h1, Option.some.injEq, Prod.mk.injEq] at h
      obtain ⟨-, rfl⟩ := h
      exact ⟨k1.valid, k1.more, k1.code, k1.other, k1.point⟩
theorem codegenStmts_keeps : ∀ (l : List ASTNode) (s s2 : CodegenState),
    codegenStmts l s = some s2 → s.insertBlock < s.blocks.length → Keeps s s2
  | [], s, s2, h, hs => by
    simp only [codegenStmts, Option.some.injEq] at h
    subst h
    exact keeps_refl hs
  | a :: rest, s, s2, h, hs => by
    simp only [codegenStmts] at h
    cases h1 : codegen a s with
    | none => simp [h1] at h
    | some p1 =>
      obtain ⟨v, s1⟩ := p1
      have k1 := codegen_keeps a s v s1 h1 hs
      simp only [h1] at h
      exact keeps_trans k1 (codegenStmts_keeps rest s1 s2 h k1.valid)
end

theorem getElem?_appendAt_self (i : Instr) (B : List (List Instr)) :
    ∀ j, j < B.length → (appendAt i j B)[j]? = some ((B[j]?.getD []) ++ [i]) := by
  induction B with
  | nil => intro j h; simp at h
  | cons x xs ih =>
    intro j h
    cases j with
    | zero => simp [appendAt]
    | succ j => simpa [appendAt] using ih j (by simpa using h)

theorem insertPos_eq (s : CodegenState) : s.insertPos = (s.blocks[s.insertBlock]?.getD []).length := by
  simp [insertPos]

theorem fetch_emit (i : Instr) (s : CodegenState) (h : s.insertBlock < s.blocks.length) :
    fetch (emit i s).blocks s.insertBlock s.insertPos = some i := by
  rw [insertPos_eq, fetch_eq]
  show (appendAt i s.insertBlock s.blocks)[s.insertBlock]?.bind _ = _
  rw [getElem?_appendAt_self _ _ _ h]
  simp

theorem steps_add (B : List (List Instr)) (nA : Nat) (a b : Nat) (m : Machine) :
    steps B nA (a + b) m = (steps B nA a m).bind (steps B nA b) := by
  induction a generalizing m with
  | zero => simp [steps]
  | succ a ih =>
    rw [Nat.succ_add]
    simp only [steps]
    cases hf : fetch B m.block m.pc with
    | none => simp
    | some i =>
      cases hs : step nA i m with
      | none => simp [hs]
      | some m1 => simpa [hs] using ih m1

theorem steps_one {B : List (List Instr)} {nA : Nat} {m m1 : Machine} {i : Instr}
    (hf : fetch B m.block m.pc = some i) (hs : step nA i m = some m1) :
    steps B nA 1 m = some m1 := by
  simp [steps, hf, hs]

/-! ### The conditional -/

theorem thenEntry_insertBlock (condVal : Value) (s1 : CodegenState) :
    (thenEntry condVal s1).insertBlock = s1.blocks.length := by
  simp [thenEntry, emit, createBlock, emitValue, setInsertPoint, length_appendAt]

theorem thenEntry_blocks (condVal : Value) (s1 : CodegenState) :
    (thenEntry condVal s1).blocks =
      appendAt (Instr.condBr (Value.inst s1.nextId) s1.blocks.length (s1.blocks.length + 1))
        s1.insertBlock
        (appendAt (Instr.fcmpONE s1.nextId condVal (Value.constFP 0)) s1.insertBlock s1.blocks
          ++ [[]] ++ [[]]) := by
  simp [thenEntry, emit, createBlock, emitValue, setInsertPoint, length_appendAt]

theorem thenEntry_block (condVal : Value) (s1 : CodegenState)
    (h : s1.insertBlock < s1.blocks.length) :
    (thenEntry condVal s1).blocks[s1.insertBlock]? =
      some ((s1.blocks[s1.insertBlock]?.getD []) ++
        [Instr.fcmpONE s1.nextId condVal (Value.constFP 0),
         Instr.condBr (Value.inst s1.nextId) s1.blocks.length (s1.blocks.length + 1)]) := by
  have hl := length_appendAt (Instr.fcmpONE s1.nextId condVal (Value.constFP 0)) s1.blocks
    s1.insertBlock
  rw [thenEntry_blocks, getElem?_appendAt_self _ _ _ (by simp [hl]; omega)]
  rw [List.getElem?_append_left (by simp [hl]; omega)]
  rw [List.getElem?_append_left (by omega)]
  rw [getElem?_appendAt_self _ _ _ h]
  simp

theorem thenEntry_new (condVal : Value) (s1 : CodegenState)
    (h : s1.insertBlock < s1.blocks.length) :
    (thenEntry condVal s1).blocks[s1.blocks.length]? = some [] ∧
      (thenEntry condVal s1).blocks[s1.blocks.length + 1]? = some [] := by
  have hl := length_appendAt (Instr.fcmpONE s1.nextId condVal (Value.constFP 0)) s1.blocks
    s1.insertBlock
  rw [thenEntry_blocks]
  constructor
  · rw [getElem?_appendAt_ne _ _ _ _ (by omega)]
    rw [List.getElem?_append_left (by simp [hl])]
    rw [List.getElem?_append_right (by omega)]
    simp [hl]
  · rw [getElem?_appendAt_ne _ _ _ _ (by omega)]
    rw [List.getElem?_append_right (by simp [hl])]
    simp [hl]

theorem thenEntry_fetch (condVal : Value) (s1 : CodegenState)
    (h : s1.insertBlock < s1.blocks.length) :
    fetch (thenEntry condVal s1).blocks s1.insertBlock s1.insertPos =
        some (Instr.fcmpONE s1.nextId condVal (Value.constFP 0)) ∧
      fetch (thenEntry condVal s1).blocks s1.insertBlock (s1.insertPos + 1) =
        some (Instr.condBr (Value.inst s1.nextId) s1.blocks.length (s1.blocks.length + 1)) := by
  rw [fetch_eq, fetch_eq, thenEntry_block condVal s1 h, insertPos_eq]
  constructor
  · simp only [Option.some_bind]
    rw [List.getElem?_append_right (le_refl _)]
    simp
  · simp only [Option.some_bind]
    rw [List.getElem?_append_right (by omega)]
    simp

theorem codegen_if_eq {s s1 s3 : CodegenState} {condition : ASTNode} {thenStmts : List ASTNode}
    {condVal : Value} (hc : codegen condition s = some (some condVal, s1))
    (hb : codegenStmts thenStmts (thenEntry condVal s1) = some s3) :
    codegen (IfAST condition thenStmts) s =
      some (some (Value.constFP 0),
        setInsertPoint (s1.blocks.length + 1) (emit (Instr.br (s1.blocks.length + 1)) s3)) := by
  simp only [thenEntry] at hb
  simp only [codegen, hc, hb]
  simp [createBlock, emitValue, emit, length_appendAt]

theorem ifAST_steps
    (s s1 s3 : CodegenState) (condition : ASTNode) (thenStmts : List ASTNode) (condVal : Value)
    (hs : s.insertBlock < s.blocks.length)
    (hc : codegen condition s = some (some condVal, s1))
    (hb : codegenStmts thenStmts (thenEntry condVal s1) = some s3) :
    ∃ s4, codegen (IfAST condition thenStmts) s = some (some (Value.constFP 0), s4) ∧
      (thenEntry condVal s1).insertBlock = s1.blocks.length ∧
      (thenEntry condVal s1).insertPos = 0 ∧
      s4.insertBlock = s1.blocks.length + 1 ∧ s4.insertPos = 0 ∧
      ∀ (B : List (List Instr)), CodeExtends s4.blocks B →
        ∀ (nAllocas : Nat) (m : Machine) (q : ℚ),
          m.block = s1.insertBlock → m.pc = s1.insertPos → m.eval condVal = RVal.fp q →
          (q = 0 → steps B nAllocas 2 m =
            some ((m.setReg s1.nextId (RVal.bit false)).jump (s1.blocks.length + 1))) ∧
          (q ≠ 0 →
            steps B nAllocas 2 m =
              some ((m.setReg s1.nextId (RVal.bit true)).jump s1.blocks.length) ∧
            ∀ (k : Nat) (m2 : Machine),
              steps B nAllocas k ((m.setReg s1.nextId (RVal.bit true)).jump s1.blocks.length) =
                some m2 →
              m2.block = s3.insertBlock → m2.pc = s3.insertPos →
              steps B nAllocas (2 + k + 1) m = some (m2.jump (s1.blocks.length + 1))) := by
  have k1 := codegen_keeps condition s _ s1 hc hs
  have kt := keeps_refl (s := thenEntry condVal s1)
    (by rw [thenEntry_insertBlock, thenEntry_length]; omega)
  have k3 := codegenStmts_keeps thenStmts _ s3 hb kt.valid
  have hnew := thenEntry_new condVal s1 k1.valid
  have hfe := thenEntry_fetch condVal s1 k1.valid
  have hlen3 : s1.blocks.length + 2 ≤ s3.blocks.length := by
    have := k3.more; rwa [thenEntry_length] at this
  have hip3 : s3.insertBlock ≠ s1.blocks.length + 1 := by
    have := k3.point
    rw [thenEntry_insertBlock, thenEntry_length] at this
    omega
  refine ⟨_, codegen_if_eq hc hb, thenEntry_insertBlock _ _, ?_, rfl, ?_, ?_⟩
  · rw [insertPos_eq, thenEntry_insertBlock, hnew.1]; rfl
  · rw [insertPos_eq]
    show ((appendAt _ s3.insertBlock s3.blocks)[s1.blocks.length + 1]?.getD []).length = 0
    rw [getElem?_appendAt_ne _ _ _ _ (Ne.symm hip3),
      k3.other _ (by rw [thenEntry_length]; omega) (by rw [thenEntry_insertBlock]; omega),
      hnew.2]
    rfl
  · intro B hB nA m q hmb hmpc hq
    have hext : CodeExtends (thenEntry condVal s1).blocks B :=
      codeExtends_trans k3.code (codeExtends_trans (codeExtends_appendAt _ _ _) hB)
    have f1 := hext _ _ _ hfe.1
    have f2 := hext _ _ _ hfe.2
    have f3 : fetch B s3.insertBlock s3.insertPos = some (Instr.br (s1.blocks.length + 1)) :=
      hB _ _ _ (fetch_emit _ s3 k3.valid)
    rw [← hmb, ← hmpc] at f1 f2
    have two : ∀ b : Bool, decide (q ≠ 0) = b →
        steps B nA 2 m = some ((m.setReg s1.nextId (RVal.bit b)).jump
          (if b then s1.blocks.length else s1.blocks.length + 1)) := by
      intro b hbq
      have e1 : steps B nA 1 m = some (m.setReg s1.nextId (RVal.bit b)) :=
        steps_one f1 (by
          show some (m.setReg s1.nextId (compare (fun a b => decide (a ≠ b))
            (m.eval condVal) (m.eval (Value.constFP 0)))) = _
          rw [hq, ← hbq]
          rfl)
      have e2 : steps B nA 1 (m.setReg s1.nextId (RVal.bit b)) =
          some ((m.setReg s1.nextId (RVal.bit b)).jump
            (if b then s1.blocks.length else s1.blocks.length + 1)) :=
        steps_one (m := m.setReg s1.nextId (RVal.bit b)) f2
          (by cases b <;> simp [step, Machine.eval, Machine.setReg])
      rw [show 2 = 1 + 1 from rfl, steps_add, e1]
      exact e2
    refine ⟨fun hq0 => ?_, fun hq0 => ⟨?_, fun k m2 hk hb2 hpc2 => ?_⟩⟩
    · simpa using two false (by simp [hq0])
    · simpa using two true (by simp [hq0])
    · have e := two true (by simp [hq0])
      simp only [if_true] at e
      rw [← hb2, ← hpc2] at f3
      rw [steps_add, steps_add, e]
      simp only [Option.some_bind, hk]
      exact steps_one f3 rfl

/-- Claim C3.  For every condition and every body: `IfAST::codegen` places the body at the
start of a fresh block and leaves the insertion point at the start of another fresh
block, where the code of the following statement goes.  In every later state of the
function, a machine that has just computed the value `q` of the condition reaches, in two
instructions, the start of the body when `q ≠ 0` (negative values included) and the start
of the following statement when `q = 0`, in which case the body is not executed at all.
When `q ≠ 0` and the body's code runs from its start to its end in `k` instructions, the
whole statement takes `2 + k + 1` instructions and ends at the start of the following
statement in the state the single run of the body left.  In particular
`obviously 0 then { show 999 }` prints nothing, while `obviously 0 - 2 then { show 999 }`
prints 999.00 once; the statement after it runs in both cases. -/
theorem obviously_runs_body_once :
    (∀ (s s1 s3 : CodegenState) (condition : ASTNode) (thenStmts : List ASTNode)
        (condVal : Value),
      s.insertBlock < s.blocks.length →
      codegen condition s = some (some condVal, s1) →
      codegenStmts thenStmts (thenEntry condVal s1) = some s3 →
      ∃ s4, codegen (IfAST condition thenStmts) s = some (some (Value.constFP 0), s4) ∧
        (thenEntry condVal s1).insertBlock = s1.blocks.length ∧
        (thenEntry condVal s1).insertPos = 0 ∧
        s4.insertBlock = s1.blocks.length + 1 ∧ s4.insertPos = 0 ∧
        ∀ (B : List (List Instr)), CodeExtends s4.blocks B →
          ∀ (nAllocas : Nat) (m : Machine) (q : ℚ),
            m.block = s1.insertBlock → m.pc = s1.insertPos → m.eval condVal = RVal.fp q →
            (q = 0 → steps B nAllocas 2 m =
              some ((m.setReg s1.nextId (RVal.bit false)).jump (s1.blocks.length + 1))) ∧
            (q ≠ 0 →
              steps B nAllocas 2 m =
                some ((m.setReg s1.nextId (RVal.bit true)).jump s1.blocks.length) ∧
              ∀ (k : Nat) (m2 : Machine),
                steps B nAllocas k
                    ((m.setReg s1.nextId (RVal.bit true)).jump s1.blocks.length) = some m2 →
                m2.block = s3.insertBlock → m2.pc = s3.insertPos →
                steps B nAllocas (2 + k + 1) m = some (m2.jump (s1.blocks.length + 1)))) ∧
    (compileAndRun Globals.initial 100
        "idiot: obviously 0 then \x7b moron: show 999 \x7d\nfool: display 1").outcome.printed =
      [some "Displaying for the visually impaired: 1.00\n"] ∧
    (compileAndRun Globals.initial 100
        "idiot: obviously 0 - 2 then \x7b moron: show 999 \x7d\nfool: display 1"
      ).outcome.printed =
      [some "Fine, here\x27s your precious number: 999.00\n",
       some "Displaying for the visually impaired: 1.00\n"] :=
  ⟨ifAST_steps, by decide!, by decide!⟩

theorem obviously_runs_body_once_witness :
    (CodegenState.entry Globals.initial).insertBlock <
      (CodegenState.entry Globals.initial).blocks.length ∧
    codegen (BinaryExprAST '-' (NumberExprAST 0) (NumberExprAST 2))
      (CodegenState.entry Globals.initial) = some (some (Value.inst 0), sampleCondState) ∧
    codegenStmts [SarcasmLineAST "moron" (PrintAST (NumberExprAST 999) "show")]
      (thenEntry (Value.inst 0) sampleCondState) = some sampleBodyState ∧
    ∃ s4,
      codegen
          (IfAST (BinaryExprAST '-' (NumberExprAST 0) (NumberExprAST 2))
            [SarcasmLineAST "moron" (PrintAST (NumberExprAST 999) "show")])
          (CodegenState.entry Globals.initial) = some (some (Value.constFP 0), s4) ∧
        s4.insertBlock = 2 ∧ s4.insertPos = 0 ∧
        steps s4.blocks 0 4 sampleMachine =
          some { block := 2, pc := 0,
                 regs := fun r => if r = 2 then RVal.undef else
                   (sampleMachine.setReg 1 (RVal.bit true)).regs r,
                 mem := fun _ => RVal.undef,
                 out := [(printFormat "show", RVal.fp 999)], trace := [1, 2] } := by
  have hs : (CodegenState.entry Globals.initial).insertBlock <
      (CodegenState.entry Globals.initial).blocks.length := by decide
  have hc : codegen (BinaryExprAST '-' (NumberExprAST 0) (NumberExprAST 2))
      (CodegenState.entry Globals.initial) = some (some (Value.inst 0), sampleCondState) := by
    decide!
  have hb : codegenStmts [SarcasmLineAST "moron" (PrintAST (NumberExprAST 999) "show")]
      (thenEntry (Value.inst 0) sampleCondState) = some sampleBodyState := by decide!
  obtain ⟨s4, h1, -, -, h4, h5, h6⟩ :=
    obviously_runs_body_once.1 _ _ _ _ _ _ hs hc hb
  refine ⟨hs, hc, hb, s4, h1, h4, h5, ?_⟩
  have e : s4 = setInsertPoint 2 (emit (Instr.br 2) sampleBodyState) := by
    have h := h1.symm.trans
      (show codegen
          (IfAST (BinaryExprAST '-' (NumberExprAST 0) (NumberExprAST 2))
            [SarcasmLineAST "moron" (PrintAST (NumberExprAST 999) "show")])
          (CodegenState.entry Globals.initial) =
        some (some (Value.constFP 0), setInsertPoint 2 (emit (Instr.br 2) sampleBodyState))
        by decide!)
    simpa using h
  subst e
  have h7 := ((h6 _ (codeExtends_refl _) 0 sampleMachine (-2) rfl rfl rfl).2
    (by norm_num)).2 1
    { block := 1, pc := 1,
      regs := fun r => if r = 2 then RVal.undef else
        (sampleMachine.setReg 1 (RVal.bit true)).regs r,
      mem := fun _ => RVal.undef,
      out := [(printFormat "show", RVal.fp 999)], trace := [1] }
  exact h7 rfl rfl rfl

/-! ### Precedence and completeness of the parser -/

/-- Claim C1.  Multiplication and division bind tighter than the operators of the additive
tier: when the parser sees a factor `a`, an additive operator, a factor `b`, a
multiplicative operator and a factor `c`, and the token after `c` is no operator,
`parseExpression` returns `BinaryExprAST op1 a (BinaryExprAST op2 b c)`.  Factors are the
token sequences the grammar derives from `factor` (number, identifier, parenthesised
expression); symbolic and word-form operators are covered.  In particular, for every tag
of the vocabulary, the program `tag: show 2 + 3 * 4` prints 14.00. -/
theorem multiplication_binds_tighter :
    (∀ (ta tb tc : List Token) (a b c : ASTNode) (o1 o2 : Token) (c1 c2 : Char)
        (p q : SarcasmParser),
      Derives Nonterminal.factor ta a → Derives Nonterminal.factor tb b →
      Derives Nonterminal.factor tc c →
      additiveTag o1.type = some c1 → multiplicativeTag o2.type = some c2 →
      Feeds p (ta ++ o1 :: (tb ++ o2 :: tc)) q →
      isTermOp q.currentToken.type = false → isExprOp q.currentToken.type = false →
      Returns (fun fuel => parseExpression fuel p)
        (BinaryExprAST c1 a (BinaryExprAST c2 b c), q)) ∧
    (∀ tag ∈ insults,
      (compileAndRun Globals.initial 100 (tag ++ ": show 2 + 3 * 4")).outcome.printed =
        [some "Fine, here\x27s your precious number: 14.00\n"]) := by
  refine ⟨fun ta tb tc a b c o1 o2 c1 c2 p q ha hb hc h1 h2 hf hq1 hq2 => ?_, by decide!⟩
  have hd : Derives Nonterminal.expression (ta ++ o1 :: (tb ++ o2 :: tc))
      (BinaryExprAST c1 a (BinaryExprAST c2 b c)) :=
    Derives.exprOp _ _ o1 c1 _ _ (Derives.exprTerm _ _ (Derives.termFactor _ _ ha)) h1
      (Derives.termOp _ _ o2 c2 _ _ (Derives.termFactor _ _ hb) h2 hc)
  exact expression_returns (derives_parsesAs hd) hf hq1 hq2

theorem multiplication_binds_tighter_witness :
    Derives Nonterminal.factor [⟨TOKEN_NUMBER, "2", 2⟩] (NumberExprAST 2) ∧
    Derives Nonterminal.factor [⟨TOKEN_IDENTIFIER, "x", 0⟩] (VariableExprAST "x") ∧
    Derives Nonterminal.factor
      [⟨TOKEN_LPAREN, "(", 0⟩, ⟨TOKEN_NUMBER, "4", 4⟩, ⟨TOKEN_RPAREN, ")", 0⟩]
      (NumberExprAST 4) ∧
    Feeds (SarcasmParser.new "2 minus x / (4)")
      ([⟨TOKEN_NUMBER, "2", 2⟩] ++ ⟨TOKEN_WORD_MINUS, "minus", 0⟩ ::
        ([⟨TOKEN_IDENTIFIER, "x", 0⟩] ++ ⟨TOKEN_DIVIDE, "/", 0⟩ ::
          [⟨TOKEN_LPAREN, "(", 0⟩, ⟨TOKEN_NUMBER, "4", 4⟩, ⟨TOKEN_RPAREN, ")", 0⟩]))
      (SarcasmParser.nextToken^[7] (SarcasmParser.new "2 minus x / (4)")) ∧
    Returns (fun fuel => parseExpression fuel (SarcasmParser.new "2 minus x / (4)"))
      (BinaryExprAST '-' (NumberExprAST 2)
        (BinaryExprAST '/' (VariableExprAST "x") (NumberExprAST 4)),
       SarcasmParser.nextToken^[7] (SarcasmParser.new "2 minus x / (4)")) :=
  have ha := Derives.number ⟨TOKEN_NUMBER, "2", 2⟩ rfl
  have hb := Derives.ident ⟨TOKEN_IDENTIFIER, "x", 0⟩ rfl
  have hc := Derives.paren ⟨TOKEN_LPAREN, "(", 0⟩ ⟨TOKEN_RPAREN, ")", 0⟩ _ _ rfl
    (Derives.exprTerm _ _ (Derives.termFactor _ _ (Derives.number ⟨TOKEN_NUMBER, "4", 4⟩ rfl)))
    rfl
  have hf : Feeds (SarcasmParser.new "2 minus x / (4)")
      ([⟨TOKEN_NUMBER, "2", 2⟩] ++ ⟨TOKEN_WORD_MINUS, "minus", 0⟩ ::
        ([⟨TOKEN_IDENTIFIER, "x", 0⟩] ++ ⟨TOKEN_DIVIDE, "/", 0⟩ ::
          [⟨TOKEN_LPAREN, "(", 0⟩, ⟨TOKEN_NUMBER, "4", 4⟩, ⟨TOKEN_RPAREN, ")", 0⟩]))
      (SarcasmParser.nextToken^[7] (SarcasmParser.new "2 minus x / (4)")) := by decide!
  ⟨ha, hb, hc, hf,
    multiplication_binds_tighter.1 _ _ _ _ _ _ ⟨TOKEN_WORD_MINUS, "minus", 0⟩
      ⟨TOKEN_DIVIDE, "/", 0⟩ '-' '/' _ _ ha hb hc rfl rfl hf (by decide!) (by decide!)⟩

/-- Claim C8.  For every token sequence `ts` that the grammar derives from `line*`, with
the tree `program` the derivation describes, a parser that sees `ts` followed by the
token for end of input returns, with enough fuel, exactly `program` (one `SarcasmLineAST`
per top-level line, in order, blocks as bodies) and writes nothing to `std::cerr`. -/
theorem parseProgram_complete (ts : List Token) (program : List ASTNode)
    (p q : SarcasmParser) (hd : Derives Nonterminal.lines ts program) (hf : Feeds p ts q)
    (hq : q.currentToken.type = TOKEN_EOF) :
    Returns (fun fuel => parseProgram fuel p) (program, q) ∧ q.cerr = p.cerr :=
  ⟨parseProgram_of_derives hd hf hq, feeds_cerr hf⟩

theorem sampleTokens_derive : Derives Nonterminal.lines sampleTokens sampleProgram := by
  have num : ∀ (s : String) (k : ℚ),
      Derives Nonterminal.factor [⟨TOKEN_NUMBER, s, k⟩] (NumberExprAST k) :=
    fun s k => Derives.number ⟨TOKEN_NUMBER, s, k⟩ rfl
  have var : Derives Nonterminal.expression [⟨TOKEN_IDENTIFIER, "x", 0⟩]
      (VariableExprAST "x") :=
    Derives.exprTerm _ _ (Derives.termFactor _ _ (Derives.ident ⟨TOKEN_IDENTIFIER, "x", 0⟩ rfl))
  have sum := Derives.paren ⟨TOKEN_LPAREN, "(", 0⟩ ⟨TOKEN_RPAREN, ")", 0⟩ _ _ rfl
    (Derives.exprOp _ _ ⟨TOKEN_PLUS, "+", 0⟩ '+' _ _
      (Derives.exprTerm _ _ (Derives.termFactor _ _ (num "3" 3))) rfl
      (Derives.termFactor _ _ (num "4" 4))) rfl
  have l1 := Derives.line ⟨TOKEN_INSULT, "idiot", 0⟩ ⟨TOKEN_COLON, ":", 0⟩ _ _ rfl rfl
    (Derives.assignment ⟨TOKEN_IDENTIFIER, "x", 0⟩ ⟨TOKEN_ASSIGN, "=", 0⟩ _ _ rfl rfl
      (Derives.exprTerm _ _
        (Derives.termOp _ _ ⟨TOKEN_MULTIPLY, "*", 0⟩ '*' _ _
          (Derives.termFactor _ _ (num "2" 2)) rfl sum)))
  have l3 := Derives.line ⟨TOKEN_INSULT, "fool", 0⟩ ⟨TOKEN_COLON, ":", 0⟩ _ _ rfl rfl
    (Derives.print ⟨TOKEN_SHOW, "show", 0⟩ _ _ rfl var)
  have l2 := Derives.line ⟨TOKEN_INSULT, "moron", 0⟩ ⟨TOKEN_COLON, ":", 0⟩ _ _ rfl rfl
    (Derives.ifStmt ⟨TOKEN_OBVIOUSLY, "obviously", 0⟩ ⟨TOKEN_THEN, "then", 0⟩
      ⟨TOKEN_LBRACE, "\x7b", 0⟩ ⟨TOKEN_RBRACE, "\x7d", 0⟩ _ _ _ _ rfl var rfl rfl
      (Derives.linesCons _ _ _ _ l3 Derives.linesNil) rfl)
  exact Derives.linesCons _ _ _ _ l1 (Derives.linesCons _ _ _ _ l2 Derives.linesNil)

theorem parseProgram_complete_witness :
    Derives Nonterminal.lines sampleTokens sampleProgram ∧
    Feeds (SarcasmParser.new sampleSource) sampleTokens
      (SarcasmParser.nextToken^[22] (SarcasmParser.new sampleSource)) ∧
    (SarcasmParser.nextToken^[22] (SarcasmParser.new sampleSource)).currentToken.type =
      TOKEN_EOF ∧
    Returns (fun fuel => parseProgram fuel (SarcasmParser.new sampleSource))
      (sampleProgram, SarcasmParser.nextToken^[22] (SarcasmParser.new sampleSource)) ∧
    (SarcasmParser.nextToken^[22] (SarcasmParser.new sampleSource)).cerr =
      (SarcasmParser.new sampleSource).cerr :=
  have hf : Feeds (SarcasmParser.new sampleSource) sampleTokens
      (SarcasmParser.nextToken^[22] (SarcasmParser.new sampleSource)) := by decide!
  have hq : (SarcasmParser.nextToken^[22] (SarcasmParser.new sampleSource)).currentToken.type =
      TOKEN_EOF := by decide!
  ⟨sampleTokens_derive, hf, hq,
    parseProgram_complete sampleTokens sampleProgram _ _ sampleTokens_derive hf hq⟩

/-! ### Behaviour on malformed programs -/

/-- Claim C4, evaluated where the code departs from it.  When the first reference to `x`
in source order (a read or an assignment) is inside a skipped `obviously` block, the zero
store, or the only store, of `x` is placed in that block and never runs: the later
`show x` outside the block reads an uninitialised slot and prints an indeterminate value
instead of 0.00.  The generated code of the first program shows the store in block 1.  The
program consisting only of `show x` does print 0.00. -/
theorem skipped_first_use_leaves_variable_indeterminate :
    (compileAndRun Globals.initial 100
        "idiot: obviously 0 then \x7b moron: show x \x7d\nfool: show x").outcome =
      Outcome.finished [(printFormat "show", RVal.undef)] ∧
    (compileAndRun Globals.initial 100
        "idiot: obviously 0 then \x7b moron: x = 5 \x7d\nfool: show x").outcome =
      Outcome.finished [(printFormat "show", RVal.undef)] ∧
    generateMain Globals.initial
        [SarcasmLineAST "idiot"
           (IfAST (NumberExprAST 0)
             [SarcasmLineAST "moron" (PrintAST (VariableExprAST "x") "show")]),
         SarcasmLineAST "fool" (PrintAST (VariableExprAST "x") "show")] =
      some
        { blocks :=
            [[Instr.fcmpONE 0 (Value.constFP 0) (Value.constFP 0),
              Instr.condBr (Value.inst 0) 1 2],
             [Instr.store (Value.constFP 0) 0, Instr.load 1 0,
              Instr.callPrintf 2 (printFormat "show") (Value.inst 1), Instr.br 2],
             [Instr.load 3 0, Instr.callPrintf 4 (printFormat "show") (Value.inst 3),
              Instr.ret]],
          insertBlock := 2, allocas := ["x"], namedValues := [("x", 0)], nextId := 5,
          lineNum := 4,
          cout := ["  ; Line 1: moron says something ridiculous",
                   "  ; Line 2: idiot says something ridiculous",
                   "  ; Line 3: fool says something ridiculous"] } ∧
    (compileAndRun Globals.initial 100 "idiot: show x").outcome.printed =
      [some "Fine, here\x27s your precious number: 0.00\n"] := by
  refine ⟨by decide!, by decide!, by decide!, by decide!⟩

/-- Claim C5 fails as stated: the program `idiot: show 1` followed by
`moron: obviously 1 then { fool: show 2` (no closing brace) prints 1.00. -/
theorem missing_brace_still_runs_earlier_lines :
    (compileAndRun Globals.initial 100
        "idiot: show 1\nmoron: obviously 1 then \x7b fool: show 2").outcome.printed =
      [some "Fine, here\x27s your precious number: 1.00\n"] ∧
    (compileAndRun Globals.initial 100
        "idiot: show 1\nmoron: obviously 1 then \x7b fool: show 2").outcome.printed ≠ [] := by
  refine ⟨by decide!, by decide!⟩

/-- Claim C6, evaluated where the code departs from it.  Inside a block the loop of
`parseStatement` drops a failed line and goes on: in
`idiot: obviously 1 then { moron fool: show 2 }` the line starting at `moron` fails (no
colon), yet `fool: show 2` is parsed into the body, the `obviously` statement succeeds, the
following line is parsed too, no parse error is reported by `parseProgram`, and the
program runs.  At top level the same malformed line stops the parse. -/
theorem block_loop_continues_after_failed_line :
    (parseProgram 100
        (SarcasmParser.new
          "idiot: obviously 1 then \x7b moron fool: show 2 \x7d\ndummy: show 3")).map
        (fun r => (r.1, r.2.cerr)) =
      some
        ([SarcasmLineAST "idiot"
            (IfAST (NumberExprAST 1)
              [SarcasmLineAST "fool" (PrintAST (NumberExprAST 2) "show")]),
          SarcasmLineAST "dummy" (PrintAST (NumberExprAST 3) "show")],
         ["rookie: Expected \x27:\x27 after insult \x27moron\x27"]) ∧
    (compileAndRun Globals.initial 100
        "idiot: obviously 1 then \x7b moron fool: show 2 \x7d\ndummy: show 3").outcome.printed =
      [some "Fine, here\x27s your precious number: 2.00\n",
       some "Fine, here\x27s your precious number: 3.00\n"] ∧
    (parseProgram 100
        (SarcasmParser.new "idiot: show 1\nmoron fool: show 2\ndummy: show 3")).map
        (fun r => (r.1, r.2.cerr)) =
      some
        ([SarcasmLineAST "idiot" (PrintAST (NumberExprAST 1) "show")],
         ["rookie: Expected \x27:\x27 after insult \x27moron\x27",
          "scrub: Parse error encountered"]) := by
  refine ⟨by decide!, by decide!, by decide!⟩

/-- Claim C7 fails as stated: on `idiot: show 1`, `@`, `moron: show 2` the parser returns
the first line as the whole program, at an end-of-input token, and nothing is written to
`std::cerr`. -/
theorem unrecognised_char_ends_parse_silently :
    (parseProgram 100 (SarcasmParser.new "idiot: show 1\n@\nmoron: show 2")).map
        (fun r => (r.1, r.2.cerr, r.2.currentToken)) =
      some ([SarcasmLineAST "idiot" (PrintAST (NumberExprAST 1) "show")], [],
        ⟨TOKEN_EOF, "", 0⟩) ∧
    (compileAndRun Globals.initial 100 "idiot: show 1\n@\nmoron: show 2").cerr = [] := by
  refine ⟨by decide!, by decide!⟩

theorem takeWhile_run (f : Char → Bool) (ws rest : List Char) (c : Char)
    (hws : ∀ w ∈ ws, f w = true) (hc : f c = false) :
    (ws ++ c :: rest).takeWhile f = ws := by
  induction ws with
  | nil => simp [List.takeWhile, hc]
  | cons w ws ih =>
    have hw := hws w (by simp)
    have e := ih (fun x hx => hws x (by simp [hx]))
    rw [List.cons_append, List.takeWhile_cons, hw, if_pos rfl, e]

/-- Claim C9, evaluated where the code departs from it.  `parseStatement` consumes a
leading identifier and, when no `=` follows, falls through to the other statement forms:
`idiot: x show 5` is accepted as the line `show 5` and `idiot: x obviously 1 then { }` as
an `obviously` statement, without any diagnostic, and the first program runs and
prints 5.00. -/
theorem stray_identifier_before_statement_accepted :
    (parseLine 100 (SarcasmParser.new "idiot: x show 5")).map (fun r => (r.1, r.2.cerr)) =
      some (SarcasmLineAST "idiot" (PrintAST (NumberExprAST 5) "show"), []) ∧
    (parseLine 100 (SarcasmParser.new "idiot: x obviously 1 then \x7b \x7d")).map
        (fun r => (r.1, r.2.cerr)) =
      some (SarcasmLineAST "idiot" (IfAST (NumberExprAST 1) []), []) ∧
    (compileAndRun Globals.initial 100 "idiot: x show 5").outcome.printed =
      [some "Fine, here\x27s your precious number: 5.00\n"] := by
  refine ⟨by decide!, by decide!, by decide!⟩

/-- Claim C10, evaluated where the code departs from it.  `parseStatement` does not check
the result of `parseExpression`: for `show`, `x =`, `show 2 +` and `show ( )` it returns a
node whose expression, or an operand of it, is the empty pointer, `parseLine` wraps it in a
line without a diagnostic, and generating code for it dereferences the empty pointer. -/
theorem missing_expression_yields_node_with_null_child :
    (parseLine 100 (SarcasmParser.new "idiot: show")).map (fun r => (r.1, r.2.cerr)) =
      some (SarcasmLineAST "idiot" (PrintAST nullptr "show"), []) ∧
    (parseLine 100 (SarcasmParser.new "idiot: x =")).map (fun r => (r.1, r.2.cerr)) =
      some (SarcasmLineAST "idiot" (AssignmentAST "x" nullptr), []) ∧
    (parseLine 100 (SarcasmParser.new "idiot: show 2 +")).map (fun r => (r.1, r.2.cerr)) =
      some (SarcasmLineAST "idiot"
        (PrintAST (BinaryExprAST '+' (NumberExprAST 2) nullptr) "show"), []) ∧
    (parseLine 100 (SarcasmParser.new "idiot: show ( )")).map (fun r => (r.1, r.2.cerr)) =
      some (SarcasmLineAST "idiot" (PrintAST nullptr "show"), []) ∧
    (parseStatement 100 (SarcasmParser.new "show")).map (fun r => r.1) =
      some (PrintAST nullptr "show") ∧
    (compileAndRun Globals.initial 100 "idiot: show").outcome = Outcome.crashed := by
  refine ⟨by decide!, by decide!, by decide!, by decide!, by decide!, by decide!⟩

/-! ### The additive tier -/

/-- Claim C13.  The comparisons `<` and `>` are left-associative and share one tier of
precedence with `+` and `-`: when the parser sees a term `a`, an operator of the additive
tier, a term `b`, an operator of the additive tier and a term `c`, and the token after `c`
is no operator, `parseExpression` returns `BinaryExprAST op2 (BinaryExprAST op1 a b) c`.
Terms are the token sequences the grammar derives from `term`.  The operators of the
additive tier are exactly `+`, `plus`, `-`, `minus`, `<` and `>`.  In particular
`i < n + 1` parses as `(i < n) + 1`. -/
theorem comparison_shares_additive_tier :
    (∀ (ta tb tc : List Token) (a b c : ASTNode) (o1 o2 : Token) (c1 c2 : Char)
        (p q : SarcasmParser),
      Derives Nonterminal.term ta a → Derives Nonterminal.term tb b →
      Derives Nonterminal.term tc c →
      additiveTag o1.type = some c1 → additiveTag o2.type = some c2 →
      Feeds p (ta ++ o1 :: (tb ++ o2 :: tc)) q →
      isTermOp q.currentToken.type = false → isExprOp q.currentToken.type = false →
      Returns (fun fuel => parseExpression fuel p)
        (BinaryExprAST c2 (BinaryExprAST c1 a b) c, q)) ∧
    (∀ t : TokenType, (∃ c, additiveTag t = some c) ↔
      t ∈ [TOKEN_PLUS, TOKEN_WORD_PLUS, TOKEN_MINUS, TOKEN_WORD_MINUS, TOKEN_LESS,
        TOKEN_GREATER]) ∧
    (parseExpression 100 (SarcasmParser.new "i < n + 1")).map (fun r => r.1) =
      some (BinaryExprAST '+'
        (BinaryExprAST '<' (VariableExprAST "i") (VariableExprAST "n")) (NumberExprAST 1)) ∧
    (parseExpression 100 (SarcasmParser.new "a > b minus c < d plus e")).map (fun r => r.1) =
      some (BinaryExprAST '+'
        (BinaryExprAST '<'
          (BinaryExprAST '-'
            (BinaryExprAST '>' (VariableExprAST "a") (VariableExprAST "b"))
            (VariableExprAST "c"))
          (VariableExprAST "d"))
        (VariableExprAST "e")) := by
  refine ⟨fun ta tb tc a b c o1 o2 c1 c2 p q ha hb hc h1 h2 hf hq1 hq2 => ?_, ?_,
    by decide!, by decide!⟩
  · have hd : Derives Nonterminal.expression ((ta ++ o1 :: tb) ++ o2 :: tc)
        (BinaryExprAST c2 (BinaryExprAST c1 a b) c) :=
      Derives.exprOp _ _ o2 c2 _ _
        (Derives.exprOp _ _ o1 c1 _ _ (Derives.exprTerm _ _ ha) h1 hb) h2 hc
    have e : (ta ++ o1 :: tb) ++ o2 :: tc = ta ++ o1 :: (tb ++ o2 :: tc) := by simp
    rw [e] at hd
    exact expression_returns (derives_parsesAs hd) hf hq1 hq2
  · intro t
    cases t <;> simp [additiveTag]

theorem comparison_shares_additive_tier_witness :
    Derives Nonterminal.term [⟨TOKEN_IDENTIFIER, "i", 0⟩] (VariableExprAST "i") ∧
    Derives Nonterminal.term
      [⟨TOKEN_IDENTIFIER, "n", 0⟩, ⟨TOKEN_WORD_MULTIPLY, "times", 0⟩, ⟨TOKEN_NUMBER, "2", 2⟩]
      (BinaryExprAST '*' (VariableExprAST "n") (NumberExprAST 2)) ∧
    Derives Nonterminal.term [⟨TOKEN_NUMBER, "1", 1⟩] (NumberExprAST 1) ∧
    Feeds (SarcasmParser.new "i < n times 2 plus 1")
      ([⟨TOKEN_IDENTIFIER, "i", 0⟩] ++ ⟨TOKEN_LESS, "<", 0⟩ ::
        ([⟨TOKEN_IDENTIFIER, "n", 0⟩, ⟨TOKEN_WORD_MULTIPLY, "times", 0⟩,
            ⟨TOKEN_NUMBER, "2", 2⟩] ++
          ⟨TOKEN_WORD_PLUS, "plus", 0⟩ :: [⟨TOKEN_NUMBER, "1", 1⟩]))
      (SarcasmParser.nextToken^[7] (SarcasmParser.new "i < n times 2 plus 1")) ∧
    Returns (fun fuel => parseExpression fuel (SarcasmParser.new "i < n times 2 plus 1"))
      (BinaryExprAST '+'
        (BinaryExprAST '<' (VariableExprAST "i")
          (BinaryExprAST '*' (VariableExprAST "n") (NumberExprAST 2)))
        (NumberExprAST 1),
       SarcasmParser.nextToken^[7] (SarcasmParser.new "i < n times 2 plus 1")) :=
  have ha := Derives.termFactor _ _ (Derives.ident ⟨TOKEN_IDENTIFIER, "i", 0⟩ rfl)
  have hb := Derives.termOp [⟨TOKEN_IDENTIFIER, "n", 0⟩] [⟨TOKEN_NUMBER, "2", 2⟩]
    ⟨TOKEN_WORD_MULTIPLY, "times", 0⟩ '*' _ _
    (Derives.termFactor _ _ (Derives.ident ⟨TOKEN_IDENTIFIER, "n", 0⟩ rfl)) rfl
    (Derives.number ⟨TOKEN_NUMBER, "2", 2⟩ rfl)
  have hc := Derives.termFactor _ _ (Derives.number ⟨TOKEN_NUMBER, "1", 1⟩ rfl)
  have hf : Feeds (SarcasmParser.new "i < n times 2 plus 1")
      ([⟨TOKEN_IDENTIFIER, "i", 0⟩] ++ ⟨TOKEN_LESS, "<", 0⟩ ::
        ([⟨TOKEN_IDENTIFIER, "n", 0⟩, ⟨TOKEN_WORD_MULTIPLY, "times", 0⟩,
            ⟨TOKEN_NUMBER, "2", 2⟩] ++
          ⟨TOKEN_WORD_PLUS, "plus", 0⟩ :: [⟨TOKEN_NUMBER, "1", 1⟩]))
      (SarcasmParser.nextToken^[7] (SarcasmParser.new "i < n times 2 plus 1")) := by decide!
  ⟨ha, hb, hc, hf,
    comparison_shares_additive_tier.1 _ _ _ _ _ _ ⟨TOKEN_LESS, "<", 0⟩
      ⟨TOKEN_WORD_PLUS, "plus", 0⟩ '<' '+' _ _ ha hb hc rfl rfl hf (by decide!) (by decide!)⟩

/-! ### Printing -/

theorem twoDigits (r : ℕ) (h : r < 100) :
    (((if r < 10 then "0" else "") ++ Nat.repr r).data.length = 2 ∧
      ((if r < 10 then "0" else "") ++ Nat.repr r).data.all isdigit = true) := by
  revert r
  decide!

theorem fixed2_shape (sign : String) (cents : ℕ) :
    ∃ whole frac : String,
      sign ++ Nat.repr (cents / 100) ++ "." ++ (if cents % 100 < 10 then "0" else "") ++
          Nat.repr (cents % 100) = whole ++ "." ++ frac ∧
        frac.data.length = 2 ∧ frac.data.all isdigit = true :=
  ⟨sign ++ Nat.repr (cents / 100),
    (if cents % 100 < 10 then "0" else "") ++ Nat.repr (cents % 100),
    by simp [String.append_assoc], twoDigits _ (Nat.mod_lt _ (by norm_num))⟩

theorem formatFixed2_shape (q : ℚ) :
    ∃ whole frac : String, formatFixed2 q = whole ++ "." ++ frac ∧ frac.data.length = 2 ∧
      frac.data.all isdigit = true := by
  unfold formatFixed2
  exact fixed2_shape _ _

theorem printfText_printFormat (printWord : String) (q : ℚ) :
    printfText (printFormat printWord, RVal.fp q) =
      some ((if printWord = "show" then "Fine, here\x27s your precious number: "
        else if printWord = "display" then "Displaying for the visually impaired: "
        else if printWord = "reveal" then "The shocking revelation is: "
        else "Output (because you demanded it): ") ++ formatFixed2 q ++ "\n") := by
  simp only [printfText, printFormat]
  congr 1
  apply String.ext
  split_ifs <;> simp [expandFormat, String.data_append]

/-- Claim C20.  The output line of a Print node is a fixed template followed by the value
to two decimals and a newline, and the print verb alone chooses the template.
`PrintAST::codegen` emits, after the code of its expression, one call of `printf` whose
format is `printFormat printWord`; executing that call appends the format and the value of
the expression to the output and changes nothing else; the text `printf` makes of them is
the template of the verb (`show`, `display`, `reveal`, any other verb) followed by the
value with two digits after the point and a newline.  The four verbs of the lexer give
the four templates in a run of the whole pipeline. -/
theorem print_template_chosen_by_verb :
    (∀ (expr : ASTNode) (printWord : String) (s s1 : CodegenState) (val : Value),
      codegen expr s = some (some val, s1) →
      codegen (PrintAST expr printWord) s =
        some (some (Value.inst s1.nextId),
          emit (Instr.callPrintf s1.nextId (printFormat printWord) val)
            { s1 with nextId := s1.nextId + 1 })) ∧
    (∀ (nAllocas id : Nat) (format : String) (v : Value) (m : Machine),
      ∃ m1, step nAllocas (Instr.callPrintf id format v) m = some m1 ∧
        m1.out = m.out ++ [(format, m.eval v)] ∧ m1.mem = m.mem ∧ m1.block = m.block ∧
        m1.pc = m.pc + 1) ∧
    (∀ (printWord : String) (q : ℚ),
      printfText (printFormat printWord, RVal.fp q) =
        some ((if printWord = "show" then "Fine, here\x27s your precious number: "
          else if printWord = "display" then "Displaying for the visually impaired: "
          else if printWord = "reveal" then "The shocking revelation is: "
          else "Output (because you demanded it): ") ++ formatFixed2 q ++ "\n")) ∧
    (∀ q : ℚ, ∃ whole frac : String, formatFixed2 q = whole ++ "." ++ frac ∧
      frac.data.length = 2 ∧ frac.data.all isdigit = true) ∧
    (compileAndRun Globals.initial 100
        "idiot: show 1.5\nmoron: display 2\nfool: reveal 10 / 4\ndummy: output 0 - 7"
      ).outcome.printed =
      [some "Fine, here\x27s your precious number: 1.50\n",
       some "Displaying for the visually impaired: 2.00\n",
       some "The shocking revelation is: 2.50\n",
       some "Output (because you demanded it): -7.00\n"] := by
  refine ⟨?_, ?_, printfText_printFormat, formatFixed2_shape, by decide!⟩
  · intro expr printWord s s1 val h
    simp [codegen, h, emitValue]
  · intro nA id format v m
    exact ⟨_, rfl, rfl, rfl, rfl, rfl⟩

theorem print_template_chosen_by_verb_witness :
    codegen (NumberExprAST 7) (CodegenState.entry Globals.initial) =
      some (some (Value.constFP 7), CodegenState.entry Globals.initial) ∧
    codegen (PrintAST (NumberExprAST 7) "reveal") (CodegenState.entry Globals.initial) =
      some (some (Value.inst 0),
        emit (Instr.callPrintf 0 (printFormat "reveal") (Value.constFP 7))
          { CodegenState.entry Globals.initial with nextId := 0 + 1 }) :=
  ⟨rfl, print_template_chosen_by_verb.1 (NumberExprAST 7) "reveal" _ _ _ rfl⟩

/-! ### Failures of code generation -/

/-- The paths of the `codegen` methods on which a result is checked or dropped.
`BinaryExprAST` with an operand without value, `AssignmentAST` and `PrintAST` with an
expression without value, `IfAST` and `WhileAST` with a condition without value, and
`SarcasmLineAST` with a statement without value yield no value.  What the statements of a
body yield is not looked at, and `compileAndRun` does not look at what the lines yield. -/
theorem codegen_result_checks :
    (∀ (op : Char) (lhs rhs : ASTNode) (s s1 s2 : CodegenState) (l r : Option Value),
      codegen lhs s = some (l, s1) → codegen rhs s1 = some (r, s2) → (l = none ∨ r = none) →
      codegen (BinaryExprAST op lhs rhs) s = some (none, s2)) ∧
    (∀ (varName : String) (expr : ASTNode) (s s1 : CodegenState),
      codegen expr s = some (none, s1) →
      codegen (AssignmentAST varName expr) s = some (none, s1)) ∧
    (∀ (printWord : String) (expr : ASTNode) (s s1 : CodegenState),
      codegen expr s = some (none, s1) →
      codegen (PrintAST expr printWord) s = some (none, s1)) ∧
    (∀ (condition : ASTNode) (thenStmts : List ASTNode) (s s1 : CodegenState),
      codegen condition s = some (none, s1) →
      codegen (IfAST condition thenStmts) s = some (none, s1)) ∧
    (∀ (condition : ASTNode) (body : List ASTNode) (s s1 : CodegenState),
      codegen condition (whileEntry s) = some (none, s1) →
      codegen (WhileAST condition body) s = some (none, s1)) ∧
    (∀ (insult : String) (statement : ASTNode) (s s1 : CodegenState),
      codegen statement s = some (none, s1) →
      (codegen (SarcasmLineAST insult statement) s).map (fun r => r.1) = some none) ∧
    (∀ (stmt : ASTNode) (rest : List ASTNode) (s s1 : CodegenState) (r : Option Value),
      codegen stmt s = some (r, s1) → codegenStmts (stmt :: rest) s = codegenStmts rest s1) ∧
    (∀ (condition : ASTNode) (thenStmts : List ASTNode) (s s1 s3 : CodegenState)
        (condVal : Value),
      codegen condition s = some (some condVal, s1) →
      codegenStmts thenStmts (thenEntry condVal s1) = some s3 →
      (codegen (IfAST condition thenStmts) s).map (fun r => r.1) =
        some (some (Value.constFP 0))) ∧
    (∀ (g : Globals) (fuel : Nat) (program : List ASTNode) (parser : SarcasmParser)
        (s : CodegenState),
      generateMain g program = some s → verifyFunction s.blocks = false →
      (runParsed g fuel (some (program, parser))).outcome =
        (match exec s.blocks s.allocas.length fuel Machine.start with
          | ExecResult.returned out _ => Outcome.finished out
          | ExecResult.stuck => Outcome.stuck
          | ExecResult.noFuel => Outcome.noFuel)) := by
  refine ⟨?_, ?_, ?_, ?_, ?_, ?_, ?_, ?_, ?_⟩
  · intro op lhs rhs s s1 s2 l r h1 h2 h
    simp only [codegen, h1, h2]
    rcases h with rfl | rfl
    · rfl
    · cases l <;> rfl
  · intro varName expr s s1 h
    simp [codegen, h]
  · intro printWord expr s s1 h
    simp [codegen, h]
  · intro condition thenStmts s s1 h
    simp [codegen, h]
  · intro condition body s s1 h
    simp only [whileEntry] at h
    simp [codegen, h]
  · intro insult statement s s1 h
    simp [codegen, h]
  · intro stmt rest s s1 r h
    simp [codegenStmts, h]
  · intro condition thenStmts s s1 s3 condVal hc hb
    rw [codegen_if_eq hc hb]
    rfl
  · intro g fuel program parser s hg hv
    simp only [runParsed, hg, hv]
    cases exec s.blocks s.allocas.length fuel Machine.start <;> rfl

/-! ### The static objects -/

/-- The function `compileAndRun` does not itself reset the map `namedValues` and the
counter `lineNum`: after `idiot: x = 5` the map still holds the slot of `x` and the counter
is 2, and a call that started from those statics with `idiot: show x` would find `x` in the
map, emit a load from the slot of the earlier call and announce the line as line 2.  No run
of the program makes such a call: `main` calls `compileAndRun` at most once. -/
theorem compileAndRun_leaves_statics_behind :
    (compileAndRun Globals.initial 100 "idiot: x = 5").globals =
      { namedValues := [("x", 0)], lineNum := 2 } ∧
    (compileAndRun (compileAndRun Globals.initial 100 "idiot: x = 5").globals 100
        "idiot: show x").outcome = Outcome.stuck ∧
    (compileAndRun (compileAndRun Globals.initial 100 "idiot: x = 5").globals 100
        "idiot: show x").cout = ["  ; Line 2: idiot says something ridiculous"] ∧
    generateMain (compileAndRun Globals.initial 100 "idiot: x = 5").globals
        [SarcasmLineAST "idiot" (PrintAST (VariableExprAST "x") "show")] =
      some
        { blocks :=
            [[Instr.load 0 0, Instr.callPrintf 1 (printFormat "show") (Value.inst 0),
              Instr.ret]],
          insertBlock := 0, allocas := [], namedValues := [("x", 0)], nextId := 2,
          lineNum := 3, cout := ["  ; Line 2: idiot says something ridiculous"] } ∧
    (compileAndRun Globals.initial 100 "idiot: show x").outcome =
      Outcome.finished [(printFormat "show", RVal.fp 0)] ∧
    (compileAndRun Globals.initial 100 "idiot: show x").cout =
      ["  ; Line 1: idiot says something ridiculous"] := by
  refine ⟨by decide!, by decide!, by decide!, by decide!, by decide!, by decide!⟩

/-! ### The factorial example -/

theorem generateMain_factorial (n : ℕ) :
    ∃ s, generateMain Globals.initial (factorialProgram n) = some s ∧
      s.blocks = factorialBlocks n ∧ s.allocas.length = 3 := by
  refine ⟨_, rfl, rfl, rfl⟩

theorem factorial_spins (n : ℕ) : ∀ (fuel : ℕ) (m : Machine) (a b c : ℚ), m.block = 1 →
    m.pc = 0 → m.mem 0 = RVal.fp a → m.mem 1 = RVal.fp b → m.mem 2 = RVal.fp c →
    exec (factorialBlocks n) 3 fuel m = ExecResult.noFuel := by
  intro fuel
  induction fuel using Nat.strong_induction_on with
  | _ fuel ih =>
    intro m a b c hb hpc h0 h1 h2
    by_cases hf : fuel < 15
    · by_cases hlt : c < a <;> interval_cases fuel <;>
        simp [exec, fetch, factorialBlocks, step, Machine.setReg, Machine.eval, Machine.jump,
          compare, arith, hb, hpc, h0, h1, h2, hlt]
    · obtain ⟨f, rfl⟩ : ∃ f, fuel = f + 15 := ⟨fuel - 15, by omega⟩
      by_cases hlt : c < a <;>
      · simp [exec, fetch, factorialBlocks, step, Machine.setReg, Machine.eval, Machine.jump,
          compare, arith, hb, hpc, h0, h1, h2, hlt]
        refine ih f (by omega) _ a (b * c) (c + 1) rfl rfl ?_ ?_ ?_ <;> simp [h0]


theorem factorial_start (n : ℕ) (fuel : ℕ) :
    exec (factorialBlocks n) 3 fuel Machine.start = ExecResult.noFuel := by
  by_cases hf : fuel < 4
  · interval_cases fuel <;>
      simp [exec, fetch, factorialBlocks, step, Machine.setReg, Machine.eval, Machine.jump,
        Machine.start]
  · obtain ⟨f, rfl⟩ : ∃ f, fuel = f + 4 := ⟨fuel - 4, by omega⟩
    simp [exec, fetch, factorialBlocks, step, Machine.setReg, Machine.eval, Machine.jump,
      Machine.start]
    exact factorial_spins n f _ n 1 1 rfl rfl rfl rfl rfl

theorem factorialTokens_derive (text : String) (n : ℕ) :
    Derives Nonterminal.lines (factorialTokens text n) (factorialProgram n : List ASTNode) := by
  have var : ∀ x : String,
      Derives Nonterminal.term [⟨TOKEN_IDENTIFIER, x, 0⟩] (VariableExprAST x) :=
    fun x => Derives.termFactor _ _ (Derives.ident ⟨TOKEN_IDENTIFIER, x, 0⟩ rfl)
  have num : ∀ (s : String) (k : ℚ),
      Derives Nonterminal.term [⟨TOKEN_NUMBER, s, k⟩] (NumberExprAST k) :=
    fun s k => Derives.termFactor _ _ (Derives.number ⟨TOKEN_NUMBER, s, k⟩ rfl)
  have asg : ∀ (tag x text : String) (k : ℚ),
      Derives Nonterminal.line
        [⟨TOKEN_INSULT, tag, 0⟩, ⟨TOKEN_COLON, ":", 0⟩, ⟨TOKEN_IDENTIFIER, x, 0⟩,
          ⟨TOKEN_ASSIGN, "=", 0⟩, ⟨TOKEN_NUMBER, text, k⟩]
        (SarcasmLineAST tag (AssignmentAST x (NumberExprAST k))) :=
    fun tag x text k => Derives.line ⟨TOKEN_INSULT, tag, 0⟩ ⟨TOKEN_COLON, ":", 0⟩ _ _ rfl rfl
      (Derives.assignment ⟨TOKEN_IDENTIFIER, x, 0⟩ ⟨TOKEN_ASSIGN, "=", 0⟩ _ _ rfl rfl
        (Derives.exprTerm _ _ (num text k)))
  have l5 := Derives.line ⟨TOKEN_INSULT, "birdbrain", 0⟩ ⟨TOKEN_COLON, ":", 0⟩ _ _ rfl rfl
    (Derives.assignment ⟨TOKEN_IDENTIFIER, "factorial", 0⟩ ⟨TOKEN_ASSIGN, "=", 0⟩ _ _ rfl rfl
      (Derives.exprTerm _ _
        (Derives.termOp _ _ ⟨TOKEN_WORD_MULTIPLY, "times", 0⟩ '*' _ _ (var "factorial") rfl
          (Derives.ident ⟨TOKEN_IDENTIFIER, "i", 0⟩ rfl))))
  have l6 := Derives.line ⟨TOKEN_INSULT, "airhead", 0⟩ ⟨TOKEN_COLON, ":", 0⟩ _ _ rfl rfl
    (Derives.assignment ⟨TOKEN_IDENTIFIER, "i", 0⟩ ⟨TOKEN_ASSIGN, "=", 0⟩ _ _ rfl rfl
      (Derives.exprOp _ _ ⟨TOKEN_WORD_PLUS, "plus", 0⟩ '+' _ _
        (Derives.exprTerm _ _ (var "i")) rfl (num "1" 1)))
  have l4 := Derives.line ⟨TOKEN_INSULT, "dimwit", 0⟩ ⟨TOKEN_COLON, ":", 0⟩ _ _ rfl rfl
    (Derives.whileStmt ⟨TOKEN_WHATEVER, "whatever", 0⟩ ⟨TOKEN_DO, "do", 0⟩
      ⟨TOKEN_LBRACE, "\x7b", 0⟩ ⟨TOKEN_RBRACE, "\x7d", 0⟩ _ _ _ _ rfl
      (Derives.exprOp _ _ ⟨TOKEN_WORD_PLUS, "plus", 0⟩ '+' _ _
        (Derives.exprOp _ _ ⟨TOKEN_LESS, "<", 0⟩ '<' _ _ (Derives.exprTerm _ _ (var "i")) rfl
          (var "n"))
        rfl (num "1" 1))
      rfl rfl
      (Derives.linesCons _ _ _ _ l5 (Derives.linesCons _ _ _ _ l6 Derives.linesNil)) rfl)
  have l7 := Derives.line ⟨TOKEN_INSULT, "smooth_brain", 0⟩ ⟨TOKEN_COLON, ":", 0⟩ _ _ rfl rfl
    (Derives.print ⟨TOKEN_SHOW, "show", 0⟩ _ _ rfl (Derives.exprTerm _ _ (var "factorial")))
  exact Derives.linesCons _ _ _ _ (asg "numbskull" "n" text n)
    (Derives.linesCons _ _ _ _ (asg "bonehead" "factorial" "1" 1)
      (Derives.linesCons _ _ _ _ (asg "meathead" "i" "1" 1)
        (Derives.linesCons _ _ _ _ l4 (Derives.linesCons _ _ _ _ l7 Derives.linesNil))))

theorem runParsed_factorial (n fuel : ℕ) (parser : SarcasmParser) :
    (runParsed Globals.initial fuel (some (factorialProgram n, parser))).outcome =
      Outcome.noFuel := by
  obtain ⟨s, hs, hb, ha⟩ := generateMain_factorial n
  have hv : verifyFunction s.blocks = false := by rw [hb]; rfl
  simp only [runParsed, hs, hv, hb, ha, factorial_start]
  rfl

/-- Claim C12, evaluated at the failing input.  The factorial example never leaves its
loop.  For every natural number `n`, a parser that sees the tokens of the example with the
literal `n` returns, with enough fuel, the tree `factorialProgram n`, whose loop condition
is `(i < n) + 1`; the code generated for it passes the verification, and its execution is
still running after any number of instructions: the condition is 1 or 2, never 0.  So a
call of `compileAndRun` on that tree prints nothing, whatever the fuel.  For the text of
`factorial.sarcasm` itself the parser returns `factorialProgram 5` without a complaint and
the run does not finish; in particular it does not print 120.00. -/
theorem factorial_example_never_leaves_loop :
    (∀ (n : ℕ) (text : String) (p q : SarcasmParser),
      Feeds p (factorialTokens text n) q → q.currentToken.type = TOKEN_EOF →
      Returns (fun fuel => parseProgram fuel p) (factorialProgram n, q)) ∧
    (∀ n : ℕ, ∃ s, generateMain Globals.initial (factorialProgram n) = some s ∧
      verifyFunction s.blocks = false ∧
      ∀ fuel, exec s.blocks s.allocas.length fuel Machine.start = ExecResult.noFuel) ∧
    (∀ (n fuel : ℕ) (parser : SarcasmParser),
      (runParsed Globals.initial fuel (some (factorialProgram n, parser))).outcome =
        Outcome.noFuel) ∧
    (∃ N, ∀ fuel, N ≤ fuel →
      (compileAndRun Globals.initial fuel factorialSource).program = factorialProgram 5 ∧
      (compileAndRun Globals.initial fuel factorialSource).cerr = [] ∧
      (compileAndRun Globals.initial fuel factorialSource).outcome = Outcome.noFuel) ∧
    (compileAndRun Globals.initial 300 factorialSource).outcome = Outcome.noFuel ∧
    (compileAndRun Globals.initial 300 factorialSource).outcome.printed ≠
      [some "Fine, here\x27s your precious number: 120.00\n"] := by
  refine ⟨fun n text p q hf hq => parseProgram_of_derives (factorialTokens_derive text n) hf hq,
    fun n => ?_, runParsed_factorial, ?_, by decide!, by decide!⟩
  · obtain ⟨s, hs, hb, ha⟩ := generateMain_factorial n
    refine ⟨s, hs, by rw [hb]; rfl, fun fuel => ?_⟩
    rw [hb, ha]
    exact factorial_start n fuel
  · have hf : Feeds (SarcasmParser.new factorialSource) (factorialTokens "5" 5)
        (SarcasmParser.nextToken^[44] (SarcasmParser.new factorialSource)) := by decide!
    obtain ⟨N, hN⟩ := parseProgram_of_derives (factorialTokens_derive "5" 5) hf (by decide!)
    refine ⟨N, fun fuel h => ?_⟩
    have hp := hN fuel h
    simp only at hp
    have e : compileAndRun Globals.initial fuel factorialSource =
        runParsed Globals.initial fuel (some (factorialProgram 5,
          SarcasmParser.nextToken^[44] (SarcasmParser.new factorialSource))) := by
      rw [compileAndRun, hp]
    rw [e]
    refine ⟨rfl, ?_, runParsed_factorial _ _ _⟩
    obtain ⟨s, hs, hb, ha⟩ := generateMain_factorial 5
    have hv : verifyFunction s.blocks = false := by rw [hb]; rfl
    simp only [runParsed, hs, hv, Bool.false_eq_true, if_false]
    decide!

theorem factorial_example_never_leaves_loop_witness :
    Feeds (SarcasmParser.new factorialSource) (factorialTokens "5" 5)
      (SarcasmParser.nextToken^[44] (SarcasmParser.new factorialSource)) ∧
    Returns (fun fuel => parseProgram fuel (SarcasmParser.new factorialSource))
      (factorialProgram 5, SarcasmParser.nextToken^[44] (SarcasmParser.new factorialSource)) :=
  have hf : Feeds (SarcasmParser.new factorialSource) (factorialTokens "5" 5)
      (SarcasmParser.nextToken^[44] (SarcasmParser.new factorialSource)) := by decide!
  ⟨hf, factorial_example_never_leaves_loop.1 5 "5" _ _ hf (by decide!)⟩

/-! ### The lexer on runs of characters -/

theorem takeWhile_stop (f : Char → Bool) (run rest : List Char)
    (hrun : ∀ c ∈ run, f c = true) (hrest : ∀ c, rest.head? = some c → f c = false) :
    (run ++ rest).takeWhile f = run := by
  induction run with
  | nil =>
    cases rest with
    | nil => rfl
    | cons c r => simp [List.takeWhile, hrest c rfl]
  | cons w ws ih =>
    have hw := hrun w (by simp)
    have e := ih (fun x hx => hrun x (by simp [hx]))
    rw [List.cons_append, List.takeWhile_cons, hw, if_pos rfl, e]

theorem rest_advance (lx : SarcasmLexer) (run rest : List Char) (n : ℕ)
    (h : lx.rest = run ++ rest) (hn : n = lx.pos + run.length) :
    SarcasmLexer.rest { lx with pos := n } = rest := by
  subst hn
  simp only [SarcasmLexer.rest] at h ⊢
  rw [← List.drop_drop, h, List.drop_left]

theorem scan_run (f : Char → Bool) (lx : SarcasmLexer) (run rest : List Char)
    (h : lx.rest = run ++ rest) (hrun : ∀ c ∈ run, f c = true)
    (hrest : ∀ c, rest.head? = some c → f c = false) :
    SarcasmLexer.scan f lx = (run, { lx with pos := lx.pos + run.length }) := by
  simp only [SarcasmLexer.rest] at h
  simp only [SarcasmLexer.scan, h, takeWhile_stop f run rest hrun hrest]

theorem isalpha_not_isdigit (c : Char) (h : (isalpha c || c = '_') = true) :
    isdigit c = false := by
  rcases Bool.or_eq_true _ _ ▸ h with h | h
  · simp only [isalpha, isdigit, Bool.or_eq_true, Bool.and_eq_true, decide_eq_true_eq] at h ⊢
    simp only [Bool.and_eq_false_imp, decide_eq_true_eq, decide_eq_false_iff_not]
    omega
  · simp only [decide_eq_true_eq] at h
    subst h
    decide

theorem isalpha_not_isspace (c : Char) (h : (isalpha c || c = '_') = true) :
    isspace c = false := by
  rcases Bool.or_eq_true _ _ ▸ h with h | h
  · simp only [isalpha, isspace, Bool.or_eq_true, Bool.and_eq_true, decide_eq_true_eq] at h ⊢
    simp only [Bool.or_eq_false_iff, Bool.and_eq_false_imp, decide_eq_true_eq,
      decide_eq_false_iff_not]
    omega
  · simp only [decide_eq_true_eq] at h
    subst h
    decide

theorem isdigit_not_isspace (c : Char) (h : isdigit c = true) : isspace c = false := by
  simp only [isdigit, isspace, Bool.or_eq_true, Bool.and_eq_true, decide_eq_true_eq] at h ⊢
  simp only [Bool.or_eq_false_iff, Bool.and_eq_false_imp, decide_eq_true_eq,
    decide_eq_false_iff_not]
  omega

theorem nextToken_word (lx : SarcasmLexer) (ws w rest : List Char) (c : Char)
    (h : lx.rest = ws ++ (c :: w ++ rest)) (hws : ∀ x ∈ ws, isspace x = true)
    (hc : (isalpha c || c = '_') = true) (hw : ∀ x ∈ w, isWordChar x = true)
    (hrest : ∀ x, rest.head? = some x → isWordChar x = false) :
    lx.nextToken = (SarcasmLexer.classifyWord (String.mk ((c :: w).map tolower)),
      { lx with pos := lx.pos + ws.length + (c :: w).length }) := by
  have h1 := scan_run isspace lx ws (c :: w ++ rest) h hws
    (fun x hx => by
      simp only [List.cons_append, List.head?_cons, Option.some.injEq] at hx
      subst hx
      exact isalpha_not_isspace _ hc)
  have h2 : SarcasmLexer.rest { lx with pos := lx.pos + ws.length } = c :: w ++ rest :=
    rest_advance lx ws _ _ h rfl
  have hcw : isWordChar c = true := by
    simp only [isWordChar, isalnum, Bool.or_eq_true, decide_eq_true_eq] at hc ⊢
    tauto
  have h3 := scan_run (fun c => isalnum c || c = '_') { lx with pos := lx.pos + ws.length }
    (c :: w) rest h2
    (fun x hx => by
      rcases List.mem_cons.1 hx with rfl | hx
      · exact hcw
      · exact hw x hx)
    hrest
  have h2' : List.drop (lx.pos + ws.length) lx.input = c :: (w ++ rest) := h2
  simp only [SarcasmLexer.nextToken, h1, h2', isalpha_not_isdigit c hc, hc,
    SarcasmLexer.readWord, h3]
  simp

theorem nextToken_number (lx : SarcasmLexer) (ws w rest : List Char) (c : Char)
    (h : lx.rest = ws ++ (c :: w ++ rest)) (hws : ∀ x ∈ ws, isspace x = true)
    (hc : isdigit c = true) (hw : ∀ x ∈ w, (isdigit x || x = '.') = true)
    (hrest : ∀ x, rest.head? = some x → (isdigit x || x = '.') = false) :
    lx.nextToken = (⟨TOKEN_NUMBER, String.mk (c :: w), stod (c :: w)⟩,
      { lx with pos := lx.pos + ws.length + (c :: w).length }) := by
  have h1 := scan_run isspace lx ws (c :: w ++ rest) h hws
    (fun x hx => by
      simp only [List.cons_append, List.head?_cons, Option.some.injEq] at hx
      subst hx
      exact isdigit_not_isspace _ hc)
  have h2 : SarcasmLexer.rest { lx with pos := lx.pos + ws.length } = c :: w ++ rest :=
    rest_advance lx ws _ _ h rfl
  have h3 := scan_run (fun c => isdigit c || c = '.') { lx with pos := lx.pos + ws.length }
    (c :: w) rest h2
    (fun x hx => by
      rcases List.mem_cons.1 hx with rfl | hx
      · simp [hc]
      · exact hw x hx)
    hrest
  have h2' : List.drop (lx.pos + ws.length) lx.input = c :: (w ++ rest) := h2
  simp only [SarcasmLexer.nextToken, h1, h2', hc, h3]
  simp

theorem nextToken_punctuation (lx : SarcasmLexer) (ws rest : List Char) (c : Char)
    (h : lx.rest = ws ++ c :: rest) (hws : ∀ x ∈ ws, isspace x = true)
    (hs : isspace c = false) (hd : isdigit c = false) (ha : (isalpha c || c = '_') = false) :
    lx.nextToken = (SarcasmLexer.punctuation c,
      { lx with pos := lx.pos + ws.length + 1 }) := by
  have h1 := scan_run isspace lx ws (c :: rest) h hws
    (fun x hx => by
      simp only [List.head?_cons, Option.some.injEq] at hx
      subst hx
      exact hs)
  have h2 : SarcasmLexer.rest { lx with pos := lx.pos + ws.length } = c :: rest :=
    rest_advance lx ws _ _ h rfl
  have h2' : List.drop (lx.pos + ws.length) lx.input = c :: rest := h2
  simp only [SarcasmLexer.nextToken, h1, h2', hd, ha]
  simp

theorem nextToken_end (lx : SarcasmLexer) (h : ∀ x ∈ lx.rest, isspace x = true) :
    lx.nextToken = (⟨TOKEN_EOF, "", 0⟩, { lx with pos := lx.pos + lx.rest.length }) := by
  have h1 := scan_run isspace lx lx.rest [] (by simp) h (fun x hx => by simp at hx)
  have h2 : SarcasmLexer.rest { lx with pos := lx.pos + lx.rest.length } = [] :=
    rest_advance lx lx.rest [] _ (by simp) rfl
  have h2' : List.drop (lx.pos + lx.rest.length) lx.input = [] := h2
  simp only [SarcasmLexer.nextToken, h1, h2']

theorem classifyWord_eq (word : String) :
    SarcasmLexer.classifyWord word = ⟨wordKind word, word, 0⟩ := by
  simp only [SarcasmLexer.classifyWord, wordKind, List.mem_cons, List.mem_singleton]
  by_cases h1 : word = "obviously"
  · subst h1; decide
  by_cases h2 : word = "whatever"
  · subst h2; decide
  by_cases h3 : word = "then"
  · subst h3; decide
  by_cases h4 : word = "do"
  · subst h4; decide
  by_cases h5 : word = "show"
  · subst h5; decide
  by_cases h6 : word = "display"
  · subst h6; decide
  by_cases h7 : word = "reveal"
  · subst h7; decide
  by_cases h8 : word = "output"
  · subst h8; decide
  by_cases h9 : word = "plus"
  · subst h9; decide
  by_cases h10 : word = "minus"
  · subst h10; decide
  by_cases h11 : word = "times"
  · subst h11; decide
  by_cases h12 : word = "divided_by"
  · subst h12; decide
  by_cases hi : word ∈ insults <;>
    simp [h1, h2, h3, h4, h5, h6, h7, h8, h9, h10, h11, h12, hi]

/-- Claim C14.  A maximal run of alphanumeric or underscore characters that starts with a
letter or an underscore becomes one token: when the unread input is whitespace `ws`, then
the run `c :: w`, then `rest` (empty, or starting with a character that is no word
character), `nextToken` returns the token whose text is the run lowercased and whose kind
is `wordKind` of that text, that is keyword, else print verb, else word operator, else line
tag when the text is in the vocabulary, else plain identifier; the lexer has then read the
whitespace and the run, and nothing more. -/
theorem word_classified_in_priority_order (lx : SarcasmLexer) (ws w rest : List Char)
    (c : Char) (h : lx.rest = ws ++ (c :: w ++ rest)) (hws : ∀ x ∈ ws, isspace x = true)
    (hc : (isalpha c || c = '_') = true) (hw : ∀ x ∈ w, isWordChar x = true)
    (hrest : ∀ x, rest.head? = some x → isWordChar x = false) :
    lx.nextToken =
      (⟨wordKind (String.mk ((c :: w).map tolower)), String.mk ((c :: w).map tolower), 0⟩,
        { lx with pos := lx.pos + ws.length + (c :: w).length }) := by
  rw [nextToken_word lx ws w rest c h hws hc hw hrest, classifyWord_eq]

theorem word_classified_in_priority_order_witness :
    (SarcasmLexer.new "  Divided_By 2").nextToken =
      (⟨wordKind "divided_by", "divided_by", 0⟩,
        { input := "  Divided_By 2".data, pos := 12 }) ∧
    wordKind "divided_by" = TOKEN_WORD_DIVIDE :=
  ⟨word_classified_in_priority_order (SarcasmLexer.new "  Divided_By 2") [' ', ' ']
    "ivided_By".data " 2".data 'D' rfl (by decide) (by decide) (by decide) (by decide),
   by decide⟩

/-! ### Parsers that see the same tokens -/

theorem symbolType_reads (a : TokenType) :
    isTermOp a = isTermOp (symbolType a) ∧ termOp a = termOp (symbolType a) ∧
    isExprOp a = isExprOp (symbolType a) ∧ exprOp a = exprOp (symbolType a) ∧
    ∀ X ∈ [TOKEN_EOF, TOKEN_NUMBER, TOKEN_IDENTIFIER, TOKEN_ASSIGN, TOKEN_COLON, TOKEN_LPAREN,
      TOKEN_RPAREN, TOKEN_LBRACE, TOKEN_RBRACE, TOKEN_OBVIOUSLY, TOKEN_WHATEVER, TOKEN_THEN,
      TOKEN_DO, TOKEN_SHOW, TOKEN_INSULT], (a = X) = (symbolType a = X) := by
  cases a <;> decide

theorem sameType_reads {a b : TokenType} (h : symbolType a = symbolType b) :
    isTermOp a = isTermOp b ∧ termOp a = termOp b ∧
    isExprOp a = isExprOp b ∧ exprOp a = exprOp b ∧
    ∀ X ∈ [TOKEN_EOF, TOKEN_NUMBER, TOKEN_IDENTIFIER, TOKEN_ASSIGN, TOKEN_COLON, TOKEN_LPAREN,
      TOKEN_RPAREN, TOKEN_LBRACE, TOKEN_RBRACE, TOKEN_OBVIOUSLY, TOKEN_WHATEVER, TOKEN_THEN,
      TOKEN_DO, TOKEN_SHOW, TOKEN_INSULT], (a = X) = (b = X) := by
  obtain ⟨a1, a2, a3, a4, a5⟩ := symbolType_reads a
  obtain ⟨b1, b2, b3, b4, b5⟩ := symbolType_reads b
  refine ⟨by rw [a1, b1, h], by rw [a2, b2, h], by rw [a3, b3, h], by rw [a4, b4, h], ?_⟩
  intro X hX
  rw [a5 X hX, b5 X hX, h]

theorem iterate_complain (p : SarcasmParser) (msg : String) (n : ℕ) :
    SarcasmParser.nextToken^[n] (p.complain msg) =
      (SarcasmParser.nextToken^[n] p).complain msg := by
  induction n with
  | zero => rfl
  | succ n ih => rw [Function.iterate_succ_apply', Function.iterate_succ_apply', ih]; rfl

theorem parserSim_next {f : String → String} {p q : SarcasmParser} (h : ParserSim f p q) :
    ParserSim f p.nextToken q.nextToken :=
  ⟨fun n => by
    have := h.1 (n + 1)
    rwa [Function.iterate_succ_apply, Function.iterate_succ_apply] at this, h.2⟩

theorem parserSim_complain {f : String → String} {p q : SarcasmParser} (h : ParserSim f p q)
    (m m2 : String) (hm : (∀ s, f s = s) → m = m2) :
    ParserSim f (p.complain m) (q.complain m2) :=
  ⟨fun n => by
    rw [iterate_complain, iterate_complain]
    exact h.1 n, fun hf => by
    simp only [SarcasmParser.complain, h.2 hf, hm hf]⟩

theorem parserSim_reads {f : String → String} {p q : SarcasmParser} (h : ParserSim f p q) :
    (isTermOp q.currentToken.type = isTermOp p.currentToken.type ∧
      termOp q.currentToken.type = termOp p.currentToken.type ∧
      isExprOp q.currentToken.type = isExprOp p.currentToken.type ∧
      exprOp q.currentToken.type = exprOp p.currentToken.type ∧
      ∀ X ∈ [TOKEN_EOF, TOKEN_NUMBER, TOKEN_IDENTIFIER, TOKEN_ASSIGN, TOKEN_COLON,
        TOKEN_LPAREN, TOKEN_RPAREN, TOKEN_LBRACE, TOKEN_RBRACE, TOKEN_OBVIOUSLY,
        TOKEN_WHATEVER, TOKEN_THEN, TOKEN_DO, TOKEN_SHOW, TOKEN_INSULT],
        (q.currentToken.type = X) = (p.currentToken.type = X)) ∧
    (p.currentToken.type = TOKEN_NUMBER → q.currentToken.numValue = p.currentToken.numValue) ∧
    (p.currentToken.type = TOKEN_IDENTIFIER → q.currentToken.value = p.currentToken.value) ∧
    (p.currentToken.type = TOKEN_SHOW → q.currentToken.value = p.currentToken.value) ∧
    (p.currentToken.type = TOKEN_INSULT →
      f q.currentToken.value = f p.currentToken.value) := by
  have h0 := h.1 0
  simp only [Function.iterate_zero, id_eq, parserView, Token.mk.injEq] at h0
  obtain ⟨ht, hv, hn⟩ := h0
  have hr := sameType_reads ht.symm
  refine ⟨hr, ?_, ?_, ?_, ?_⟩
  · intro hp
    have hq : q.currentToken.type = TOKEN_NUMBER := by rw [hr.2.2.2.2 _ (by simp)]; exact hp
    simpa [hp, hq] using hn.symm
  · intro hp
    have hq : q.currentToken.type = TOKEN_IDENTIFIER := by
      rw [hr.2.2.2.2 _ (by simp)]; exact hp
    simpa [hp, hq] using hv.symm
  · intro hp
    have hq : q.currentToken.type = TOKEN_SHOW := by rw [hr.2.2.2.2 _ (by simp)]; exact hp
    simpa [hp, hq] using hv.symm
  · intro hp
    have hq : q.currentToken.type = TOKEN_INSULT := by rw [hr.2.2.2.2 _ (by simp)]; exact hp
    simpa [hp, hq] using hv.symm

theorem parseSim_cases {f : String → String} {α : Type} {r : α → α → Prop}
    {x y : Option (α × SarcasmParser)} (h : ParseSim f r x y) :
    (x = none ∧ y = none) ∨
      ∃ a p b q, x = some (a, p) ∧ y = some (b, q) ∧ r a b ∧ ParserSim f p q := by
  rcases x with _ | ⟨a, p⟩ <;> rcases y with _ | ⟨b, q⟩
  · exact Or.inl ⟨rfl, rfl⟩
  · exact h.elim
  · exact h.elim
  · exact Or.inr ⟨a, p, b, q, rfl, rfl, h.1, h.2⟩

theorem expression_sim (f : String → String) : ∀ fuel : ℕ,
    (∀ p q, ParserSim f p q →
      ParseSim f (SameTree f) (parseFactor fuel p) (parseFactor fuel q)) ∧
    (∀ l l2 p q, SameTree f l l2 → ParserSim f p q →
      ParseSim f (SameTree f) (parseTermLoop fuel l p) (parseTermLoop fuel l2 q)) ∧
    (∀ p q, ParserSim f p q →
      ParseSim f (SameTree f) (parseTerm fuel p) (parseTerm fuel q)) ∧
    (∀ l l2 p q, SameTree f l l2 → ParserSim f p q →
      ParseSim f (SameTree f) (parseExpressionLoop fuel l p) (parseExpressionLoop fuel l2 q)) ∧
    (∀ p q, ParserSim f p q →
      ParseSim f (SameTree f) (parseExpression fuel p) (parseExpression fuel q)) := by
  intro fuel
  induction fuel with
  | zero =>
    refine ⟨?_, ?_, ?_, ?_, ?_⟩ <;> intros <;>
      simp [parseFactor, parseTermLoop, parseTerm, parseExpressionLoop, parseExpression,
        ParseSim]
  | succ fuel ih =>
    obtain ⟨ihF, ihTL, ihT, ihEL, ihE⟩ := ih
    refine ⟨?_, ?_, ?_, ?_, ?_⟩
    · intro p q h
      obtain ⟨⟨-, -, -, -, ht⟩, hn, hi, -, -⟩ := parserSim_reads h
      have t1 := ht TOKEN_NUMBER (by simp)
      have t2 := ht TOKEN_IDENTIFIER (by simp)
      have t3 := ht TOKEN_LPAREN (by simp)
      simp only [parseFactor, t1, t2, t3]
      split_ifs with c1 c2 c3
      · exact ⟨by simp [SameTree, retag, hn c1], parserSim_next h⟩
      · exact ⟨by simp [SameTree, retag, hi c2], parserSim_next h⟩
      · rcases parseSim_cases (ihE _ _ (parserSim_next h)) with
          ⟨hx, hy⟩ | ⟨a, p1, b, q1, hx, hy, hab, hs⟩
        · rw [hx, hy]; trivial
        · rw [hx, hy]
          obtain ⟨⟨-, -, -, -, ht1⟩, -⟩ := parserSim_reads hs
          have t4 := ht1 TOKEN_RPAREN (by simp)
          simp only [ne_eq, t4]
          split_ifs with c4
          · exact ⟨hab, parserSim_next hs⟩
          · exact ⟨rfl, parserSim_complain hs _ _ (fun _ => rfl)⟩
      · exact ⟨rfl, h⟩
    · intro l l2 p q hl h
      obtain ⟨⟨r1, r2, -, -, -⟩, -⟩ := parserSim_reads h
      simp only [parseTermLoop, r1, r2]
      split_ifs with c1
      · rcases parseSim_cases (ihF _ _ (parserSim_next h)) with
          ⟨hx, hy⟩ | ⟨a, p1, b, q1, hx, hy, hab, hs⟩
        · rw [hx, hy]; trivial
        · rw [hx, hy]
          refine ihTL _ _ _ _ ?_ hs
          simp only [SameTree, retag] at hl hab ⊢
          rw [hl, hab]
      · exact ⟨hl, h⟩
    · intro p q h
      simp only [parseTerm]
      rcases parseSim_cases (ihF _ _ h) with ⟨hx, hy⟩ | ⟨a, p1, b, q1, hx, hy, hab, hs⟩
      · rw [hx, hy]; trivial
      · rw [hx, hy]
        exact ihTL _ _ _ _ hab hs
    · intro l l2 p q hl h
      obtain ⟨⟨-, -, r3, r4, -⟩, -⟩ := parserSim_reads h
      simp only [parseExpressionLoop, r3, r4]
      split_ifs with c1
      · rcases parseSim_cases (ihT _ _ (parserSim_next h)) with
          ⟨hx, hy⟩ | ⟨a, p1, b, q1, hx, hy, hab, hs⟩
        · rw [hx, hy]; trivial
        · rw [hx, hy]
          refine ihEL _ _ _ _ ?_ hs
          simp only [SameTree, retag] at hl hab ⊢
          rw [hl, hab]
      · exact ⟨hl, h⟩
    · intro p q h
      simp only [parseExpression]
      rcases parseSim_cases (ihT _ _ h) with ⟨hx, hy⟩ | ⟨a, p1, b, q1, hx, hy, hab, hs⟩
      · rw [hx, hy]; trivial
      · rw [hx, hy]
        exact ihEL _ _ _ _ hab hs

theorem retag_eq_nullptr (f : String → String) (a : ASTNode) :
    retag f a = nullptr ↔ a = nullptr := by
  cases a <;> simp [retag]

theorem sameTree_nullptr {f : String → String} {a b : ASTNode} (h : SameTree f a b) :
    (b = nullptr) = (a = nullptr) := by
  apply propext
  rw [← retag_eq_nullptr f a, ← retag_eq_nullptr f b, h]

theorem retagAll_append (f : String → String) (l l2 : List ASTNode) :
    retagAll f (l ++ l2) = retagAll f l ++ retagAll f l2 := by
  induction l with
  | nil => rfl
  | cons a as ih => simp [retagAll, ih]

theorem sameTrees_snoc {f : String → String} {l l2 : List ASTNode} {a b : ASTNode}
    (hl : SameTrees f l l2) (h : SameTree f a b) : SameTrees f (l ++ [a]) (l2 ++ [b]) := by
  simp only [SameTrees, SameTree, retagAll_append, retagAll] at *
  rw [hl, h]

theorem statement_sim (f : String → String) : ∀ fuel : ℕ,
    (∀ p q, ParserSim f p q →
      ParseSim f (SameTree f) (parseStatement fuel p) (parseStatement fuel q)) ∧
    (∀ p q, ParserSim f p q →
      ParseSim f (SameTree f) (parseStatementRest fuel p) (parseStatementRest fuel q)) ∧
    (∀ l l2 p q, SameTrees f l l2 → ParserSim f p q →
      ParseSim f (SameTrees f) (parseBlock fuel l p) (parseBlock fuel l2 q)) ∧
    (∀ p q, ParserSim f p q →
      ParseSim f (SameTree f) (parseLine fuel p) (parseLine fuel q)) := by
  intro fuel
  induction fuel with
  | zero =>
    refine ⟨?_, ?_, ?_, ?_⟩ <;> intros <;>
      simp [parseStatement, parseStatementRest, parseBlock, parseLine, ParseSim]
  | succ fuel ih =>
    obtain ⟨ihS, ihR, ihB, ihL⟩ := ih
    have ihE := (expression_sim f fuel).2.2.2.2
    refine ⟨?_, ?_, ?_, ?_⟩
    · intro p q h
      obtain ⟨⟨-, -, -, -, ht⟩, -, hi, -, -⟩ := parserSim_reads h
      obtain ⟨⟨-, -, -, -, ht1⟩, -⟩ := parserSim_reads (parserSim_next h)
      have t1 := ht TOKEN_IDENTIFIER (by simp)
      have t2 := ht1 TOKEN_ASSIGN (by simp)
      simp only [parseStatement, t1, t2]
      split_ifs with c1 c2
      · rcases parseSim_cases (ihE _ _ (parserSim_next (parserSim_next h))) with
          ⟨hx, hy⟩ | ⟨a, p1, b, q1, hx, hy, hab, hs⟩
        · rw [hx, hy]; trivial
        · rw [hx, hy]
          refine ⟨?_, hs⟩
          simp only [SameTree, retag] at hab ⊢
          rw [hab, hi c1]
      · exact ihR _ _ (parserSim_next h)
      · exact ihR _ _ h
    · intro p q h
      obtain ⟨⟨-, -, -, -, ht⟩, -, -, hw, -⟩ := parserSim_reads h
      have t1 := ht TOKEN_SHOW (by simp)
      have t2 := ht TOKEN_OBVIOUSLY (by simp)
      have t3 := ht TOKEN_WHATEVER (by simp)
      simp only [parseStatementRest, t1, t2, t3]
      split_ifs with c1 c2 c3
      · rcases parseSim_cases (ihE _ _ (parserSim_next h)) with
          ⟨hx, hy⟩ | ⟨a, p1, b, q1, hx, hy, hab, hs⟩
        · rw [hx, hy]; trivial
        · rw [hx, hy]
          refine ⟨?_, hs⟩
          simp only [SameTree, retag] at hab ⊢
          rw [hab, hw c1]
      · rcases parseSim_cases (ihE _ _ (parserSim_next h)) with
          ⟨hx, hy⟩ | ⟨a, p1, b, q1, hx, hy, hab, hs⟩
        · rw [hx, hy]; trivial
        · rw [hx, hy]
          obtain ⟨⟨-, -, -, -, hu⟩, -⟩ := parserSim_reads hs
          obtain ⟨⟨-, -, -, -, hu1⟩, -⟩ := parserSim_reads (parserSim_next hs)
          have u1 := hu TOKEN_THEN (by simp)
          have u2 := hu1 TOKEN_LBRACE (by simp)
          simp only [ne_eq, u1, u2]
          split_ifs with d1 d2
          · rcases parseSim_cases
                (ihB [] [] _ _ rfl (parserSim_next (parserSim_next hs))) with
              ⟨hx2, hy2⟩ | ⟨a2, p2, b2, q2, hx2, hy2, hab2, hs2⟩
            · rw [hx2, hy2]; trivial
            · rw [hx2, hy2]
              obtain ⟨⟨-, -, -, -, hv⟩, -⟩ := parserSim_reads hs2
              have v1 := hv TOKEN_RBRACE (by simp)
              simp only [v1]
              split_ifs with e1
              · refine ⟨?_, parserSim_next hs2⟩
                simp only [SameTree, SameTrees, retag] at hab hab2 ⊢
                rw [hab, hab2]
              · exact ⟨rfl, parserSim_complain hs2 _ _ (fun _ => rfl)⟩
          · exact ⟨rfl, parserSim_complain (parserSim_next hs) _ _ (fun _ => rfl)⟩
          · exact ⟨rfl, parserSim_complain hs _ _ (fun _ => rfl)⟩
      · rcases parseSim_cases (ihE _ _ (parserSim_next h)) with
          ⟨hx, hy⟩ | ⟨a, p1, b, q1, hx, hy, hab, hs⟩
        · rw [hx, hy]; trivial
        · rw [hx, hy]
          obtain ⟨⟨-, -, -, -, hu⟩, -⟩ := parserSim_reads hs
          obtain ⟨⟨-, -, -, -, hu1⟩, -⟩ := parserSim_reads (parserSim_next hs)
          have u1 := hu TOKEN_DO (by simp)
          have u2 := hu1 TOKEN_LBRACE (by simp)
          simp only [ne_eq, u1, u2]
          split_ifs with d1 d2
          · rcases parseSim_cases
                (ihB [] [] _ _ rfl (parserSim_next (parserSim_next hs))) with
              ⟨hx2, hy2⟩ | ⟨a2, p2, b2, q2, hx2, hy2, hab2, hs2⟩
            · rw [hx2, hy2]; trivial
            · rw [hx2, hy2]
              obtain ⟨⟨-, -, -, -, hv⟩, -⟩ := parserSim_reads hs2
              have v1 := hv TOKEN_RBRACE (by simp)
              simp only [v1]
              split_ifs with e1
              · refine ⟨?_, parserSim_next hs2⟩
                simp only [SameTree, SameTrees, retag] at hab hab2 ⊢
                rw [hab, hab2]
              · exact ⟨rfl, parserSim_complain hs2 _ _ (fun _ => rfl)⟩
          · exact ⟨rfl, parserSim_complain (parserSim_next hs) _ _ (fun _ => rfl)⟩
          · exact ⟨rfl, parserSim_complain hs _ _ (fun _ => rfl)⟩
      · exact ⟨rfl, h⟩
    · intro l l2 p q hl h
      obtain ⟨⟨-, -, -, -, ht⟩, -⟩ := parserSim_reads h
      have t1 := ht TOKEN_RBRACE (by simp)
      have t2 := ht TOKEN_EOF (by simp)
      simp only [parseBlock, ne_eq, t1, t2]
      split_ifs with c1
      · rcases parseSim_cases (ihL _ _ h) with ⟨hx, hy⟩ | ⟨a, p1, b, q1, hx, hy, hab, hs⟩
        · rw [hx, hy]; trivial
        · rw [hx, hy]
          simp only [sameTree_nullptr hab]
          split_ifs with c2
          · exact ihB _ _ _ _ hl hs
          · exact ihB _ _ _ _ (sameTrees_snoc hl hab) hs
      · exact ⟨hl, h⟩
    · intro p q h
      obtain ⟨⟨-, -, -, -, ht⟩, -, -, -, hi⟩ := parserSim_reads h
      obtain ⟨⟨-, -, -, -, ht1⟩, -⟩ := parserSim_reads (parserSim_next h)
      have t1 := ht TOKEN_INSULT (by simp)
      have t2 := ht1 TOKEN_COLON (by simp)
      simp only [parseLine, ne_eq, t1, t2]
      split_ifs with c1 c2
      · rcases parseSim_cases (ihS _ _ (parserSim_next (parserSim_next h))) with
          ⟨hx, hy⟩ | ⟨a, p1, b, q1, hx, hy, hab, hs⟩
        · rw [hx, hy]; trivial
        · rw [hx, hy]
          simp only [sameTree_nullptr hab]
          split_ifs with c3
          · refine ⟨rfl, parserSim_complain hs _ _ (fun hf => ?_)⟩
            have := hi c1
            rw [hf, hf] at this
            rw [this]
          · refine ⟨?_, hs⟩
            simp only [SameTree, retag] at hab ⊢
            rw [hab, hi c1]
      · refine ⟨rfl, parserSim_complain (parserSim_next h) _ _ (fun hf => ?_)⟩
        have := hi c1
        rw [hf, hf] at this
        rw [this]
      · exact ⟨rfl, parserSim_complain h _ _ (fun _ => rfl)⟩

theorem parseProgramLoop_sim (f : String → String) : ∀ (fuel : ℕ) (l l2 : List ASTNode)
    (p q : SarcasmParser), SameTrees f l l2 → ParserSim f p q →
    ParseSim f (SameTrees f) (parseProgramLoop fuel l p) (parseProgramLoop fuel l2 q) := by
  intro fuel
  induction fuel with
  | zero => intros; simp [parseProgramLoop, ParseSim]
  | succ fuel ih =>
    intro l l2 p q hl h
    obtain ⟨⟨-, -, -, -, ht⟩, -⟩ := parserSim_reads h
    have t1 := ht TOKEN_EOF (by simp)
    simp only [parseProgramLoop, ne_eq, t1]
    split_ifs with c1
    · exact ⟨hl, h⟩
    · rcases parseSim_cases ((statement_sim f fuel).2.2.2 _ _ h) with
        ⟨hx, hy⟩ | ⟨a, p1, b, q1, hx, hy, hab, hs⟩
      · rw [hx, hy]; trivial
      · rw [hx, hy]
        simp only [sameTree_nullptr hab]
        split_ifs with c2
        · exact ⟨hl, parserSim_complain hs _ _ (fun _ => rfl)⟩
        · exact ih _ _ _ _ (sameTrees_snoc hl hab) hs

theorem parseProgram_sim (f : String → String) (fuel : ℕ) (p q : SarcasmParser)
    (h : ParserSim f p q) :
    ParseSim f (SameTrees f) (parseProgram fuel p) (parseProgram fuel q) :=
  parseProgramLoop_sim f fuel [] [] p q rfl h

/-! ### Line tags in code generation -/

theorem silent_cases {x y : Option (Option Value × CodegenState)}
    (h : x.map silentResult = y.map silentResult) :
    (x = none ∧ y = none) ∨
      ∃ v s c, x = some (v, s) ∧ y = some (v, { s with cout := c }) := by
  rcases x with _ | ⟨v, s⟩ <;> rcases y with _ | ⟨w, t⟩
  · exact Or.inl ⟨rfl, rfl⟩
  · simp at h
  · simp at h
  · simp only [Option.map_some', silentResult, Option.some.injEq, Prod.mk.injEq,
      CodegenState.silent] at h
    obtain ⟨rfl, hs⟩ := h
    refine Or.inr ⟨v, s, t.cout, rfl, ?_⟩
    cases s; cases t
    simp only [CodegenState.mk.injEq] at hs ⊢
    simp_all

theorem silent_cases_stmts {x y : Option CodegenState}
    (h : x.map CodegenState.silent = y.map CodegenState.silent) :
    (x = none ∧ y = none) ∨ ∃ s c, x = some s ∧ y = some { s with cout := c } := by
  rcases x with _ | s <;> rcases y with _ | t
  · exact Or.inl ⟨rfl, rfl⟩
  · simp at h
  · simp at h
  · simp only [Option.map_some', Option.some.injEq, CodegenState.silent] at h
    refine Or.inr ⟨s, t.cout, rfl, ?_⟩
    cases s; cases t
    simp only [CodegenState.mk.injEq] at h ⊢
    simp_all

mutual
theorem codegen_retag (f : String → String) : ∀ (a : ASTNode) (s : CodegenState)
    (c : List String),
    (codegen a s).map silentResult =
      (codegen (retag f a) { s with cout := c }).map silentResult
  | .nullptr, s, c => by simp [codegen, retag]
  | .NumberExprAST val, s, c => by simp [codegen, retag, silentResult, CodegenState.silent]
  | .VariableExprAST name, s, c => by
    simp only [codegen, retag]
    cases s.namedValues.lookup name <;>
      simp [silentResult, CodegenState.silent, emitValue, emit, createEntryBlockAlloca]
  | .BinaryExprAST op lhs rhs, s, c => by
    simp only [codegen, retag]
    rcases silent_cases (codegen_retag f lhs s c) with ⟨hx, hy⟩ | ⟨l, s1, c1, hx, hy⟩
    · rw [hx, hy]
    · rw [hx, hy]
      simp only
      rcases silent_cases (codegen_retag f rhs s1 c1) with ⟨hx2, hy2⟩ | ⟨r, s2, c2, hx2, hy2⟩
      · rw [hx2, hy2]
      · rw [hx2, hy2]
        cases l <;> cases r <;> try rfl
        simp only
        split_ifs <;> rfl
  | .AssignmentAST varName expr, s, c => by
    simp only [codegen, retag]
    rcases silent_cases (codegen_retag f expr s c) with ⟨hx, hy⟩ | ⟨v, s1, c1, hx, hy⟩
    · rw [hx, hy]
    · rw [hx, hy]
      cases v
      · rfl
      · simp only
        cases s1.namedValues.lookup varName <;> rfl
  | .PrintAST expr printWord, s, c => by
    simp only [codegen, retag]
    rcases silent_cases (codegen_retag f expr s c) with ⟨hx, hy⟩ | ⟨v, s1, c1, hx, hy⟩
    · rw [hx, hy]
    · rw [hx, hy]
      cases v <;> rfl
  | .IfAST condition thenStmts, s, c => by
    simp only [codegen, retag]
    rcases silent_cases (codegen_retag f condition s c) with ⟨hx, hy⟩ | ⟨v, s1, c1, hx, hy⟩
    · rw [hx, hy]
    · rw [hx, hy]
      cases v
      · rfl
      · simp only
        rcases silent_cases_stmts (codegenStmts_retag f thenStmts _ c1) with
          ⟨hx2, hy2⟩ | ⟨s3, c3, hx2, hy2⟩
        · rw [hx2]
          erw [hy2]
        · rw [hx2]
          erw [hy2]
          rfl
  | .WhileAST condition body, s, c => by
    simp only [codegen, retag]
    rcases silent_cases (codegen_retag f condition _ c) with ⟨hx, hy⟩ | ⟨v, s1, c1, hx, hy⟩
    · rw [hx]
      erw [hy]
    · rw [hx]
      erw [hy]
      cases v
      · rfl
      · simp only
        rcases silent_cases_stmts (codegenStmts_retag f body _ c1) with
          ⟨hx2, hy2⟩ | ⟨s3, c3, hx2, hy2⟩
        · rw [hx2]
          erw [hy2]
        · rw [hx2]
          erw [hy2]
          rfl
  | .SarcasmLineAST insult statement, s, c => by
    simp only [codegen, retag]
    rcases silent_cases (codegen_retag f statement s c) with ⟨hx, hy⟩ | ⟨v, s1, c1, hx, hy⟩
    · rw [hx, hy]
    · rw [hx, hy]; rfl
theorem codegenStmts_retag (f : String → String) : ∀ (l : List ASTNode) (s : CodegenState)
    (c : List String),
    (codegenStmts l s).map CodegenState.silent =
      (codegenStmts (retagAll f l) { s with cout := c }).map CodegenState.silent
  | [], s, c => by simp [codegenStmts, retagAll, CodegenState.silent]
  | a :: as, s, c => by
    simp only [codegenStmts, retagAll]
    rcases silent_cases (codegen_retag f a s c) with ⟨hx, hy⟩ | ⟨v, s1, c1, hx, hy⟩
    · rw [hx, hy]
    · rw [hx, hy]
      exact codegenStmts_retag f as s1 c1
end

mutual
theorem retag_id : ∀ a : ASTNode, retag (fun s => s) a = a
  | .nullptr => rfl
  | .NumberExprAST _ => rfl
  | .VariableExprAST _ => rfl
  | .BinaryExprAST _ l r => by simp [retag, retag_id l, retag_id r]
  | .AssignmentAST _ e => by simp [retag, retag_id e]
  | .PrintAST e _ => by simp [retag, retag_id e]
  | .IfAST c t => by simp [retag, retag_id c, retagAll_id t]
  | .WhileAST c t => by simp [retag, retag_id c, retagAll_id t]
  | .SarcasmLineAST _ s => by simp [retag, retag_id s]
theorem retagAll_id : ∀ l : List ASTNode, retagAll (fun s => s) l = l
  | [] => rfl
  | a :: as => by simp [retagAll, retag_id a, retagAll_id as]
end

theorem parserView_symbolForm (f : String → String) (t : Token) :
    parserView f (symbolForm t) = parserView f t := by
  obtain ⟨ty, v, n⟩ := t
  cases ty <;> simp [symbolForm, parserView, symbolType]

theorem parserView_untagged (t : Token) :
    parserView (fun _ => "") (untagged t) = parserView (fun _ => "") t := by
  obtain ⟨ty, v, n⟩ := t
  cases ty <;> simp [untagged, parserView, symbolType]

theorem parserSim_of_symbolForm {p q : SarcasmParser}
    (h : ∀ n, symbolForm (SarcasmParser.nextToken^[n] p).currentToken =
      symbolForm (SarcasmParser.nextToken^[n] q).currentToken)
    (hc : p.cerr = q.cerr) : ParserSim (fun s => s) p q :=
  ⟨fun n => by rw [← parserView_symbolForm, h n, parserView_symbolForm], fun _ => hc⟩

theorem parserSim_of_untagged {p q : SarcasmParser}
    (h : ∀ n, untagged (SarcasmParser.nextToken^[n] p).currentToken =
      untagged (SarcasmParser.nextToken^[n] q).currentToken) :
    ParserSim (fun _ => "") p q :=
  ⟨fun n => by rw [← parserView_untagged, h n, parserView_untagged],
    fun hf => absurd (hf "x") (by decide)⟩

theorem generateMain_retag {f : String → String} {prog prog2 : List ASTNode}
    (h : SameTrees f prog prog2) (g : Globals) :
    (generateMain g prog).map CodegenState.silent =
      (generateMain g prog2).map CodegenState.silent := by
  have h1 := codegenStmts_retag f prog (CodegenState.entry g) (CodegenState.entry g).cout
  have h2 := codegenStmts_retag f prog2 (CodegenState.entry g) (CodegenState.entry g).cout
  rw [← h] at h2
  have h3 := h1.trans h2.symm
  simp only [generateMain]
  rcases silent_cases_stmts h3 with ⟨hx, hy⟩ | ⟨s, c, hx, hy⟩
  · rw [hx, hy]
  · rw [hx, hy]
    rfl

theorem runParsed_retag {f : String → String} {prog prog2 : List ASTNode}
    (h : SameTrees f prog prog2) (g : Globals) (fuel : ℕ) (p q : SarcasmParser) :
    (runParsed g fuel (some (prog, p))).outcome = (runParsed g fuel (some (prog2, q))).outcome ∧
    (runParsed g fuel (some (prog, p))).globals =
      (runParsed g fuel (some (prog2, q))).globals := by
  simp only [runParsed]
  rcases silent_cases_stmts (generateMain_retag h g) with ⟨hx, hy⟩ | ⟨s, c, hx, hy⟩
  · rw [hx, hy]
    exact ⟨rfl, rfl⟩
  · rw [hx, hy]
    simp only
    split_ifs <;> exact ⟨rfl, rfl⟩

theorem runParsed_sim {f : String → String} {x y : Option (List ASTNode × SarcasmParser)}
    (h : ParseSim f (SameTrees f) x y) (g : Globals) (fuel : ℕ) :
    (runParsed g fuel x).outcome = (runParsed g fuel y).outcome ∧
    (runParsed g fuel x).globals = (runParsed g fuel y).globals := by
  rcases parseSim_cases h with ⟨hx, hy⟩ | ⟨a, p1, b, q1, hx, hy, hab, -⟩
  · rw [hx, hy]
    exact ⟨rfl, rfl⟩
  · rw [hx, hy]
    exact runParsed_retag hab g fuel p1 q1

theorem runParsed_same {x y : Option (List ASTNode × SarcasmParser)}
    (h : ParseSim (fun s => s) (SameTrees (fun s => s)) x y) (g : Globals) (fuel : ℕ) :
    x.map (fun r => r.1) = y.map (fun r => r.1) ∧ runParsed g fuel x = runParsed g fuel y := by
  rcases parseSim_cases h with ⟨hx, hy⟩ | ⟨a, p1, b, q1, hx, hy, hab, hs⟩
  · rw [hx, hy]
    exact ⟨rfl, rfl⟩
  · rw [hx, hy]
    simp only [SameTrees, retagAll_id] at hab
    subst hab
    have hc := hs.2 (fun _ => rfl)
    refine ⟨rfl, ?_⟩
    simp only [runParsed, hc]

/-- Claim C11.  Word-form and symbol-form operators are interchangeable.  When two parsers
see, call after call of `nextToken`, tokens that are equal once every `plus`, `minus`,
`times`, `divided_by` token is replaced by the token of `+`, `-`, `*`, `/` (`symbolForm`),
then for every amount of fuel `parseProgram` returns the same program for both (and
`parseExpression` the same expression), and the rest of `compileAndRun` gives the same
report: the same lines on `std::cerr`, the same compile comments, the same outcome and
output.  In particular `show 3 plus 4` and `show 3 + 4` give the same report and print
7.00, and so do the two spellings of an expression with all four operators. -/
theorem word_and_symbol_operators_interchangeable :
    (∀ (p q : SarcasmParser) (fuel : ℕ),
      (∀ n, symbolForm (SarcasmParser.nextToken^[n] p).currentToken =
        symbolForm (SarcasmParser.nextToken^[n] q).currentToken) →
      p.cerr = q.cerr →
      (parseProgram fuel p).map (fun r => r.1) = (parseProgram fuel q).map (fun r => r.1) ∧
      (parseExpression fuel p).map (fun r => r.1) =
        (parseExpression fuel q).map (fun r => r.1) ∧
      ∀ g, runParsed g fuel (parseProgram fuel p) = runParsed g fuel (parseProgram fuel q)) ∧
    (∀ t : Token, symbolForm t =
      if t.type = TOKEN_WORD_PLUS then ⟨TOKEN_PLUS, "+", 0⟩
      else if t.type = TOKEN_WORD_MINUS then ⟨TOKEN_MINUS, "-", 0⟩
      else if t.type = TOKEN_WORD_MULTIPLY then ⟨TOKEN_MULTIPLY, "*", 0⟩
      else if t.type = TOKEN_WORD_DIVIDE then ⟨TOKEN_DIVIDE, "/", 0⟩
      else t) ∧
    compileAndRun Globals.initial 100 "idiot: show 3 plus 4" =
      compileAndRun Globals.initial 100 "idiot: show 3 + 4" ∧
    (compileAndRun Globals.initial 100 "idiot: show 3 plus 4").outcome.printed =
      [some "Fine, here\x27s your precious number: 7.00\n"] ∧
    compileAndRun Globals.initial 100 "idiot: show 8 minus 6 divided_by 3 times 2 plus 1" =
      compileAndRun Globals.initial 100 "idiot: show 8 - 6 / 3 * 2 + 1" := by
  refine ⟨fun p q fuel h hc => ?_, ?_, by decide!, by decide!, by decide!⟩
  · have hs := parserSim_of_symbolForm h hc
    have h1 := runParsed_same (parseProgram_sim _ fuel p q hs)
    refine ⟨(h1 Globals.initial 0).1, ?_, fun g => (h1 g fuel).2⟩
    rcases parseSim_cases ((expression_sim _ fuel).2.2.2.2 p q hs) with
      ⟨hx, hy⟩ | ⟨a, p1, b, q1, hx, hy, hab, -⟩
    · rw [hx, hy]
    · rw [hx, hy]
      simp only [SameTree, retag_id] at hab
      simp [hab]
  · intro t
    obtain ⟨ty, v, n⟩ := t
    cases ty <;> simp [symbolForm]

theorem sameStream_of_start (v : Token → Token) (p q : SarcasmParser) (k : ℕ)
    (hk : ∀ n ≤ k, v (SarcasmParser.nextToken^[n] p).currentToken =
      v (SarcasmParser.nextToken^[n] q).currentToken)
    (hp : SarcasmParser.nextToken (SarcasmParser.nextToken^[k] p) =
      SarcasmParser.nextToken^[k] p)
    (hq : SarcasmParser.nextToken (SarcasmParser.nextToken^[k] q) =
      SarcasmParser.nextToken^[k] q) :
    ∀ n, v (SarcasmParser.nextToken^[n] p).currentToken =
      v (SarcasmParser.nextToken^[n] q).currentToken := by
  intro n
  by_cases h : n ≤ k
  · exact hk n h
  · obtain ⟨m, rfl⟩ : ∃ m, n = m + k := ⟨n - k, by omega⟩
    rw [Function.iterate_add_apply, Function.iterate_add_apply,
      Function.iterate_fixed hp, Function.iterate_fixed hq]
    exact hk k le_rfl

theorem word_and_symbol_operators_interchangeable_witness :
    (∀ n,
      symbolForm
          (SarcasmParser.nextToken^[n]
            (SarcasmParser.new "idiot: x = 3 plus 4 times 2")).currentToken =
        symbolForm
          (SarcasmParser.nextToken^[n] (SarcasmParser.new "idiot: x = 3 + 4 * 2")).currentToken) ∧
    (parseProgram 50 (SarcasmParser.new "idiot: x = 3 plus 4 times 2")).map (fun r => r.1) =
      (parseProgram 50 (SarcasmParser.new "idiot: x = 3 + 4 * 2")).map (fun r => r.1) :=
  have h := sameStream_of_start symbolForm
    (SarcasmParser.new "idiot: x = 3 plus 4 times 2") (SarcasmParser.new "idiot: x = 3 + 4 * 2")
    9 (by decide!) (by decide!) (by decide!)
  ⟨h, (word_and_symbol_operators_interchangeable.1 _ _ 50 h rfl).1⟩

/-- Claim C17.  Line tags are inert.  When two parsers see, call after call of
`nextToken`, tokens that are equal once the vocabulary word of every line tag is blanked
(`untagged`), then for every amount of fuel `parseProgram` returns for both programs that
are equal up to the tags of their lines (`retagAll`), and the rest of `compileAndRun` ends
with the same outcome, hence the same sequence of `printf` calls, and leaves the same
static objects.  Code generation of a tree does not depend on its tags except for the
compile comments (`silentResult` drops them), and the tag of a line appears in the comment
`SarcasmLineAST::codegen` writes.  Two spellings of one program with different tags print
the same line and differ in their compile comments. -/
theorem line_tags_are_inert :
    (∀ (p q : SarcasmParser) (fuel : ℕ),
      (∀ n, untagged (SarcasmParser.nextToken^[n] p).currentToken =
        untagged (SarcasmParser.nextToken^[n] q).currentToken) →
      (parseProgram fuel p).map (fun r => retagAll (fun _ => "") r.1) =
        (parseProgram fuel q).map (fun r => retagAll (fun _ => "") r.1) ∧
      ∀ g, (runParsed g fuel (parseProgram fuel p)).outcome =
          (runParsed g fuel (parseProgram fuel q)).outcome ∧
        (runParsed g fuel (parseProgram fuel p)).globals =
          (runParsed g fuel (parseProgram fuel q)).globals) ∧
    (∀ (f : String → String) (a : ASTNode) (s : CodegenState),
      (codegen (retag f a) s).map silentResult = (codegen a s).map silentResult) ∧
    (∀ (insult : String) (statement : ASTNode) (s s1 : CodegenState) (r : Option Value),
      codegen statement s = some (r, s1) →
      codegen (SarcasmLineAST insult statement) s =
        some (r, { s1 with
          cout := s1.cout ++
            ["  ; Line " ++ Nat.repr s1.lineNum ++ ": " ++ insult ++ " says something ridiculous"],
          lineNum := s1.lineNum + 1 })) ∧
    (compileAndRun Globals.initial 100
        "idiot: x = 2\nmoron: obviously x then \x7b fool: show x \x7d").outcome =
      (compileAndRun Globals.initial 100
        "genius: x = 2\nscholar: obviously x then \x7b noob: show x \x7d").outcome ∧
    (compileAndRun Globals.initial 100
        "idiot: x = 2\nmoron: obviously x then \x7b fool: show x \x7d").outcome.printed =
      [some "Fine, here\x27s your precious number: 2.00\n"] ∧
    (compileAndRun Globals.initial 100
        "idiot: x = 2\nmoron: obviously x then \x7b fool: show x \x7d").cout =
      ["  ; Line 1: idiot says something ridiculous",
       "  ; Line 2: fool says something ridiculous",
       "  ; Line 3: moron says something ridiculous"] ∧
    (compileAndRun Globals.initial 100
        "genius: x = 2\nscholar: obviously x then \x7b noob: show x \x7d").cout =
      ["  ; Line 1: genius says something ridiculous",
       "  ; Line 2: noob says something ridiculous",
       "  ; Line 3: scholar says something ridiculous"] := by
  refine ⟨fun p q fuel h => ?_, fun f a s => ?_, fun insult statement s s1 r h => ?_,
    by decide!, by decide!, by decide!, by decide!⟩
  · have hs := parseProgram_sim _ fuel p q (parserSim_of_untagged h)
    refine ⟨?_, fun g => runParsed_sim hs g fuel⟩
    rcases parseSim_cases hs with ⟨hx, hy⟩ | ⟨a, p1, b, q1, hx, hy, hab, -⟩
    · rw [hx, hy]
    · rw [hx, hy]
      simp only [SameTrees] at hab
      simp [hab]
  · exact (codegen_retag f a s s.cout).symm
  · simp [codegen, h]

theorem line_tags_are_inert_witness :
    (∀ n,
      untagged
          (SarcasmParser.nextToken^[n]
            (SarcasmParser.new "idiot: show 1\nmoron: show 2")).currentToken =
        untagged
          (SarcasmParser.nextToken^[n]
            (SarcasmParser.new "pleb: show 1\nnoob: show 2")).currentToken) ∧
    (parseProgram 50 (SarcasmParser.new "idiot: show 1\nmoron: show 2")).map
        (fun r => retagAll (fun _ => "") r.1) =
      (parseProgram 50 (SarcasmParser.new "pleb: show 1\nnoob: show 2")).map
        (fun r => retagAll (fun _ => "") r.1) :=
  have h := sameStream_of_start untagged
    (SarcasmParser.new "idiot: show 1\nmoron: show 2")
    (SarcasmParser.new "pleb: show 1\nnoob: show 2")
    8 (by decide!) (by decide!) (by decide!)
  ⟨h, (line_tags_are_inert.1 _ _ 50 h).1⟩

/-! ### Lowercased input -/

theorem upper_cases (c : Char) (h1 : 65 ≤ c.toNat) (h2 : c.toNat ≤ 90) :
    c ∈ "ABCDEFGHIJKLMNOPQRSTUVWXYZ".data := by
  have e : c = Char.ofNat c.toNat := (Char.ofNat_toNat c).symm
  generalize c.toNat = n at *
  subst e
  interval_cases n <;> decide

theorem tolower_cases (c : Char) :
    tolower c = c ∨ c ∈ "ABCDEFGHIJKLMNOPQRSTUVWXYZ".data := by
  by_cases h : 65 ≤ c.toNat ∧ c.toNat ≤ 90
  · exact Or.inr (upper_cases c h.1 h.2)
  · left
    simp only [tolower, Bool.and_eq_true, decide_eq_true_eq, h, if_false]

theorem tolower_reads (c : Char) :
    isspace (tolower c) = isspace c ∧ isdigit (tolower c) = isdigit c ∧
    isalpha (tolower c) = isalpha c ∧ decide (tolower c = '_') = decide (c = '_') ∧
    decide (tolower c = '.') = decide (c = '.') ∧ tolower (tolower c) = tolower c ∧
    ((isalpha c || c = '_') = false → tolower c = c) ∧
    ((isdigit c || c = '.') = true → tolower c = c) := by
  rcases tolower_cases c with h | h
  · rw [h]
    simp [h]
  · revert c
    decide

theorem scan_lower (pred : Char → Bool) (hp : ∀ c, pred (tolower c) = pred c)
    (lx : SarcasmLexer) :
    SarcasmLexer.scan pred lx.lower =
      ((SarcasmLexer.scan pred lx).1.map tolower, (SarcasmLexer.scan pred lx).2.lower) := by
  have e : (pred ∘ tolower) = pred := funext hp
  simp only [SarcasmLexer.scan, SarcasmLexer.lower, ← List.map_drop, List.takeWhile_map, e,
    List.length_map]

theorem scan_mem (pred : Char → Bool) (lx : SarcasmLexer) :
    ∀ c ∈ (SarcasmLexer.scan pred lx).1, pred c = true := by
  intro c hc
  simp only [SarcasmLexer.scan] at hc
  exact List.mem_takeWhile_imp hc

theorem nextToken_lower (lx : SarcasmLexer) :
    lx.lower.nextToken = (lx.nextToken.1, lx.nextToken.2.lower) := by
  have hsp := scan_lower isspace (fun c => (tolower_reads c).1) lx
  simp only [SarcasmLexer.nextToken, hsp]
  generalize (SarcasmLexer.scan isspace lx).2 = lx1
  have hd : lx1.lower.input.drop lx1.lower.pos = (lx1.input.drop lx1.pos).map tolower := by
    simp [SarcasmLexer.lower]
  rw [hd]
  rcases hrest : lx1.input.drop lx1.pos with _ | ⟨current, tail⟩
  · rfl
  · obtain ⟨-, r2, r3, r4, r5, r6, r7, r8⟩ := tolower_reads current
    simp only [List.map_cons, r2, r3, r4]
    by_cases h1 : isdigit current = true
    · have hnum := scan_lower (fun c => isdigit c || c = '.')
        (fun c => by simp only [(tolower_reads c).2.1, (tolower_reads c).2.2.2.2.1]) lx1
      have hfix : (SarcasmLexer.scan (fun c => isdigit c || c = '.') lx1).1.map tolower =
          (SarcasmLexer.scan (fun c => isdigit c || c = '.') lx1).1 := by
        conv_rhs => rw [← List.map_id (SarcasmLexer.scan (fun c => isdigit c || c = '.') lx1).1]
        apply List.map_congr_left
        intro c hc
        exact (tolower_reads c).2.2.2.2.2.2.2 (scan_mem _ lx1 c hc)
      simp only [h1, if_true, hnum, hfix]
    · by_cases h2 : (isalpha current || decide (current = '_')) = true
      · have hword := scan_lower (fun c => isalnum c || c = '_')
          (fun c => by
            simp only [isalnum, (tolower_reads c).2.1, (tolower_reads c).2.2.1,
              (tolower_reads c).2.2.2.1]) lx1
        have hidem : ∀ l : List Char, (l.map tolower).map tolower = l.map tolower := by
          intro l
          rw [List.map_map]
          apply List.map_congr_left
          intro c _
          exact (tolower_reads c).2.2.2.2.2.1
        simp only [h1, h2, if_true, SarcasmLexer.readWord, hword, hidem]
        simp
      · have h2' : (isalpha current || decide (current = '_')) = false := by
          simpa using h2
        simp only [h1, h2, if_false, r7 h2']
        rfl

theorem parser_nextToken_lower (p : SarcasmParser) : p.lower.nextToken = p.nextToken.lower := by
  simp only [SarcasmParser.nextToken, SarcasmParser.lower, nextToken_lower]

theorem iterate_lower (p : SarcasmParser) (n : ℕ) :
    SarcasmParser.nextToken^[n] p.lower = (SarcasmParser.nextToken^[n] p).lower := by
  induction n with
  | zero => rfl
  | succ n ih =>
    rw [Function.iterate_succ_apply', Function.iterate_succ_apply', ih, parser_nextToken_lower]

theorem new_lowercase (source : String) :
    SarcasmParser.new (lowercase source) = (SarcasmParser.new source).lower := by
  simp only [SarcasmParser.new]
  rw [← parser_nextToken_lower]
  rfl

theorem tokens_lowercase (source : String) (n : ℕ) :
    (SarcasmParser.nextToken^[n] (SarcasmParser.new (lowercase source))).currentToken =
      (SarcasmParser.nextToken^[n] (SarcasmParser.new source)).currentToken := by
  rw [new_lowercase, iterate_lower]
  rfl

theorem insult_tokens : ∀ t ∈ insults,
    (SarcasmLexer.nextToken ⟨t.data, 0⟩).1 = ⟨TOKEN_INSULT, t, 0⟩ := by
  decide!

/-- Claim C15.  Lexing is case-insensitive.  On the lowercased input `nextToken` returns
the same token (kind, text and numeric value) and stops at the same position as on the
input itself; hence the parser sees the same sequence of tokens for a source text and for
the text with every letter lowercased, and `compileAndRun` gives the same report for
both.  Every spelling `w` whose lowercased form is a word of the vocabulary is read as the
line tag with the lowercased text.  In `IDIOT: X = 5` followed by `Moron: Show x` the names
`X` and `x` are the same variable: the program prints 5.00. -/
theorem lexing_is_case_insensitive :
    (∀ lx : SarcasmLexer, lx.lower.nextToken = (lx.nextToken.1, lx.nextToken.2.lower)) ∧
    (∀ (source : String) (n : ℕ),
      (SarcasmParser.nextToken^[n] (SarcasmParser.new (lowercase source))).currentToken =
        (SarcasmParser.nextToken^[n] (SarcasmParser.new source)).currentToken) ∧
    (∀ (g : Globals) (fuel : ℕ) (source : String),
      compileAndRun g fuel (lowercase source) = compileAndRun g fuel source) ∧
    (∀ w : List Char, String.mk (w.map tolower) ∈ insults →
      (SarcasmLexer.nextToken ⟨w, 0⟩).1 = ⟨TOKEN_INSULT, String.mk (w.map tolower), 0⟩) ∧
    lowercase "IDIOT: X = 5\nMoron: Show x" = "idiot: x = 5\nmoron: show x" ∧
    (compileAndRun Globals.initial 100 "IDIOT: X = 5\nMoron: Show x").program =
      [SarcasmLineAST "idiot" (AssignmentAST "x" (NumberExprAST 5)),
       SarcasmLineAST "moron" (PrintAST (VariableExprAST "x") "show")] ∧
    (compileAndRun Globals.initial 100 "IDIOT: X = 5\nMoron: Show x").outcome.printed =
      [some "Fine, here\x27s your precious number: 5.00\n"] := by
  refine ⟨nextToken_lower, tokens_lowercase, fun g fuel source => ?_, fun w hw => ?_,
    by decide, by decide!, by decide!⟩
  · have hs : ParserSim (fun s => s) (SarcasmParser.new (lowercase source))
        (SarcasmParser.new source) :=
      ⟨fun n => by rw [tokens_lowercase], fun _ => rfl⟩
    exact (runParsed_same (parseProgram_sim _ fuel _ _ hs) g fuel).2
  · have h1 := nextToken_lower ⟨w, 0⟩
    have h2 := insult_tokens _ hw
    have h3 : (SarcasmLexer.lower ⟨w, 0⟩) = ⟨(String.mk (w.map tolower)).data, 0⟩ := rfl
    rw [h3] at h1
    rw [h1] at h2
    exact h2

theorem lexing_is_case_insensitive_witness :
    String.mk ("SmArTaSs".data.map tolower) ∈ insults ∧
    (SarcasmLexer.nextToken ⟨"SmArTaSs".data, 0⟩).1 = ⟨TOKEN_INSULT, "smartass", 0⟩ :=
  ⟨by decide, lexing_is_case_insensitive.2.2.2.1 "SmArTaSs".data (by decide)⟩

/-! ### Printed literals -/

theorem insult_words : ∀ t ∈ insults,
    (match t.data with
      | [] => false
      | c :: w => (isalpha c || c = '_') && w.all isWordChar) = true ∧
    String.mk (t.data.map tolower) = t ∧
    SarcasmLexer.classifyWord t = ⟨TOKEN_INSULT, t, 0⟩ := by
  decide!

theorem nextToken_insult (lx : SarcasmLexer) (tag : String) (rest : List Char)
    (htag : tag ∈ insults) (h : lx.rest = tag.data ++ rest)
    (hrest : ∀ x, rest.head? = some x → isWordChar x = false) :
    ∃ lx2, lx.nextToken = (⟨TOKEN_INSULT, tag, 0⟩, lx2) ∧ lx2.rest = rest := by
  obtain ⟨h1, h2, h3⟩ := insult_words tag htag
  rcases hd : tag.data with _ | ⟨c, w⟩
  · rw [hd] at h1; simp at h1
  · rw [hd] at h1 h2
    simp only [Bool.and_eq_true, List.all_eq_true] at h1
    have hr : lx.rest = [] ++ (c :: w ++ rest) := by rw [h, hd]; rfl
    have := nextToken_word lx [] w rest c hr (by simp) h1.1 h1.2 hrest
    rw [h2, h3] at this
    exact ⟨_, this, rest_advance lx (c :: w) rest _ (by simpa using hr) (by simp)⟩

theorem runParsed_print_literal (tag : String) (q : ℚ) (fuel : ℕ) (hfuel : 2 ≤ fuel)
    (parser : SarcasmParser) :
    (runParsed Globals.initial fuel
        (some ([SarcasmLineAST tag (PrintAST (NumberExprAST q) "show")], parser))).outcome =
      Outcome.finished [(printFormat "show", RVal.fp q)] := by
  obtain ⟨f, rfl⟩ : ∃ f, fuel = f + 2 := ⟨fuel - 2, by omega⟩
  rfl

theorem print_literal_feeds (tag : String) (c : Char) (w : List Char) (htag : tag ∈ insults)
    (hc : isdigit c = true) (hw : ∀ x ∈ w, (isdigit x || x = '.') = true) :
    ∃ q : SarcasmParser,
      Feeds (SarcasmParser.new (tag ++ ": show " ++ String.mk (c :: w)))
        [⟨TOKEN_INSULT, tag, 0⟩, ⟨TOKEN_COLON, ":", 0⟩, ⟨TOKEN_SHOW, "show", 0⟩,
          ⟨TOKEN_NUMBER, String.mk (c :: w), stod (c :: w)⟩] q ∧
      q.currentToken = ⟨TOKEN_EOF, "", 0⟩ ∧ q.cerr = [] := by
  have hsrc : (SarcasmLexer.new (tag ++ ": show " ++ String.mk (c :: w))).rest =
      tag.data ++ (':' :: ' ' :: 's' :: 'h' :: 'o' :: 'w' :: ' ' :: c :: w) := by
    simp [SarcasmLexer.rest, SarcasmLexer.new, String.data_append]
  obtain ⟨lx1, e1, r1⟩ := nextToken_insult _ tag _ htag hsrc (fun x hx => by
    simp only [List.head?_cons, Option.some.injEq] at hx
    subst hx
    decide)
  have e2 := nextToken_punctuation lx1 [] (' ' :: 's' :: 'h' :: 'o' :: 'w' :: ' ' :: c :: w)
    ':' (by rw [r1]; rfl) (by simp) (by decide) (by decide) (by decide)
  have r2 := rest_advance lx1 [':'] (' ' :: 's' :: 'h' :: 'o' :: 'w' :: ' ' :: c :: w)
    (lx1.pos + ([] : List Char).length + 1) (by rw [r1]; rfl) (by simp)
  generalize ({ lx1 with pos := lx1.pos + ([] : List Char).length + 1 } : SarcasmLexer) = lx2
    at e2 r2
  have e3 := nextToken_word lx2 [' '] ['h', 'o', 'w'] (' ' :: c :: w) 's' (by rw [r2]; rfl)
    (by decide) (by decide) (by decide) (fun x hx => by
      simp only [List.head?_cons, Option.some.injEq] at hx
      subst hx
      decide)
  have r3 := rest_advance lx2 [' ', 's', 'h', 'o', 'w'] (' ' :: c :: w)
    (lx2.pos + [' '].length + ['s', 'h', 'o', 'w'].length) (by rw [r2]; rfl)
    (by simp [Nat.add_assoc])
  generalize ({ lx2 with pos := lx2.pos + [' '].length + ['s', 'h', 'o', 'w'].length } :
    SarcasmLexer) = lx3 at e3 r3
  have e4 := nextToken_number lx3 [' '] w [] c (by rw [r3]; simp) (by decide) hc hw
    (fun x hx => by simp at hx)
  have r4 := rest_advance lx3 (' ' :: c :: w) []
    (lx3.pos + [' '].length + (c :: w).length) (by rw [r3]; simp)
    (by simp [Nat.add_assoc, Nat.add_comm])
  generalize ({ lx3 with pos := lx3.pos + [' '].length + (c :: w).length } :
    SarcasmLexer) = lx4 at e4 r4
  have e5 := nextToken_end lx4 (by rw [r4]; simp)
  have hshow : SarcasmLexer.classifyWord (String.mk (['s', 'h', 'o', 'w'].map tolower)) =
      ⟨TOKEN_SHOW, "show", 0⟩ := by decide
  rw [hshow] at e3
  have hcolon : SarcasmLexer.punctuation ':' = ⟨TOKEN_COLON, ":", 0⟩ := by decide
  rw [hcolon] at e2
  refine ⟨_, ⟨?_, ?_, ?_, ?_, rfl⟩, ?_, ?_⟩
  · simp only [SarcasmParser.new, SarcasmParser.nextToken, e1]
  · simp only [SarcasmParser.new, SarcasmParser.nextToken, e1, e2]
  · simp only [SarcasmParser.new, SarcasmParser.nextToken, e1, e2, e3]
  · simp only [SarcasmParser.new, SarcasmParser.nextToken, e1, e2, e3, e4]
  · simp only [SarcasmParser.new, SarcasmParser.nextToken, e1, e2, e3, e4, e5]
  · simp only [SarcasmParser.new, SarcasmParser.nextToken, e1, e2, e3, e4, e5]

/-! ### Progress of the lexer -/

theorem scan_bounds (pred : Char → Bool) (lx : SarcasmLexer) :
    (SarcasmLexer.scan pred lx).2.input = lx.input ∧
    lx.pos ≤ (SarcasmLexer.scan pred lx).2.pos ∧
    (lx.pos ≤ lx.input.length → (SarcasmLexer.scan pred lx).2.pos ≤ lx.input.length) ∧
    (∀ c tail, lx.input.drop lx.pos = c :: tail → pred c = true →
      lx.pos < (SarcasmLexer.scan pred lx).2.pos) := by
  refine ⟨rfl, Nat.le_add_right _ _, fun h => ?_, fun c tail hd hc => ?_⟩
  · have h1 : ((lx.input.drop lx.pos).takeWhile pred).length ≤ (lx.input.drop lx.pos).length :=
      (List.takeWhile_sublist pred).length_le
    simp only [SarcasmLexer.scan]
    rw [List.length_drop] at h1
    omega
  · simp only [SarcasmLexer.scan, hd, List.takeWhile_cons, hc, if_true, List.length_cons]
    omega

theorem nextToken_bounds (lx : SarcasmLexer) :
    lx.nextToken.2.input = lx.input ∧ lx.pos ≤ lx.nextToken.2.pos ∧
    (lx.pos ≤ lx.input.length → lx.nextToken.2.pos ≤ lx.input.length) ∧
    (lx.pos < lx.input.length → lx.pos < lx.nextToken.2.pos) := by
  obtain ⟨i1, l1, u1, -⟩ := scan_bounds isspace lx
  simp only [SarcasmLexer.nextToken]
  generalize (SarcasmLexer.scan isspace lx).2 = lx1 at i1 l1 u1 ⊢
  rcases hd : lx1.input.drop lx1.pos with _ | ⟨current, tail⟩
  · refine ⟨i1, l1, u1, fun h => ?_⟩
    have := List.drop_eq_nil_iff.1 hd
    rw [i1] at this
    simp only
    omega
  · have hlt : lx1.pos < lx.input.length := by
      have : (lx1.input.drop lx1.pos).length = lx1.input.length - lx1.pos := List.length_drop _ _
      rw [hd, i1] at this
      simp only [List.length_cons] at this
      omega
    simp only
    split_ifs with h1 h2
    · obtain ⟨i2, l2, u2, p2⟩ := scan_bounds (fun c => isdigit c || c = '.') lx1
      have := p2 current tail hd (by simp [h1])
      rw [i1] at u2
      refine ⟨i2.trans i1, ?_, fun _ => u2 (by omega), fun _ => ?_⟩ <;> (try dsimp only) <;> omega
    · obtain ⟨i2, l2, u2, p2⟩ := scan_bounds (fun c => isalnum c || c = '_') lx1
      have hw : (isalnum current || decide (current = '_')) = true := by
        simp only [isalnum, Bool.or_eq_true, decide_eq_true_eq] at h2 ⊢
        tauto
      have := p2 current tail hd hw
      rw [i1] at u2
      simp only [SarcasmLexer.readWord]
      refine ⟨i2.trans i1, ?_, fun _ => u2 (by omega), fun _ => ?_⟩ <;> (try dsimp only) <;> omega
    · exact ⟨i1, by simp only; omega, fun _ => by simp only; omega, fun _ => by simp only; omega⟩

theorem rest_nil_of_pos (lx : SarcasmLexer) (h : lx.input.length ≤ lx.pos) : lx.rest = [] := by
  simp only [SarcasmLexer.rest]
  exact List.drop_eq_nil_iff.2 h

theorem tokens_after_end (p : SarcasmParser) (h : ∀ x ∈ p.lexer.rest, isspace x = true) :
    ∀ k, (SarcasmParser.nextToken^[k + 1] p).currentToken = ⟨TOKEN_EOF, "", 0⟩ := by
  intro k
  induction k generalizing p with
  | zero =>
    simp only [zero_add, Function.iterate_one, SarcasmParser.nextToken, nextToken_end _ h]
  | succ k ih =>
    rw [Function.iterate_succ_apply]
    apply ih
    have h2 : SarcasmLexer.rest { p.lexer with pos := p.lexer.pos + p.lexer.rest.length } = [] :=
      rest_advance p.lexer p.lexer.rest [] _ (by simp) rfl
    simp only [SarcasmParser.nextToken, nextToken_end _ h, h2]
    simp

theorem lexer_position_after (p : SarcasmParser) (h : p.lexer.pos ≤ p.lexer.input.length) :
    ∀ k, (SarcasmParser.nextToken^[k] p).lexer.input = p.lexer.input ∧
      (SarcasmParser.nextToken^[k] p).lexer.pos ≤ p.lexer.input.length ∧
      min (p.lexer.pos + k) p.lexer.input.length ≤ (SarcasmParser.nextToken^[k] p).lexer.pos := by
  intro k
  induction k with
  | zero => exact ⟨rfl, h, by simp⟩
  | succ k ih =>
    obtain ⟨i1, u1, l1⟩ := ih
    rw [Function.iterate_succ_apply']
    obtain ⟨i2, l2, u2, p2⟩ := nextToken_bounds (SarcasmParser.nextToken^[k] p).lexer
    rw [i1] at u2 p2
    refine ⟨i2.trans i1, u2 u1, ?_⟩
    show _ ≤ (SarcasmParser.nextToken^[k] p).lexer.nextToken.2.pos
    by_cases hlt : (SarcasmParser.nextToken^[k] p).lexer.pos < p.lexer.input.length
    · have := p2 hlt
      omega
    · have := u2 u1
      omega

/-- Claim C25.  The lexer always makes progress.  A call of `nextToken` at a position
before the end of the input leaves the position strictly greater, at most the length of
the input, and does not change the input.  Once the position is the length of the input,
or only whitespace remains, every further call returns the end-of-input token.  For every
source text, the position after the constructor's call and `k` further calls is at least
`min (k + 1) n` and at most `n`, where `n` is the length of the text; hence the call
number `n + 1` and every later call return the end-of-input token. -/
theorem lexer_always_makes_progress :
    (∀ lx : SarcasmLexer, lx.pos < lx.input.length →
      lx.pos < lx.nextToken.2.pos ∧ lx.nextToken.2.pos ≤ lx.input.length ∧
      lx.nextToken.2.input = lx.input) ∧
    (∀ p : SarcasmParser,
      (p.lexer.pos = p.lexer.input.length ∨ ∀ x ∈ p.lexer.rest, isspace x = true) →
      ∀ k, (SarcasmParser.nextToken^[k + 1] p).currentToken = ⟨TOKEN_EOF, "", 0⟩) ∧
    (∀ (source : String) (k : ℕ),
      (SarcasmParser.nextToken^[k] (SarcasmParser.new source)).lexer.pos ≤ source.length ∧
      min (k + 1) source.length ≤
        (SarcasmParser.nextToken^[k] (SarcasmParser.new source)).lexer.pos) ∧
    (∀ (source : String) (k : ℕ), source.length ≤ k →
      (SarcasmParser.nextToken^[k] (SarcasmParser.new source)).currentToken =
        ⟨TOKEN_EOF, "", 0⟩) ∧
    (List.range 5).map
        (fun k => (SarcasmParser.nextToken^[k] (SarcasmParser.new "x=1 ")).currentToken.type) =
      [TOKEN_IDENTIFIER, TOKEN_ASSIGN, TOKEN_NUMBER, TOKEN_EOF, TOKEN_EOF] := by
  refine ⟨fun lx h => ?_, fun p h => ?_, fun source k => ?_, fun source k hk => ?_, by decide⟩
  · obtain ⟨i, -, u, l⟩ := nextToken_bounds lx
    exact ⟨l h, u (le_of_lt h), i⟩
  · refine tokens_after_end p ?_
    rcases h with h | h
    · rw [rest_nil_of_pos _ (le_of_eq h.symm)]
      simp
    · exact h
  · have h := lexer_position_after
      { lexer := SarcasmLexer.new source, currentToken := ⟨TOKEN_EOF, "", 0⟩, cerr := [] }
      (Nat.zero_le _) (k + 1)
    rw [Function.iterate_succ_apply] at h
    obtain ⟨-, u, l⟩ := h
    have e : (SarcasmLexer.new source).input.length = source.length := rfl
    have e0 : (SarcasmLexer.new source).pos = 0 := rfl
    simp only [e, e0, zero_add] at u l
    exact ⟨u, l⟩
  · have h := lexer_position_after
      { lexer := SarcasmLexer.new source, currentToken := ⟨TOKEN_EOF, "", 0⟩, cerr := [] }
      (Nat.zero_le _) source.length
    obtain ⟨i, u, l⟩ := h
    have hpos : (SarcasmParser.nextToken^[source.length]
        { lexer := SarcasmLexer.new source, currentToken := ⟨TOKEN_EOF, "", 0⟩,
          cerr := [] }).lexer.pos = source.length := by
      have e : (SarcasmLexer.new source).input.length = source.length := rfl
      have e0 : (SarcasmLexer.new source).pos = 0 := rfl
      simp only [e, e0, zero_add, min_self] at u l
      omega
    obtain ⟨j, rfl⟩ : ∃ j, k = source.length + j := ⟨k - source.length, by omega⟩
    have := tokens_after_end _
      (show ∀ x ∈ (SarcasmParser.nextToken^[source.length]
        { lexer := SarcasmLexer.new source, currentToken := ⟨TOKEN_EOF, "", 0⟩,
          cerr := [] }).lexer.rest, isspace x = true by
        rw [rest_nil_of_pos _ (by rw [i, hpos]; exact le_refl _)]
        simp) j
    rw [← Function.iterate_add_apply] at this
    simp only [SarcasmParser.new]
    rw [← Function.iterate_succ_apply]
    rw [show (source.length + j).succ = j + 1 + source.length by omega]
    exact this

/-! ### Numbers with several points -/

theorem dropWhile_stop (f : Char → Bool) (run rest : List Char)
    (hrun : ∀ c ∈ run, f c = true) (hrest : ∀ c, rest.head? = some c → f c = false) :
    (run ++ rest).dropWhile f = rest := by
  induction run with
  | nil =>
    cases rest with
    | nil => rfl
    | cons c r => simp [List.dropWhile, hrest c rfl]
  | cons w ws ih =>
    have hw := hrun w (by simp)
    have e := ih (fun x hx => hrun x (by simp [hx]))
    rw [List.cons_append, List.dropWhile_cons, hw, if_pos rfl, e]

/-! ### The block loop at a line without tag -/

theorem parseBlock_spins : ∀ (fuel : ℕ) (stmts : List ASTNode) (p : SarcasmParser),
    p.currentToken.type ≠ TOKEN_RBRACE → p.currentToken.type ≠ TOKEN_EOF →
    p.currentToken.type ≠ TOKEN_INSULT → parseBlock fuel stmts p = none := by
  intro fuel
  induction fuel with
  | zero => intros; simp [parseBlock]
  | succ fuel ih =>
    intro stmts p h1 h2 h3
    cases fuel with
    | zero => simp [parseBlock, parseLine, h1, h2]
    | succ f =>
      have := ih stmts
        (p.complain "amateur: Every line must start with an insult, you casual!") h1 h2 h3
      rw [parseBlock]
      simp only [ne_eq, h1, h2, not_false_eq_true, and_self, if_true, parseLine, h3]
      simpa using this

theorem parseExpression_number (fuel : ℕ) (p : SarcasmParser)
    (h : p.currentToken.type = TOKEN_NUMBER) (h1 : isTermOp p.nextToken.currentToken.type = false)
    (h2 : isExprOp p.nextToken.currentToken.type = false) :
    parseExpression fuel p = none ∨
      parseExpression fuel p = some (NumberExprAST p.currentToken.numValue, p.nextToken) := by
  rcases fuel with _ | _ | _ | f <;>
    simp [parseExpression, parseTerm, parseFactor, parseTermLoop, parseExpressionLoop, h, h1, h2]

theorem parseStatementRest_spins (fuel : ℕ) (p : SarcasmParser) (kw sep : TokenType)
    (hkw : (kw = TOKEN_OBVIOUSLY ∧ sep = TOKEN_THEN) ∨ (kw = TOKEN_WHATEVER ∧ sep = TOKEN_DO))
    (h0 : p.currentToken.type = kw)
    (h1 : p.nextToken.currentToken.type = TOKEN_NUMBER)
    (h2 : p.nextToken.nextToken.currentToken.type = sep)
    (h3 : p.nextToken.nextToken.nextToken.currentToken.type = TOKEN_LBRACE)
    (h4 : p.nextToken.nextToken.nextToken.nextToken.currentToken.type ≠ TOKEN_RBRACE)
    (h5 : p.nextToken.nextToken.nextToken.nextToken.currentToken.type ≠ TOKEN_EOF)
    (h6 : p.nextToken.nextToken.nextToken.nextToken.currentToken.type ≠ TOKEN_INSULT) :
    parseStatementRest fuel p = none := by
  cases fuel with
  | zero => simp [parseStatementRest]
  | succ f =>
    have hb := parseBlock_spins f [] _ h4 h5 h6
    have he := parseExpression_number f p.nextToken h1
      (by rcases hkw with ⟨-, rfl⟩ | ⟨-, rfl⟩ <;> rw [h2] <;> rfl)
      (by rcases hkw with ⟨-, rfl⟩ | ⟨-, rfl⟩ <;> rw [h2] <;> rfl)
    rcases hkw with ⟨rfl, rfl⟩ | ⟨rfl, rfl⟩ <;> rcases he with he | he <;>
      simp [parseStatementRest, h0, he, h2, h3, hb]

theorem parseProgram_spins (fuel : ℕ) (p : SarcasmParser) (kw sep : TokenType)
    (hkw : (kw = TOKEN_OBVIOUSLY ∧ sep = TOKEN_THEN) ∨ (kw = TOKEN_WHATEVER ∧ sep = TOKEN_DO))
    (ht : p.currentToken.type = TOKEN_INSULT)
    (hc : p.nextToken.currentToken.type = TOKEN_COLON)
    (h0 : p.nextToken.nextToken.currentToken.type = kw)
    (h1 : p.nextToken.nextToken.nextToken.currentToken.type = TOKEN_NUMBER)
    (h2 : p.nextToken.nextToken.nextToken.nextToken.currentToken.type = sep)
    (h3 : p.nextToken.nextToken.nextToken.nextToken.nextToken.currentToken.type = TOKEN_LBRACE)
    (h4 : p.nextToken.nextToken.nextToken.nextToken.nextToken.nextToken.currentToken.type ≠
      TOKEN_RBRACE)
    (h5 : p.nextToken.nextToken.nextToken.nextToken.nextToken.nextToken.currentToken.type ≠
      TOKEN_EOF)
    (h6 : p.nextToken.nextToken.nextToken.nextToken.nextToken.nextToken.currentToken.type ≠
      TOKEN_INSULT) :
    parseProgram fuel p = none := by
  have hkw2 : kw ≠ TOKEN_IDENTIFIER := by
    rcases hkw with ⟨rfl, -⟩ | ⟨rfl, -⟩ <;> decide
  have hr : ∀ f, parseStatementRest f p.nextToken.nextToken = none :=
    fun f => parseStatementRest_spins f _ kw sep hkw h0 h1 h2 h3 h4 h5 h6
  have hs : ∀ f, parseStatement f p.nextToken.nextToken = none := by
    intro f
    cases f with
    | zero => simp [parseStatement]
    | succ f => simp [parseStatement, h0, hkw2, hr]
  have hl : ∀ f, parseLine f p = none := by
    intro f
    cases f with
    | zero => simp [parseLine]
    | succ f => simp [parseLine, ht, hc, hs]
  cases fuel with
  | zero => simp [parseProgram, parseProgramLoop]
  | succ f => simp [parseProgram, parseProgramLoop, ht, hl]

/-- Claim C24, evaluated at the failing input.  The block loop of `parseStatement` does not
return when it stands at a token that is neither a closing brace nor the end of input nor
a line tag: `parseLine` fails there without consuming the token, the loop drops the failed
line and tries again at the same token, for every amount of fuel.  So for
`idiot: obviously 1 then { x = 1 }`, and for the same block after `whatever 1 do`,
`parseProgram` has not returned after any number of steps, and `compileAndRun` never gets
to code generation.  The top-level loop of `parseProgram` does stop at a line without tag:
`x = 1` alone gives a parse error. -/
theorem block_loop_never_returns_at_untagged_line :
    (∀ (fuel : ℕ) (stmts : List ASTNode) (p : SarcasmParser),
      p.currentToken.type ≠ TOKEN_RBRACE → p.currentToken.type ≠ TOKEN_EOF →
      p.currentToken.type ≠ TOKEN_INSULT → parseBlock fuel stmts p = none) ∧
    (∀ (fuel : ℕ) (p : SarcasmParser), p.currentToken.type ≠ TOKEN_INSULT →
      parseLine (fuel + 1) p =
        some (nullptr,
          p.complain "amateur: Every line must start with an insult, you casual!")) ∧
    (∀ fuel, parseProgram fuel (SarcasmParser.new "idiot: obviously 1 then \x7b x = 1 \x7d") =
      none) ∧
    (∀ fuel, parseProgram fuel (SarcasmParser.new "idiot: whatever 1 do \x7b x = 1 \x7d") =
      none) ∧
    (∀ fuel,
      (compileAndRun Globals.initial fuel "idiot: obviously 1 then \x7b x = 1 \x7d").outcome =
        Outcome.noFuel) ∧
    (compileAndRun Globals.initial 100 "x = 1").cerr =
      ["amateur: Every line must start with an insult, you casual!",
       "scrub: Parse error encountered"] := by
  refine ⟨parseBlock_spins, fun fuel p h => by simp [parseLine, h], fun fuel => ?_,
    fun fuel => ?_, fun fuel => ?_, by decide!⟩
  · exact parseProgram_spins fuel _ TOKEN_OBVIOUSLY TOKEN_THEN (Or.inl ⟨rfl, rfl⟩)
      (by decide) (by decide) (by decide) (by decide) (by decide) (by decide) (by decide)
      (by decide) (by decide)
  · exact parseProgram_spins fuel _ TOKEN_WHATEVER TOKEN_DO (Or.inr ⟨rfl, rfl⟩)
      (by decide) (by decide) (by decide) (by decide) (by decide) (by decide) (by decide)
      (by decide) (by decide)
  · have h := parseProgram_spins fuel
      (SarcasmParser.new "idiot: obviously 1 then \x7b x = 1 \x7d") TOKEN_OBVIOUSLY TOKEN_THEN
      (Or.inl ⟨rfl, rfl⟩)
      (by decide) (by decide) (by decide) (by decide) (by decide) (by decide) (by decide)
      (by decide) (by decide)
    simp only [compileAndRun, h, runParsed]

theorem block_loop_never_returns_at_untagged_line_witness :
    (SarcasmParser.nextToken^[6]
        (SarcasmParser.new "idiot: obviously 1 then \x7b x = 1 \x7d")).currentToken =
      ⟨TOKEN_IDENTIFIER, "x", 0⟩ ∧
    parseBlock 1000 []
        (SarcasmParser.nextToken^[6]
          (SarcasmParser.new "idiot: obviously 1 then \x7b x = 1 \x7d")) = none :=
  ⟨by decide, block_loop_never_returns_at_untagged_line.1 1000 [] _ (by decide) (by decide)
    (by decide)⟩

/-! ### Binary operations -/

theorem insertPos_emit (i : Instr) (s : CodegenState) (h : s.insertBlock < s.blocks.length) :
    (emit i s).insertPos = s.insertPos + 1 := by
  rw [insertPos_eq, insertPos_eq]
  show ((appendAt i s.insertBlock s.blocks)[s.insertBlock]?.getD []).length = _
  rw [getElem?_appendAt_self _ _ _ h]
  simp

theorem fetch_emitValue (mk : Nat → Instr) (s : CodegenState)
    (h : s.insertBlock < s.blocks.length) :
    fetch (emitValue mk s).2.blocks s.insertBlock s.insertPos = some (mk s.nextId) :=
  fetch_emit (mk s.nextId) { s with nextId := s.nextId + 1 } h

theorem insertPos_emitValue (mk : Nat → Instr) (s : CodegenState)
    (h : s.insertBlock < s.blocks.length) :
    (emitValue mk s).2.insertPos = s.insertPos + 1 :=
  insertPos_emit (mk s.nextId) { s with nextId := s.nextId + 1 } h

theorem valid_emitValue (mk : Nat → Instr) (s : CodegenState)
    (h : s.insertBlock < s.blocks.length) :
    (emitValue mk s).2.insertBlock < (emitValue mk s).2.blocks.length := by
  simpa [emitValue, emit, length_appendAt] using h

theorem eval_setReg (m : Machine) (id : Nat) (v : RVal) :
    (m.setReg id v).eval (Value.inst id) = v := by
  simp [Machine.eval, Machine.setReg]

theorem arithmetic_steps (s s1 s2 : CodegenState) (lhs rhs : ASTNode) (lv rv : Value)
    (op : Char) (hop : op ∈ ['+', '-', '*', '/'])
    (hs : s.insertBlock < s.blocks.length)
    (hl : codegen lhs s = some (some lv, s1)) (hr : codegen rhs s1 = some (some rv, s2)) :
    ∃ s3, codegen (BinaryExprAST op lhs rhs) s = some (some (Value.inst s2.nextId), s3) ∧
      s3.insertBlock = s2.insertBlock ∧ s3.insertPos = s2.insertPos + 1 ∧
      ∀ (B : List (List Instr)), CodeExtends s3.blocks B →
        ∀ (nAllocas : Nat) (m : Machine) (l r : ℚ),
          m.block = s2.insertBlock → m.pc = s2.insertPos →
          m.eval lv = RVal.fp l → m.eval rv = RVal.fp r → (op = '/' → r ≠ 0) →
          ∃ m2, steps B nAllocas 1 m = some m2 ∧
            m2.eval (Value.inst s2.nextId) = RVal.fp (binaryValue op l r) ∧
            m2.mem = m.mem ∧ m2.out = m.out ∧ m2.block = m.block ∧ m2.pc = m.pc + 1 := by
  have h2 : s2.insertBlock < s2.blocks.length :=
    (codegen_keeps rhs s1 _ s2 hr (codegen_keeps lhs s _ s1 hl hs).valid).valid
  simp only [List.mem_cons, List.mem_singleton, List.not_mem_nil, or_false] at hop
  rcases hop with rfl | rfl | rfl | rfl
  · refine ⟨(emitValue (fun id => Instr.fadd id lv rv) s2).2, by simp [codegen, hl, hr, emitValue],
      rfl, insertPos_emit _ { s2 with nextId := s2.nextId + 1 } h2, ?_⟩
    intro B hB nA m l r hb hpc hlv hrv _
    have hf := hB _ _ _ (fetch_emitValue (fun id => Instr.fadd id lv rv) s2 h2)
    rw [← hb, ← hpc] at hf
    exact ⟨_, steps_one hf rfl, by rw [eval_setReg, hlv, hrv]; simp [arith, binaryValue],
      rfl, rfl, rfl, rfl⟩
  · refine ⟨(emitValue (fun id => Instr.fsub id lv rv) s2).2, by simp [codegen, hl, hr, emitValue],
      rfl, insertPos_emit _ { s2 with nextId := s2.nextId + 1 } h2, ?_⟩
    intro B hB nA m l r hb hpc hlv hrv _
    have hf := hB _ _ _ (fetch_emitValue (fun id => Instr.fsub id lv rv) s2 h2)
    rw [← hb, ← hpc] at hf
    exact ⟨_, steps_one hf rfl, by rw [eval_setReg, hlv, hrv]; simp [arith, binaryValue],
      rfl, rfl, rfl, rfl⟩
  · refine ⟨(emitValue (fun id => Instr.fmul id lv rv) s2).2, by simp [codegen, hl, hr, emitValue],
      rfl, insertPos_emit _ { s2 with nextId := s2.nextId + 1 } h2, ?_⟩
    intro B hB nA m l r hb hpc hlv hrv _
    have hf := hB _ _ _ (fetch_emitValue (fun id => Instr.fmul id lv rv) s2 h2)
    rw [← hb, ← hpc] at hf
    exact ⟨_, steps_one hf rfl, by rw [eval_setReg, hlv, hrv]; simp [arith, binaryValue],
      rfl, rfl, rfl, rfl⟩
  · refine ⟨(emitValue (fun id => Instr.fdiv id lv rv) s2).2, by simp [codegen, hl, hr, emitValue],
      rfl, insertPos_emit _ { s2 with nextId := s2.nextId + 1 } h2, ?_⟩
    intro B hB nA m l r hb hpc hlv hrv h0
    have hf := hB _ _ _ (fetch_emitValue (fun id => Instr.fdiv id lv rv) s2 h2)
    rw [← hb, ← hpc] at hf
    have hr0 : r ≠ 0 := h0 rfl
    have hstep : step nA (Instr.fdiv s2.nextId lv rv) m =
        some (m.setReg s2.nextId (arith (· / ·) (m.eval lv) (m.eval rv))) := by
      simp [step, hrv, hr0]
    exact ⟨_, steps_one hf hstep, by rw [eval_setReg, hlv, hrv]; simp [arith, binaryValue],
      rfl, rfl, rfl, rfl⟩

theorem comparison_steps (s s1 s2 : CodegenState) (lhs rhs : ASTNode) (lv rv : Value)
    (op : Char) (hop : op ∈ ['<', '>'])
    (hs : s.insertBlock < s.blocks.length)
    (hl : codegen lhs s = some (some lv, s1)) (hr : codegen rhs s1 = some (some rv, s2)) :
    ∃ s3, codegen (BinaryExprAST op lhs rhs) s = some (some (Value.inst (s2.nextId + 1)), s3) ∧
      s3.insertBlock = s2.insertBlock ∧ s3.insertPos = s2.insertPos + 2 ∧
      ∀ (B : List (List Instr)), CodeExtends s3.blocks B →
        ∀ (nAllocas : Nat) (m : Machine) (l r : ℚ),
          m.block = s2.insertBlock → m.pc = s2.insertPos →
          m.eval lv = RVal.fp l → m.eval rv = RVal.fp r →
          ∃ m2, steps B nAllocas 2 m = some m2 ∧
            m2.eval (Value.inst (s2.nextId + 1)) = RVal.fp (binaryValue op l r) ∧
            m2.mem = m.mem ∧ m2.out = m.out ∧ m2.block = m.block ∧ m2.pc = m.pc + 2 := by
  have h2 : s2.insertBlock < s2.blocks.length :=
    (codegen_keeps rhs s1 _ s2 hr (codegen_keeps lhs s _ s1 hl hs).valid).valid
  have key : ∀ (mk : Nat → Value → Value → Instr) (f : ℚ → ℚ → Bool),
      (∀ nA id (m : Machine), step nA (mk id lv rv) m =
        some (m.setReg id (compare f (m.eval lv) (m.eval rv)))) →
      ∀ (B : List (List Instr)),
        CodeExtends (emitValue (fun id => Instr.uiToFP id (Value.inst s2.nextId))
          (emitValue (fun id => mk id lv rv) s2).2).2.blocks B →
        ∀ (nAllocas : Nat) (m : Machine) (l r : ℚ),
          m.block = s2.insertBlock → m.pc = s2.insertPos →
          m.eval lv = RVal.fp l → m.eval rv = RVal.fp r →
          ∃ m2, steps B nAllocas 2 m = some m2 ∧
            m2.eval (Value.inst (s2.nextId + 1)) = RVal.fp (if f l r then 1 else 0) ∧
            m2.mem = m.mem ∧ m2.out = m.out ∧ m2.block = m.block ∧ m2.pc = m.pc + 2 := by
    intro mk f hstep B hB nA m l r hb hpc hlv hrv
    have hc2 : (emitValue (fun id => mk id lv rv) s2).2.insertBlock <
        (emitValue (fun id => mk id lv rv) s2).2.blocks.length := by
      simpa [emitValue, emit, length_appendAt] using h2
    have f1 := hB _ _ _ (codeExtends_appendAt _ _ _ _ _ _
      (fetch_emitValue (fun id => mk id lv rv) s2 h2))
    have f2 := hB _ _ _ (fetch_emitValue (fun id => Instr.uiToFP id (Value.inst s2.nextId))
      (emitValue (fun id => mk id lv rv) s2).2 hc2)
    have e1 : (emitValue (fun id => mk id lv rv) s2).2.insertBlock = s2.insertBlock := rfl
    have e2 : (emitValue (fun id => mk id lv rv) s2).2.insertPos = s2.insertPos + 1 :=
      insertPos_emit _ { s2 with nextId := s2.nextId + 1 } h2
    have e3 : (emitValue (fun id => mk id lv rv) s2).2.nextId = s2.nextId + 1 := rfl
    rw [e1, e2, e3] at f2
    rw [← hb, ← hpc] at f1 f2
    have s1' : steps B nA 1 m = some _ := steps_one f1 (hstep nA s2.nextId m)
    rw [hlv, hrv] at s1'
    have hst : steps B nA 2 m = some
        ((m.setReg s2.nextId (RVal.bit (f l r))).setReg (s2.nextId + 1)
          (RVal.fp (if f l r then 1 else 0))) := by
      rw [show 2 = 1 + 1 from rfl, steps_add, s1']
      simp only [compare, Option.some_bind]
      refine steps_one (i := Instr.uiToFP (s2.nextId + 1) (Value.inst s2.nextId)) f2 ?_
      simp [step, Machine.eval, Machine.setReg]
    exact ⟨_, hst, eval_setReg _ _ _, rfl, rfl, rfl, rfl⟩
  simp only [List.mem_cons, List.mem_singleton, List.not_mem_nil, or_false] at hop
  rcases hop with rfl | rfl
  · refine ⟨(emitValue (fun id => Instr.uiToFP id (Value.inst s2.nextId))
        (emitValue (fun id => Instr.fcmpULT id lv rv) s2).2).2, ?_, rfl, ?_, ?_⟩
    · simp only [codegen, hl, hr]
      rfl
    · rw [insertPos_emitValue _ _ (valid_emitValue _ _ h2), insertPos_emitValue _ _ h2]
    · intro B hB nA m l r hb hpc hlv hrv
      have := key (fun id a b => Instr.fcmpULT id a b) (fun a b => decide (a < b))
        (fun _ _ _ => rfl) B hB nA m l r hb hpc hlv hrv
      simpa [binaryValue] using this
  · refine ⟨(emitValue (fun id => Instr.uiToFP id (Value.inst s2.nextId))
        (emitValue (fun id => Instr.fcmpUGT id lv rv) s2).2).2, ?_, rfl, ?_, ?_⟩
    · simp only [codegen, hl, hr]
      rfl
    · rw [insertPos_emitValue _ _ (valid_emitValue _ _ h2), insertPos_emitValue _ _ h2]
    · intro B hB nA m l r hb hpc hlv hrv
      have := key (fun id a b => Instr.fcmpUGT id a b) (fun a b => decide (a > b))
        (fun _ _ _ => rfl) B hB nA m l r hb hpc hlv hrv
      simpa [binaryValue] using this

/-- Claim C22.  A binary operation yields the exact value of its operands.
`BinaryExprAST::codegen` generates the code of the left operand, then, from the state that
left, the code of the right operand, and then, at the position both have left, one
instruction for an arithmetic tag and two for a comparison tag (the comparison and its
conversion to a number).  In every later state of the function, a machine that stands at
that position and holds the exact numbers `l` and `r` as the values of the operands has,
after those instructions, the number `binaryValue op l r` as the value of the operation:
`l + r`, `l - r`, `l * r`, `l / r`, and 1 or 0 for `<` and `>` as the comparison holds or
not; memory and output are unchanged.  The quotient is taken for a divisor other than
zero, where it is an exact number.  The value of a comparison is an operand like any
other: `(2 < 3) + (3 > 2) * 5` prints 6.00. -/
theorem binary_operation_yields_exact_value :
    (∀ (s s1 s2 : CodegenState) (lhs rhs : ASTNode) (lv rv : Value) (op : Char),
      op ∈ ['+', '-', '*', '/'] → s.insertBlock < s.blocks.length →
      codegen lhs s = some (some lv, s1) → codegen rhs s1 = some (some rv, s2) →
      ∃ s3, codegen (BinaryExprAST op lhs rhs) s = some (some (Value.inst s2.nextId), s3) ∧
        s3.insertBlock = s2.insertBlock ∧ s3.insertPos = s2.insertPos + 1 ∧
        ∀ (B : List (List Instr)), CodeExtends s3.blocks B →
          ∀ (nAllocas : Nat) (m : Machine) (l r : ℚ),
            m.block = s2.insertBlock → m.pc = s2.insertPos →
            m.eval lv = RVal.fp l → m.eval rv = RVal.fp r → (op = '/' → r ≠ 0) →
            ∃ m2, steps B nAllocas 1 m = some m2 ∧
              m2.eval (Value.inst s2.nextId) = RVal.fp (binaryValue op l r) ∧
              m2.mem = m.mem ∧ m2.out = m.out ∧ m2.block = m.block ∧ m2.pc = m.pc + 1) ∧
    (∀ (s s1 s2 : CodegenState) (lhs rhs : ASTNode) (lv rv : Value) (op : Char),
      op ∈ ['<', '>'] → s.insertBlock < s.blocks.length →
      codegen lhs s = some (some lv, s1) → codegen rhs s1 = some (some rv, s2) →
      ∃ s3, codegen (BinaryExprAST op lhs rhs) s =
          some (some (Value.inst (s2.nextId + 1)), s3) ∧
        s3.insertBlock = s2.insertBlock ∧ s3.insertPos = s2.insertPos + 2 ∧
        ∀ (B : List (List Instr)), CodeExtends s3.blocks B →
          ∀ (nAllocas : Nat) (m : Machine) (l r : ℚ),
            m.block = s2.insertBlock → m.pc = s2.insertPos →
            m.eval lv = RVal.fp l → m.eval rv = RVal.fp r →
            ∃ m2, steps B nAllocas 2 m = some m2 ∧
              m2.eval (Value.inst (s2.nextId + 1)) = RVal.fp (binaryValue op l r) ∧
              m2.mem = m.mem ∧ m2.out = m.out ∧ m2.block = m.block ∧ m2.pc = m.pc + 2) ∧
    (∀ l r : ℚ, binaryValue '<' l r = (if l < r then 1 else 0) ∧
      binaryValue '>' l r = (if l > r then 1 else 0) ∧
      binaryValue '+' l r = l + r ∧ binaryValue '-' l r = l - r ∧
      binaryValue '*' l r = l * r ∧ binaryValue '/' l r = l / r) ∧
    (compileAndRun Globals.initial 100
        "idiot: show 7 plus 2\nmoron: show 7 - 2\nfool: show 7 times 2\ndummy: show 7 / 2"
      ).outcome =
      Outcome.finished
        [(printFormat "show", RVal.fp 9), (printFormat "show", RVal.fp 5),
         (printFormat "show", RVal.fp 14), (printFormat "show", RVal.fp (7 / 2))] ∧
    (compileAndRun Globals.initial 100
        "idiot: show 2 < 3\nmoron: show 3 < 2\nfool: show 2 < 2\ndummy: show 3 > 2"
      ).outcome =
      Outcome.finished
        [(printFormat "show", RVal.fp 1), (printFormat "show", RVal.fp 0),
         (printFormat "show", RVal.fp 0), (printFormat "show", RVal.fp 1)] ∧
    (compileAndRun Globals.initial 100 "idiot: show (2 < 3) + (3 > 2) * 5").outcome.printed =
      [some "Fine, here\x27s your precious number: 6.00\n"] := by
  refine ⟨fun s s1 s2 lhs rhs lv rv op hop hs hl hr =>
      arithmetic_steps s s1 s2 lhs rhs lv rv op hop hs hl hr,
    fun s s1 s2 lhs rhs lv rv op hop hs hl hr =>
      comparison_steps s s1 s2 lhs rhs lv rv op hop hs hl hr,
    fun l r => ⟨rfl, rfl, rfl, rfl, rfl, rfl⟩, by decide!, by decide!, by decide!⟩

theorem binary_operation_yields_exact_value_witness :
    codegen (VariableExprAST "x") (CodegenState.entry Globals.initial) =
      some (some (Value.inst 0),
        { blocks := [[Instr.store (Value.constFP 0) 0, Instr.load 0 0]], insertBlock := 0,
          allocas := ["x"], namedValues := [("x", 0)], nextId := 1, lineNum := 1, cout := [] }) ∧
    ∃ s3,
      codegen (BinaryExprAST '/' (VariableExprAST "x") (NumberExprAST 2))
          (CodegenState.entry Globals.initial) = some (some (Value.inst 1), s3) ∧
        s3.insertPos = 3 :=
  have hl : codegen (VariableExprAST "x") (CodegenState.entry Globals.initial) =
      some (some (Value.inst 0),
        { blocks := [[Instr.store (Value.constFP 0) 0, Instr.load 0 0]], insertBlock := 0,
          allocas := ["x"], namedValues := [("x", 0)], nextId := 1, lineNum := 1,
          cout := [] }) := by decide!
  ⟨hl, (binary_operation_yields_exact_value.1 _ _ _ (VariableExprAST "x") (NumberExprAST 2)
      _ _ '/' (by decide) (by decide) hl rfl).imp (fun _ h => ⟨h.1, h.2.2.1⟩)⟩

/-! ### The first reference to a variable -/

theorem generateMain_reset :
    ∃ s, generateMain Globals.initial resetProgram = some s ∧
      s.blocks = resetBlocks ∧ s.allocas.length = 1 := by
  refine ⟨_, rfl, rfl, rfl⟩

theorem reset_spins : ∀ (fuel : ℕ) (m : Machine), m.block = 1 → m.pc = 0 →
    exec resetBlocks 1 fuel m = ExecResult.noFuel := by
  intro fuel
  induction fuel using Nat.strong_induction_on with
  | _ fuel ih =>
    intro m hb hpc
    by_cases hf : fuel < 10
    · interval_cases fuel <;>
        simp [exec, fetch, resetBlocks, step, Machine.setReg, Machine.eval, Machine.jump,
          compare, arith, hb, hpc]
    · obtain ⟨f, rfl⟩ : ∃ f, fuel = f + 10 := ⟨fuel - 10, by omega⟩
      simp [exec, fetch, resetBlocks, step, Machine.setReg, Machine.eval, Machine.jump,
        compare, arith, hb, hpc]
      exact ih f (by omega) _ rfl rfl

theorem reset_start (fuel : ℕ) :
    exec resetBlocks 1 fuel Machine.start = ExecResult.noFuel := by
  cases fuel with
  | zero => rfl
  | succ f =>
    simp [exec, fetch, resetBlocks, step, Machine.jump, Machine.start]
    exact reset_spins f _ rfl rfl

theorem runParsed_reset (fuel : ℕ) (parser : SarcasmParser) :
    (runParsed Globals.initial fuel (some (resetProgram, parser))).outcome =
      Outcome.noFuel := by
  obtain ⟨s, hs, hb, ha⟩ := generateMain_reset
  have hv : verifyFunction s.blocks = false := by rw [hb]; rfl
  simp only [runParsed, hs, hv, hb, ha, reset_start]
  rfl

theorem resetTokens_derive :
    Derives Nonterminal.lines resetTokens (resetProgram : List ASTNode) := by
  have var : Derives Nonterminal.term [⟨TOKEN_IDENTIFIER, "x", 0⟩] (VariableExprAST "x") :=
    Derives.termFactor _ _ (Derives.ident ⟨TOKEN_IDENTIFIER, "x", 0⟩ rfl)
  have num : ∀ (s : String) (k : ℚ),
      Derives Nonterminal.term [⟨TOKEN_NUMBER, s, k⟩] (NumberExprAST k) :=
    fun s k => Derives.termFactor _ _ (Derives.number ⟨TOKEN_NUMBER, s, k⟩ rfl)
  have l2 := Derives.line ⟨TOKEN_INSULT, "moron", 0⟩ ⟨TOKEN_COLON, ":", 0⟩ _ _ rfl rfl
    (Derives.assignment ⟨TOKEN_IDENTIFIER, "x", 0⟩ ⟨TOKEN_ASSIGN, "=", 0⟩ _ _ rfl rfl
      (Derives.exprOp _ _ ⟨TOKEN_PLUS, "+", 0⟩ '+' _ _ (Derives.exprTerm _ _ var) rfl
        (num "1" 1)))
  have l1 := Derives.line ⟨TOKEN_INSULT, "idiot", 0⟩ ⟨TOKEN_COLON, ":", 0⟩ _ _ rfl rfl
    (Derives.whileStmt ⟨TOKEN_WHATEVER, "whatever", 0⟩ ⟨TOKEN_DO, "do", 0⟩
      ⟨TOKEN_LBRACE, "\x7b", 0⟩ ⟨TOKEN_RBRACE, "\x7d", 0⟩ _ _ _ _ rfl
      (Derives.exprOp _ _ ⟨TOKEN_LESS, "<", 0⟩ '<' _ _ (Derives.exprTerm _ _ var) rfl
        (num "3" 3))
      rfl rfl (Derives.linesCons _ _ _ _ l2 Derives.linesNil) rfl)
  exact Derives.linesCons _ _ _ _ l1 Derives.linesNil

/-- Claim C21, evaluated at the failing inputs.  The first reference to a variable in the
source stores zero where it stands.  For a name that is not yet in `namedValues`,
`VariableExprAST::codegen` places, at the current insertion point, a store of 0.0 to the
new slot followed by the load, and executing that store sets the slot to zero each time
control passes it.  So in `i = 0`; `whatever i < 3 do { s = s + i; i = i + 1 }`; `show s`
every iteration resets `s` before reading it and the program prints 2.00, and in
`whatever x < 3 do { x = x + 1 }` the condition resets `x` before every test: the parser
returns the tree `resetProgram`, and the execution of its code is still running after any
number of instructions. -/
theorem first_reference_in_loop_resets_variable :
    (∀ (name : String) (s : CodegenState), s.namedValues.lookup name = none →
      s.insertBlock < s.blocks.length →
      ∃ s2, codegen (VariableExprAST name) s = some (some (Value.inst s.nextId), s2) ∧
        s2.allocas = s.allocas ++ [name] ∧
        fetch s2.blocks s.insertBlock s.insertPos =
          some (Instr.store (Value.constFP 0) s.allocas.length) ∧
        fetch s2.blocks s.insertBlock (s.insertPos + 1) =
          some (Instr.load s.nextId s.allocas.length)) ∧
    (∀ (nAllocas slot : Nat) (m : Machine), slot < nAllocas →
      ∃ m2, step nAllocas (Instr.store (Value.constFP 0) slot) m = some m2 ∧
        m2.mem slot = RVal.fp 0) ∧
    (compileAndRun Globals.initial 200 sumSource).outcome.printed =
      [some "Fine, here\x27s your precious number: 2.00\n"] ∧
    (∃ N, ∀ fuel, N ≤ fuel →
      (compileAndRun Globals.initial fuel resetSource).program = resetProgram ∧
      (compileAndRun Globals.initial fuel resetSource).outcome = Outcome.noFuel) ∧
    (∀ (fuel : ℕ) (parser : SarcasmParser),
      (runParsed Globals.initial fuel (some (resetProgram, parser))).outcome =
        Outcome.noFuel) ∧
    (compileAndRun Globals.initial 200 resetSource).outcome = Outcome.noFuel := by
  refine ⟨fun name s hn hs => ?_, fun nA slot m h => ?_, by decide!, ?_, runParsed_reset,
    by decide!⟩
  · refine ⟨(emitValue (fun id => Instr.load id s.allocas.length)
        (emit (Instr.store (Value.constFP 0) s.allocas.length)
          (createEntryBlockAlloca name s).2)).2, ?_, rfl, ?_, ?_⟩
    · simp only [codegen, hn]
      rfl
    · exact codeExtends_appendAt _ _ _ _ _ _
        (fetch_emit (Instr.store (Value.constFP 0) s.allocas.length)
          (createEntryBlockAlloca name s).2 hs)
    · have hv : (emit (Instr.store (Value.constFP 0) s.allocas.length)
          (createEntryBlockAlloca name s).2).insertBlock <
          (emit (Instr.store (Value.constFP 0) s.allocas.length)
            (createEntryBlockAlloca name s).2).blocks.length := by
        simpa [emit, length_appendAt, createEntryBlockAlloca] using hs
      have := fetch_emitValue (fun id => Instr.load id s.allocas.length) _ hv
      rw [insertPos_emit _ _ (show (createEntryBlockAlloca name s).2.insertBlock <
        (createEntryBlockAlloca name s).2.blocks.length from hs)] at this
      exact this
  · refine ⟨{ m with mem := fun a => if a = slot then m.eval (Value.constFP 0) else m.mem a,
                     pc := m.pc + 1 }, by simp [step, h], ?_⟩
    simp [Machine.eval]
  · have hf : Feeds (SarcasmParser.new resetSource) resetTokens
        (SarcasmParser.nextToken^[16] (SarcasmParser.new resetSource)) := by decide!
    obtain ⟨N, hN⟩ := parseProgram_of_derives resetTokens_derive hf (by decide!)
    refine ⟨N, fun fuel h => ?_⟩
    have hp := hN fuel h
    simp only at hp
    have e : compileAndRun Globals.initial fuel resetSource =
        runParsed Globals.initial fuel (some (resetProgram,
          SarcasmParser.nextToken^[16] (SarcasmParser.new resetSource))) := by
      rw [compileAndRun, hp]
    rw [e]
    exact ⟨rfl, runParsed_reset _ _⟩

theorem first_reference_in_loop_resets_variable_witness :
    (whileEntry (CodegenState.entry Globals.initial)).namedValues.lookup "x" = none ∧
    ∃ s2,
      codegen (VariableExprAST "x") (whileEntry (CodegenState.entry Globals.initial)) =
        some (some (Value.inst 0), s2) ∧
      fetch s2.blocks 1 0 = some (Instr.store (Value.constFP 0) 0) :=
  ⟨by decide,
    (first_reference_in_loop_resets_variable.1 "x"
      (whileEntry (CodegenState.entry Globals.initial)) (by decide) (by decide)).imp
      (fun _ h => ⟨h.1, h.2.2.1⟩)⟩

/-! ### Doubles -/

theorem decimalValue_nonneg (number : List Char) : 0 ≤ decimalValue number := by
  unfold decimalValue
  split
  · positivity
  · positivity

theorem decimalValue_decimal (a b rest : List Char) (ha : ∀ x ∈ a, isdigit x = true)
    (hb : ∀ x ∈ b, isdigit x = true) (hrest : ∀ c, rest.head? = some c → isdigit c = false) :
    decimalValue (a ++ '.' :: (b ++ rest)) =
      (digitsValue 0 (a ++ b) : ℚ) / (10 ^ b.length : ℕ) := by
  have hdot : ∀ c, ('.' :: (b ++ rest)).head? = some c → isdigit c = false := by
    intro c hc
    simp only [List.head?_cons, Option.some.injEq] at hc
    subst hc
    decide
  simp only [decimalValue, takeWhile_stop isdigit a _ ha hdot, dropWhile_stop isdigit a _ ha hdot,
    takeWhile_stop isdigit b rest hb hrest]

theorem decimalValue_digits (a : List Char) (ha : ∀ x ∈ a, isdigit x = true) :
    decimalValue a = (digitsValue 0 a : ℚ) := by
  have h1 : a.takeWhile isdigit = a := by
    rw [List.takeWhile_eq_self_iff]; exact ha
  have h2 : a.dropWhile isdigit = [] := by
    rw [List.dropWhile_eq_nil_iff]; exact ha
  simp only [decimalValue, h1, h2]

theorem roundHalfEven_intCast (z : ℤ) : roundHalfEven (z : ℚ) = z := by
  simp [roundHalfEven]

theorem roundHalfEven_nonneg (q : ℚ) (h : 0 ≤ q) : 0 ≤ roundHalfEven q := by
  have hf : 0 ≤ ⌊q⌋ := Int.floor_nonneg.mpr h
  unfold roundHalfEven
  simp only
  split_ifs <;> omega

theorem nearestDouble_nonneg (q : ℚ) (h : 0 ≤ q) : 0 ≤ nearestDouble q := by
  unfold nearestDouble
  split_ifs with h0
  · exact le_refl _
  · simp only
    have hu : (0 : ℚ) < (2 : ℚ) ^ (max (binade q) (-1022) - 52) := by positivity
    have := roundHalfEven_nonneg (q / (2 : ℚ) ^ (max (binade q) (-1022) - 52))
      (div_nonneg h hu.le)
    have h2 : (0 : ℚ) ≤ (roundHalfEven (q / (2 : ℚ) ^ (max (binade q) (-1022) - 52)) : ℚ) := by
      exact_mod_cast this
    positivity

theorem stod_nonneg (number : List Char) : 0 ≤ stod number :=
  nearestDouble_nonneg _ (decimalValue_nonneg number)

theorem bitLength_le (L : ℕ) : ∀ (fuel n : ℕ), n < 2 ^ L → bitLength fuel n ≤ L := by
  induction L with
  | zero =>
    intro fuel n h
    have : n = 0 := by simpa using h
    subst this
    cases fuel <;> simp [bitLength]
  | succ L ih =>
    intro fuel n h
    cases fuel with
    | zero => simp [bitLength]
    | succ fuel =>
      simp only [bitLength]
      split_ifs
      · omega
      · have : n / 2 < 2 ^ L := by
          rw [Nat.div_lt_iff_lt_mul (by decide)]
          rw [pow_succ] at h
          exact h
        have := ih fuel (n / 2) this
        omega

theorem binade_natCast_le (k : ℕ) (h : k < 2 ^ 53) : binade (k : ℚ) ≤ 52 := by
  have hb := bitLength_le 53 k k h
  unfold binade
  simp only [Rat.num_natCast, Int.natAbs_ofNat, Rat.den_natCast]
  have h1 : bitLength 1 1 = 1 := rfl
  rw [h1]
  split_ifs <;> omega

theorem nearestDouble_natCast (k : ℕ) (h : k ≤ 2 ^ 53) : nearestDouble (k : ℚ) = k := by
  rcases Nat.lt_or_ge k (2 ^ 53) with hlt | hge
  · unfold nearestDouble
    split_ifs with h0
    · exact h0.symm
    · simp only
      have hb := binade_natCast_le k hlt
      obtain ⟨j, hj⟩ : ∃ j : ℕ, max (binade (k : ℚ)) (-1022) - 52 = -(j : ℤ) :=
        ⟨(52 - max (binade (k : ℚ)) (-1022)).toNat, by omega⟩
      rw [hj, zpow_neg, zpow_natCast]
      have e : (k : ℚ) / ((2 : ℚ) ^ j)⁻¹ = (((k * 2 ^ j : ℕ) : ℤ) : ℚ) := by
        push_cast
        rw [div_inv_eq_mul]
      rw [e, roundHalfEven_intCast]
      push_cast
      field_simp
  · have : k = 2 ^ 53 := le_antisymm h hge
    subst this
    decide!

theorem stod_digits (a : List Char) (ha : ∀ x ∈ a, isdigit x = true)
    (h : digitsValue 0 a ≤ 2 ^ 53) : stod a = (digitsValue 0 a : ℚ) := by
  rw [stod, decimalValue_digits a ha, nearestDouble_natCast _ h]

/-! ### The counting loop on doubles -/

theorem digitChar_digit (k : ℕ) (h : k < 10) :
    isdigit (Nat.digitChar k) = true ∧ (Nat.digitChar k).toNat - 48 = k := by
  interval_cases k <;> exact ⟨by decide, by decide⟩

theorem toDigitsCore_value : ∀ (fuel n : ℕ) (ds : List Char), n < fuel →
    digitsValue 0 (Nat.toDigitsCore 10 fuel n ds) = digitsValue n ds ∧
    (∀ x ∈ Nat.toDigitsCore 10 fuel n ds, isdigit x = true ∨ x ∈ ds) ∧
    Nat.toDigitsCore 10 fuel n ds ≠ [] := by
  intro fuel
  induction fuel with
  | zero => intro n ds h; omega
  | succ fuel ih =>
    intro n ds h
    obtain ⟨hd1, hd2⟩ := digitChar_digit (n % 10) (Nat.mod_lt _ (by decide))
    have hstep : Nat.toDigitsCore 10 (fuel + 1) n ds =
        if n / 10 = 0 then Nat.digitChar (n % 10) :: ds
        else Nat.toDigitsCore 10 fuel (n / 10) (Nat.digitChar (n % 10) :: ds) := rfl
    rw [hstep]
    have hih := ih (n / 10) (Nat.digitChar (n % 10) :: ds)
    generalize Nat.digitChar (n % 10) = d at hd1 hd2 hih ⊢
    have hval : ∀ k, k * 10 + (d.toNat - 48) = n → digitsValue k (d :: ds) = digitsValue n ds := by
      intro k hk
      show digitsValue (k * 10 + (d.toNat - 48)) ds = digitsValue n ds
      rw [hk]
    split_ifs with h0
    · refine ⟨hval 0 (by omega), ?_, List.cons_ne_nil _ _⟩
      intro x hx
      rcases List.mem_cons.1 hx with rfl | hx
      · exact Or.inl hd1
      · exact Or.inr hx
    · obtain ⟨i1, i2, i3⟩ := hih (by omega)
      refine ⟨?_, ?_, i3⟩
      · rw [i1]
        exact hval (n / 10) (by omega)
      · intro x hx
        rcases i2 x hx with hx | hx
        · exact Or.inl hx
        · rcases List.mem_cons.1 hx with rfl | hx
          · exact Or.inl hd1
          · exact Or.inr hx

theorem repr_literal (n : ℕ) :
    ∃ (c : Char) (w : List Char), (Nat.repr n).data = c :: w ∧ isdigit c = true ∧
      (∀ x ∈ w, isdigit x = true) ∧ digitsValue 0 (c :: w) = n := by
  obtain ⟨h1, h2, h3⟩ := toDigitsCore_value (n + 1) n [] (by omega)
  have e : (Nat.repr n).data = Nat.toDigitsCore 10 (n + 1) n [] := rfl
  rcases hd : Nat.toDigitsCore 10 (n + 1) n [] with _ | ⟨c, w⟩
  · exact absurd hd h3
  · rw [hd] at h1 h2
    refine ⟨c, w, by rw [e, hd], ?_, ?_, ?_⟩
    · rcases h2 c (by simp) with h | h
      · exact h
      · simp at h
    · intro x hx
      rcases h2 x (by simp [hx]) with h | h
      · exact h
      · simp at h
    · exact h1.trans rfl

theorem arithDouble_succ (k : ℕ) (h : k ≤ 2 ^ 53) :
    arithDouble (· + ·) (RVal.fp (k : ℚ)) (RVal.fp 1) =
      some (RVal.fp ((if k < 2 ^ 53 then k + 1 else k : ℕ) : ℚ)) := by
  have e : ((k : ℚ) + 1) = ((k + 1 : ℕ) : ℚ) := by push_cast; rfl
  have hv : nearestDouble ((k : ℚ) + 1) = ((if k < 2 ^ 53 then k + 1 else k : ℕ) : ℚ) := by
    split_ifs with hlt
    · rw [e, nearestDouble_natCast _ (by omega)]
    · have : k = 2 ^ 53 := by omega
      subst this
      decide!
  have hb : |(((if k < 2 ^ 53 then k + 1 else k : ℕ) : ℚ))| < (2 : ℚ) ^ 1024 := by
    rw [abs_of_nonneg (by positivity)]
    have h1 : (if k < 2 ^ 53 then k + 1 else k : ℕ) ≤ 2 ^ 53 := by split_ifs <;> omega
    calc (((if k < 2 ^ 53 then k + 1 else k : ℕ) : ℚ)) ≤ ((2 ^ 53 : ℕ) : ℚ) := by
          exact_mod_cast h1
      _ < (2 : ℚ) ^ 1024 := by norm_num
  simp only [arithDouble, hv, hb, if_true]

theorem loop_exit_double (n : ℕ) (m : Machine) (T : List ℕ) (hb : m.block = 1) (hpc : m.pc = 0)
    (hmem : m.mem 0 = RVal.fp n) (ht : m.trace = T ++ [1]) (fuel : ℕ) (hf : 8 ≤ fuel) :
    execDouble (loopBlocks n) 1 fuel m =
      ExecResult.returned (m.out ++ [(printFormat "show", RVal.fp n)]) (T ++ loopTrace 0) := by
  obtain ⟨f, rfl⟩ : ∃ f, fuel = f + 8 := ⟨fuel - 8, by omega⟩
  simp [execDouble, fetch, loopBlocks, stepDouble, step, Machine.setReg, Machine.eval,
    Machine.jump, compare, hb, hpc, hmem, ht, loopTrace]

theorem loop_round_double (n i : ℕ) (hi : i ≤ 2 ^ 53) (hlt : i < n) (m : Machine) (T : List ℕ)
    (hb : m.block = 1) (hpc : m.pc = 0) (hmem : m.mem 0 = RVal.fp i)
    (ht : m.trace = T ++ [1]) (f : ℕ) :
    execDouble (loopBlocks n) 1 (f + 9) m =
      execDouble (loopBlocks n) 1 f
        { block := 1, pc := 0,
          regs := fun r =>
            if r = 5 then RVal.fp ((if i < 2 ^ 53 then i + 1 else i : ℕ) : ℚ) else
            if r = 4 then RVal.fp i else if r = 3 then RVal.bit true else
            if r = 2 then RVal.fp 1 else if r = 1 then RVal.bit true else
            if r = 0 then RVal.fp i else m.regs r,
          mem := fun a =>
            if a = 0 then RVal.fp ((if i < 2 ^ 53 then i + 1 else i : ℕ) : ℚ) else m.mem a,
          out := m.out, trace := (T ++ [1, 2]) ++ [1] } := by
  have hq : (i : ℚ) < (n : ℚ) := by exact_mod_cast hlt
  have ha := arithDouble_succ i hi
  simp [execDouble, fetch, loopBlocks, stepDouble, step, Machine.setReg, Machine.eval,
    Machine.jump, compare, hb, hpc, hmem, ht, hq, ha]

theorem loop_exec_double (n k : ℕ) (hn : n ≤ 2 ^ 53) :
    ∀ (i : ℕ) (m : Machine) (T : List ℕ), i + k = n →
    m.block = 1 → m.pc = 0 → m.mem 0 = RVal.fp i → m.trace = T ++ [1] →
    ∀ fuel, 9 * k + 8 ≤ fuel →
    execDouble (loopBlocks n) 1 fuel m =
      ExecResult.returned (m.out ++ [(printFormat "show", RVal.fp n)]) (T ++ loopTrace k) := by
  induction k with
  | zero =>
    intro i m T hik hb hpc hmem ht fuel hf
    have : i = n := by omega
    subst this
    exact loop_exit_double i m T hb hpc hmem ht fuel (by omega)
  | succ k ih =>
    intro i m T hik hb hpc hmem ht fuel hf
    obtain ⟨f, rfl⟩ : ∃ f, fuel = f + 9 := ⟨fuel - 9, by omega⟩
    rw [loop_round_double n i (by omega) (by omega) m T hb hpc hmem ht f,
      ih (if i < 2 ^ 53 then i + 1 else i) _ (T ++ [1, 2])
        (by rw [if_pos (by omega)]; omega) rfl rfl (by simp) rfl f (by omega)]
    simp [loopTrace]

theorem loop_spins_double (n : ℕ) (hn : 2 ^ 53 < n) :
    ∀ (fuel i : ℕ) (m : Machine) (T : List ℕ), i ≤ 2 ^ 53 →
    m.block = 1 → m.pc = 0 → m.mem 0 = RVal.fp i → m.trace = T ++ [1] →
    execDouble (loopBlocks n) 1 fuel m = ExecResult.noFuel := by
  intro fuel
  induction fuel using Nat.strong_induction_on with
  | _ fuel ih =>
    intro i m T hi hb hpc hmem ht
    rcases Nat.lt_or_ge fuel 9 with hsmall | hbig
    · have hq : (i : ℚ) < (n : ℚ) := by exact_mod_cast (by omega : i < n)
      have ha := arithDouble_succ i hi
      interval_cases fuel <;>
        simp [execDouble, fetch, loopBlocks, stepDouble, step, Machine.setReg, Machine.eval,
          Machine.jump, compare, hb, hpc, hmem, ht, hq, ha]
    · obtain ⟨f, rfl⟩ : ∃ f, fuel = f + 9 := ⟨fuel - 9, by omega⟩
      rw [loop_round_double n i hi (by omega) m T hb hpc hmem ht f]
      exact ih f (by omega) (if i < 2 ^ 53 then i + 1 else i) _ (T ++ [1, 2])
        (by split_ifs <;> omega) rfl rfl (by simp) rfl

theorem loop_start_double (n : ℕ) (f : ℕ) :
    execDouble (loopBlocks n) 1 (f + 2) Machine.start =
      execDouble (loopBlocks n) 1 f
        { block := 1, pc := 0, regs := fun _ => RVal.undef,
          mem := fun a => if a = 0 then RVal.fp ((0 : ℕ) : ℚ) else RVal.undef,
          out := [], trace := [] ++ [1] } := by
  simp [execDouble, fetch, loopBlocks, stepDouble, step, Machine.eval, Machine.jump,
    Machine.start]

/-! ### Lexing a source text token by token -/

theorem lex_word (lx : SarcasmLexer) (ws w rest : List Char) (c x : Char) (tok : Token)
    (h : lx.rest = ws ++ (c :: w ++ x :: rest)) (hws : ws.all isspace = true)
    (hc : (isalpha c || c = '_') = true) (hw : w.all isWordChar = true)
    (hx : isWordChar x = false)
    (ht : SarcasmLexer.classifyWord (String.mk ((c :: w).map tolower)) = tok) :
    ∃ lx2, lx.nextToken = (tok, lx2) ∧ lx2.rest = x :: rest := by
  have := nextToken_word lx ws w (x :: rest) c h (by simpa using hws) hc (by simpa using hw)
    (fun y hy => by
      simp only [List.head?_cons, Option.some.injEq] at hy
      subst hy
      exact hx)
  rw [ht] at this
  exact ⟨_, this, rest_advance lx (ws ++ c :: w) (x :: rest) _ (by simpa using h)
    (by simp [Nat.add_assoc])⟩

theorem lex_last_word (lx : SarcasmLexer) (ws w : List Char) (c : Char) (tok : Token)
    (h : lx.rest = ws ++ (c :: w ++ [])) (hws : ws.all isspace = true)
    (hc : (isalpha c || c = '_') = true) (hw : w.all isWordChar = true)
    (ht : SarcasmLexer.classifyWord (String.mk ((c :: w).map tolower)) = tok) :
    ∃ lx2, lx.nextToken = (tok, lx2) ∧ lx2.rest = [] := by
  have := nextToken_word lx ws w [] c h (by simpa using hws) hc (by simpa using hw)
    (fun y hy => by simp at hy)
  rw [ht] at this
  exact ⟨_, this, rest_advance lx (ws ++ c :: w) [] _ (by simpa using h)
    (by simp [Nat.add_assoc])⟩

theorem lex_insult (lx : SarcasmLexer) (ws : List Char) (tag : String) (rest : List Char)
    (x : Char) (htag : tag ∈ insults) (h : lx.rest = ws ++ (tag.data ++ x :: rest))
    (hws : ws.all isspace = true) (hx : isWordChar x = false) :
    ∃ lx2, lx.nextToken = (⟨TOKEN_INSULT, tag, 0⟩, lx2) ∧ lx2.rest = x :: rest := by
  obtain ⟨h1, h2, h3⟩ := insult_words tag htag
  rcases hd : tag.data with _ | ⟨c, w⟩
  · rw [hd] at h1; simp at h1
  · rw [hd] at h1 h2
    simp only [Bool.and_eq_true] at h1
    exact lex_word lx ws w rest c x _ (by rw [h, hd]) hws h1.1 h1.2 hx (by rw [h2, h3])

theorem lex_number (lx : SarcasmLexer) (ws w rest : List Char) (c x : Char)
    (h : lx.rest = ws ++ (c :: w ++ x :: rest)) (hws : ws.all isspace = true)
    (hc : isdigit c = true) (hw : ∀ y ∈ w, (isdigit y || y = '.') = true)
    (hx : (isdigit x || x = '.') = false) :
    ∃ lx2, lx.nextToken = (⟨TOKEN_NUMBER, String.mk (c :: w), stod (c :: w)⟩, lx2) ∧
      lx2.rest = x :: rest := by
  have := nextToken_number lx ws w (x :: rest) c h (by simpa using hws) hc hw
    (fun y hy => by
      simp only [List.head?_cons, Option.some.injEq] at hy
      subst hy
      exact hx)
  exact ⟨_, this, rest_advance lx (ws ++ c :: w) (x :: rest) _ (by simpa using h)
    (by simp [Nat.add_assoc])⟩

theorem lex_punctuation (lx : SarcasmLexer) (ws rest : List Char) (c : Char) (tok : Token)
    (h : lx.rest = ws ++ c :: rest) (hws : ws.all isspace = true)
    (hs : isspace c = false) (hd : isdigit c = false) (ha : (isalpha c || c = '_') = false)
    (ht : SarcasmLexer.punctuation c = tok) :
    ∃ lx2, lx.nextToken = (tok, lx2) ∧ lx2.rest = rest := by
  have := nextToken_punctuation lx ws rest c h (by simpa using hws) hs hd ha
  rw [ht] at this
  exact ⟨_, this, rest_advance lx (ws ++ [c]) rest _ (by simpa using h)
    (by simp [Nat.add_assoc])⟩

theorem lex_end (lx : SarcasmLexer) (h : lx.rest.all isspace = true) :
    ∃ lx2, lx.nextToken = (⟨TOKEN_EOF, "", 0⟩, lx2) :=
  ⟨_, nextToken_end lx (by simpa using h)⟩

theorem loopSource_feeds (t1 t2 t3 t4 : String) (c : Char) (w : List Char)
    (h1 : t1 ∈ insults) (h2 : t2 ∈ insults) (h3 : t3 ∈ insults) (h4 : t4 ∈ insults)
    (hc : isdigit c = true) (hw : ∀ x ∈ w, (isdigit x || x = '.') = true) (n : ℕ)
    (hn : stod (c :: w) = (n : ℚ)) :
    ∃ q : SarcasmParser,
      Feeds (SarcasmParser.new (loopSource t1 t2 t3 t4 (c :: w)))
        (loopTokens t1 t2 t3 t4 (String.mk (c :: w)) n) q ∧
      q.currentToken = ⟨TOKEN_EOF, "", 0⟩ ∧ q.cerr = [] := by
  have hsrc : (SarcasmLexer.new (loopSource t1 t2 t3 t4 (c :: w))).rest =
      [] ++ (t1.data ++ ':' :: (" i = 0\n".data ++ (t2.data ++ ':' :: (" whatever i < ".data ++
        (c :: w ++ ' ' :: ("do \x7b ".data ++ (t3.data ++ ':' :: (" i = i + 1 \x7d\n".data ++
          (t4.data ++ ':' :: " show i".data))))))))) := by
    simp [SarcasmLexer.rest, SarcasmLexer.new, loopSource, String.data_append]
  obtain ⟨l1, e1, r1⟩ := lex_insult _ [] t1 _ ':' h1 hsrc (by decide) (by decide)
  obtain ⟨l2, e2, r2⟩ := lex_punctuation l1 [] _ ':' ⟨TOKEN_COLON, ":", 0⟩ (by rw [r1]; rfl)
    (by decide) (by decide) (by decide) (by decide) (by decide)
  obtain ⟨l3, e3, r3⟩ := lex_word l2 [' '] [] _ 'i' ' ' ⟨TOKEN_IDENTIFIER, "i", 0⟩
    (by rw [r2]; rfl) (by decide) (by decide) (by decide) (by decide) (by decide)
  obtain ⟨l4, e4, r4⟩ := lex_punctuation l3 [' '] _ '=' ⟨TOKEN_ASSIGN, "=", 0⟩
    (by rw [r3]; rfl) (by decide) (by decide) (by decide) (by decide) (by decide)
  obtain ⟨l5, e5, r5⟩ := lex_number l4 [' '] [] _ '0' '\n' (by rw [r4]; rfl) (by decide)
    (by decide) (by simp) (by decide)
  obtain ⟨l6, e6, r6⟩ := lex_insult l5 ['\n'] t2 _ ':' h2 (by rw [r5]; rfl) (by decide)
    (by decide)
  obtain ⟨l7, e7, r7⟩ := lex_punctuation l6 [] _ ':' ⟨TOKEN_COLON, ":", 0⟩ (by rw [r6]; rfl)
    (by decide) (by decide) (by decide) (by decide) (by decide)
  obtain ⟨l8, e8, r8⟩ := lex_word l7 [' '] "hatever".data _ 'w' ' '
    ⟨TOKEN_WHATEVER, "whatever", 0⟩
    (by rw [r7]; rfl) (by decide) (by decide) (by decide) (by decide) (by decide)
  obtain ⟨l9, e9, r9⟩ := lex_word l8 [' '] [] _ 'i' ' ' ⟨TOKEN_IDENTIFIER, "i", 0⟩
    (by rw [r8]; rfl) (by decide) (by decide) (by decide) (by decide) (by decide)
  obtain ⟨l10, e10, r10⟩ := lex_punctuation l9 [' '] _ '<' ⟨TOKEN_LESS, "<", 0⟩
    (by rw [r9]; rfl) (by decide) (by decide) (by decide) (by decide) (by decide)
  obtain ⟨l11, e11, r11⟩ := lex_number l10 [' '] w _ c ' ' (by rw [r10]; rfl) (by decide)
    hc hw (by decide)
  obtain ⟨l12, e12, r12⟩ := lex_word l11 [' '] ['o'] _ 'd' ' ' ⟨TOKEN_DO, "do", 0⟩
    (by rw [r11]; rfl) (by decide) (by decide) (by decide) (by decide) (by decide)
  obtain ⟨l13, e13, r13⟩ := lex_punctuation l12 [' '] _ '\x7b' ⟨TOKEN_LBRACE, "\x7b", 0⟩
    (by rw [r12]; rfl) (by decide) (by decide) (by decide) (by decide) (by decide)
  obtain ⟨l14, e14, r14⟩ := lex_insult l13 [' '] t3 _ ':' h3 (by rw [r13]; rfl) (by decide)
    (by decide)
  obtain ⟨l15, e15, r15⟩ := lex_punctuation l14 [] _ ':' ⟨TOKEN_COLON, ":", 0⟩
    (by rw [r14]; rfl) (by decide) (by decide) (by decide) (by decide) (by decide)
  obtain ⟨l16, e16, r16⟩ := lex_word l15 [' '] [] _ 'i' ' ' ⟨TOKEN_IDENTIFIER, "i", 0⟩
    (by rw [r15]; rfl) (by decide) (by decide) (by decide) (by decide) (by decide)
  obtain ⟨l17, e17, r17⟩ := lex_punctuation l16 [' '] _ '=' ⟨TOKEN_ASSIGN, "=", 0⟩
    (by rw [r16]; rfl) (by decide) (by decide) (by decide) (by decide) (by decide)
  obtain ⟨l18, e18, r18⟩ := lex_word l17 [' '] [] _ 'i' ' ' ⟨TOKEN_IDENTIFIER, "i", 0⟩
    (by rw [r17]; rfl) (by decide) (by decide) (by decide) (by decide) (by decide)
  obtain ⟨l19, e19, r19⟩ := lex_punctuation l18 [' '] _ '+' ⟨TOKEN_PLUS, "+", 0⟩
    (by rw [r18]; rfl) (by decide) (by decide) (by decide) (by decide) (by decide)
  obtain ⟨l20, e20, r20⟩ := lex_number l19 [' '] [] _ '1' ' ' (by rw [r19]; rfl) (by decide)
    (by decide) (by simp) (by decide)
  obtain ⟨l21, e21, r21⟩ := lex_punctuation l20 [' '] _ '\x7d' ⟨TOKEN_RBRACE, "\x7d", 0⟩
    (by rw [r20]; rfl) (by decide) (by decide) (by decide) (by decide) (by decide)
  obtain ⟨l22, e22, r22⟩ := lex_insult l21 ['\n'] t4 _ ':' h4 (by rw [r21]; rfl) (by decide)
    (by decide)
  obtain ⟨l23, e23, r23⟩ := lex_punctuation l22 [] _ ':' ⟨TOKEN_COLON, ":", 0⟩
    (by rw [r22]; rfl) (by decide) (by decide) (by decide) (by decide) (by decide)
  obtain ⟨l24, e24, r24⟩ := lex_word l23 [' '] "how".data _ 's' ' ' ⟨TOKEN_SHOW, "show", 0⟩
    (by rw [r23]; rfl) (by decide) (by decide) (by decide) (by decide) (by decide)
  obtain ⟨l25, e25, r25⟩ := lex_last_word l24 [' '] [] 'i' ⟨TOKEN_IDENTIFIER, "i", 0⟩
    (by rw [r24]; rfl) (by decide) (by decide) (by decide) (by decide)
  obtain ⟨l26, e26⟩ := lex_end l25 (by rw [r25]; rfl)
  have s0 : stod ['0'] = 0 := by decide!
  have s1 : stod ['1'] = 1 := by decide!
  rw [s0] at e5
  rw [s1] at e20
  rw [hn] at e11
  refine ⟨_, ⟨?_, ?_, ?_, ?_, ?_, ?_, ?_, ?_, ?_, ?_, ?_, ?_, ?_, ?_, ?_, ?_, ?_, ?_, ?_, ?_,
    ?_, ?_, ?_, ?_, ?_, rfl⟩, ?_, ?_⟩
  all_goals
    simp only [SarcasmParser.new, SarcasmParser.nextToken, e1, e2, e3, e4, e5, e6, e7, e8, e9,
      e10, e11, e12, e13, e14, e15, e16, e17, e18, e19, e20, e21, e22, e23, e24, e25, e26]

theorem execDouble_loop (n : ℕ) (hn : n ≤ 2 ^ 53) (fuel : ℕ) (hf : 9 * n + 10 ≤ fuel) :
    execDouble (loopBlocks n) 1 fuel Machine.start =
      ExecResult.returned [(printFormat "show", RVal.fp n)] (loopTrace n) := by
  obtain ⟨f, rfl⟩ : ∃ f, fuel = f + 2 := ⟨fuel - 2, by omega⟩
  rw [loop_start_double, loop_exec_double n n hn 0 _ [] (by omega) rfl rfl (by simp) rfl f
    (by omega)]
  simp

theorem execDouble_loop_spins (n : ℕ) (hn : 2 ^ 53 < n) (fuel : ℕ) :
    execDouble (loopBlocks n) 1 fuel Machine.start = ExecResult.noFuel := by
  rcases Nat.lt_or_ge fuel 2 with h | h
  · interval_cases fuel <;>
      simp [execDouble, fetch, loopBlocks, stepDouble, step, Machine.eval, Machine.jump,
        Machine.start]
  · obtain ⟨f, rfl⟩ : ∃ f, fuel = f + 2 := ⟨fuel - 2, by omega⟩
    rw [loop_start_double]
    exact loop_spins_double n hn f 0 _ [] (by omega) rfl rfl (by simp) rfl

theorem loopSource_parses (t1 t2 t3 t4 : String) (c : Char) (w : List Char)
    (h1 : t1 ∈ insults) (h2 : t2 ∈ insults) (h3 : t3 ∈ insults) (h4 : t4 ∈ insults)
    (hc : isdigit c = true) (hw : ∀ x ∈ w, (isdigit x || x = '.') = true) (n : ℕ)
    (hn : stod (c :: w) = (n : ℚ)) :
    ∃ q : SarcasmParser, q.cerr = [] ∧
      Returns (fun fuel => parseProgram fuel
        (SarcasmParser.new (loopSource t1 t2 t3 t4 (c :: w)))) (loopProgram t1 t2 t3 t4 n, q) := by
  obtain ⟨q, hf, hq, hcerr⟩ := loopSource_feeds t1 t2 t3 t4 c w h1 h2 h3 h4 hc hw n hn
  exact ⟨q, hcerr, parseProgram_of_derives (loopTokens_derive t1 t2 t3 t4 _ n) hf (by rw [hq])⟩

theorem runParsedDouble_loop (t1 t2 t3 t4 : String) (n : ℕ) (q : SarcasmParser) (fuel : ℕ) :
    runParsedDouble Globals.initial fuel (some (loopProgram t1 t2 t3 t4 n, q)) =
      { cerr := q.cerr, program := loopProgram t1 t2 t3 t4 n,
        cout := ((generateMain Globals.initial (loopProgram t1 t2 t3 t4 n)).getD
          (CodegenState.entry Globals.initial)).cout,
        outcome :=
          match execDouble (loopBlocks n) 1 fuel Machine.start with
          | ExecResult.returned out _ => Outcome.finished out
          | ExecResult.stuck => Outcome.stuck
          | ExecResult.noFuel => Outcome.noFuel,
        globals := { namedValues := [("i", 0)], lineNum := 5 } } := by
  rfl

theorem stodReturns_natCast (number : List Char) (n : ℕ)
    (hv : decimalValue number = (n : ℚ)) (hn : n ≤ 2 ^ 53) : stodReturns number := by
  unfold stodReturns
  rw [hv, nearestDouble_natCast n hn]
  rcases Nat.eq_zero_or_pos n with h0 | hpos
  · left; simp [h0]
  · right
    have h1 : (1 : ℚ) ≤ (n : ℚ) := by exact_mod_cast hpos
    have h2 : (n : ℚ) ≤ ((2 ^ 53 : ℕ) : ℚ) := by exact_mod_cast hn
    refine ⟨le_trans ?_ h1, lt_of_le_of_lt h2 (by norm_num)⟩
    rw [zpow_neg]
    exact inv_le_one_of_one_le₀ (one_le_zpow₀ (by norm_num) (by norm_num))

theorem loopSource_runs (t1 t2 t3 t4 : String) (c : Char) (w : List Char)
    (h1 : t1 ∈ insults) (h2 : t2 ∈ insults) (h3 : t3 ∈ insults) (h4 : t4 ∈ insults)
    (hc : isdigit c = true) (hw : ∀ x ∈ w, (isdigit x || x = '.') = true) (n : ℕ)
    (hn : stod (c :: w) = (n : ℚ)) :
    ∃ N, ∀ fuel, N ≤ fuel →
      (compileAndRunDouble Globals.initial fuel (loopSource t1 t2 t3 t4 (c :: w))).program =
        loopProgram t1 t2 t3 t4 n ∧
      (compileAndRunDouble Globals.initial fuel (loopSource t1 t2 t3 t4 (c :: w))).cerr = [] ∧
      (compileAndRunDouble Globals.initial fuel (loopSource t1 t2 t3 t4 (c :: w))).outcome =
        match execDouble (loopBlocks n) 1 fuel Machine.start with
        | ExecResult.returned out _ => Outcome.finished out
        | ExecResult.stuck => Outcome.stuck
        | ExecResult.noFuel => Outcome.noFuel := by
  obtain ⟨q, hcerr, N, hN⟩ := loopSource_parses t1 t2 t3 t4 c w h1 h2 h3 h4 hc hw n hn
  refine ⟨N, fun fuel hf => ?_⟩
  have hp := hN fuel hf
  simp only at hp
  rw [compileAndRunDouble, hp, runParsedDouble_loop]
  exact ⟨rfl, hcerr, rfl⟩

/-- Claim C2, as stated, fails beyond the precision of a double.  The number type of the
language is `double`.  For the literal 9007199254740994, which is 2 ^ 53 + 2 and a double,
the source text of the counting loop parses to the loop program without a parse error, and
its run on doubles never finishes, whatever the fuel: the counter reaches 2 ^ 53, where
adding 1 rounds back to 2 ^ 53, and stays below the limit.  For the literal
9007199254740993, which is 2 ^ 53 + 1, `std::stod` returns 2 ^ 53 and the program prints
9007199254740992.00, not the literal. -/
theorem counting_loop_stalls_beyond_double_precision :
    stod "9007199254740994".data = ((2 ^ 53 + 2 : ℕ) : ℚ) ∧
    (∃ N, ∀ fuel, N ≤ fuel →
      (compileAndRunDouble Globals.initial fuel
          (loopSource "idiot" "moron" "fool" "dummy" "9007199254740994".data)).program =
        loopProgram "idiot" "moron" "fool" "dummy" (2 ^ 53 + 2) ∧
      (compileAndRunDouble Globals.initial fuel
          (loopSource "idiot" "moron" "fool" "dummy" "9007199254740994".data)).cerr = [] ∧
      (compileAndRunDouble Globals.initial fuel
          (loopSource "idiot" "moron" "fool" "dummy" "9007199254740994".data)).outcome =
        Outcome.noFuel) ∧
    (∀ fuel, execDouble (loopBlocks (2 ^ 53 + 2)) 1 fuel Machine.start = ExecResult.noFuel) ∧
    stod "9007199254740993".data = ((2 ^ 53 : ℕ) : ℚ) ∧
    (∃ N, ∀ fuel, N ≤ fuel →
      (compileAndRunDouble Globals.initial fuel
          (loopSource "idiot" "moron" "fool" "dummy" "9007199254740993".data)).outcome.printed =
        [some "Fine, here\x27s your precious number: 9007199254740992.00\n"]) := by
  have s1 : stod "9007199254740994".data = ((2 ^ 53 + 2 : ℕ) : ℚ) := by decide!
  have s2 : stod "9007199254740993".data = ((2 ^ 53 : ℕ) : ℚ) := by decide!
  refine ⟨s1, ?_, execDouble_loop_spins _ (by norm_num), s2, ?_⟩
  · obtain ⟨N, hN⟩ := loopSource_runs "idiot" "moron" "fool" "dummy" '9' "007199254740994".data
      (by decide) (by decide) (by decide) (by decide) (by decide) (by decide) (2 ^ 53 + 2) s1
    refine ⟨N, fun fuel hf => ?_⟩
    obtain ⟨a, b, c⟩ := hN fuel hf
    refine ⟨a, b, ?_⟩
    rw [c, execDouble_loop_spins _ (by norm_num)]
  · obtain ⟨N, hN⟩ := loopSource_runs "idiot" "moron" "fool" "dummy" '9' "007199254740993".data
      (by decide) (by decide) (by decide) (by decide) (by decide) (by decide) (2 ^ 53) s2
    refine ⟨max N (9 * 2 ^ 53 + 10), fun fuel hf => ?_⟩
    obtain ⟨-, -, c⟩ := hN fuel (le_trans (le_max_left _ _) hf)
    have e : "9007199254740993".data = '9' :: "007199254740993".data := rfl
    rw [e, c, execDouble_loop (2 ^ 53) (le_refl _) fuel (le_trans (le_max_right _ _) hf)]
    simp only [Outcome.printed, List.map_cons, List.map_nil, printfText_show_natCast]
    decide

/-- Claim C2, amended.  The counting loop terminates up to 2 ^ 53.  For every choice of the
four line tags in the vocabulary and every natural number `n` up to
2 ^ 53 = 9007199254740992, written as any literal (a digit followed by digits and points)
whose decimal value is `n`, the conversion of the literal returns, and `compileAndRun` on
the source text of `i = 0`; `whatever i < n do { i = i + 1 }`; `show i`, with the generated
code executed on doubles, parses the text to the loop program without a parse error, and
the run terminates: it makes exactly one call of `printf`, with the `show` format and the
value `n`, which renders as `n` followed by `.00`.  The run enters the condition block
`n + 1` times and the body block exactly `n` times (`loopTrace`).  The usual decimal
spelling of `n` is such a literal. -/
theorem counting_loop_terminates_up_to_2_pow_53 (t1 t2 t3 t4 : String) (n : ℕ)
    (h1 : t1 ∈ insults) (h2 : t2 ∈ insults) (h3 : t3 ∈ insults) (h4 : t4 ∈ insults)
    (hn : n ≤ 2 ^ 53) :
    (∀ (c : Char) (w : List Char), isdigit c = true →
      (∀ x ∈ w, (isdigit x || x = '.') = true) → decimalValue (c :: w) = (n : ℚ) →
      stodReturns (c :: w) ∧ ∃ N, ∀ fuel, N ≤ fuel →
        (compileAndRunDouble Globals.initial fuel (loopSource t1 t2 t3 t4 (c :: w))).program =
          loopProgram t1 t2 t3 t4 n ∧
        (compileAndRunDouble Globals.initial fuel (loopSource t1 t2 t3 t4 (c :: w))).cerr =
          [] ∧
        (compileAndRunDouble Globals.initial fuel (loopSource t1 t2 t3 t4 (c :: w))).outcome =
          Outcome.finished [(printFormat "show", RVal.fp n)] ∧
        (compileAndRunDouble Globals.initial fuel
            (loopSource t1 t2 t3 t4 (c :: w))).outcome.printed =
          [some ("Fine, here\x27s your precious number: " ++ Nat.repr n ++ ".00\n")] ∧
        ∃ s, generateMain Globals.initial (loopProgram t1 t2 t3 t4 n) = some s ∧
          execDouble s.blocks s.allocas.length fuel Machine.start =
            ExecResult.returned [(printFormat "show", RVal.fp n)] (loopTrace n)) ∧
    (∃ (c : Char) (w : List Char), (Nat.repr n).data = c :: w ∧ isdigit c = true ∧
      (∀ x ∈ w, (isdigit x || x = '.') = true) ∧ decimalValue (c :: w) = (n : ℚ)) ∧
    (loopTrace n).count 2 = n ∧ (loopTrace n).count 1 = n + 1 := by
  refine ⟨fun c w hc hw hv => ?_, ?_, (loopTrace_count _).1, (loopTrace_count _).2⟩
  · have hs : stod (c :: w) = (n : ℚ) := by
      rw [stod, hv, nearestDouble_natCast _ hn]
    obtain ⟨N, hN⟩ := loopSource_runs t1 t2 t3 t4 c w h1 h2 h3 h4 hc hw n hs
    refine ⟨stodReturns_natCast _ n hv hn, max N (9 * n + 10), fun fuel hf => ?_⟩
    obtain ⟨a, b, e⟩ := hN fuel (le_trans (le_max_left _ _) hf)
    have he := execDouble_loop _ hn fuel (le_trans (le_max_right _ _) hf)
    rw [he] at e
    obtain ⟨s, hs1, hs2, hs3⟩ := generateMain_loop t1 t2 t3 t4 n
    refine ⟨a, b, e, ?_, s, hs1, ?_⟩
    · rw [e]
      simp only [Outcome.printed, List.map_cons, List.map_nil, printfText_show_natCast]
    · rw [hs2, hs3, he]
  · obtain ⟨c, w, e, hc, hw, hv⟩ := repr_literal n
    refine ⟨c, w, e, hc, fun x hx => by simp [hw x hx], ?_⟩
    rw [decimalValue_digits (c :: w) (fun x hx => by
      rcases List.mem_cons.1 hx with rfl | hx
      · exact hc
      · exact hw x hx), hv]

theorem counting_loop_terminates_up_to_2_pow_53_witness :
    (∃ N, ∀ fuel, N ≤ fuel →
      (compileAndRunDouble Globals.initial fuel
          (loopSource "idiot" "moron" "fool" "dummy" ['3'])).outcome.printed =
        [some ("Fine, here\x27s your precious number: " ++ Nat.repr 3 ++ ".00\n")]) ∧
    (compileAndRunDouble Globals.initial 100
        "idiot: i = 0\nmoron: whatever i < 3 do \x7b fool: i = i + 1 \x7d\ndummy: show i"
      ).outcome.printed = [some "Fine, here\x27s your precious number: 3.00\n"] :=
  ⟨((counting_loop_terminates_up_to_2_pow_53 "idiot" "moron" "fool" "dummy" 3
      (by decide) (by decide) (by decide) (by decide) (by decide)).1 '3' [] (by decide)
      (by decide) (by decide!)).2.imp (fun _ h fuel hf => (h fuel hf).2.2.2.1),
    by decide!⟩

/-! ### Literals as doubles -/

theorem runParsedDouble_print_literal (tag : String) (q : ℚ) (fuel : ℕ) (hfuel : 2 ≤ fuel)
    (parser : SarcasmParser) :
    (runParsedDouble Globals.initial fuel
        (some ([SarcasmLineAST tag (PrintAST (NumberExprAST q) "show")], parser))).outcome =
      Outcome.finished [(printFormat "show", RVal.fp q)] := by
  obtain ⟨f, rfl⟩ : ∃ f, fuel = f + 2 := ⟨fuel - 2, by omega⟩
  rfl

theorem stodReturns_not_overflows (number : List Char) (h : stodReturns number) :
    ¬ stodOverflows number := by
  unfold stodOverflows
  rcases h with h | ⟨-, h⟩
  · rw [h]
    have : nearestDouble 0 = 0 := rfl
    rw [this]
    norm_num
  · exact not_le.mpr h

/-- Claim C16, as stated, fails for a sign and for magnitude.  The source `idiot: show -5`
parses to a `Print` of a subtraction whose left operand is missing, not to a `Print` of a
literal, and the program does not print -5.00.  A literal is converted to a `double`:
`idiot: show 12345678901234567890.5` prints 12345678901234567168.00 and
`idiot: show 2.675` prints 2.67, the renderings of the nearest doubles; for the literal
written as 1 followed by 309 zeros `std::stod` throws. -/
theorem literal_round_trip_fails_for_sign_and_magnitude :
    (compileAndRun Globals.initial 100 "idiot: show -5").program =
      [SarcasmLineAST "idiot"
        (PrintAST (BinaryExprAST '-' nullptr (NumberExprAST 5)) "show")] ∧
    (compileAndRun Globals.initial 100 "idiot: show -5").outcome = Outcome.crashed ∧
    (compileAndRun Globals.initial 100 "idiot: show -5").outcome.printed ≠
      [some "Fine, here\x27s your precious number: -5.00\n"] ∧
    (compileAndRun Globals.initial 100 "idiot: show 12345678901234567890.5").outcome.printed =
      [some "Fine, here\x27s your precious number: 12345678901234567168.00\n"] ∧
    (compileAndRun Globals.initial 100 "idiot: show 2.675").outcome.printed =
      [some "Fine, here\x27s your precious number: 2.67\n"] ∧
    stodOverflows ('1' :: List.replicate 309 '0') := by
  refine ⟨by decide!, by decide!, by decide!, by decide!, by decide!, by decide!⟩

/-- Claim C16, amended.  Round trip of a printed literal without sign, within the range of
a double.  A numeric literal is a digit followed by digits and dots; it has no sign.  For
every tag of the vocabulary and every such literal whose value is zero or at least the
smallest normal double and does not round beyond the largest double (`stodReturns`), the
conversion does not throw, and `compileAndRun` on `tag: show N` parses, with enough fuel,
to the one line `Print` of the double nearest to the literal (the value `std::stod`
returns), writes nothing to `std::cerr`, and makes one call of `printf`, with exact
arithmetic and with arithmetic on doubles alike, whose text is the `show` template followed
by that double with exactly two digits after the point and a newline.  A literal that is a natural number up to 2 ^ 53 is its own nearest double.  The
value of a literal is never negative.  A `-` is lexed as the operator token, and
`parseFactor` does not accept an operator token as the start of a factor. -/
theorem unsigned_literal_prints_nearest_double (tag : String) (c : Char) (w : List Char)
    (htag : tag ∈ insults) (hc : isdigit c = true)
    (hw : ∀ x ∈ w, (isdigit x || x = '.') = true) (hr : stodReturns (c :: w)) :
    ¬ stodOverflows (c :: w) ∧
    (∃ N, ∀ fuel, N ≤ fuel →
      (compileAndRun Globals.initial fuel (tag ++ ": show " ++ String.mk (c :: w))).program =
        [SarcasmLineAST tag
          (PrintAST (NumberExprAST (nearestDouble (decimalValue (c :: w)))) "show")] ∧
      (compileAndRun Globals.initial fuel (tag ++ ": show " ++ String.mk (c :: w))).cerr = [] ∧
      (compileAndRun Globals.initial fuel (tag ++ ": show " ++ String.mk (c :: w))).outcome =
        Outcome.finished
          [(printFormat "show", RVal.fp (nearestDouble (decimalValue (c :: w))))] ∧
      (compileAndRunDouble Globals.initial fuel
          (tag ++ ": show " ++ String.mk (c :: w))).outcome =
        Outcome.finished
          [(printFormat "show", RVal.fp (nearestDouble (decimalValue (c :: w))))] ∧
      (compileAndRun Globals.initial fuel
          (tag ++ ": show " ++ String.mk (c :: w))).outcome.printed =
        [some ("Fine, here\x27s your precious number: " ++
          formatFixed2 (nearestDouble (decimalValue (c :: w))) ++ "\n")]) ∧
    ((∀ x ∈ w, isdigit x = true) → digitsValue 0 (c :: w) ≤ 2 ^ 53 →
      nearestDouble (decimalValue (c :: w)) = (digitsValue 0 (c :: w) : ℚ)) ∧
    0 ≤ nearestDouble (decimalValue (c :: w)) ∧
    (∃ whole frac : String,
      formatFixed2 (nearestDouble (decimalValue (c :: w))) = whole ++ "." ++ frac ∧
      frac.data.length = 2 ∧ frac.data.all isdigit = true) ∧
    (∀ (lx : SarcasmLexer) (rest : List Char), lx.rest = '-' :: rest →
      lx.nextToken.1 = ⟨TOKEN_MINUS, "-", 0⟩) ∧
    (∀ (p : SarcasmParser) (fuel : ℕ), p.currentToken.type = TOKEN_MINUS →
      parseFactor (fuel + 1) p = some (nullptr, p)) := by
  refine ⟨stodReturns_not_overflows _ hr, ?_, fun hd hn => ?_, stod_nonneg _,
    formatFixed2_shape _, fun lx rest h => ?_, fun p fuel h => ?_⟩
  · obtain ⟨q, hf, hq, hcerr⟩ := print_literal_feeds tag c w htag hc hw
    have hd : Derives Nonterminal.lines
        ([⟨TOKEN_INSULT, tag, 0⟩, ⟨TOKEN_COLON, ":", 0⟩, ⟨TOKEN_SHOW, "show", 0⟩,
          ⟨TOKEN_NUMBER, String.mk (c :: w), stod (c :: w)⟩] ++ [])
        ([SarcasmLineAST tag (PrintAST (NumberExprAST (stod (c :: w))) "show")] :
          List ASTNode) :=
      Derives.linesCons _ _ _ _
        (Derives.line ⟨TOKEN_INSULT, tag, 0⟩ ⟨TOKEN_COLON, ":", 0⟩ _ _ rfl rfl
          (Derives.print ⟨TOKEN_SHOW, "show", 0⟩ _ _ rfl
            (Derives.exprTerm _ _ (Derives.termFactor _ _
              (Derives.number ⟨TOKEN_NUMBER, String.mk (c :: w), stod (c :: w)⟩ rfl)))))
        Derives.linesNil
    obtain ⟨N, hN⟩ := parseProgram_of_derives hd hf (by rw [hq])
    refine ⟨max N 2, fun fuel hfuel => ?_⟩
    have hp := hN fuel (le_trans (le_max_left _ _) hfuel)
    simp only at hp
    have hout := runParsed_print_literal tag (stod (c :: w)) fuel
      (le_trans (le_max_right _ _) hfuel) q
    have e : compileAndRun Globals.initial fuel (tag ++ ": show " ++ String.mk (c :: w)) =
        runParsed Globals.initial fuel
          (some ([SarcasmLineAST tag (PrintAST (NumberExprAST (stod (c :: w))) "show")], q)) := by
      rw [compileAndRun, hp]
    have hout2 := runParsedDouble_print_literal tag (stod (c :: w)) fuel
      (le_trans (le_max_right _ _) hfuel) q
    have e2 : compileAndRunDouble Globals.initial fuel
          (tag ++ ": show " ++ String.mk (c :: w)) =
        runParsedDouble Globals.initial fuel
          (some ([SarcasmLineAST tag (PrintAST (NumberExprAST (stod (c :: w))) "show")], q)) := by
      rw [compileAndRunDouble, hp]
    rw [e, hout, e2, hout2]
    refine ⟨rfl, hcerr, rfl, rfl, ?_⟩
    simp only [Outcome.printed, List.map_cons, List.map_nil, printfText_printFormat, if_true]
    rfl
  · exact stod_digits (c :: w) (fun x hx => by
      rcases List.mem_cons.1 hx with rfl | hx
      · exact hc
      · exact hd x hx) hn
  · have := nextToken_punctuation lx [] rest '-' (by rw [h]; rfl) (by simp) (by decide)
      (by decide) (by decide)
    rw [this]
    rfl
  · simp [parseFactor, h]

theorem unsigned_literal_prints_nearest_double_witness :
    (∃ N, ∀ fuel, N ≤ fuel →
      (compileAndRun Globals.initial fuel
          ("idiot" ++ ": show " ++ String.mk ('1' :: "2345678901234567890.5".data))).outcome =
        Outcome.finished [(printFormat "show",
          RVal.fp (nearestDouble (decimalValue ('1' :: "2345678901234567890.5".data))))]) ∧
    formatFixed2 (nearestDouble (decimalValue ('1' :: "2345678901234567890.5".data))) =
      "12345678901234567168.00" :=
  ⟨(unsigned_literal_prints_nearest_double "idiot" '1' "2345678901234567890.5".data
      (by decide) (by decide) (by decide) (by decide!)).2.1.imp
        (fun _ h fuel hf => (h fuel hf).2.2.1),
    by decide!⟩

/-- Claim C23, as stated, fails.  The conversion of a number text with two points does not
fail: for the input `1.2.3` the lexer returns a NUMBER token with the text `1.2.3` and the
value of the double nearest to 1.2, which is 5404319552844595 / 2 ^ 52; that value is in
the range in which `std::stod` returns; and a program that uses the literal runs and
prints with that value. -/
theorem second_point_does_not_fail_conversion :
    (SarcasmLexer.new "1.2.3").nextToken =
      (⟨TOKEN_NUMBER, "1.2.3", 5404319552844595 / 4503599627370496⟩,
        { input := "1.2.3".data, pos := 5 }) ∧
    stodReturns "1.2.3".data ∧
    (compileAndRunDouble Globals.initial 100 "idiot: show 1.2.3 + 1").program =
      [SarcasmLineAST "idiot"
        (PrintAST (BinaryExprAST '+' (NumberExprAST (5404319552844595 / 4503599627370496))
          (NumberExprAST 1)) "show")] ∧
    (compileAndRunDouble Globals.initial 100 "idiot: show 1.2.3 + 1").outcome.printed =
      [some "Fine, here\x27s your precious number: 2.20\n"] := by
  refine ⟨by decide!, by decide!, by decide!, by decide!⟩

/-- Claim C23, amended.  When the next token starts at a digit and the maximal run of
digits and points holds two or more points (digits `c :: a`, a point, digits `b`, a point,
and a remainder `t` of digits and points), the scan does not reject the text: `nextToken`
consumes the whole run as one number text.  The second point does not make the conversion
fail: `std::stod` converts the longest leading decimal, the text up to the second point,
and ignores what follows it, so the run has the decimal value of its leading decimal.  The
conversion of the run is therefore out of range exactly when the conversion of the leading
decimal alone is, and when the leading decimal is zero or at least the smallest normal
double and does not round beyond the largest double (`stodReturns`), the conversion does
not throw and the lexer returns one NUMBER token whose text is the whole run and whose
value is the double nearest to the leading decimal, that is to the digits of `c :: a` and
`b` read as a number and divided by ten to the length of `b`.  A leading decimal beyond the
largest double does make it throw: 1 followed by 309 zeros and `.2.3` is such a run. -/
theorem number_with_several_points_reads_leading_decimal (lx : SarcasmLexer)
    (ws a b t rest : List Char) (c : Char)
    (h : lx.rest = ws ++ (c :: (a ++ '.' :: (b ++ '.' :: t)) ++ rest))
    (hws : ∀ x ∈ ws, isspace x = true) (hc : isdigit c = true)
    (ha : ∀ x ∈ a, isdigit x = true) (hb : ∀ x ∈ b, isdigit x = true)
    (ht : ∀ x ∈ t, (isdigit x || x = '.') = true)
    (hrest : ∀ x, rest.head? = some x → (isdigit x || x = '.') = false)
    (hr : stodReturns (c :: (a ++ '.' :: b))) :
    ¬ stodOverflows (c :: (a ++ '.' :: (b ++ '.' :: t))) ∧
    lx.nextToken =
      (⟨TOKEN_NUMBER, String.mk (c :: (a ++ '.' :: (b ++ '.' :: t))),
          nearestDouble ((digitsValue 0 (c :: a ++ b) : ℚ) / (10 ^ b.length : ℕ))⟩,
        { lx with pos := lx.pos + ws.length + (c :: (a ++ '.' :: (b ++ '.' :: t))).length }) ∧
    decimalValue (c :: (a ++ '.' :: (b ++ '.' :: t))) = decimalValue (c :: (a ++ '.' :: b)) ∧
    stod (c :: (a ++ '.' :: (b ++ '.' :: t))) = stod (c :: (a ++ '.' :: b)) ∧
    (stodOverflows (c :: (a ++ '.' :: (b ++ '.' :: t))) ↔
      stodOverflows (c :: (a ++ '.' :: b))) ∧
    (stodReturns (c :: (a ++ '.' :: (b ++ '.' :: t))) ↔ stodReturns (c :: (a ++ '.' :: b))) ∧
    stodOverflows ('1' :: (List.replicate 309 '0' ++ '.' :: (['2'] ++ '.' :: ['3']))) := by
  have hca : ∀ x ∈ c :: a, isdigit x = true := by
    intro x hx
    rcases List.mem_cons.1 hx with rfl | hx
    · exact hc
    · exact ha x hx
  have h1 := decimalValue_decimal (c :: a) b ('.' :: t) hca hb (fun x hx => by
    simp only [List.head?_cons, Option.some.injEq] at hx
    subst hx
    decide)
  have h2 := decimalValue_decimal (c :: a) b [] hca hb (fun x hx => by simp at hx)
  simp only [List.append_nil, List.cons_append] at h1 h2
  have hs : stod (c :: (a ++ '.' :: (b ++ '.' :: t))) = stod (c :: (a ++ '.' :: b)) := by
    rw [stod, stod, h1, h2]
  have ho : stodOverflows (c :: (a ++ '.' :: (b ++ '.' :: t))) ↔
      stodOverflows (c :: (a ++ '.' :: b)) := by
    rw [stodOverflows, stodOverflows, h1, h2]
  have hv : stod (c :: (a ++ '.' :: (b ++ '.' :: t))) =
      nearestDouble ((digitsValue 0 (c :: a ++ b) : ℚ) / (10 ^ b.length : ℕ)) := by
    rw [stod, h1]
    rfl
  have hret : stodReturns (c :: (a ++ '.' :: (b ++ '.' :: t))) ↔
      stodReturns (c :: (a ++ '.' :: b)) := by
    rw [stodReturns, stodReturns, h1, h2]
  refine ⟨fun hx => stodReturns_not_overflows _ hr (ho.1 hx), ?_, h1.trans h2.symm, hs, ho,
    hret, by decide!⟩
  rw [← hv]
  refine nextToken_number lx ws _ rest c h hws hc ?_ hrest
  intro x hx
  simp only [List.mem_append, List.mem_cons] at hx
  rcases hx with hx | rfl | hx | rfl | hx
  · simp [ha x hx]
  · decide
  · simp [hb x hx]
  · decide
  · exact ht x hx

theorem number_with_several_points_reads_leading_decimal_witness :
    ¬ stodOverflows "10.25.3.7".data ∧
    (SarcasmLexer.new " 10.25.3.7)").nextToken =
      (⟨TOKEN_NUMBER, "10.25.3.7", ((1025 : ℕ) : ℚ) / ((100 : ℕ) : ℚ)⟩,
        { input := " 10.25.3.7)".data, pos := 10 }) :=
  ⟨(number_with_several_points_reads_leading_decimal (SarcasmLexer.new " 10.25.3.7)")
      [' '] ['0'] ['2', '5'] ['3', '.', '7'] [')'] '1' rfl (by decide) (by decide) (by decide)
      (by decide) (by decide) (by decide) (by decide!)).1,
    by decide!⟩

/-! ### Blocks that are not closed -/

theorem complainAll_complain (q : SarcasmParser) (msgs : List String) (a b : String) :
    ((q.complainAll msgs).complain a).complain b = q.complainAll (msgs ++ [a, b]) := by
  simp [SarcasmParser.complainAll, SarcasmParser.complain, List.append_assoc]

theorem complain_complain (q : SarcasmParser) (a b : String) :
    (q.complain a).complain b = q.complainAll [a, b] := by
  simp [SarcasmParser.complainAll, SarcasmParser.complain, List.append_assoc]

theorem parseStatementRest_open {p p1 p2 : SarcasmParser} {cond : ASTNode}
    {body : List ASTNode} {sep : TokenType}
    (hk : p.currentToken.type = TOKEN_OBVIOUSLY ∧ sep = TOKEN_THEN ∨
      p.currentToken.type = TOKEN_WHATEVER ∧ sep = TOKEN_DO)
    (h1 : Returns (fun fuel => parseExpression fuel p.nextToken) (cond, p1))
    (ht : p1.currentToken.type = sep)
    (hl : p1.nextToken.currentToken.type = TOKEN_LBRACE)
    (h2 : Returns (fun fuel => parseBlock fuel [] p1.nextToken.nextToken) (body, p2))
    (hr : p2.currentToken.type = TOKEN_EOF) :
    Returns (fun fuel => parseStatementRest fuel p)
      (nullptr, p2.complain (braceComplaint p.currentToken.type)) := by
  obtain ⟨n1, h1⟩ := h1
  obtain ⟨n2, h2⟩ := h2
  refine ⟨max n1 n2 + 1, fun fuel hf => ?_⟩
  obtain ⟨f, rfl⟩ : ∃ f, fuel = f + 1 := ⟨fuel - 1, by omega⟩
  rcases hk with ⟨hk, rfl⟩ | ⟨hk, rfl⟩
  · simp [parseStatementRest, hk, h1 f (by omega), ht, hl, h2 f (by omega), hr, braceComplaint]
  · simp [parseStatementRest, hk, h1 f (by omega), ht, hl, h2 f (by omega), hr, braceComplaint]

theorem parseLine_fails {p q : SarcasmParser}
    (ht : p.currentToken.type = TOKEN_INSULT)
    (hc : p.nextToken.currentToken.type = TOKEN_COLON)
    (h1 : Returns (fun fuel => parseStatement fuel p.nextToken.nextToken) (nullptr, q)) :
    Returns (fun fuel => parseLine fuel p)
      (nullptr, q.complain (statementComplaint p.currentToken.value)) := by
  obtain ⟨n1, h1⟩ := h1
  refine ⟨n1 + 1, fun fuel hf => ?_⟩
  obtain ⟨f, rfl⟩ : ∃ f, fuel = f + 1 := ⟨fuel - 1, by omega⟩
  simp [parseLine, ht, hc, h1 f (by omega), statementComplaint]

theorem parseBlock_skips {p m : SarcasmParser} {acc : List ASTNode}
    {r : List ASTNode × SarcasmParser}
    (ht : p.currentToken.type = TOKEN_INSULT)
    (h1 : Returns (fun fuel => parseLine fuel p) (nullptr, m))
    (h2 : Returns (fun fuel => parseBlock fuel acc m) r) :
    Returns (fun fuel => parseBlock fuel acc p) r := by
  obtain ⟨n1, h1⟩ := h1
  obtain ⟨n2, h2⟩ := h2
  refine ⟨max n1 n2 + 1, fun fuel hf => ?_⟩
  obtain ⟨f, rfl⟩ : ∃ f, fuel = f + 1 := ⟨fuel - 1, by omega⟩
  simp [parseBlock, ht, h1 f (by omega), h2 f (by omega)]

theorem parseProgramLoop_fails {p m : SarcasmParser} {acc : List ASTNode}
    (ht : p.currentToken.type = TOKEN_INSULT)
    (h1 : Returns (fun fuel => parseLine fuel p) (nullptr, m)) :
    Returns (fun fuel => parseProgramLoop fuel acc p)
      (acc, m.complain "scrub: Parse error encountered") := by
  obtain ⟨n1, h1⟩ := h1
  refine ⟨n1 + 1, fun fuel hf => ?_⟩
  obtain ⟨f, rfl⟩ : ∃ f, fuel = f + 1 := ⟨fuel - 1, by omega⟩
  simp [parseProgramLoop, ht, h1 f (by omega)]

theorem derives_linesThen {n : Nonterminal} {ts : List Token} {r : n.Result}
    (h : Derives n ts r) : LinesThen n ts r := by
  induction h with
  | linesNil =>
    intro p m hf h1 h2
    change m = p at hf
    subst hf
    refine ⟨⟨h1, h2⟩, fun acc r hr => ?_, fun acc r hr => ?_⟩
    · change Returns (fun fuel => parseBlock fuel (acc ++ ([] : List ASTNode)) m) r at hr
      rwa [List.append_nil] at hr
    · change Returns (fun fuel => parseProgramLoop fuel (acc ++ ([] : List ASTNode)) m) r at hr
      rwa [List.append_nil] at hr
  | linesCons ts ts2 l ls hl _ _ ih2 =>
    intro p q hf h1 h2
    obtain ⟨m, hf1, hf2⟩ := feeds_append.mp hf
    obtain ⟨⟨hm1, hm2⟩, hb, hp⟩ := ih2 m q hf2 h1 h2
    obtain ⟨hne, hline⟩ := derives_parsesAs hl
    obtain ⟨ht, hret⟩ := hline p m hf1
    refine ⟨by rw [ht]; decide, fun acc r hr => ?_, fun acc r hr => ?_⟩
    · have e : acc ++ [l] ++ ls = acc ++ (l :: ls : List ASTNode) := by simp
      exact parseBlock_returns ht (hret hm1 hm2) hne (hb (acc ++ [l]) r (e ▸ hr))
    · have e : acc ++ [l] ++ ls = acc ++ (l :: ls : List ASTNode) := by simp
      exact parseProgramLoop_returns ht (hret hm1 hm2) hne (hp (acc ++ [l]) r (e ▸ hr))
  | _ => trivial

theorem openLine_head {ts : List Token} {msgs : List String} (h : OpenLine ts msgs)
    {p q : SarcasmParser} (hf : Feeds p ts q) : p.currentToken.type = TOKEN_INSULT := by
  cases h with
  | last tag colon kw sep lb tc tb cond body ht =>
    obtain ⟨h1, -⟩ := hf
    rw [h1]; exact ht
  | nested tag colon kw sep lb tc tb inner cond body msgs ht =>
    obtain ⟨h1, -⟩ := hf
    rw [h1]; exact ht

theorem openLine_fails {ts : List Token} {msgs : List String} (h : OpenLine ts msgs) :
    ∀ p q : SarcasmParser, Feeds p ts q → q.currentToken.type = TOKEN_EOF →
      Returns (fun fuel => parseLine fuel p) (nullptr, q.complainAll msgs) := by
  induction h with
  | last tag colon kw sep lb tc tb cond body ht hc hk hcond hlb hbody =>
    intro p q hf hq
    obtain ⟨h1, h2, h3, h4⟩ := hf
    obtain ⟨m1, h5, h6, h7, h8⟩ := feeds_append.mp h4
    subst h1 h2 h3
    have hsep : isTermOp m1.currentToken.type = false ∧
        isExprOp m1.currentToken.type = false := by
      rw [h6]
      rcases hk with ⟨-, hs⟩ | ⟨-, hs⟩ <;> rw [hs] <;> exact ⟨by decide, by decide⟩
    have he := expression_returns (derives_parsesAs hcond) h5 hsep.1 hsep.2
    obtain ⟨-, hb, -⟩ := derives_parsesAs hbody _ q h8 (Or.inr hq)
    have hk2 : p.nextToken.nextToken.currentToken.type = TOKEN_OBVIOUSLY ∧
          sep.type = TOKEN_THEN ∨
        p.nextToken.nextToken.currentToken.type = TOKEN_WHATEVER ∧ sep.type = TOKEN_DO := hk
    have hrest := parseStatementRest_open hk2 he (by rw [h6]) (by rw [h7]; exact hlb)
      (by simpa using hb []) hq
    have hx : p.nextToken.nextToken.currentToken.type ≠ TOKEN_IDENTIFIER := by
      rcases hk with ⟨hs, -⟩ | ⟨hs, -⟩ <;> rw [hs] <;> decide
    have := parseLine_fails ht hc (parseStatement_rest hx hrest)
    rw [complain_complain] at this
    exact this
  | nested tag colon kw sep lb tc tb inner cond body msgs ht hc hk hcond hlb hbody hin ih =>
    intro p q hf hq
    obtain ⟨h1, h2, h3, h4⟩ := hf
    obtain ⟨m1, h5, h6, h7, h8⟩ := feeds_append.mp h4
    obtain ⟨m2, h9, h10⟩ := feeds_append.mp h8
    subst h1 h2 h3
    have hsep : isTermOp m1.currentToken.type = false ∧
        isExprOp m1.currentToken.type = false := by
      rw [h6]
      rcases hk with ⟨-, hs⟩ | ⟨-, hs⟩ <;> rw [hs] <;> exact ⟨by decide, by decide⟩
    have he := expression_returns (derives_parsesAs hcond) h5 hsep.1 hsep.2
    have hm2 := openLine_head hin h10
    have hinner := ih m2 q h10 hq
    have hq2 : (q.complainAll msgs).currentToken.type = TOKEN_EOF := hq
    have hblock : Returns (fun fuel => parseBlock fuel ([] ++ body) m2)
        ([] ++ body, q.complainAll msgs) :=
      parseBlock_skips hm2 hinner (parseBlock_stop (Or.inr hq2))
    obtain ⟨-, hb, -⟩ := derives_linesThen hbody _ m2 h9 (by rw [hm2]; decide)
      (by rw [hm2]; decide)
    have hb2 := hb [] _ hblock
    have hk2 : p.nextToken.nextToken.currentToken.type = TOKEN_OBVIOUSLY ∧
          sep.type = TOKEN_THEN ∨
        p.nextToken.nextToken.currentToken.type = TOKEN_WHATEVER ∧ sep.type = TOKEN_DO := hk
    have hrest := parseStatementRest_open hk2 he (by rw [h6]) (by rw [h7]; exact hlb)
      (by simpa using hb2) hq2
    have hx : p.nextToken.nextToken.currentToken.type ≠ TOKEN_IDENTIFIER := by
      rcases hk with ⟨hs, -⟩ | ⟨hs, -⟩ <;> rw [hs] <;> decide
    have := parseLine_fails ht hc (parseStatement_rest hx hrest)
    rw [complainAll_complain] at this
    exact this

theorem open_block_parse {ts0 ts1 : List Token} {ls0 : List ASTNode} {msgs : List String}
    (h0 : Derives Nonterminal.lines ts0 ls0) (h1 : OpenLine ts1 msgs)
    {p q : SarcasmParser} (hf : Feeds p (ts0 ++ ts1) q)
    (hq : q.currentToken.type = TOKEN_EOF) :
    Returns (fun fuel => parseProgram fuel p)
      (ls0, q.complainAll (msgs ++ ["scrub: Parse error encountered"])) := by
  obtain ⟨m, hf0, hf1⟩ := feeds_append.mp hf
  have hm := openLine_head h1 hf1
  have hline := openLine_fails h1 m q hf1 hq
  have hloop : Returns (fun fuel => parseProgramLoop fuel ([] ++ ls0) m)
      ([] ++ ls0, (q.complainAll msgs).complain "scrub: Parse error encountered") :=
    parseProgramLoop_fails hm hline
  obtain ⟨-, -, hp⟩ := derives_linesThen h0 p m hf0 (by rw [hm]; decide) (by rw [hm]; decide)
  have := hp [] _ hloop
  have e : (q.complainAll msgs).complain "scrub: Parse error encountered" =
      q.complainAll (msgs ++ ["scrub: Parse error encountered"]) := by
    simp [SarcasmParser.complainAll, SarcasmParser.complain, List.append_assoc]
  rw [e] at this
  simpa [parseProgram] using this

theorem runParsed_any_state (g : Globals) (fuel : ℕ) (ls : List ASTNode)
    (p q : SarcasmParser) :
    (runParsed g fuel (some (ls, p))).outcome = (runParsed g fuel (some (ls, q))).outcome ∧
    (runParsed g fuel (some (ls, p))).program = ls ∧
    ∃ extra, (runParsed g fuel (some (ls, p))).cerr = p.cerr ++ extra := by
  simp only [runParsed]
  split
  · exact ⟨rfl, rfl, [], by simp⟩
  · split
    · exact ⟨rfl, rfl, _, rfl⟩
    · exact ⟨rfl, rfl, [], by simp⟩

theorem new_cerr (source : String) : (SarcasmParser.new source).cerr = [] := rfl

/-- Claim C5, amended.  A block that is not closed makes the parser reject its line and
keep the lines before it.  The source holds well-formed top-level lines (`ts0`, the lines
`ls0`) and then a line whose `obviously` or `whatever` block, holding well-formed lines and
possibly a last line of the same kind, runs up to the end of the input (`ts1`).  Then, with
enough fuel, `parseProgram` returns: it returns exactly the lines `ls0`, after writing to
`std::cerr`, for every open block, the complaint about the missing brace and the complaint
of the line, and at last the line `scrub: Parse error encountered`.  `compileAndRun`
compiles and runs what `parseProgram` returned: its program is `ls0` and its outcome is
that of any source text consisting of the lines before the open block alone.  So nothing
of the line with the open block is executed, and the lines before it still are: the
example prints 1.00 from its first line and nothing from `show 2`. -/
theorem open_block_rejects_its_line_only (g : Globals) (source : String)
    (ts0 ts1 : List Token) (ls0 : List ASTNode) (msgs : List String) (q : SarcasmParser)
    (h0 : Derives Nonterminal.lines ts0 ls0) (h1 : OpenLine ts1 msgs)
    (hf : Feeds (SarcasmParser.new source) (ts0 ++ ts1) q)
    (hq : q.currentToken.type = TOKEN_EOF) :
    (∃ N, ∀ fuel, N ≤ fuel →
      (parseProgram fuel (SarcasmParser.new source)).map (fun r => (r.1, r.2.cerr)) =
        some (ls0, msgs ++ ["scrub: Parse error encountered"]) ∧
      (compileAndRun g fuel source).program = ls0 ∧
      (∃ extra, (compileAndRun g fuel source).cerr =
        (msgs ++ ["scrub: Parse error encountered"]) ++ extra)) ∧
    (∀ (source0 : String) (q0 : SarcasmParser), Feeds (SarcasmParser.new source0) ts0 q0 →
      q0.currentToken.type = TOKEN_EOF →
      ∃ N, ∀ fuel, N ≤ fuel →
        (compileAndRun g fuel source0).program = ls0 ∧
        (compileAndRun g fuel source).outcome = (compileAndRun g fuel source0).outcome) ∧
    (compileAndRun Globals.initial 100
        "idiot: show 1\nmoron: obviously 1 then \x7b fool: show 2").program =
      [SarcasmLineAST "idiot" (PrintAST (NumberExprAST 1) "show")] ∧
    (compileAndRun Globals.initial 100
        "idiot: show 1\nmoron: obviously 1 then \x7b fool: show 2").cerr =
      ["bonehead: Expected \x27\x7d\x27 to end obviously block",
       "noob: Failed to parse statement after \x27moron:\x27",
       "scrub: Parse error encountered"] ∧
    (compileAndRun Globals.initial 100
        "idiot: show 1\nmoron: obviously 1 then \x7b fool: show 2").outcome.printed =
      [some "Fine, here\x27s your precious number: 1.00\n"] := by
  obtain ⟨N, hN⟩ := open_block_parse h0 h1 hf hq
  have hc : (q.complainAll (msgs ++ ["scrub: Parse error encountered"])).cerr =
      msgs ++ ["scrub: Parse error encountered"] := by
    have := feeds_cerr hf
    rw [new_cerr] at this
    simp [SarcasmParser.complainAll, this]
  refine ⟨⟨N, fun fuel hfu => ?_⟩, fun source0 q0 hf0 hq0 => ?_, by decide!, by decide!,
    by decide!⟩
  · have hp := hN fuel hfu
    simp only at hp
    obtain ⟨-, h2, extra, h3⟩ := runParsed_any_state g fuel ls0
      (q.complainAll (msgs ++ ["scrub: Parse error encountered"])) q
    refine ⟨by rw [hp]; simp [hc], ?_, extra, ?_⟩
    · rw [compileAndRun, hp, h2]
    · rw [compileAndRun, hp, h3, hc]
  · obtain ⟨N0, hN0⟩ := parseProgram_of_derives h0 hf0 hq0
    refine ⟨max N N0, fun fuel hfu => ?_⟩
    have hp := hN fuel (le_trans (le_max_left _ _) hfu)
    have hp0 := hN0 fuel (le_trans (le_max_right _ _) hfu)
    simp only at hp hp0
    obtain ⟨h1, h2, -⟩ := runParsed_any_state g fuel ls0
      (q.complainAll (msgs ++ ["scrub: Parse error encountered"])) q0
    rw [compileAndRun, compileAndRun, hp, hp0]
    exact ⟨(runParsed_any_state g fuel ls0 q0 q0).2.1, h1⟩

theorem open_block_rejects_its_line_only_witness :
    ∃ N, ∀ fuel, N ≤ fuel →
      (parseProgram fuel (SarcasmParser.new
          "idiot: show 1\nmoron: whatever 1 do \x7b fool: show 2")).map
        (fun r => (r.1, r.2.cerr)) =
      some ([SarcasmLineAST "idiot" (PrintAST (NumberExprAST 1) "show")],
        [braceComplaint TOKEN_WHATEVER, statementComplaint "moron"] ++
          ["scrub: Parse error encountered"]) :=
  (open_block_rejects_its_line_only Globals.initial
    "idiot: show 1\nmoron: whatever 1 do \x7b fool: show 2"
    [⟨TOKEN_INSULT, "idiot", 0⟩, ⟨TOKEN_COLON, ":", 0⟩, ⟨TOKEN_SHOW, "show", 0⟩,
      ⟨TOKEN_NUMBER, "1", 1⟩]
    [⟨TOKEN_INSULT, "moron", 0⟩, ⟨TOKEN_COLON, ":", 0⟩, ⟨TOKEN_WHATEVER, "whatever", 0⟩,
      ⟨TOKEN_NUMBER, "1", 1⟩, ⟨TOKEN_DO, "do", 0⟩, ⟨TOKEN_LBRACE, "\x7b", 0⟩,
      ⟨TOKEN_INSULT, "fool", 0⟩, ⟨TOKEN_COLON, ":", 0⟩, ⟨TOKEN_SHOW, "show", 0⟩,
      ⟨TOKEN_NUMBER, "2", 2⟩]
    [SarcasmLineAST "idiot" (PrintAST (NumberExprAST 1) "show")]
    [braceComplaint TOKEN_WHATEVER, statementComplaint "moron"]
    (SarcasmParser.nextToken^[14]
      (SarcasmParser.new "idiot: show 1\nmoron: whatever 1 do \x7b fool: show 2"))
    (Derives.linesCons _ [] _ _
      (Derives.line ⟨TOKEN_INSULT, "idiot", 0⟩ ⟨TOKEN_COLON, ":", 0⟩ _ _ rfl rfl
        (Derives.print ⟨TOKEN_SHOW, "show", 0⟩ _ _ rfl
          (Derives.exprTerm _ _ (Derives.termFactor _ _
            (Derives.number ⟨TOKEN_NUMBER, "1", 1⟩ rfl)))))
      Derives.linesNil)
    (OpenLine.last ⟨TOKEN_INSULT, "moron", 0⟩ ⟨TOKEN_COLON, ":", 0⟩
      ⟨TOKEN_WHATEVER, "whatever", 0⟩ ⟨TOKEN_DO, "do", 0⟩ ⟨TOKEN_LBRACE, "\x7b", 0⟩
      [⟨TOKEN_NUMBER, "1", 1⟩]
      [⟨TOKEN_INSULT, "fool", 0⟩, ⟨TOKEN_COLON, ":", 0⟩, ⟨TOKEN_SHOW, "show", 0⟩,
        ⟨TOKEN_NUMBER, "2", 2⟩]
      (NumberExprAST 1) [SarcasmLineAST "fool" (PrintAST (NumberExprAST 2) "show")]
      rfl rfl (Or.inr ⟨rfl, rfl⟩)
      (Derives.exprTerm _ _ (Derives.termFactor _ _
        (Derives.number ⟨TOKEN_NUMBER, "1", 1⟩ rfl)))
      rfl
      (Derives.linesCons _ [] _ _
        (Derives.line ⟨TOKEN_INSULT, "fool", 0⟩ ⟨TOKEN_COLON, ":", 0⟩ _ _ rfl rfl
          (Derives.print ⟨TOKEN_SHOW, "show", 0⟩ _ _ rfl
            (Derives.exprTerm _ _ (Derives.termFactor _ _
              (Derives.number ⟨TOKEN_NUMBER, "2", 2⟩ rfl)))))
        Derives.linesNil))
    (by decide!) (by decide!)).1.imp (fun _ h fuel hf => (h fuel hf).1)

theorem nextToken_unrecognised (lx : SarcasmLexer) (ws rest : List Char) (c : Char)
    (hin : lx.rest = ws ++ c :: rest) (hws : ∀ w ∈ ws, isspace w = true)
    (hc : unrecognised c = true) :
    lx.nextToken = (⟨TOKEN_EOF, "", 0⟩, { lx with pos := lx.pos + ws.length + 1 }) := by
  simp only [unrecognised, Bool.and_eq_true, Bool.not_eq_true', decide_eq_false_iff_not,
    List.mem_cons, List.mem_singleton, not_or, List.not_mem_nil, not_false_eq_true,
    and_true] at hc
  obtain ⟨⟨⟨⟨hsp, hd⟩, ha⟩, hu⟩, hp⟩ := hc
  have e := nextToken_punctuation lx ws rest c hin hws hsp hd (by simp [ha, hu])
  rw [e]
  simp [SarcasmLexer.punctuation, hp]

theorem parser_nextToken_unrecognised (m : SarcasmParser) (ws rest : List Char) (c : Char)
    (hin : m.lexer.rest = ws ++ c :: rest) (hws : ∀ w ∈ ws, isspace w = true)
    (hc : unrecognised c = true) :
    m.nextToken.currentToken = ⟨TOKEN_EOF, "", 0⟩ ∧ m.nextToken.lexer.rest = rest := by
  have e := nextToken_unrecognised m.lexer ws rest c hin hws hc
  refine ⟨by simp [SarcasmParser.nextToken, e], ?_⟩
  have hr := rest_advance m.lexer (ws ++ [c]) rest (m.lexer.pos + ws.length + 1)
    (by simpa using hin) (by simp [Nat.add_assoc])
  simpa [SarcasmParser.nextToken, e] using hr

/-- Claim C7, amended.  The lexer returns a character it does not recognise, possibly after
whitespace, as the end-of-input token.  Where a top-level line would start (after
well-formed top-level lines `ts0`), `parseProgram` takes it for the end of the program: it
returns, with enough fuel, the lines parsed so far, writes nothing to `std::cerr`, and
leaves the input after the character unread.  Where a line of a block would start (after
`ts0` and the tokens `ts1` of a line whose block is open), the end-of-input token leaves
the block without its closing brace, and `parseProgram` does signal a parse error: it
returns the lines before the line that holds the block after writing the complaints about
the missing brace and the failed line and `scrub: Parse error encountered`.  For `@`, `;`
and a leading `.` at top level the lines after the character are not parsed, no parse
error is reported and the line before it is run; for `@` inside a block the parse error is
reported and the line before the block is run. -/
theorem unrecognised_char_at_line_start :
    (∀ (lx : SarcasmLexer) (ws rest : List Char) (c : Char),
      lx.rest = ws ++ c :: rest → (∀ w ∈ ws, isspace w = true) → unrecognised c = true →
      lx.nextToken = (⟨TOKEN_EOF, "", 0⟩, { lx with pos := lx.pos + ws.length + 1 })) ∧
    (∀ (p m : SarcasmParser) (ts0 : List Token) (ls0 : List ASTNode) (ws rest : List Char)
        (c : Char),
      Derives Nonterminal.lines ts0 ls0 → Feeds p ts0 m.nextToken →
      m.lexer.rest = ws ++ c :: rest → (∀ w ∈ ws, isspace w = true) →
      unrecognised c = true →
      Returns (fun fuel => parseProgram fuel p) (ls0, m.nextToken) ∧
        m.nextToken.cerr = p.cerr ∧ m.nextToken.lexer.rest = rest) ∧
    (∀ (p m : SarcasmParser) (ts0 ts1 : List Token) (ls0 : List ASTNode)
        (msgs : List String) (ws rest : List Char) (c : Char),
      Derives Nonterminal.lines ts0 ls0 → OpenLine ts1 msgs →
      Feeds p (ts0 ++ ts1) m.nextToken →
      m.lexer.rest = ws ++ c :: rest → (∀ w ∈ ws, isspace w = true) →
      unrecognised c = true →
      Returns (fun fuel => parseProgram fuel p)
          (ls0, m.nextToken.complainAll (msgs ++ ["scrub: Parse error encountered"])) ∧
        (m.nextToken.complainAll (msgs ++ ["scrub: Parse error encountered"])).cerr =
          p.cerr ++ (msgs ++ ["scrub: Parse error encountered"])) ∧
    (∀ src ∈ ["idiot: show 1\n@\nmoron: show 2", "idiot: show 1\n;\nmoron: show 2",
        "idiot: show 1\n.5\nmoron: show 2"],
      (parseProgram 100 (SarcasmParser.new src)).map (fun r => (r.1, r.2.cerr)) =
          some ([SarcasmLineAST "idiot" (PrintAST (NumberExprAST 1) "show")], []) ∧
        (compileAndRun Globals.initial 100 src).outcome.printed =
          [some "Fine, here\x27s your precious number: 1.00\n"]) ∧
    (parseProgram 100 (SarcasmParser.new
        "idiot: show 1\nmoron: obviously 1 then \x7b @ fool: show 2 \x7d")).map
        (fun r => (r.1, r.2.cerr)) =
      some ([SarcasmLineAST "idiot" (PrintAST (NumberExprAST 1) "show")],
        ["bonehead: Expected \x27\x7d\x27 to end obviously block",
         "noob: Failed to parse statement after \x27moron:\x27",
         "scrub: Parse error encountered"]) ∧
    (compileAndRun Globals.initial 100
        "idiot: show 1\nmoron: obviously 1 then \x7b @ fool: show 2 \x7d").outcome.printed =
      [some "Fine, here\x27s your precious number: 1.00\n"] := by
  refine ⟨nextToken_unrecognised, ?_, ?_, by decide!, by decide!, by decide!⟩
  · intro p m ts0 ls0 ws rest c h0 hf hin hws hc
    obtain ⟨e1, e2⟩ := parser_nextToken_unrecognised m ws rest c hin hws hc
    exact ⟨parseProgram_of_derives h0 hf (by rw [e1]), feeds_cerr hf, e2⟩
  · intro p m ts0 ts1 ls0 msgs ws rest c h0 h1 hf hin hws hc
    obtain ⟨e1, -⟩ := parser_nextToken_unrecognised m ws rest c hin hws hc
    refine ⟨open_block_parse h0 h1 hf (by rw [e1]), ?_⟩
    have := feeds_cerr hf
    simp [SarcasmParser.complainAll, this]

theorem unrecognised_char_at_line_start_witness :
    Returns (fun fuel => parseProgram fuel
        (SarcasmParser.new "idiot: show 1\nmoron: whatever 1 do \x7b fool: show 2 @ x"))
      ([SarcasmLineAST "idiot" (PrintAST (NumberExprAST 1) "show")],
        (SarcasmParser.nextToken^[14] (SarcasmParser.new
          "idiot: show 1\nmoron: whatever 1 do \x7b fool: show 2 @ x")).complainAll
          ([braceComplaint TOKEN_WHATEVER, statementComplaint "moron"] ++
            ["scrub: Parse error encountered"])) :=
  (unrecognised_char_at_line_start.2.2.1
    (SarcasmParser.new "idiot: show 1\nmoron: whatever 1 do \x7b fool: show 2 @ x")
    (SarcasmParser.nextToken^[13]
      (SarcasmParser.new "idiot: show 1\nmoron: whatever 1 do \x7b fool: show 2 @ x"))
    [⟨TOKEN_INSULT, "idiot", 0⟩, ⟨TOKEN_COLON, ":", 0⟩, ⟨TOKEN_SHOW, "show", 0⟩,
      ⟨TOKEN_NUMBER, "1", 1⟩]
    [⟨TOKEN_INSULT, "moron", 0⟩, ⟨TOKEN_COLON, ":", 0⟩, ⟨TOKEN_WHATEVER, "whatever", 0⟩,
      ⟨TOKEN_NUMBER, "1", 1⟩, ⟨TOKEN_DO, "do", 0⟩, ⟨TOKEN_LBRACE, "\x7b", 0⟩,
      ⟨TOKEN_INSULT, "fool", 0⟩, ⟨TOKEN_COLON, ":", 0⟩, ⟨TOKEN_SHOW, "show", 0⟩,
      ⟨TOKEN_NUMBER, "2", 2⟩]
    [SarcasmLineAST "idiot" (PrintAST (NumberExprAST 1) "show")]
    [braceComplaint TOKEN_WHATEVER, statementComplaint "moron"]
    [' '] [' ', 'x'] '@'
    (Derives.linesCons _ [] _ _
      (Derives.line ⟨TOKEN_INSULT, "idiot", 0⟩ ⟨TOKEN_COLON, ":", 0⟩ _ _ rfl rfl
        (Derives.print ⟨TOKEN_SHOW, "show", 0⟩ _ _ rfl
          (Derives.exprTerm _ _ (Derives.termFactor _ _
            (Derives.number ⟨TOKEN_NUMBER, "1", 1⟩ rfl)))))
      Derives.linesNil)
    (OpenLine.last ⟨TOKEN_INSULT, "moron", 0⟩ ⟨TOKEN_COLON, ":", 0⟩
      ⟨TOKEN_WHATEVER, "whatever", 0⟩ ⟨TOKEN_DO, "do", 0⟩ ⟨TOKEN_LBRACE, "\x7b", 0⟩
      [⟨TOKEN_NUMBER, "1", 1⟩]
      [⟨TOKEN_INSULT, "fool", 0⟩, ⟨TOKEN_COLON, ":", 0⟩, ⟨TOKEN_SHOW, "show", 0⟩,
        ⟨TOKEN_NUMBER, "2", 2⟩]
      (NumberExprAST 1) [SarcasmLineAST "fool" (PrintAST (NumberExprAST 2) "show")]
      rfl rfl (Or.inr ⟨rfl, rfl⟩)
      (Derives.exprTerm _ _ (Derives.termFactor _ _
        (Derives.number ⟨TOKEN_NUMBER, "1", 1⟩ rfl)))
      rfl
      (Derives.linesCons _ [] _ _
        (Derives.line ⟨TOKEN_INSULT, "fool", 0⟩ ⟨TOKEN_COLON, ":", 0⟩ _ _ rfl rfl
          (Derives.print ⟨TOKEN_SHOW, "show", 0⟩ _ _ rfl
            (Derives.exprTerm _ _ (Derives.termFactor _ _
              (Derives.number ⟨TOKEN_NUMBER, "2", 2⟩ rfl)))))
        Derives.linesNil))
    (by decide!) (by decide!) (by decide) (by decide)).1

/-! ### The calls made by `main` -/

theorem parserOpsAll_append (a b : List ASTNode) :
    parserOpsAll (a ++ b) = (parserOpsAll a && parserOpsAll b) := by
  induction a with
  | nil => simp [parserOpsAll]
  | cons x xs ih => simp [parserOpsAll, ih, Bool.and_assoc]

theorem termOp_mem (t : TokenType) :
    termOp t = '+' ∨ termOp t = '-' ∨ termOp t = '*' ∨ termOp t = '/' ∨ termOp t = '<' ∨
      termOp t = '>' := by
  unfold termOp
  split_ifs <;> decide

theorem exprOp_mem (t : TokenType) :
    exprOp t = '+' ∨ exprOp t = '-' ∨ exprOp t = '*' ∨ exprOp t = '/' ∨ exprOp t = '<' ∨
      exprOp t = '>' := by
  unfold exprOp
  split_ifs <;> decide

theorem parse_expression_ops : ∀ (fuel : ℕ),
    (∀ p t q, parseFactor fuel p = some (t, q) → parserOps t = true) ∧
    (∀ left p t q, parseTermLoop fuel left p = some (t, q) → parserOps left = true →
      parserOps t = true) ∧
    (∀ p t q, parseTerm fuel p = some (t, q) → parserOps t = true) ∧
    (∀ left p t q, parseExpressionLoop fuel left p = some (t, q) → parserOps left = true →
      parserOps t = true) ∧
    (∀ p t q, parseExpression fuel p = some (t, q) → parserOps t = true) := by
  intro fuel
  induction fuel with
  | zero => simp [parseFactor, parseTermLoop, parseTerm, parseExpressionLoop, parseExpression]
  | succ fuel ih =>
    obtain ⟨ihF, ihTL, ihT, ihEL, ihE⟩ := ih
    refine ⟨?_, ?_, ?_, ?_, ?_⟩
    · intro p t q h
      simp only [parseFactor] at h
      split_ifs at h with h1 h2 h3
      · cases h; rfl
      · cases h; rfl
      · rcases he : parseExpression fuel p.nextToken with _ | ⟨e, p1⟩
        · rw [he] at h; simp at h
        · rw [he] at h
          simp only at h
          split_ifs at h
          · cases h; rfl
          · cases h; exact ihE _ _ _ he
      · cases h; rfl
    · intro left p t q h hl
      simp only [parseTermLoop] at h
      split_ifs at h
      · rcases hf : parseFactor fuel p.nextToken with _ | ⟨r, p1⟩
        · rw [hf] at h; simp at h
        · rw [hf] at h
          exact ihTL _ _ _ _ h (by
            simp [parserOps, hl, ihF _ _ _ hf, termOp_mem])
      · cases h; exact hl
    · intro p t q h
      simp only [parseTerm] at h
      rcases hf : parseFactor fuel p with _ | ⟨l, p1⟩
      · rw [hf] at h; simp at h
      · rw [hf] at h
        exact ihTL _ _ _ _ h (ihF _ _ _ hf)
    · intro left p t q h hl
      simp only [parseExpressionLoop] at h
      split_ifs at h
      · rcases hf : parseTerm fuel p.nextToken with _ | ⟨r, p1⟩
        · rw [hf] at h; simp at h
        · rw [hf] at h
          exact ihEL _ _ _ _ h (by
            simp [parserOps, hl, ihT _ _ _ hf, exprOp_mem])
      · cases h; exact hl
    · intro p t q h
      simp only [parseExpression] at h
      rcases hf : parseTerm fuel p with _ | ⟨l, p1⟩
      · rw [hf] at h; simp at h
      · rw [hf] at h
        exact ihEL _ _ _ _ h (ihT _ _ _ hf)

theorem parse_statement_ops : ∀ (fuel : ℕ),
    (∀ p t q, parseStatement fuel p = some (t, q) → parserOps t = true) ∧
    (∀ p t q, parseStatementRest fuel p = some (t, q) → parserOps t = true) ∧
    (∀ acc p ts q, parseBlock fuel acc p = some (ts, q) → parserOpsAll acc = true →
      parserOpsAll ts = true) ∧
    (∀ p t q, parseLine fuel p = some (t, q) → parserOps t = true) := by
  intro fuel
  induction fuel with
  | zero => simp [parseStatement, parseStatementRest, parseBlock, parseLine]
  | succ fuel ih =>
    obtain ⟨ihS, ihR, ihB, ihL⟩ := ih
    have hE := (parse_expression_ops fuel).2.2.2.2
    refine ⟨?_, ?_, ?_, ?_⟩
    · intro p t q h
      simp only [parseStatement] at h
      split_ifs at h
      · rcases he : parseExpression fuel p.nextToken.nextToken with _ | ⟨e, p1⟩
        · rw [he] at h; simp at h
        · rw [he] at h
          cases h
          simpa [parserOps] using hE _ _ _ he
      · exact ihR _ _ _ h
      · exact ihR _ _ _ h
    · intro p t q h
      simp only [parseStatementRest] at h
      split_ifs at h
      · rcases he : parseExpression fuel p.nextToken with _ | ⟨e, p1⟩
        · rw [he] at h; simp at h
        · rw [he] at h
          cases h
          simpa [parserOps] using hE _ _ _ he
      · rcases he : parseExpression fuel p.nextToken with _ | ⟨e, p1⟩
        · rw [he] at h; simp at h
        · rw [he] at h
          simp only at h
          split_ifs at h
          · cases h; rfl
          · cases h; rfl
          · rcases hb : parseBlock fuel [] p1.nextToken.nextToken with _ | ⟨b, p2⟩
            · rw [hb] at h; simp at h
            · rw [hb] at h
              simp only at h
              split_ifs at h
              · cases h; rfl
              · cases h
                simp [parserOps, hE _ _ _ he, ihB _ _ _ _ hb rfl]
      · rcases he : parseExpression fuel p.nextToken with _ | ⟨e, p1⟩
        · rw [he] at h; simp at h
        · rw [he] at h
          simp only at h
          split_ifs at h
          · cases h; rfl
          · cases h; rfl
          · rcases hb : parseBlock fuel [] p1.nextToken.nextToken with _ | ⟨b, p2⟩
            · rw [hb] at h; simp at h
            · rw [hb] at h
              simp only at h
              split_ifs at h
              · cases h; rfl
              · cases h
                simp [parserOps, hE _ _ _ he, ihB _ _ _ _ hb rfl]
      · cases h; rfl
    · intro acc p ts q h hacc
      simp only [parseBlock] at h
      split_ifs at h
      · rcases hl : parseLine fuel p with _ | ⟨l, p1⟩
        · rw [hl] at h; simp at h
        · rw [hl] at h
          simp only at h
          split_ifs at h
          · exact ihB _ _ _ _ h (by
              rw [parserOpsAll_append, hacc]
              simp [parserOpsAll, ihL _ _ _ hl])
          · exact ihB _ _ _ _ h hacc
      · cases h; exact hacc
    · intro p t q h
      simp only [parseLine] at h
      split_ifs at h
      · cases h; rfl
      · cases h; rfl
      · rcases hs : parseStatement fuel p.nextToken.nextToken with _ | ⟨s, p1⟩
        · rw [hs] at h; simp at h
        · rw [hs] at h
          simp only at h
          split_ifs at h
          · cases h; rfl
          · cases h
            simpa [parserOps] using ihS _ _ _ hs

theorem parseProgramLoop_ops : ∀ (fuel : ℕ) (acc : List ASTNode) (p : SarcasmParser)
    (ts : List ASTNode) (q : SarcasmParser),
    parseProgramLoop fuel acc p = some (ts, q) → parserOpsAll acc = true →
    parserOpsAll ts = true := by
  intro fuel
  induction fuel with
  | zero => simp [parseProgramLoop]
  | succ fuel ih =>
    intro acc p ts q h hacc
    simp only [parseProgramLoop] at h
    split_ifs at h
    · rcases hl : parseLine fuel p with _ | ⟨l, p1⟩
      · rw [hl] at h; simp at h
      · rw [hl] at h
        simp only at h
        split_ifs at h
        · exact ih _ _ _ _ h (by
            rw [parserOpsAll_append, hacc]
            simp [parserOpsAll, (parse_statement_ops fuel).2.2.2 _ _ _ hl])
        · cases h; exact hacc
    · cases h; exact hacc

theorem parseProgram_ops (fuel : ℕ) (p : SarcasmParser) (ts : List ASTNode)
    (q : SarcasmParser) (h : parseProgram fuel p = some (ts, q)) : parserOpsAll ts = true :=
  parseProgramLoop_ops fuel [] p ts q h rfl

theorem codegen_never_null : ∀ (a : ASTNode) (s s1 : CodegenState) (r : Option Value),
    parserOps a = true → codegen a s = some (r, s1) → r ≠ none
  | .nullptr, s, s1, r, _, h => by simp [codegen] at h
  | .NumberExprAST v, s, s1, r, _, h => by
    simp only [codegen, Option.some.injEq, Prod.mk.injEq] at h
    rw [← h.1]; simp
  | .VariableExprAST n, s, s1, r, _, h => by
    simp only [codegen] at h
    split at h <;>
    · simp only [Option.some.injEq, Prod.mk.injEq] at h
      rw [← h.1]; simp
  | .BinaryExprAST op lhs rhs, s, s1, r, ho, h => by
    simp only [parserOps, Bool.and_eq_true, decide_eq_true_eq] at ho
    obtain ⟨⟨hop, hl⟩, hr⟩ := ho
    simp only [codegen] at h
    rcases h1 : codegen lhs s with _ | ⟨l, s2⟩
    · rw [h1] at h; simp at h
    · rw [h1] at h
      simp only at h
      rcases h2 : codegen rhs s2 with _ | ⟨rv, s3⟩
      · rw [h2] at h; simp at h
      · rw [h2] at h
        simp only at h
        have hl2 := codegen_never_null lhs s s2 l hl h1
        have hr2 := codegen_never_null rhs s2 s3 rv hr h2
        obtain ⟨lv, rfl⟩ := Option.ne_none_iff_exists'.mp hl2
        obtain ⟨rv2, rfl⟩ := Option.ne_none_iff_exists'.mp hr2
        simp only at h
        simp only [List.mem_cons, List.mem_singleton, List.not_mem_nil, or_false] at hop
        rcases hop with rfl | rfl | rfl | rfl | rfl | rfl <;>
        · simp only [Char.reduceEq, if_true, if_false, Option.some.injEq, Prod.mk.injEq] at h
          rw [← h.1]; simp
  | .AssignmentAST v e, s, s1, r, ho, h => by
    simp only [parserOps] at ho
    simp only [codegen] at h
    rcases h1 : codegen e s with _ | ⟨x, s2⟩
    · rw [h1] at h; simp at h
    · rw [h1] at h
      obtain ⟨xv, rfl⟩ := Option.ne_none_iff_exists'.mp (codegen_never_null e s s2 x ho h1)
      simp only at h
      split at h <;>
      · simp only [Option.some.injEq, Prod.mk.injEq] at h
        rw [← h.1]; simp
  | .PrintAST e w, s, s1, r, ho, h => by
    simp only [parserOps] at ho
    simp only [codegen] at h
    rcases h1 : codegen e s with _ | ⟨x, s2⟩
    · rw [h1] at h; simp at h
    · rw [h1] at h
      obtain ⟨xv, rfl⟩ := Option.ne_none_iff_exists'.mp (codegen_never_null e s s2 x ho h1)
      simp only [Option.some.injEq, Prod.mk.injEq] at h
      rw [← h.1]; simp
  | .IfAST c t, s, s1, r, ho, h => by
    simp only [parserOps, Bool.and_eq_true] at ho
    simp only [codegen] at h
    rcases h1 : codegen c s with _ | ⟨x, s2⟩
    · rw [h1] at h; simp at h
    · rw [h1] at h
      obtain ⟨xv, rfl⟩ := Option.ne_none_iff_exists'.mp (codegen_never_null c s s2 x ho.1 h1)
      simp only at h
      split at h
      · simp at h
      · simp only [Option.some.injEq, Prod.mk.injEq] at h
        rw [← h.1]; simp
  | .WhileAST c t, s, s1, r, ho, h => by
    simp only [parserOps, Bool.and_eq_true] at ho
    simp only [codegen] at h
    split at h
    · simp at h
    · rename_i s2 h1
      exact absurd rfl (codegen_never_null c _ s2 none ho.1 h1)
    · split at h
      · simp at h
      · simp only [Option.some.injEq, Prod.mk.injEq] at h
        rw [← h.1]; simp
  | .SarcasmLineAST i st, s, s1, r, ho, h => by
    simp only [parserOps] at ho
    simp only [codegen] at h
    rcases h1 : codegen st s with _ | ⟨x, s2⟩
    · rw [h1] at h; simp at h
    · rw [h1] at h
      simp only [Option.some.injEq, Prod.mk.injEq] at h
      rw [← h.1]
      exact codegen_never_null st s s2 x ho h1

/-- Claim C19, evaluated where the code departs from it.  In the source
`idiot: obviously 1 then { moron: show }` the statement inside the body has no expression;
the parser builds its tree without a diagnostic.  Code generation of that statement cannot
yield a value, and the claim requires the If, its line and `compileAndRun` to yield no
value and to abort the compile.  The code does not check a child before it calls the
`codegen` of the child: `PrintAST::codegen` makes the call through the empty pointer, and
the run of `compileAndRun` ends there, in undefined behaviour, with nothing written to
`std::cerr`.  The same happens for a missing operand (`idiot: show 2 +`) and for a missing
condition (`idiot: obviously then { moron: show 1 }`).  The checks the code does have,
`if (!val) return nullptr` after the call, never fire for a tree the parser has built:
every such tree carries only the six operators of the parser, and code generation of such
a tree, when it returns, never returns the empty value. -/
theorem missing_child_crashes_code_generation :
    (parseProgram 100 (SarcasmParser.new
        "idiot: obviously 1 then \x7b moron: show \x7d")).map (fun r => (r.1, r.2.cerr)) =
      some ([SarcasmLineAST "idiot"
        (IfAST (NumberExprAST 1) [SarcasmLineAST "moron" (PrintAST nullptr "show")])], []) ∧
    codegen (SarcasmLineAST "moron" (PrintAST nullptr "show"))
      (thenEntry (Value.constFP 1) (CodegenState.entry Globals.initial)) = none ∧
    generateMain Globals.initial
      [SarcasmLineAST "idiot"
        (IfAST (NumberExprAST 1) [SarcasmLineAST "moron" (PrintAST nullptr "show")])] = none ∧
    (compileAndRun Globals.initial 100
        "idiot: obviously 1 then \x7b moron: show \x7d").outcome = Outcome.crashed ∧
    (compileAndRun Globals.initial 100
        "idiot: obviously 1 then \x7b moron: show \x7d").cerr = [] ∧
    (compileAndRun Globals.initial 100 "idiot: show 2 +").program =
      [SarcasmLineAST "idiot"
        (PrintAST (BinaryExprAST '+' (NumberExprAST 2) nullptr) "show")] ∧
    (compileAndRun Globals.initial 100 "idiot: show 2 +").outcome = Outcome.crashed ∧
    (compileAndRun Globals.initial 100 "idiot: show 2 +").cerr = [] ∧
    (compileAndRun Globals.initial 100
        "idiot: obviously then \x7b moron: show 1 \x7d").program =
      [SarcasmLineAST "idiot"
        (IfAST nullptr [SarcasmLineAST "moron" (PrintAST (NumberExprAST 1) "show")])] ∧
    (compileAndRun Globals.initial 100
        "idiot: obviously then \x7b moron: show 1 \x7d").outcome = Outcome.crashed ∧
    (compileAndRun Globals.initial 100
        "idiot: obviously then \x7b moron: show 1 \x7d").cerr = [] ∧
    (∀ (fuel : ℕ) (source : String) (program : List ASTNode) (parser : SarcasmParser),
      parseProgram fuel (SarcasmParser.new source) = some (program, parser) →
      parserOpsAll program = true) ∧
    (∀ (a : ASTNode) (s s1 : CodegenState) (r : Option Value),
      parserOps a = true → codegen a s = some (r, s1) → r ≠ none) := by
  refine ⟨by decide!, by decide!, by decide!, by decide!, by decide!, by decide!, by decide!,
    by decide!, by decide!, by decide!, by decide!, ?_, codegen_never_null⟩
  intro fuel source program parser h
  exact parseProgram_ops fuel _ program parser h

end SarcasmLang
